import Mathlib

/-!
# Netcap: connection tracker and POP3 stream reader

A shallow embedding of `decoder/packet/connection.go` (the bidirectional
connection tracker: `connectionID`, `handlePacket`, `writeConn` and the final
handler of `connectionDecoder`) and of `encoder/pop3Reader.go` (the line
readers `getCommand`, `validPop3ServerCommand`, `readRequest` and
`readResponse`, the state machine `parseMails`, the mail parser
`splitMailHeaderAndBody` and `parseMail`, and `Run` and `Cleanup`), followed
by the properties proved about them.

Conventions of the embedding:

* Go machine integers are Lean integers; every conversion or addition that can
  leave the range of its Go type is reduced explicitly (`wrapInt32`,
  `wrapInt64`).
* A capture timestamp (`time.Time`) is represented by its `UnixNano()` value,
  an `int64` count of nanoseconds; Go leaves `UnixNano` undefined outside that
  range.
* The table `conns.Items` (a Go map) is an association list in insertion
  order with at most one entry per key; the mutexes only make each call
  atomic, so a call is a function from table to table.
* Text read from a TCP stream is a list of bytes (`GoString`); text produced
  by gopacket's `String()` methods and the map keys are Lean strings.
* A call that ends in a run-time panic (an index or a slice bound out of
  range) has the result `none`.
-/

namespace Netcap

/-! ## Machine integers and time -/

/-- Conversion to Go's `int32`: two's-complement reduction modulo `2^32`. -/
def wrapInt32 (x : Int) : Int :=
  (x + 2147483648) % 4294967296 - 2147483648

/-- Conversion to Go's `int64`: two's-complement reduction modulo `2^64`. -/
def wrapInt64 (x : Int) : Int :=
  (x + 9223372036854775808) % 18446744073709551616 - 9223372036854775808

/-- Largest `time.Duration`. -/
def maxDuration : Int := 9223372036854775807

/-- Smallest `time.Duration`. -/
def minDuration : Int := -9223372036854775808

/-- The value of `time.Unix(0, t).Sub(time.Unix(0, u)).Nanoseconds()`:
`Time.Sub` returns the difference when a `Duration` can hold it and the
minimum or maximum duration otherwise. -/
def timeSubNanoseconds (t u : Int) : Int :=
  if minDuration ≤ t - u ∧ t - u ≤ maxDuration then t - u
  else if t < u then minDuration
  else maxDuration

/-! ## MD5 (`calcMd5`) -/

/-- Per-round left-rotation amounts of MD5. -/
def md5Shifts : List Nat :=
  [7, 12, 17, 22, 7, 12, 17, 22, 7, 12, 17, 22, 7, 12, 17, 22,
   5, 9, 14, 20, 5, 9, 14, 20, 5, 9, 14, 20, 5, 9, 14, 20,
   4, 11, 16, 23, 4, 11, 16, 23, 4, 11, 16, 23, 4, 11, 16, 23,
   6, 10, 15, 21, 6, 10, 15, 21, 6, 10, 15, 21, 6, 10, 15, 21]

/-- Per-round additive constants of MD5, `floor (2^32 * |sin (i + 1)|)`. -/
def md5K : List Nat :=
  [3614090360, 3905402710, 606105819, 3250441966, 4118548399, 1200080426, 2821735955, 4249261313,
   1770035416, 2336552879, 4294925233, 2304563134, 1804603682, 4254626195, 2792965006, 1236535329,
   4129170786, 3225465664, 643717713, 3921069994, 3593408605, 38016083, 3634488961, 3889429448,
   568446438, 3275163606, 4107603335, 1163531501, 2850285829, 4243563512, 1735328473, 2368359562,
   4294588738, 2272392833, 1839030562, 4259657740, 2763975236, 1272893353, 4139469664, 3200236656,
   681279174, 3936430074, 3572445317, 76029189, 3654602809, 3873151461, 530742520, 3299628645,
   4096336452, 1126891415, 2878612391, 4237533241, 1700485571, 2399980690, 4293915773, 2240044497,
   1873313359, 4264355552, 2734768916, 1309151649, 4149444226, 3174756917, 718787259, 3951481745]

/-- Reduction to a 32-bit word. -/
def w32 (x : Nat) : Nat := x % 4294967296

/-- Left rotation of a 32-bit word. -/
def rotl32 (x n : Nat) : Nat :=
  w32 (x <<< n) ||| (w32 x >>> (32 - n))

/-- Little-endian bytes of a number, `n` of them. -/
def leBytes : Nat → Nat → List Nat
  | 0, _ => []
  | n + 1, x => x % 256 :: leBytes n (x / 256)

/-- The number a list of little-endian bytes stands for. -/
def leWord : List Nat → Nat
  | [] => 0
  | b :: bs => b + 256 * leWord bs

/-- MD5 padding: a `0x80` byte, zero bytes up to 56 modulo 64, and the length
of the message in bits as eight little-endian bytes. -/
def md5Pad (msg : List Nat) : List Nat :=
  let n := msg.length
  msg ++ [128] ++ List.replicate ((119 - n % 64) % 64) 0 ++ leBytes 8 ((8 * n) % 18446744073709551616)

/-- Splits a list into consecutive pieces of `k` elements; `fuel` bounds the
number of pieces. -/
def chunksOf (k : Nat) : Nat → List Nat → List (List Nat)
  | 0, _ => []
  | fuel + 1, xs => if xs.isEmpty then [] else xs.take k :: chunksOf k fuel (xs.drop k)

/-- The four-word state of MD5. -/
structure Md5State where
  a : Nat
  b : Nat
  c : Nat
  d : Nat
deriving DecidableEq, Repr

/-- One of the 64 operations of the MD5 compression function on the sixteen
message words `m`. -/
def md5Step (m : List Nat) (s : Md5State) (i : Nat) : Md5State :=
  let nb := s.b ^^^ 4294967295
  let nd := s.d ^^^ 4294967295
  let f :=
    if i < 16 then (s.b &&& s.c) ||| (nb &&& s.d)
    else if i < 32 then (s.d &&& s.b) ||| (nd &&& s.c)
    else if i < 48 then s.b ^^^ s.c ^^^ s.d
    else s.c ^^^ (s.b ||| nd)
  let g :=
    if i < 16 then i
    else if i < 32 then (5 * i + 1) % 16
    else if i < 48 then (3 * i + 5) % 16
    else (7 * i) % 16
  let f2 := w32 (f + s.a + md5K.getD i 0 + m.getD g 0)
  { a := s.d, d := s.c, c := s.b, b := w32 (s.b + rotl32 f2 (md5Shifts.getD i 0)) }

/-- The MD5 compression function on one 64-byte block. -/
def md5Block (s : Md5State) (block : List Nat) : Md5State :=
  let m := (chunksOf 4 16 block).map leWord
  let r := (List.range 64).foldl (md5Step m) s
  { a := w32 (s.a + r.a), b := w32 (s.b + r.b), c := w32 (s.c + r.c), d := w32 (s.d + r.d) }

/-- The sixteen bytes of the MD5 digest of a byte sequence. -/
def md5Sum (msg : List Nat) : List Nat :=
  let padded := md5Pad msg
  let s := (chunksOf 64 (padded.length / 64) padded).foldl md5Block
    { a := 1732584193, b := 4023233417, c := 2562383102, d := 271733878 }
  leBytes 4 s.a ++ leBytes 4 s.b ++ leBytes 4 s.c ++ leBytes 4 s.d

/-- Two lower-case hexadecimal digits of a byte. -/
def hexByte (b : Nat) : List Char :=
  [Nat.digitChar (b / 16 % 16), Nat.digitChar (b % 16)]

/-- Modelled from the spec: `calcMd5`, the helper of the decoder package that
`handlePacket` calls for the UID, is not among the sources; the spec gives the
UID as the MD5 of the canonical key, here the lower-case hexadecimal MD5
digest of the UTF-8 bytes of the string. -/
def calcMd5 (s : String) : String :=
  String.mk ((md5Sum ((s.data.flatMap String.utf8EncodeChar).map UInt8.toNat)).flatMap hexByte)

/-! ## Packets (the part of `gopacket.Packet` that `handlePacket` reads) -/

/-- A link, network or transport layer of a packet: the name of its layer
type, the two endpoints of its flow as `String()` prints them, and the
`FastHash()` of the flow (a `uint64`). -/
structure Layer where
  LayerType : String
  Src : String
  Dst : String
  FastHash : Nat
deriving DecidableEq, Repr

/-- The application layer of a packet: the name of its layer type and its
payload. -/
structure AppLayer where
  LayerType : String
  Payload : List UInt8
deriving DecidableEq, Repr

/-- A decoded packet: `Metadata().Timestamp` (as `UnixNano()`),
`Metadata().Length` (a Go `int`) and the four optional layers. -/
structure Packet where
  Timestamp : Int
  Length : Int
  LinkLayer : Option Layer
  NetworkLayer : Option Layer
  TransportLayer : Option Layer
  ApplicationLayer : Option AppLayer
deriving DecidableEq, Repr

/-! ## connectionID -/

/-- The three flow hashes that identify a bidirectional connection. -/
structure connectionID where
  LinkFlowID : Nat := 0
  NetworkFlowID : Nat := 0
  TransportFlowID : Nat := 0
deriving DecidableEq, Repr

/-- `connectionID.String`: the three hashes in decimal
(`strconv.FormatUint(_, 10)`), concatenated without a separator. -/
def connectionID.String (c : connectionID) : String :=
  Nat.repr c.LinkFlowID ++ Nat.repr c.NetworkFlowID ++ Nat.repr c.TransportFlowID

/-- The first lines of `handlePacket`: the connectionID assembled from the
layers the packet has; a missing layer leaves its hash at zero. -/
def packetConnID (p : Packet) : connectionID :=
  let c0 : connectionID := {}
  let c1 := match p.LinkLayer with
    | some ll => { c0 with LinkFlowID := ll.FastHash }
    | none => c0
  let c2 := match p.NetworkLayer with
    | some nl => { c1 with NetworkFlowID := nl.FastHash }
    | none => c1
  match p.TransportLayer with
  | some tl => { c2 with TransportFlowID := tl.FastHash }
  | none => c2

/-- The map key `handlePacket` uses for a packet: `connID.String()`. -/
def packetKey (p : Packet) : String :=
  (packetConnID p).String

/-! ## Connection records and the table -/

/-- The audit record `types.Connection`. The record type is generated
protobuf code outside the sources; the fields are the ones `handlePacket` and
`writeConn` assign. The timestamps and `Duration` are `int64`, the three
counters `int32` (`handlePacket` converts what it adds to `TotalSize` and
`AppPayloadSize` with `int32(...)`; `NumPackets` is declared next to them with
the same type). The defaults are Go's zero values. -/
structure Connection where
  TimestampFirst : Int := 0
  LinkProto : String := ""
  NetworkProto : String := ""
  TransportProto : String := ""
  ApplicationProto : String := ""
  SrcMAC : String := ""
  DstMAC : String := ""
  SrcIP : String := ""
  SrcPort : String := ""
  DstIP : String := ""
  DstPort : String := ""
  TotalSize : Int := 0
  AppPayloadSize : Int := 0
  NumPackets : Int := 0
  UID : String := ""
  Duration : Int := 0
  TimestampLast : Int := 0
deriving DecidableEq, Repr

/-- The table `conns.Items`: key and entry, in insertion order. -/
abbrev ConnItems := List (String × Connection)

/-- Map lookup `conns.Items[key]`. -/
def ConnItems.get? : ConnItems → String → Option Connection
  | [], _ => none
  | (k, c) :: rest, key => if k = key then some c else ConnItems.get? rest key

/-- In-place update of the entry stored under `key` (the Go code mutates the
entry through its pointer). -/
def ConnItems.set : ConnItems → String → Connection → ConnItems
  | [], _, _ => []
  | (k, c) :: rest, key, c2 =>
    if k = key then (k, c2) :: rest else (k, c) :: ConnItems.set rest key c2

/-- The branch of `handlePacket` for a packet whose connection is in the
table: the update of the entry. -/
def updateConnection (conn : Connection) (p : Packet) : Connection :=
  -- check if received packet was captured BEFORE the first seen timestamp
  let c1 :=
    if p.Timestamp < conn.TimestampFirst then
      let a0 := { conn with TimestampFirst := p.Timestamp }
      let a1 := match p.LinkLayer with
        | some ll => { a0 with SrcMAC := ll.Src, DstMAC := ll.Dst }
        | none => a0
      let a2 := match p.NetworkLayer with
        | some nl => { a1 with SrcIP := nl.Src, DstIP := nl.Dst }
        | none => a1
      match p.TransportLayer with
      | some tl => { a2 with SrcPort := tl.Src, DstPort := tl.Dst }
      | none => a2
    else conn
  let c2 := match p.ApplicationLayer with
    | some al =>
      { c1 with AppPayloadSize := wrapInt32 (c1.AppPayloadSize + wrapInt32 al.Payload.length) }
    | none => c1
  -- check if last timestamp was before the current packet
  let c3 :=
    if c2.TimestampLast < p.Timestamp then { c2 with TimestampLast := p.Timestamp }
    else c2
  { c3 with
    NumPackets := wrapInt32 (c3.NumPackets + 1)
    TotalSize := wrapInt32 (c3.TotalSize + wrapInt32 p.Length) }

/-- The branch of `handlePacket` for a packet whose connection is not in the
table: the new entry. -/
def newConnection (p : Packet) : Connection :=
  let co : Connection :=
    { UID := calcMd5 (packetKey p)
      TimestampFirst := p.Timestamp
      TimestampLast := p.Timestamp
      TotalSize := wrapInt32 p.Length
      NumPackets := 1 }
  let c1 := match p.LinkLayer with
    | some ll => { co with LinkProto := ll.LayerType, SrcMAC := ll.Src, DstMAC := ll.Dst }
    | none => co
  let c2 := match p.NetworkLayer with
    | some nl => { c1 with NetworkProto := nl.LayerType, SrcIP := nl.Src, DstIP := nl.Dst }
    | none => c1
  let c3 := match p.TransportLayer with
    | some tl => { c2 with TransportProto := tl.LayerType, SrcPort := tl.Src, DstPort := tl.Dst }
    | none => c2
  match p.ApplicationLayer with
  | some al =>
    { c3 with ApplicationProto := al.LayerType, AppPayloadSize := wrapInt32 al.Payload.length }
  | none => c3

/-- `handlePacket`: the table after the call and the returned audit record
(`proto.Message`, `none` for `nil`). -/
def handlePacket (conns : ConnItems) (p : Packet) : ConnItems × Option Connection :=
  let key := packetKey p
  match conns.get? key with
  | some conn => (conns.set key (updateConnection conn p), none)
  | none => (conns ++ [(key, newConnection p)], none)

/-- The table after `handlePacket` has processed the packets of a list in
order, starting from the table `conns`. -/
def processFrom (conns : ConnItems) (ps : List Packet) : ConnItems :=
  ps.foldl (fun t p => (handlePacket t p).1) conns

/-- The table after `handlePacket` has processed a capture, starting from the
empty table. -/
def processPackets (ps : List Packet) : ConnItems :=
  processFrom [] ps

/-! ## Writing records -/

/-- The part of `Decoder` that `writeConn` touches: the counter of records
written and the sink, an in-memory list of the records handed to
`Writer.Write` (a failing `Write` ends the process with `log.Fatal`). -/
structure Decoder where
  NumRecordsWritten : Int := 0
  Writer : List Connection := []
deriving DecidableEq, Repr

/-- `writeConn`: computes the duration, counts the record and writes it.
Returns the decoder and the entry, whose `Duration` field the call sets. -/
def writeConn (d : Decoder) (conn : Connection) : Decoder × Connection :=
  let c := { conn with Duration := timeSubNanoseconds conn.TimestampLast conn.TimestampFirst }
  ({ NumRecordsWritten := wrapInt64 (d.NumRecordsWritten + 1), Writer := d.Writer ++ [c] }, c)

/-- The final handler of `connectionDecoder`: `writeConn` on every entry of
the table. Go ranges over the map in no fixed order; the entries are taken in
table order here. -/
def flushConns : Decoder → ConnItems → Decoder × ConnItems
  | d, [] => (d, [])
  | d, (k, c) :: rest =>
    let r := writeConn d c
    let r2 := flushConns r.1 rest
    (r2.1, (k, r.2) :: r2.2)

/-- The records written by a run of the decoder over a capture: every packet
through `handlePacket`, then the final handler. -/
def emittedRecords (ps : List Packet) : List Connection :=
  (flushConns {} (processPackets ps)).1.Writer

/-! ## POP3: reading a server line (`encoder/pop3Reader.go`) -/

/-- A Go string read from the network: a sequence of bytes. -/
abbrev GoString := List UInt8

/-- The bytes of a string literal (UTF-8). -/
def goStr (s : String) : GoString :=
  s.data.flatMap String.utf8EncodeChar

/-- `strings.Trim(s, cutset)` for a cutset of ASCII bytes: every leading and
trailing byte that is in the cutset is removed. -/
def stringsTrim (s cutset : GoString) : GoString :=
  ((s.dropWhile (fun b => decide (b ∈ cutset))).reverse.dropWhile
    (fun b => decide (b ∈ cutset))).reverse

/-- `strings.Split(s, sep)` for a separator of one byte: the pieces between
the occurrences of the separator, one more than there are occurrences. -/
def stringsSplit (sep : UInt8) : GoString → List GoString
  | [] => [[]]
  | b :: rest =>
    if b = sep then [] :: stringsSplit sep rest
    else
      match stringsSplit sep rest with
      | [] => [[b]]
      | w :: ws => (b :: w) :: ws

/-- `strings.Join(elems, sep)`. -/
def stringsJoin (elems : List GoString) (sep : GoString) : GoString :=
  sep.intercalate elems

/-- `strings.Contains(s, substr)`. -/
def stringsContains : GoString → GoString → Bool
  | [], substr => substr.isEmpty
  | b :: rest, substr => substr.isPrefixOf (b :: rest) || stringsContains rest substr

/-- `getCommand`: cuts the line into command and arguments. The result is
`none` when indexing `cmd[0]` would be out of range. -/
def getCommand (line : GoString) : Option (GoString × List GoString) :=
  let line2 := stringsTrim line (goStr "\r \n")
  match stringsSplit 32 line2 with
  | [] => none
  | c :: args => some (c, args)

/-- `validPop3ServerCommand`: the `switch` whose cases all fall through to
`return true`. -/
def validPop3ServerCommand (cmd : GoString) : Bool :=
  if cmd = goStr "." then true
  else if cmd = goStr "+" then true
  else if cmd = goStr "+OK" then true
  else if cmd = goStr "-ERR" then true
  else if cmd = goStr "TOP" then true
  else if cmd = goStr "USER" then true
  else if cmd = goStr "UIDL" then true
  else if cmd = goStr "STLS" then true
  else if cmd = goStr "SASL" then true
  else if cmd = goStr "IMPLEMENTATION" then true
  else false

/-- The record `types.POP3Response`; the defaults are Go's zero values. -/
structure POP3Response where
  Command : GoString := []
  Message : GoString := []
deriving DecidableEq, Repr

/-- The errors `readResponse` can return. -/
inductive ReadError where
  | EOF
  | ErrUnexpectedEOF
  | other (msg : String)
deriving DecidableEq, Repr

/-- `pop3Reader.readResponse` on the outcome of `tp.ReadLine()` (the line
without its line ending, or an error): the list `parent.pop3Responses` after
the call and the returned error (`none` for `nil`). The whole result is `none`
when the call would panic. -/
def readResponse (pop3Responses : List POP3Response) (readLine : Except ReadError GoString) :
    Option (List POP3Response × Option ReadError) :=
  match readLine with
  | .error err => some (pop3Responses, some err)
  | .ok line =>
    match getCommand line with
    | none => none
    | some (cmd, args) =>
      let r : List POP3Response × GoString :=
        if validPop3ServerCommand cmd then
          (pop3Responses ++ [{ Command := cmd, Message := stringsJoin args (goStr " ") }], line)
        else
          let line2 := if line = [] then goStr "\n" else line
          (pop3Responses ++ [{ Message := line2 }], line2)
      if r.2 = goStr "-ERR authentication failed" ∨ stringsContains r.2 (goStr "signing off") then
        some (r.1, some ReadError.EOF)
      else
        some (r.1, none)

/-! ## Vocabulary of the statements -/

/-- The packets of a capture whose map key is `key`, in processing order. -/
def packetsOfKey (key : String) (ps : List Packet) : List Packet :=
  ps.filter (fun p => decide (packetKey p = key))

/-- The entry that a non-empty list of packets of one connection leaves in the
table: created from the first packet, updated with each later one. -/
def connectionOf : List Packet → Option Connection
  | [] => none
  | p :: rest => some (rest.foldl updateConnection (newConnection p))

/-- The six source and destination fields of a record. -/
def endpoints (c : Connection) : String × String × String × String × String × String :=
  (c.SrcMAC, c.DstMAC, c.SrcIP, c.DstIP, c.SrcPort, c.DstPort)

/-- The four protocol-name fields of a record. -/
def protoNames (c : Connection) : String × String × String × String :=
  (c.LinkProto, c.NetworkProto, c.TransportProto, c.ApplicationProto)

/-- Which of the link, network and transport layers a packet carries. -/
def layersPresent (p : Packet) : Bool × Bool × Bool :=
  (p.LinkLayer.isSome, p.NetworkLayer.isSome, p.TransportLayer.isSome)

/-- The payload length `handlePacket` adds to `AppPayloadSize` for a packet:
`int32(len(al.Payload()))`, nothing without an application layer. -/
def appPayloadLen (p : Packet) : Int :=
  match p.ApplicationLayer with
  | some al => wrapInt32 al.Payload.length
  | none => 0

/-- The keys of a table, in table order. -/
def ConnItems.keys (m : ConnItems) : List String :=
  m.map Prod.fst

/-- The distinct elements of a list of keys, in the order of their first
occurrence. -/
def firstKeys (ks : List String) : List String :=
  ks.foldl (fun acc k => if k ∈ acc then acc else acc ++ [k]) []

/-! ## Sample packets -/

/-- A TCP segment without payload from client to server. -/
def synPacket : Packet :=
  { Timestamp := 1000
    Length := 74
    LinkLayer := some { LayerType := "Ethernet", Src := "aa:aa:aa:aa:aa:aa", Dst := "bb:bb:bb:bb:bb:bb", FastHash := 1 }
    NetworkLayer := some { LayerType := "IPv4", Src := "10.0.0.1", Dst := "10.0.0.2", FastHash := 23 }
    TransportLayer := some { LayerType := "TCP", Src := "49152", Dst := "110", FastHash := 4 }
    ApplicationLayer := none }

/-- A TCP segment of the same connection from server to client that carries
five bytes of payload. -/
def dataPacket : Packet :=
  { Timestamp := 2000
    Length := 79
    LinkLayer := some { LayerType := "Ethernet", Src := "bb:bb:bb:bb:bb:bb", Dst := "aa:aa:aa:aa:aa:aa", FastHash := 1 }
    NetworkLayer := some { LayerType := "IPv4", Src := "10.0.0.2", Dst := "10.0.0.1", FastHash := 23 }
    TransportLayer := some { LayerType := "TCP", Src := "110", Dst := "49152", FastHash := 4 }
    ApplicationLayer := some { LayerType := "Payload", Payload := [43, 79, 75, 13, 10] } }

/-- A full-size Ethernet frame of the same connection. -/
def bulkPacket : Packet :=
  { synPacket with Timestamp := 3000, Length := 1500 }

/-- The entry the table holds after `synPacket` and `dataPacket`. -/
def sampleEntry : String × Connection :=
  ("1234",
    { TimestampFirst := 1000
      LinkProto := "Ethernet"
      NetworkProto := "IPv4"
      TransportProto := "TCP"
      ApplicationProto := ""
      SrcMAC := "aa:aa:aa:aa:aa:aa"
      DstMAC := "bb:bb:bb:bb:bb:bb"
      SrcIP := "10.0.0.1"
      SrcPort := "49152"
      DstIP := "10.0.0.2"
      DstPort := "110"
      TotalSize := 153
      AppPayloadSize := 5
      NumPackets := 2
      UID := calcMd5 "1234"
      Duration := 0
      TimestampLast := 2000 })

/-- The record `writeConn` writes for an entry of the table. -/
def recordOf (c : Connection) : Connection :=
  (writeConn {} c).2

/-- A packet of another connection whose three flow hashes, printed one after
the other, give the same digits as those of `synPacket`. -/
def otherFlowPacket : Packet :=
  { Timestamp := 1500
    Length := 60
    LinkLayer := some { LayerType := "Ethernet", Src := "cc:cc:cc:cc:cc:cc", Dst := "dd:dd:dd:dd:dd:dd", FastHash := 12 }
    NetworkLayer := some { LayerType := "IPv4", Src := "192.168.1.1", Dst := "192.168.1.2", FastHash := 3 }
    TransportLayer := some { LayerType := "UDP", Src := "53", Dst := "40000", FastHash := 4 }
    ApplicationLayer := none }

/-- A packet of the connection of `synPacket` stamped in the year 1811. -/
def earlyPacket : Packet :=
  { synPacket with Timestamp := -5000000000000000000 }

/-- A packet of the connection of `synPacket` stamped in the year 2128. -/
def latePacket : Packet :=
  { synPacket with Timestamp := 5000000000000000000 }

/-- An ICMP echo request: link and network layer, no transport layer, and the
echo data as application layer (gopacket decodes what follows the ICMP header
as `Payload`). -/
def icmpPacket : Packet :=
  { Timestamp := 1000
    Length := 46
    LinkLayer := some { LayerType := "Ethernet", Src := "aa:aa:aa:aa:aa:aa", Dst := "bb:bb:bb:bb:bb:bb", FastHash := 1 }
    NetworkLayer := some { LayerType := "IPv4", Src := "10.0.0.1", Dst := "10.0.0.2", FastHash := 23 }
    TransportLayer := none
    ApplicationLayer := some { LayerType := "Payload", Payload := [97, 98, 99, 100] } }

/-- A packet without any layer whose capture record gives `2^31` as its
original length. -/
def oversizedPacket : Packet :=
  { Timestamp := 1000
    Length := 2147483648
    LinkLayer := none
    NetworkLayer := none
    TransportLayer := none
    ApplicationLayer := none }

/-- The source and destination endpoints of a packet at the link, network and
transport layer, in the order of `endpoints`; empty for a layer the packet
does not carry. -/
def packetEndpoints (p : Packet) : String × String × String × String × String × String :=
  ((p.LinkLayer.map Layer.Src).getD "", (p.LinkLayer.map Layer.Dst).getD "",
    (p.NetworkLayer.map Layer.Src).getD "", (p.NetworkLayer.map Layer.Dst).getD "",
    (p.TransportLayer.map Layer.Src).getD "", (p.TransportLayer.map Layer.Dst).getD "")

/-- Whether packet `e` carries every link, network and transport layer that
packet `q` carries. -/
def carriesLayersOf (e q : Packet) : Bool :=
  (!q.LinkLayer.isSome || e.LinkLayer.isSome) &&
    (!q.NetworkLayer.isSome || e.NetworkLayer.isSome) &&
    (!q.TransportLayer.isSome || e.TransportLayer.isSome)

/-- The fields of a record that do not depend on which packet came first:
UID, the two timestamps, the three counters and the duration. -/
def counters (c : Connection) : String × Int × Int × Int × Int × Int × Int :=
  (c.UID, c.TimestampFirst, c.TimestampLast, c.NumPackets, c.TotalSize, c.AppPayloadSize,
    c.Duration)

/-- The answer to `synPacket`, from server to client, captured with the same
timestamp. -/
def replyPacket : Packet :=
  { Timestamp := 1000
    Length := 74
    LinkLayer := some { LayerType := "Ethernet", Src := "bb:bb:bb:bb:bb:bb", Dst := "aa:aa:aa:aa:aa:aa", FastHash := 1 }
    NetworkLayer := some { LayerType := "IPv4", Src := "10.0.0.2", Dst := "10.0.0.1", FastHash := 23 }
    TransportLayer := some { LayerType := "TCP", Src := "110", Dst := "49152", FastHash := 4 }
    ApplicationLayer := none }

/-- A packet with a transport layer whose flow hash is 0. -/
def zeroHashPacket : Packet :=
  { Timestamp := 2000
    Length := 60
    LinkLayer := some { LayerType := "Ethernet", Src := "aa:aa:aa:aa:aa:aa", Dst := "bb:bb:bb:bb:bb:bb", FastHash := 1 }
    NetworkLayer := some { LayerType := "IPv4", Src := "10.0.0.1", Dst := "10.0.0.2", FastHash := 23 }
    TransportLayer := some { LayerType := "UDP", Src := "5353", Dst := "5354", FastHash := 0 }
    ApplicationLayer := none }

/-- An earlier packet with the same link and network flow as `zeroHashPacket`,
in the other direction and without transport layer; its connectionID is the
same, (1, 23, 0). -/
def noTransportPacket : Packet :=
  { Timestamp := 1000
    Length := 60
    LinkLayer := some { LayerType := "Ethernet", Src := "bb:bb:bb:bb:bb:bb", Dst := "aa:aa:aa:aa:aa:aa", FastHash := 1 }
    NetworkLayer := some { LayerType := "IPv4", Src := "10.0.0.2", Dst := "10.0.0.1", FastHash := 23 }
    TransportLayer := none
    ApplicationLayer := none }

/-- The entry the table holds after `dataPacket` and then `synPacket`. -/
def reorderedEntry : String × Connection :=
  ("1234",
    { TimestampFirst := 1000
      LinkProto := "Ethernet"
      NetworkProto := "IPv4"
      TransportProto := "TCP"
      ApplicationProto := "Payload"
      SrcMAC := "aa:aa:aa:aa:aa:aa"
      DstMAC := "bb:bb:bb:bb:bb:bb"
      SrcIP := "10.0.0.1"
      SrcPort := "49152"
      DstIP := "10.0.0.2"
      DstPort := "110"
      TotalSize := 153
      AppPayloadSize := 5
      NumPackets := 2
      UID := calcMd5 "1234"
      Duration := 0
      TimestampLast := 2000 })

/-! ## POP3: the recorded requests (`readRequest`) -/

/-- The record `types.POP3Request`; the defaults are Go's zero values. -/
structure POP3Request where
  Command : GoString := []
  Argument : GoString := []
deriving DecidableEq, Repr

/-- `pop3Reader.readRequest` on the outcome of `tp.ReadLine()`: the list
`parent.pop3Requests` after the call and the returned error (`none` for
`nil`). The whole result is `none` when the call would panic. -/
def readRequest (pop3Requests : List POP3Request) (readLine : Except ReadError GoString) :
    Option (List POP3Request × Option ReadError) :=
  match readLine with
  | .error err => some (pop3Requests, some err)
  | .ok line =>
    match getCommand line with
    | none => none
    | some (cmd, args) =>
      let reqs := pop3Requests ++ [{ Command := cmd, Argument := stringsJoin args (goStr " ") }]
      if cmd = goStr "QUIT" then some (reqs, some ReadError.EOF) else some (reqs, none)

/-! ## POP3: the mail parser (`splitMailHeaderAndBody`, `parseMail`) -/

/-- `strings.Split(s, sep)` for a non-empty separator `sep`: the pieces between
the non-overlapping occurrences of `sep`, found from the left. The counter is
the number of bytes of a found separator that are still to be passed over. -/
def stringsSplitSep (sep : GoString) : GoString → Nat → List GoString
  | [], _ => [[]]
  | _ :: rest, skip + 1 => stringsSplitSep sep rest skip
  | b :: rest, 0 =>
    if sep.isPrefixOf (b :: rest) then [] :: stringsSplitSep sep rest (sep.length - 1)
    else
      match stringsSplitSep sep rest 0 with
      | [] => [[b]]
      | w :: ws => (b :: w) :: ws

/-- `strings.HasPrefix(s, prefix)`. -/
def stringsHasPrefix (s pre : GoString) : Bool :=
  pre.isPrefixOf s

/-- A line that ended in `"\r\n"` loses the `'\r'` as well. -/
def dropCR (line : GoString) : GoString :=
  if line.getLast? = some 13 then line.dropLast else line

/-- The size of the buffer of `bufio.NewReader`. -/
def bufioSize : Nat := 4096

/-- Whether `textproto.Reader.ReadLine` returns the bytes `t` that follow the
last `'\n'` of the input as a line. `bufio.Reader.ReadLine` hands out a line
that does not fit its buffer in pieces of the size of the buffer (one byte
less when the piece would end in `'\r'`); when the pieces use up `t` exactly,
the next read is an `io.EOF` without data and `textproto` drops what it has
gathered. The first argument bounds the number of pieces. -/
def lastLineKept : Nat → GoString → Bool
  | 0, _ => false
  | fuel + 1, t =>
    if t.length < bufioSize then !t.isEmpty
    else if t.get? (bufioSize - 1) = some 13 then lastLineKept fuel (t.drop (bufioSize - 1))
    else lastLineKept fuel (t.drop bufioSize)

/-- The lines that `r.ReadLine()` returns, in order, before its first error,
for `r = textproto.NewReader(bufio.NewReader(bytes.NewReader(buf)))`: every
piece of `buf` that ends in `'\n'`, without that byte and without a `'\r'`
before it, and then the bytes after the last `'\n'`, if there are any and
`lastLineKept` holds of them. -/
def readLines (buf : GoString) : List GoString :=
  let pieces := stringsSplit 10 buf
  let t := pieces.getLastD []
  pieces.dropLast.map dropCR ++ (if lastLineKept (t.length + 1) t then [t] else [])

/-- `unicode.IsUpper(rune(b))` for a byte `b`: the upper case letters of
Latin-1, which are `A` to `Z`, `U+00C0` to `U+00D6` and `U+00D8` to `U+00DE`. -/
def unicodeIsUpper (b : UInt8) : Bool :=
  (65 ≤ b && b ≤ 90) || (192 ≤ b && b ≤ 214) || (216 ≤ b && b ≤ 222)

/-- The Go map `header`, of type `map[string]string`. -/
abbrev Header := List (GoString × GoString)

/-- The value `header[key]`: the empty string when the key is absent. -/
def Header.get : Header → GoString → GoString
  | [], _ => []
  | (k, v) :: rest, key => if k = key then v else Header.get rest key

/-- The assignment `header[key] = v`. -/
def Header.set : Header → GoString → GoString → Header
  | [], key, v => [(key, v)]
  | (k, w) :: rest, key, v =>
    if k = key then (k, v) :: rest else (k, w) :: Header.set rest key v

/-- The variables of the loop of `splitMailHeaderAndBody`. -/
structure SplitState where
  header : Header := []
  body : GoString := []
  lastHeader : GoString := []
  collectBody : Bool := false
deriving DecidableEq, Repr

/-- One pass through the loop of `splitMailHeaderAndBody`, for the line that
`r.ReadLine()` returned. The result is `none` when `parts[0][0]` is out of
range. -/
def splitStep (st : SplitState) (line : GoString) : Option SplitState :=
  if st.collectBody then
    some { st with body := st.body ++ line ++ goStr "\n" }
  else if line = [] then
    some st
  else
    match stringsSplitSep (goStr ": ") line 0 with
    | [] =>
      some { st with
        header := st.header.set st.lastHeader (st.header.get st.lastHeader ++ goStr "\n" ++ line) }
    | [] :: _ => none
    | (c :: name) :: values =>
      if unicodeIsUpper c then
        some { st with
          collectBody := if c :: name = goStr "Envelope-To" then true else st.collectBody
          header := st.header.set (c :: name) (stringsJoin values (goStr ": "))
          lastHeader := c :: name }
      else
        some { st with
          header :=
            st.header.set st.lastHeader (st.header.get st.lastHeader ++ goStr "\n" ++ line) }

/-- The loop of `splitMailHeaderAndBody` over the lines still to be read. -/
def splitLoop : List GoString → SplitState → Option SplitState
  | [], st => some st
  | line :: rest, st =>
    match splitStep st line with
    | none => none
    | some st2 => splitLoop rest st2

/-- `splitMailHeaderAndBody`: the header map and the body, or `none` when the
call panics. -/
def splitMailHeaderAndBody (buf : GoString) : Option (Header × GoString) :=
  match splitLoop (readLines buf) {} with
  | none => none
  | some st => some (st.header, st.body)

/-- The record `types.Mail`, with the fields that `parseMail` sets. -/
structure Mail where
  ReturnPath : GoString := []
  DeliveryDate : GoString := []
  From : GoString := []
  To : GoString := []
  CC : GoString := []
  Subject : GoString := []
  Date : GoString := []
  MessageID : GoString := []
  References : GoString := []
  InReplyTo : GoString := []
  ContentLanguage : GoString := []
  XOriginatingIP : GoString := []
  ContentType : GoString := []
  EnvelopeTo : GoString := []
  Body : GoString := []
deriving DecidableEq, Repr

/-- `parseMail`; `none` when `splitMailHeaderAndBody` panics. -/
def parseMail (buf : GoString) : Option Mail :=
  match splitMailHeaderAndBody buf with
  | none => none
  | some (header, body) =>
    some {
      ReturnPath := header.get (goStr "Return-Path")
      DeliveryDate := header.get (goStr "Delivery-Date")
      From := header.get (goStr "From")
      To := header.get (goStr "To")
      CC := header.get (goStr "CC")
      Subject := header.get (goStr "Subject")
      Date := header.get (goStr "Date")
      MessageID := header.get (goStr "Message-ID")
      References := header.get (goStr "References")
      InReplyTo := header.get (goStr "In-Reply-To")
      ContentLanguage := header.get (goStr "Content-Language")
      XOriginatingIP := header.get (goStr "x-originating-ip")
      ContentType := header.get (goStr "Content-Type")
      EnvelopeTo := header.get (goStr "Envelope-To")
      Body := body }

/-! ## POP3: the state machine (`parseMails`) -/

/-- The type `POP3State` and its four constants. -/
inductive POP3State where
  | StateNotAuthenticated
  | StateNotIdentified
  | StateAuthenticated
  | StateDataTransfer
deriving DecidableEq, Repr

/-- The variables of the loop of `parseMails`, except the index `h.reqIndex`,
which is the number of requests the loop has taken: the reader's
`h.resIndex`, the local `state`, `numMails` and `mailBuf`, and the four named
results. The indices of a reader are zero until `parseMails` runs, and Go's
`int` cannot overflow here, every counter being bounded by the length of a
slice. -/
structure ParseState where
  resIndex : Nat := 0
  state : POP3State := POP3State.StateNotAuthenticated
  numMails : Nat := 0
  mailBuf : GoString := []
  mails : List Mail := []
  user : GoString := []
  pass : GoString := []
  token : GoString := []
deriving DecidableEq, Repr

/-- The `for _, reply := range ...` loop of `LIST`, `UIDL` and `CAPA` over the
replies still to be visited; the counter is the local `n`. -/
def skipReply : List POP3Response → ParseState → Nat → ParseState × Nat
  | [], s, n => (s, n)
  | reply :: rest, s, n =>
    if reply.Command = goStr "." then
      ({ s with numMails := s.numMails + 1, resIndex := s.resIndex + 1 }, n)
    else skipReply rest s (n + 1)

/-- The `for _, reply := range ...` loop of `RETR` over the replies still to
be visited; `none` when `parseMail` panics. -/
def collectMail : List POP3Response → ParseState → Nat → Option (ParseState × Nat)
  | [], s, n => some (s, n)
  | reply :: rest, s, n =>
    if reply.Command = goStr "." then
      match parseMail s.mailBuf with
      | none => none
      | some m =>
        some ({ s with
          mails := s.mails ++ [m]
          mailBuf := []
          numMails := s.numMails + 1
          resIndex := s.resIndex + 1 }, n)
    else collectMail rest { s with mailBuf := s.mailBuf ++ reply.Message ++ goStr "\n" } (n + 1)

/-- How one pass through the loop of `parseMails` ends: with `continue` or at
the end of the body, with `return`, or with a run-time panic (an index or a
slice bound out of range). -/
inductive Outcome where
  | running (s : ParseState)
  | returned (s : ParseState)
  | panicked
deriving DecidableEq, Repr

/-- One pass through the loop of `parseMails` for the request `r` that
`next()` returned; `nxt` is `h.parent.pop3Requests[h.reqIndex]` after the
increment, `none` when that index is out of range. A request is never `nil`
(`readRequest` appends the address of a fresh record), so the test `r != nil`
holds whenever it is reached. -/
def parseStep (responses : List POP3Response) (r : POP3Request) (nxt : Option POP3Request)
    (s : ParseState) : Outcome :=
  match s.state with
  | POP3State.StateAuthenticated =>
    if r.Command = goStr "STAT" then
      Outcome.running { s with resIndex := s.resIndex + 1 }
    else if r.Command = goStr "LIST" ∨ r.Command = goStr "UIDL" then
      if s.resIndex ≤ responses.length then
        let res := skipReply (responses.drop s.resIndex) s 0
        Outcome.running { res.1 with resIndex := res.1.resIndex + res.2 }
      else Outcome.panicked
    else if r.Command = goStr "RETR" then
      if s.resIndex ≤ responses.length then
        match collectMail (responses.drop s.resIndex) s 0 with
        | none => Outcome.panicked
        | some res => Outcome.running { res.1 with resIndex := res.1.resIndex + res.2 }
      else Outcome.panicked
    else if r.Command = goStr "QUIT" then
      Outcome.returned s
    else
      Outcome.running { s with resIndex := s.resIndex + 1 }
  | POP3State.StateNotAuthenticated =>
    if r.Command = goStr "USER" then
      match responses.get? (s.resIndex + 1) with
      | none => Outcome.panicked
      | some reply =>
        if reply.Command = goStr "+OK" then
          Outcome.running { s with user := r.Argument, resIndex := s.resIndex + 1 }
        else Outcome.running { s with resIndex := s.resIndex + 1 }
    else if r.Command = goStr "CAPA" then
      if s.resIndex ≤ responses.length then
        let res := skipReply (responses.drop s.resIndex) s 0
        Outcome.running { res.1 with resIndex := res.1.resIndex + res.2 }
      else Outcome.panicked
    else if r.Command = goStr "AUTH" then
      match responses.get? (s.resIndex + 1) with
      | none => Outcome.panicked
      | some reply =>
        if reply.Command = goStr "+OK" then
          match nxt with
          | none => Outcome.panicked
          | some r2 =>
            Outcome.running { s with
              state := POP3State.StateAuthenticated
              token := r2.Command
              resIndex := s.resIndex + 1 }
        else Outcome.running { s with resIndex := s.resIndex + 1 }
    else if r.Command = goStr "PASS" then
      match responses.get? (s.resIndex + 1) with
      | none => Outcome.panicked
      | some reply =>
        if reply.Command = goStr "+OK" then
          Outcome.running { s with
            state := POP3State.StateAuthenticated
            pass := r.Argument
            resIndex := s.resIndex + 1 }
        else Outcome.running { s with resIndex := s.resIndex + 1 }
    else if r.Command = goStr "APOP" then
      match responses.get? (s.resIndex + 1) with
      | none => Outcome.panicked
      | some reply =>
        if reply.Command = goStr "+OK" then
          match stringsSplit 32 r.Argument with
          | p0 :: p1 :: _ =>
            Outcome.running { s with
              state := POP3State.StateAuthenticated
              user := p0
              token := p1
              resIndex := s.resIndex + 1 }
          | _ =>
            Outcome.running { s with
              state := POP3State.StateAuthenticated
              resIndex := s.resIndex + 1 }
        else Outcome.running { s with resIndex := s.resIndex + 1 }
    else if r.Command = goStr "QUIT" then
      Outcome.returned s
    else
      Outcome.running { s with resIndex := s.resIndex + 1 }
  | _ => Outcome.running { s with resIndex := s.resIndex + 1 }

/-- The loop of `parseMails` over the requests not yet taken: it returns when
none is left, and otherwise takes the first of them. The result is the state
at the `return`, or `none` after a panic. -/
def parseLoop (responses : List POP3Response) : List POP3Request → ParseState → Option ParseState
  | [], s => some s
  | r :: rest, s =>
    match parseStep responses r rest.head? s with
    | Outcome.running s2 => parseLoop responses rest s2
    | Outcome.returned s2 => some s2
    | Outcome.panicked => none

/-- The four results of `parseMails`. -/
structure ParseResult where
  mails : List Mail := []
  user : GoString := []
  pass : GoString := []
  token : GoString := []
deriving DecidableEq, Repr

/-- `pop3Reader.parseMails` on the recorded requests and responses of the
parent stream: the four results, or `none` when the call panics. -/
def parseMails (requests : List POP3Request) (responses : List POP3Response) :
    Option ParseResult :=
  match responses with
  | [] => some {}
  | serverHello :: _ =>
    if requests = [] then some {}
    else if serverHello.Command ≠ goStr "+OK" then some {}
    else if !stringsHasPrefix serverHello.Message (goStr "POP server ready") then some {}
    else
      match parseLoop responses requests {} with
      | none => none
      | some s => some { mails := s.mails, user := s.user, pass := s.pass, token := s.token }

/-! ## POP3: `Run` and `Cleanup` -/

/-- The loop of `Run` for the client half of a stream whose `ReadLine` calls
return the given lines and then `io.EOF`: the requests recorded in
`parent.pop3Requests`. The loop ends at the first error that `readRequest`
returns, which is the `io.EOF` it returns after a `QUIT`. -/
def runClient : List GoString → List POP3Request → List POP3Request
  | [], reqs => reqs
  | line :: rest, reqs =>
    match readRequest reqs (Except.ok line) with
    | some (reqs2, none) => runClient rest reqs2
    | some (reqs2, some _) => reqs2
    | none => reqs

/-- The loop of `Run` for the server half of a stream whose `ReadLine` calls
return the given lines and then `io.EOF`: the responses recorded in
`parent.pop3Responses`. -/
def runServer : List GoString → List POP3Response → List POP3Response
  | [], resps => resps
  | line :: rest, resps =>
    match readResponse resps (Except.ok line) with
    | some (resps2, none) => runServer rest resps2
    | some (resps2, some _) => resps2
    | none => resps

/-- The record `types.POP3`, with the fields that `Cleanup` sets. -/
structure POP3 where
  Timestamp : String := ""
  Client : String := ""
  Server : String := ""
  AuthToken : GoString := []
  User : GoString := []
  Pass : GoString := []
  Mails : List Mail := []
deriving DecidableEq, Repr

/-- What `Cleanup` reads and writes: of the parent `tcpStream` the flag
`last`, the recorded requests and responses, and the texts of
`firstPacket.String()`, `net.Src().String()` and `net.Dst().String()`; of
`pop3Encoder` the counter `numRecords` and the records handed to
`writer.Write`; and the number of `wg.Done()` signals. -/
structure StreamState where
  last : Bool := false
  pop3Requests : List POP3Request := []
  pop3Responses : List POP3Response := []
  firstPacket : String := ""
  src : String := ""
  dst : String := ""
  numRecords : Int := 0
  written : List POP3 := []
  done : Nat := 0
deriving DecidableEq, Repr

/-- `pop3Reader.Cleanup`, called on a reader whose indices are zero; `none`
when `parseMails` panics. The metrics of `pop3Msg.Inc()` and the error count
of a failed `Write` are not part of the state. -/
def Cleanup (st : StreamState) : Option StreamState :=
  if !st.last then
    some { st with done := st.done + 1, last := true }
  else if st.last then
    match parseMails st.pop3Requests st.pop3Responses with
    | none => none
    | some res =>
      let pop3Msg : POP3 :=
        { Timestamp := st.firstPacket
          Client := st.src
          Server := st.dst
          AuthToken := res.token
          User := res.user
          Pass := res.pass
          Mails := res.mails }
      some { st with
        numRecords := wrapInt64 (st.numRecords + 1)
        written := st.written ++ [pop3Msg]
        done := st.done + 1 }
  else some { st with done := st.done + 1 }

/-! ## Vocabulary of the POP3 statements -/

/-- The name of a header line: the text before its first `": "`, the whole
line when it has none. -/
def headerName (line : GoString) : GoString :=
  (stringsSplitSep (goStr ": ") line 0).headD []

/-- Whether a line is named `Envelope-To`. -/
def isEnvelopeTo (line : GoString) : Bool :=
  decide (headerName line = goStr "Envelope-To")

/-- Every line that follows the first line named `Envelope-To`, each followed
by `"\n"`; empty when no line has that name. -/
def bodyAfterEnvelopeTo (lines : List GoString) : GoString :=
  ((lines.dropWhile (fun l => !isEnvelopeTo l)).drop 1).flatMap (fun l => l ++ goStr "\n")

/-- The lines before the first line named `Envelope-To`. -/
def headerLines (lines : List GoString) : List GoString :=
  lines.takeWhile (fun l => !isEnvelopeTo l)

/-- Whether a line begins with `": "`. -/
def startsWithColonSpace (line : GoString) : Bool :=
  (goStr ": ").isPrefixOf line

/-- Whether the first response is a `+OK` whose message begins with
`POP server ready`. -/
def serverHelloOk (responses : List POP3Response) : Bool :=
  match responses with
  | [] => false
  | serverHello :: _ =>
    decide (serverHello.Command = goStr "+OK") &&
      stringsHasPrefix serverHello.Message (goStr "POP server ready")

/-- The state in which the loop of `parseMails` takes the first of the requests
`following`, after it has taken the requests `pre` before them; `none` when the
loop has ended earlier. -/
def stateAfter (responses : List POP3Response) :
    List POP3Request → List POP3Request → ParseState → Option ParseState
  | [], _, s => some s
  | r :: rest, following, s =>
    match parseStep responses r (rest ++ following).head? s with
    | Outcome.running s2 => stateAfter responses rest following s2
    | _ => none

/-- The results that `parseMails` returns from a state of its loop. -/
def resultOf (s : ParseState) : ParseResult :=
  { mails := s.mails, user := s.user, pass := s.pass, token := s.token }

/-- Whether a reply is a `.`. -/
def isDot (reply : POP3Response) : Bool :=
  decide (reply.Command = goStr ".")

/-- The replies before the first `.`. -/
def repliesBeforeDot (replies : List POP3Response) : List POP3Response :=
  replies.takeWhile (fun reply => !isDot reply)

/-- The text that the loop of `RETR` gathers from the replies before the first
`.`: the message of each, followed by `"\n"`. -/
def gatheredText (replies : List POP3Response) : GoString :=
  (repliesBeforeDot replies).flatMap (fun reply => reply.Message ++ goStr "\n")

/-- Whether one of the replies is a `.`. -/
def hasDot (replies : List POP3Response) : Bool :=
  replies.any isDot

/-- The loop is in one of two states. -/
def loopState (s : ParseState) : Prop :=
  s.state = POP3State.StateNotAuthenticated ∨ s.state = POP3State.StateAuthenticated

/-- The mail buffer is empty while responses are left to visit. -/
def bufferInv (responses : List POP3Response) (s : ParseState) : Prop :=
  s.mailBuf = [] ∨ responses.length ≤ s.resIndex

/-- What a pass through the loop keeps. -/
def stepKeeps (responses : List POP3Response) (s s2 : ParseState) : Prop :=
  (loopState s → loopState s2) ∧
    (s.state = POP3State.StateAuthenticated →
      s2.state = POP3State.StateAuthenticated ∧ s2.user = s.user ∧ s2.pass = s.pass ∧
        s2.token = s.token) ∧
    s.mails <+: s2.mails ∧ s.resIndex ≤ s2.resIndex ∧
    (bufferInv responses s → bufferInv responses s2)

/-- The commands that make `parseMails` look at the response after the
current one. -/
def needsReply (cmd : GoString) : Bool :=
  decide (cmd = goStr "USER") || decide (cmd = goStr "PASS") || decide (cmd = goStr "APOP") ||
    decide (cmd = goStr "AUTH")

/-- The record that `Cleanup` builds from the results of `parseMails`. -/
def recordFor (st : StreamState) (res : ParseResult) : POP3 :=
  { Timestamp := st.firstPacket
    Client := st.src
    Server := st.dst
    AuthToken := res.token
    User := res.user
    Pass := res.pass
    Mails := res.mails }

/-- The stream after the first of its two `Cleanup` calls. -/
def afterFirstCleanup (st : StreamState) : StreamState :=
  { st with done := st.done + 1, last := true }

/-! ## Sample POP3 transcripts -/

/-- A message with one header before `Envelope-To` and three lines after it,
the second of them empty. -/
def sampleMailText : GoString :=
  goStr "From: x@y\r\nEnvelope-To: a@b\r\nhello\r\n\r\nworld\r\n"

/-- A message whose first line begins with `": "`. -/
def colonMailText : GoString :=
  goStr ": x\nEnvelope-To: a@b\nhello\n"

/-- The greeting `+OK POP server ready`, as `readResponse` records it. -/
def helloReply : POP3Response :=
  { Command := goStr "+OK", Message := goStr "POP server ready" }

/-- The reply `+OK`. -/
def okReply : POP3Response :=
  { Command := goStr "+OK" }

/-- The reply `-ERR`. -/
def errReply : POP3Response :=
  { Command := goStr "-ERR" }

/-- The line `.` that ends a reply of several lines. -/
def dotReply : POP3Response :=
  { Command := goStr "." }

/-- A server line that is not a command line: `readResponse` records the line
as the message. -/
def textReply (line : String) : POP3Response :=
  { Message := goStr line }

/-- The request `USER alice`. -/
def userAlice : POP3Request :=
  { Command := goStr "USER", Argument := goStr "alice" }

/-- The request `PASS s3cret`. -/
def passSecret : POP3Request :=
  { Command := goStr "PASS", Argument := goStr "s3cret" }

/-- The request `RETR 1`. -/
def retrOne : POP3Request :=
  { Command := goStr "RETR", Argument := goStr "1" }

/-- The request `QUIT`. -/
def quitRequest : POP3Request :=
  { Command := goStr "QUIT" }

/-- A request with the given command and no argument. -/
def bareRequest (cmd : String) : POP3Request :=
  { Command := goStr cmd }

/-- The session of the comment `TODO: write unit test for this` in
`pop3Reader.go`: the lines of the server. -/
def documentedServerLines : List GoString :=
  [goStr "+OK POP3 server ready <mailserver.mydomain.com>", goStr "+OK",
    goStr "+OK user1's maildrop has 2 messages (320 octets)", goStr "+OK 2 320",
    goStr "+OK 2 messages"]

/-- The session of the comment `TODO: write unit test for this` in
`pop3Reader.go`: the lines of the client. -/
def documentedClientLines : List GoString :=
  [goStr "USER user1", goStr "PASS <password>", goStr "STAT", goStr "LIST"]

/-- The lines of the server in the documented session, with the greeting that
`parseMails` accepts. -/
def acceptedServerLines : List GoString :=
  [goStr "+OK POP server ready <mailserver.mydomain.com>", goStr "+OK",
    goStr "+OK user1's maildrop has 2 messages (320 octets)", goStr "+OK 2 320",
    goStr "+OK 2 messages"]

/-- A session that begins with `CAPA`: the server lists two capabilities,
accepts `USER alice`, rejects `PASS wrong` and answers `QUIT`. -/
def capaServerLines : List GoString :=
  [goStr "+OK POP server ready", goStr "+OK Capability list follows", goStr "USER",
    goStr "PIPELINING", goStr ".", goStr "+OK", goStr "-ERR invalid password",
    goStr "+OK bye"]

/-- The lines of the client in the session that begins with `CAPA`. -/
def capaClientLines : List GoString :=
  [goStr "CAPA", goStr "USER alice", goStr "PASS wrong", goStr "QUIT"]

/-- The session of the comment `parse user and MD5 from APOP cmd` in
`pop3Reader.go`: the lines of the server. -/
def apopServerLines : List GoString :=
  [goStr "+OK POP3 server ready <1896.697170952@dbc.mtview.ca.us>",
    goStr "+OK maildrop has 1 message (369 octets)"]

/-- The session of the comment `parse user and MD5 from APOP cmd` in
`pop3Reader.go`: the line of the client. -/
def apopClientLines : List GoString :=
  [goStr "APOP mrose c4c9334bac560ecc979e58001b3e22fb"]

/-- The lines of the server in the documented `APOP` session, with the greeting
that `parseMails` accepts. -/
def apopAcceptedServerLines : List GoString :=
  [goStr "+OK POP server ready <1896.697170952@dbc.mtview.ca.us>",
    goStr "+OK maildrop has 1 message (369 octets)"]

/-- Scenario E4: the lines of the server. -/
def e4ServerLines : List GoString :=
  [goStr "+OK POP server ready", goStr "+OK", goStr "-ERR"]

/-- Scenario E4: the lines of the client. -/
def e4ClientLines : List GoString :=
  [goStr "USER alice", goStr "PASS s3cret", goStr "QUIT"]

/-- A stream cut off after the greeting and the request `USER alice`. -/
def cutOffStream : StreamState :=
  { pop3Requests := [userAlice], pop3Responses := [helloReply],
    firstPacket := "2020-01-01 00:00:00 +0000 UTC", src := "10.0.0.1", dst := "10.0.0.2" }

/-- The stream of scenario E4. -/
def e4Stream : StreamState :=
  { pop3Requests := runClient e4ClientLines [], pop3Responses := runServer e4ServerLines [],
    firstPacket := "2020-01-01 00:00:00 +0000 UTC", src := "10.0.0.1", dst := "10.0.0.2" }

/-- A session with `AUTH`: the lines of the client. -/
def authClientLines : List GoString :=
  [goStr "AUTH PLAIN dGVzdA==", goStr "RETR 1", goStr "QUIT"]

/-- A session with `AUTH`: the lines of the server. The mail has an empty
line. -/
def authServerLines : List GoString :=
  [goStr "+OK POP server ready", goStr "+OK", goStr "+OK", goStr "Envelope-To: a@b",
    goStr "hello", [], goStr "world", goStr "."]

/-- Scenario E3: the lines of the client. -/
def e3ClientLines : List GoString :=
  [goStr "USER alice", goStr "PASS s3cret", goStr "RETR 1", goStr "QUIT"]

/-- The lines of a reply to `RETR`, before the `.` that ends it: the status
line and a mail with an empty line. -/
def retrReplyLines : List GoString :=
  [goStr "+OK", goStr "Envelope-To: a@b", goStr "hello", [], goStr "world"]

/-- The lines of the server in a session of the client lines of E3. -/
def retrServerLines : List GoString :=
  [goStr "+OK POP server ready", goStr "+OK", goStr "+OK"] ++ retrReplyLines ++ [goStr "."]

/-- A line of the text of a mail, as opposed to a command line of the server:
it is not empty, has no line break in it and no `'\r'` at its end, its first
word is not one of the server tokens, and it does not make `readResponse` end
the stream. `readResponse` records such a line whole, as a message, and the
mail parser reads it back as it was. -/
def plainLine (l : GoString) : Bool :=
  !l.isEmpty && decide (10 ∉ l) && decide (l.getLast? ≠ some 13) &&
    (match getCommand l with
      | some (cmd, _) => !validPop3ServerCommand cmd
      | none => false) &&
    !stringsContains l (goStr "signing off")

/-- A plain line that can stand before the `Envelope-To` line of a mail: it is
not named `Envelope-To` itself and does not begin with `": "`. -/
def plainHeaderLine (l : GoString) : Bool :=
  plainLine l && !isEnvelopeTo l && !startsWithColonSpace l

/-- Scenario E3: the lines of the server, for three header lines and two body
lines. -/
def e3ServerLines (h1 h2 h3 b1 b2 : GoString) : List GoString :=
  [goStr "+OK POP server ready", goStr "+OK", goStr "+OK", goStr "+OK", h1, h2, h3,
    goStr "Envelope-To: a@b", b1, b2, goStr "."]

/-! ## Vocabulary of the statements on the mail parser -/

/-- Whether a line begins with an upper case letter, as `unicode.IsUpper`
decides it for its first byte. -/
def beginsUpper (line : GoString) : Bool :=
  match line with
  | [] => false
  | c :: _ => unicodeIsUpper c

/-- Whether a line begins with a blank or a tab. -/
def beginsWithWhitespace (line : GoString) : Bool :=
  match line with
  | [] => false
  | c :: _ => decide (c = 32) || decide (c = 9)

/-- The thirteen header names that `parseMail` looks up as they are
written. -/
def mailFieldNames : List GoString :=
  [goStr "Return-Path", goStr "Delivery-Date", goStr "From", goStr "To", goStr "CC",
    goStr "Subject", goStr "Date", goStr "Message-ID", goStr "References",
    goStr "In-Reply-To", goStr "Content-Language", goStr "Content-Type", goStr "Envelope-To"]

/-- The field of a Mail that belongs to one of the thirteen header names. -/
def Mail.field (m : Mail) (name : GoString) : GoString :=
  if name = goStr "Return-Path" then m.ReturnPath
  else if name = goStr "Delivery-Date" then m.DeliveryDate
  else if name = goStr "From" then m.From
  else if name = goStr "To" then m.To
  else if name = goStr "CC" then m.CC
  else if name = goStr "Subject" then m.Subject
  else if name = goStr "Date" then m.Date
  else if name = goStr "Message-ID" then m.MessageID
  else if name = goStr "References" then m.References
  else if name = goStr "In-Reply-To" then m.InReplyTo
  else if name = goStr "Content-Language" then m.ContentLanguage
  else if name = goStr "Content-Type" then m.ContentType
  else if name = goStr "Envelope-To" then m.EnvelopeTo
  else []

/-- The first line that is not empty among the lines before the first line
named `Envelope-To`. -/
def firstHeaderLine (lines : List GoString) : Option GoString :=
  ((headerLines lines).filter (fun l => !l.isEmpty)).head?

/-- A key that the loop of `splitMailHeaderAndBody` can have put into the
header map: the empty string or a string that begins with an upper case
letter. -/
def headerKey (k : GoString) : Bool :=
  match k with
  | [] => true
  | c :: _ => unicodeIsUpper c

/-- The keys of the header map and the last header name are empty or begin
with an upper case letter. -/
def keysOk (st : SplitState) : Prop :=
  (∀ e ∈ st.header, headerKey e.1 = true) ∧ headerKey st.lastHeader = true

/-- A message with the header line `X-Originating-IP: 192.0.2.1`. -/
def originatingIPText : GoString :=
  goStr "From: x@y\r\nX-Originating-IP: 192.0.2.1\r\nEnvelope-To: a@b\r\nhello\r\n"

/-- A message in which a header line that begins with a lower case letter
follows the line `From: x@y`. -/
def lowerCaseHeaderText : GoString :=
  goStr "From: x@y\r\nx-mailer: abc\r\nSubject: hi\r\n"

/-- A message in which the line `: x` stands before the header line
`From: x@y`. -/
def colonFirstText : GoString :=
  goStr ": x\r\nFrom: x@y\r\n"

/-- A message with a line that begins with `": "` after its first header. -/
def colonSecondText : GoString :=
  goStr "Subject: hi\r\n: x\r\n"

/-- A message whose `Subject` has a value with `": "` in it and is followed by
another header. -/
def subjectText : GoString :=
  goStr "Subject: Re: Fwd: hi\r\nTo: a@b\r\n continued\r\n"

/-! ## Saving a file (`pop3Reader.saveFile`) -/

/-- The lower-case hexadecimal MD5 digest of a byte string:
`hex.EncodeToString(cryptoutils.MD5Data(body))`. -/
def md5Hex (body : GoString) : String :=
  String.mk ((md5Sum (body.map UInt8.toNat)).flatMap hexByte)

/-- What `saveFile` takes from outside the function: the global
`FileStorage`; the library functions `http.DetectContentType`, `path.Join` (of
two elements), `filepath.Clean`, `path.Base` and `filepath.Ext`; the helper
`fileExtensionForContentType` of the encoder package, which is not among the
sources; the file system, as far as `os.Stat` and `os.Create` show it (after
`os.MkdirAll(root, 0755)`); and the decompressor behind `gzip.NewReader`: for a
stream with a valid header, `none` when `gzip.NewReader` returns an error, and
otherwise the bytes that `io.Copy` reads from the reader, with whether the
copy ends without error. -/
structure FileEnv where
  FileStorage : GoString
  detectContentType : GoString → GoString
  fileExtensionForContentType : GoString → GoString
  pathJoin : GoString → GoString → GoString
  filepathClean : GoString → GoString
  pathBase : GoString → GoString
  filepathExt : GoString → GoString
  fileExists : GoString → Bool
  createFails : GoString → Bool
  gunzip : GoString → Option (GoString × Bool)

/-- What `saveFile` reads of its receiver: the ident of the stream, and of the
parent the texts of `firstPacket.String()`, `net.Src().String()`,
`net.Dst().String()`, `transport.Src().String()` and
`transport.Dst().String()`. -/
structure ReaderInfo where
  ident : GoString := []
  firstPacket : String := ""
  srcIP : String := ""
  dstIP : String := ""
  srcPort : String := ""
  dstPort : String := ""
deriving DecidableEq, Repr

/-- The record `types.PacketContext`. -/
structure PacketContext where
  SrcIP : String := ""
  DstIP : String := ""
  SrcPort : String := ""
  DstPort : String := ""
deriving DecidableEq, Repr

/-- The record `types.File`, with the fields that `saveFile` sets. -/
structure File where
  Timestamp : String := ""
  Name : GoString := []
  Length : Int := 0
  Hash : String := ""
  Location : GoString := []
  Ident : GoString := []
  Source : GoString := []
  ContentType : GoString := []
  Context : PacketContext := {}
deriving DecidableEq, Repr

/-- `gzip.NewReader` on the bytes of a body, followed by `io.Copy`: the reader
is refused when fewer than the ten bytes of a gzip header are there or the
header does not begin with the bytes `0x1f 0x8b 0x08`. -/
def gzipNewReader (env : FileEnv) (body : GoString) : Option (GoString × Bool) :=
  if 10 ≤ body.length ∧ body.take 3 = [31, 139, 8] then env.gunzip body else none

/-- The test `len(encoding) > 0 && (encoding[0] == "gzip" || encoding[0] ==
"deflate")`. -/
def isCompressed (encoding : List GoString) : Bool :=
  match encoding with
  | [] => false
  | e :: _ => decide (e = goStr "gzip") || decide (e = goStr "deflate")

/-- The name with which `saveFile` works: `unknown` for an empty name and for
`/`. -/
def saveName (name : GoString) : GoString :=
  if name = [] ∨ name = goStr "/" then goStr "unknown" else name

/-- The value of `base` after `base = path.Join(root, base)`. -/
def joinedBase (env : FileEnv) (h : ReaderInfo) (name : GoString) (err : Option String)
    (body : GoString) : GoString :=
  let name := saveName name
  let ctype := env.detectContentType body
  let root := env.pathJoin env.FileStorage ctype
  let ext := env.fileExtensionForContentType ctype
  let base := env.filepathClean (name ++ goStr "-" ++ env.pathBase h.ident) ++ ext
  let base := if err.isSome then goStr "incomplete-" ++ base else base
  env.pathJoin root base

/-- The two statements after it: a path of more than 250 bytes is cut to 250
bytes and gets `...` appended, and a path equal to `FileStorage` is replaced by
`path.Join(FileStorage, "noname")`. -/
def limitedBase (env : FileEnv) (base : GoString) : GoString :=
  let base := if base.length > 250 then base.take 250 ++ goStr "..." else base
  if base = env.FileStorage then env.pathJoin env.FileStorage (goStr "noname") else base

/-- The path that the loop of `saveFile` tries after `n` rounds. -/
def numberedTarget (env : FileEnv) (h : ReaderInfo) (name : GoString) (err : Option String)
    (body : GoString) (n : Nat) : GoString :=
  let name := saveName name
  let ctype := env.detectContentType body
  let root := env.pathJoin env.FileStorage ctype
  let ext := env.fileExtensionForContentType ctype
  if err.isSome then
    env.pathJoin root (env.filepathClean (goStr "incomplete-" ++ name ++ goStr "-" ++ h.ident) ++
      goStr "-" ++ goStr (Nat.repr n) ++ ext)
  else
    env.pathJoin root (env.filepathClean (name ++ goStr "-" ++ h.ident) ++
      goStr "-" ++ goStr (Nat.repr n) ++ ext)

/-- The loop of `saveFile` that looks for a path at which `os.Stat` finds
nothing; the first argument bounds the number of rounds, the last is the
counter `n`. -/
def freeTarget (env : FileEnv) (candidate : Nat → GoString) : Nat → GoString → Nat → Option GoString
  | 0, _, _ => none
  | fuel + 1, target, n =>
    if env.fileExists target then freeTarget env candidate fuel (candidate n) (n + 1)
    else some target

/-- What a call of `saveFile` leaves behind: whether it returned an error,
the file it created and the bytes it wrote to it, and the record it handed to
`writeFile`. -/
structure SaveResult where
  failed : Bool := false
  created : Option GoString := none
  written : GoString := []
  record : Option File := none
deriving DecidableEq, Repr

/-- `pop3Reader.saveFile`; `none` when the loop that looks for a free path
does not end within the given number of rounds. Writing to the created file
succeeds. -/
def saveFile (env : FileEnv) (h : ReaderInfo) (fuel : Nat) (source name : GoString)
    (err : Option String) (body : GoString) (encoding : List GoString) : Option SaveResult :=
  if body.length = 0 then some {}
  else
    let name2 := saveName name
    let ctype := env.detectContentType body
    let ext := env.fileExtensionForContentType ctype
    let fileName := if env.filepathExt name2 = [] then name2 ++ ext else name2
    let base := limitedBase env (joinedBase env h name err body)
    match freeTarget env (numberedTarget env h name err body) fuel base 0 with
    | none => none
    | some target =>
      if env.createFails target then some { failed := true }
      else
        let written :=
          if isCompressed encoding then
            match gzipNewReader env body with
            | none => []
            | some res => res.1
          else body
        some {
          created := some target
          written := written
          record := some {
            Timestamp := h.firstPacket
            Name := fileName
            Length := body.length
            Hash := md5Hex body
            Location := target
            Ident := h.ident
            Source := source
            ContentType := ctype
            Context := { SrcIP := h.srcIP, DstIP := h.dstIP, SrcPort := h.srcPort,
                         DstPort := h.dstPort } } }

/-- The gzip stream of the five bytes `hello`. -/
def helloGzip : GoString :=
  [31, 139, 8, 0, 0, 0, 0, 0, 2, 3, 203, 72, 205, 201, 201, 7, 0, 134, 166, 16, 54, 5, 0, 0, 0]

/-- A sample environment: the storage directory `files`, content type
`text/plain; charset=utf-8` with the extension `.txt`, no file on disk, and a
decompressor that knows the stream `helloGzip`. On the paths of the samples,
which have no `.`, `..` or doubled `/` in them, the path functions do what
Go's do. -/
def sampleEnv : FileEnv :=
  { FileStorage := goStr "files"
    detectContentType := fun _ => goStr "text/plain; charset=utf-8"
    fileExtensionForContentType := fun _ => goStr ".txt"
    pathJoin := fun a b => a ++ goStr "/" ++ b
    filepathClean := fun p => p
    pathBase := fun p => p
    filepathExt := fun _ => []
    fileExists := fun _ => false
    createFails := fun _ => false
    gunzip := fun b => if b = helloGzip then some (goStr "hello", true) else none }

/-- A sample stream reader. -/
def sampleReader : ReaderInfo :=
  { ident := goStr "10.0.0.1-10.0.0.2", firstPacket := "2020-01-01 00:00:00 +0000 UTC",
    srcIP := "10.0.0.1", dstIP := "10.0.0.2", srcPort := "49152", dstPort := "110" }

/-- A name of 300 bytes. -/
def longName : GoString :=
  List.replicate 300 97

/-- What `saveFile` leaves behind for the body `hello`, the name `mail` and no
encoding in the sample environment. -/
def sampleSaved : SaveResult :=
  { created := some (goStr "files/text/plain; charset=utf-8/mail-10.0.0.1-10.0.0.2.txt")
    written := goStr "hello"
    record := some {
      Timestamp := "2020-01-01 00:00:00 +0000 UTC"
      Name := goStr "mail.txt"
      Length := 5
      Hash := md5Hex (goStr "hello")
      Location := goStr "files/text/plain; charset=utf-8/mail-10.0.0.1-10.0.0.2.txt"
      Ident := goStr "10.0.0.1-10.0.0.2"
      Source := goStr "POP3"
      ContentType := goStr "text/plain; charset=utf-8"
      Context := { SrcIP := "10.0.0.1", DstIP := "10.0.0.2", SrcPort := "49152",
                   DstPort := "110" } } }

/-! ## Removing audit record files without records (`io/fileUtils.go`) -/

/-- `strings.HasSuffix(s, suffix)`. -/
def stringsHasSuffix (s suffix : GoString) : Bool :=
  suffix.isSuffixOf s

/-- `isCSV` of `io/fileUtils.go`. -/
def isCSV (name : GoString) : Bool :=
  stringsHasSuffix name (goStr ".csv") || stringsHasSuffix name (goStr ".csv.gz")

/-- `isJSON` of `io/fileUtils.go`. -/
def isJSON (name : GoString) : Bool :=
  stringsHasSuffix name (goStr ".json") || stringsHasSuffix name (goStr ".json.gz")

/-- The files on disk, as far as `os.Open`, `os.Remove` and `os.Stat` show
them: names with the bytes of the file. -/
structure Disk where
  files : List (GoString × GoString)
deriving DecidableEq, Repr

/-- The bytes of the file of a name, `none` when `os.Open` fails. -/
def Disk.read (disk : Disk) (name : GoString) : Option GoString :=
  (disk.files.find? (fun e => decide (e.1 = name))).map Prod.snd

/-- The disk after `os.Remove(name)`; the error for a missing file is only
printed. -/
def Disk.remove (disk : Disk) (name : GoString) : Disk :=
  ⟨disk.files.filter (fun e => !decide (e.1 = name))⟩

/-- The size that `os.Stat(name)` reports; when `os.Stat` fails, the callers
return their named result, which is 0. -/
def Disk.size (disk : Disk) (name : GoString) : Int :=
  match disk.read name with
  | none => 0
  | some content => content.length

/-- The reader from which `removeEmptyNewlineDelimitedFile` reads lines, as
the bytes it delivers and whether its end is `io.EOF` or
`io.ErrUnexpectedEOF` (and not another error); the end is delivered by a read
of its own. For a name ending in `.gz` this is `gzip.NewReader(f)`: `none`,
where the code panics, when the file has fewer than the ten bytes of a gzip
header or does not begin with `0x1f 0x8b 0x08`, and otherwise what the
decompressor `gunzip` makes of the file. For other names it is the file, which
ends with `io.EOF`. -/
def lineReader (gunzip : GoString → Option (GoString × Bool)) (name content : GoString) :
    Option (GoString × Bool) :=
  if stringsHasSuffix name (goStr ".gz") then
    if 10 ≤ content.length ∧ content.take 3 = [31, 139, 8] then gunzip content else none
  else some (content, true)

/-- One call of `bufio.Reader.ReadLine` on a reader that has the bytes `rest`
still to deliver: `none` when no byte is left and the call returns the error
at the end of the reader; otherwise the call returns without error and the
result is what is left after it. The call consumes the bytes up to and
including the first `'\n'` among the next 4096 bytes; without one, it consumes
everything when fewer than 4096 bytes are left, and otherwise the next 4096
bytes, or 4095 of them when the last one is `'\r'`. -/
def readLineRest (rest : GoString) : Option GoString :=
  if rest = [] then none
  else if (10 : UInt8) ∈ rest.take bufioSize then
    some (rest.drop ((rest.takeWhile (fun b => !decide (b = 10))).length + 1))
  else if rest.length < bufioSize then some []
  else if rest.get? (bufioSize - 1) = some 13 then some (rest.drop (bufioSize - 1))
  else some (rest.drop bufioSize)

/-- The loop of `removeEmptyNewlineDelimitedFile` that counts calls of
`ReadLine`, with the bytes still to read and the value of `count`; `none` is
the panic for an error other than `io.EOF` and `io.ErrUnexpectedEOF`. The
first argument bounds the number of rounds; the loop ends after two. -/
def countLines (endOk : Bool) : Nat → GoString → Nat → Option Nat
  | 0, _, count => some count
  | fuel + 1, rest, count =>
    match readLineRest rest with
    | none => if endOk then some count else none
    | some rest2 =>
      if count + 1 > 1 then some (count + 1) else countLines endOk fuel rest2 (count + 1)

/-- `removeEmptyNewlineDelimitedFile`: the size it returns and the disk it
leaves; `none` when it panics. -/
def removeEmptyNewlineDelimitedFile (gunzip : GoString → Option (GoString × Bool))
    (disk : Disk) (name : GoString) : Option (Int × Disk) :=
  match disk.read name with
  | none => none
  | some content =>
    match lineReader gunzip name content with
    | none => none
    | some (data, endOk) =>
      match countLines endOk 2 data 0 with
      | none => none
      | some count =>
        if count < 2 then some (0, disk.remove name)
        else some (disk.size name, disk)

/-- `removeAuditRecordFileIfEmpty`: the size it returns and the disk it
leaves; `none` when it panics. -/
def removeAuditRecordFileIfEmpty (gunzip : GoString → Option (GoString × Bool))
    (disk : Disk) (name : GoString) (numRecords : Int) : Option (Int × Disk) :=
  if isCSV name || isJSON name then removeEmptyNewlineDelimitedFile gunzip disk name
  else if numRecords = 0 then some (0, disk.remove name)
  else some (disk.size name, disk)

/-- The number of lines of a text: its line feeds, and one more for the bytes
after the last line feed when there are any. -/
def lineCount (data : GoString) : Nat :=
  data.count 10 + (if data = [] ∨ data.getLast? = some 10 then 0 else 1)

/-- The bytes of a text before its first line feed. -/
def firstLine (data : GoString) : GoString :=
  data.takeWhile (fun b => !decide (b = 10))

/-- Whether a file holds no audit records, in the words of the
specification: for a name ending in `.csv`, `.csv.gz`, `.json` or `.json.gz`
the text that is read from it has fewer than two lines; for another name
`numRecords` is 0. -/
def holdsNoRecords (gunzip : GoString → Option (GoString × Bool)) (name content : GoString)
    (numRecords : Int) : Bool :=
  if isCSV name || isJSON name then
    match lineReader gunzip name content with
    | none => false
    | some (data, _) => decide (lineCount data < 2)
  else decide (numRecords = 0)

/-- A decompressor that knows the gzip stream `helloGzip` of `hello`, to
which it adds the end `io.EOF`. -/
def sampleGunzip (body : GoString) : Option (GoString × Bool) :=
  if body = helloGzip then some (goStr "hello", true) else none

/-- A header line of 4096 bytes with its line feed. -/
def longHeader : GoString :=
  List.replicate 4096 97 ++ [10]

/-- A disk with a CSV file that holds a header line and one record, a CSV
file and a compressed JSON file that hold a header only, and the file of a
binary writer. -/
def sampleDisk : Disk :=
  ⟨[(goStr "TCP.csv", goStr "Timestamp,SrcPort\n1,80\n"),
    (goStr "UDP.csv", goStr "Timestamp,SrcPort\n"),
    (goStr "POP3.json.gz", helloGzip),
    (goStr "Flow.ncap", goStr "header")]⟩

/-- A disk with a CSV file that holds nothing but the line `longHeader`. -/
def longHeaderDisk : Disk :=
  ⟨[(goStr "Wide.csv", longHeader)]⟩

/-- The loop of `parseMails` has not authenticated and has gathered
nothing. -/
def nothingGathered (s : ParseState) : Prop :=
  s.state = POP3State.StateNotAuthenticated ∧ s.mails = [] ∧ s.user = [] ∧ s.pass = [] ∧
    s.token = []

/-- A client that asks for the capabilities and then names its user, and a
server that answers the greeting and refuses both. -/
def refusedClientLines : List GoString :=
  [goStr "CAPA", goStr "USER alice"]

/-- The lines of the server for `refusedClientLines`. -/
def refusedServerLines : List GoString :=
  [goStr "+OK POP server ready", goStr "-ERR unknown command", goStr "-ERR no such user"]

/-! ## Reading from the byte channel (`pop3Reader.Read`) -/

/-- What `Read` reads and writes of a `pop3Reader`: the field `data`, and the
channel `bytes` as the chunks that are still to be received from it before it
is closed. -/
structure ByteReader where
  data : GoString := []
  bytes : List GoString := []
deriving DecidableEq, Repr

/-- The loop `for ok && len(h.data) == 0` of `Read`, in which the timeout of
the `select` does not fire: the values of `h.data` and `ok` at its end and the
chunks left in the channel. A receive from the closed channel gives `nil` and
`ok = false`. -/
def receiveLoop : GoString → List GoString → GoString × List GoString × Bool
  | data, [] => if data.length = 0 then ([], [], false) else (data, [], true)
  | data, chunk :: rest =>
    if data.length = 0 then receiveLoop chunk rest else (data, chunk :: rest, true)

/-- What a call of `Read` gives: the reader after it, the bytes copied to the
front of `p` (their number is the `int` returned), and whether the error
returned is `io.EOF` and not `nil`. -/
structure ReadResult where
  reader : ByteReader
  copied : GoString
  eof : Bool
deriving DecidableEq, Repr

/-- `pop3Reader.Read` for a buffer `p` of the given length, when the timeout
does not fire. -/
def Read (h : ByteReader) (p : Nat) : ReadResult :=
  let r := receiveLoop h.data h.bytes
  if !r.2.2 || r.1.length = 0 then
    { reader := { data := r.1, bytes := r.2.1 }, copied := [], eof := true }
  else
    { reader := { data := r.1.drop (min p r.1.length), bytes := r.2.1 }
      copied := r.1.take (min p r.1.length)
      eof := false }

/-- Calls of `Read` with buffers of the given lengths, one after the other,
until a call returns `io.EOF` or the lengths are used up: the bytes returned
by the calls before, and whether a call returned `io.EOF`. -/
def readCalls : ByteReader → List Nat → GoString × Bool
  | _, [] => ([], false)
  | h, p :: ps =>
    if (Read h p).eof then ([], true)
    else ((Read h p).copied ++ (readCalls (Read h p).reader ps).1,
      (readCalls (Read h p).reader ps).2)

/-- The bytes that a reader has still to deliver: its data and the chunks in
the channel. -/
def pending (h : ByteReader) : GoString :=
  h.data ++ h.bytes.flatten

/-- The buffered data of a call of `Read`: the data of the reader, or, when
there is none, the first chunk in the channel that is not empty. -/
def buffered (h : ByteReader) : GoString :=
  if h.data = [] then (h.bytes.find? (fun chunk => !chunk.isEmpty)).getD [] else h.data

/-- A reader whose channel holds the chunks `+OK `, an empty chunk and
`ready`. -/
def sampleByteReader : ByteReader :=
  { bytes := [goStr "+OK ", [], goStr "ready"] }

/-! ## The arguments of `capture` (`checkArgs`) -/

/-- The loop of `checkArgs` over the arguments not yet visited, with the
index `i` and the variable `expectArg`: `none` when the loop ends, and
otherwise the arguments `args[index:]` that `log.Fatal` prints before it ends
the program. -/
def checkArgsLoop (args : List GoString) : List GoString → Nat → Bool → Option (List GoString)
  | [], _, _ => none
  | a :: rest, i, expectArg =>
    if stringsHasPrefix a (goStr "-") then checkArgsLoop args rest (i + 1) true
    else if expectArg then checkArgsLoop args rest (i + 1) false
    else some (args.drop (if i = 0 then 0 else i - 1))

/-- `checkArgs` on the arguments `os.Args[2:]`: `none` when it returns, and
otherwise what `log.Fatal` prints. -/
def checkArgs (args : List GoString) : Option (List GoString) :=
  checkArgsLoop args args 0 false

/-- Whether the argument at an index is directly preceded by an argument that
starts with `-`. -/
def precededByFlag (args : List GoString) (i : Nat) : Bool :=
  match i with
  | 0 => false
  | k + 1 =>
    match args.get? k with
    | some b => stringsHasPrefix b (goStr "-")
    | none => false

/-- An argument list has a stray argument: one that does not start with `-`
and is not directly preceded by an argument that does. -/
def hasStrayArgument (args : List GoString) : Prop :=
  ∃ i a, args.get? i = some a ∧ stringsHasPrefix a (goStr "-") = false ∧
    precededByFlag args i = false

/-- Whether the argument at index `j` of the arguments not yet visited is
directly preceded by an argument that starts with `-`, where `expectArg` tells
it of the first of them. -/
def precededFrom (expectArg : Bool) (rest : List GoString) (j : Nat) : Bool :=
  match j with
  | 0 => expectArg
  | k + 1 => precededByFlag rest (k + 1)

/-! ## Audit records of the package `types`: CSV and JSON -/

/-- What the methods of the audit records take from outside the sources: the
helpers `formatTimestamp`, `formatInt32`, `formatUint32` and `filter` of the
package `types`, and its constants `StructureBegin`, `FieldSeparator` and
`StructureEnd`. -/
structure Formats where
  formatTimestamp : Int → String
  formatInt32 : Int → String
  formatUint32 : Nat → String
  filter : List String → List String
  StructureBegin : String
  FieldSeparator : String
  StructureEnd : String

/-- `strconv.FormatBool`. -/
def strconvFormatBool (b : Bool) : String :=
  if b then "true" else "false"

/-- `strconv.FormatUint(x, 10)`. -/
def strconvFormatUint (x : Nat) : String :=
  Nat.repr x

/-- `hex.EncodeToString`. -/
def hexEncodeToString (bs : List UInt8) : String :=
  String.mk (bs.flatMap (fun b => hexByte b.toNat))

/-- `strings.Join(elems, sep)` on strings. -/
def joinStrings (elems : List String) (sep : String) : String :=
  sep.intercalate elems

/-- The constant `time.Millisecond`: the nanoseconds of a millisecond. -/
def timeMillisecond : Nat := 1000000

/-- The record `types.DHCPOption`, with the fields that `toString` reads. -/
structure DHCPOption where
  Type_ : Int := 0
  Length : Int := 0
  Data : String := ""
deriving DecidableEq, Repr

/-- `DHCPOption.toString`. -/
def DHCPOption.toString (f : Formats) (d : DHCPOption) : String :=
  f.StructureBegin ++ f.formatInt32 d.Type_ ++ f.FieldSeparator ++ f.formatInt32 d.Length ++
    f.FieldSeparator ++ d.Data ++ f.StructureEnd

/-- The record `types.ICMPv6Option`, with the fields that `toString` reads. -/
structure ICMPv6Option where
  Type_ : Int := 0
  Data : List UInt8 := []
deriving DecidableEq, Repr

/-- `ICMPv6Option.toString`. -/
def ICMPv6Option.toString (f : Formats) (o : ICMPv6Option) : String :=
  f.StructureBegin ++ f.formatInt32 o.Type_ ++ f.FieldSeparator ++ hexEncodeToString o.Data ++
    f.StructureEnd

/-- Division of a timestamp by 1,000,000 that truncates: the quotient of the
absolute value, with the sign of the timestamp. -/
def truncDiv (t : Int) : Int :=
  if 0 ≤ t then t / 1000000 else -((-t) / 1000000)

/-- The audit record `types.CIP`, with the fields that `types/cip.go` reads.
The record type is generated protobuf code outside the sources; `Timestamp`
is an `int64`, and the other fields have the types that the comments of
`fieldsCIP` and the formatting calls of `CSVRecord` give them. -/
structure CIP where
  Timestamp : Int := 0
  Response : Bool := false
  ServiceID : Int := 0
  ClassID : Nat := 0
  InstanceID : Nat := 0
  Status : Int := 0
  AdditionalStatus : List Nat := []
  Data : List UInt8 := []
  SrcIP : String := ""
  DstIP : String := ""
  SrcPort : Int := 0
  DstPort : Int := 0
deriving DecidableEq, Repr

/-- The field names `fieldsCIP`. -/
def fieldsCIP : List String :=
  ["Timestamp", "Response", "ServiceID", "ClassID", "InstanceID", "Status",
  "AdditionalStatus", "Data", "SrcIP", "DstIP", "SrcPort", "DstPort"]

/-- The slice `additional` of `CIP.CSVRecord`: `make` gives it one empty string
for each additional status, and for a response the formatted statuses are
appended to these. -/
def CIP.additional (f : Formats) (c : CIP) : List String :=
  List.replicate c.AdditionalStatus.length "" ++
    (if c.Response then c.AdditionalStatus.map f.formatUint32 else [])

/-- The slice that `CIP.CSVRecord` hands to `filter`. -/
def CIP.record (f : Formats) (c : CIP) : List String :=
  [f.formatTimestamp c.Timestamp,
    strconvFormatBool c.Response,
    f.formatInt32 c.ServiceID,
    f.formatUint32 c.ClassID,
    f.formatUint32 c.InstanceID,
    f.formatInt32 c.Status,
    joinStrings (CIP.additional f c) "",
    hexEncodeToString c.Data,
    c.SrcIP,
    c.DstIP,
    f.formatInt32 c.SrcPort,
    f.formatInt32 c.DstPort]

/-- `CIP.CSVHeader`. -/
def CIP.CSVHeader (f : Formats) : List String :=
  f.filter fieldsCIP

/-- `CIP.CSVRecord`. -/
def CIP.CSVRecord (f : Formats) (c : CIP) : List String :=
  f.filter (CIP.record f c)

/-- `CIP.Time`. -/
def CIP.Time (c : CIP) : Int :=
  c.Timestamp

/-- `CIP.JSON`: the record after the call, which converts in place, and what
`jsonMarshaler.MarshalToString` makes of it. Dividing an `int64` by 1000000
cannot overflow. -/
def CIP.JSON (marshal : CIP → String × Option String) (c : CIP) :
    CIP × (String × Option String) :=
  let c1 := { c with Timestamp := Int.tdiv c.Timestamp timeMillisecond }
  (c1, marshal c1)

/-- The text of the field of a name in the CSV record of a `CIP`: the field,
formatted as its type is. -/
def CIP.fieldText (f : Formats) (c : CIP) (name : String) : String :=
  if name = "Timestamp" then f.formatTimestamp c.Timestamp
  else if name = "Response" then strconvFormatBool c.Response
  else if name = "ServiceID" then f.formatInt32 c.ServiceID
  else if name = "ClassID" then f.formatUint32 c.ClassID
  else if name = "InstanceID" then f.formatUint32 c.InstanceID
  else if name = "Status" then f.formatInt32 c.Status
  else if name = "AdditionalStatus" then joinStrings (CIP.additional f c) ""
  else if name = "Data" then hexEncodeToString c.Data
  else if name = "SrcIP" then c.SrcIP
  else if name = "DstIP" then c.DstIP
  else if name = "SrcPort" then f.formatInt32 c.SrcPort
  else if name = "DstPort" then f.formatInt32 c.DstPort
  else ""

/-- The audit record `types.DHCPv4`, with the fields that `types/dhcp4.go` reads.
The record type is generated protobuf code outside the sources; `Timestamp`
is an `int64`, and the other fields have the types that the comments of
`fieldsDHCPv4` and the formatting calls of `CSVRecord` give them. The elements of
`Options` are records: a `nil` pointer among them is not a value of the
model. -/
structure DHCPv4 where
  Timestamp : Int := 0
  Operation : Int := 0
  HardwareType : Int := 0
  HardwareLen : Int := 0
  HardwareOpts : Int := 0
  Xid : Nat := 0
  Secs : Int := 0
  Flags : Int := 0
  ClientIP : String := ""
  YourClientIP : String := ""
  NextServerIP : String := ""
  RelayAgentIP : String := ""
  ClientHWAddr : String := ""
  ServerName : List UInt8 := []
  File : List UInt8 := []
  Options : List DHCPOption := []
  SrcIP : String := ""
  DstIP : String := ""
  SrcPort : Int := 0
  DstPort : Int := 0
deriving DecidableEq, Repr

/-- The field names `fieldsDHCPv4`. -/
def fieldsDHCPv4 : List String :=
  ["Timestamp", "Operation", "HardwareType", "HardwareLen", "HardwareOpts", "Xid", "Secs",
  "Flags", "ClientIP", "YourClientIP", "NextServerIP", "RelayAgentIP", "ClientHWAddr",
  "ServerName", "File", "Options", "SrcIP", "DstIP", "SrcPort", "DstPort"]

/-- The slice that `DHCPv4.CSVRecord` hands to `filter`. -/
def DHCPv4.record (f : Formats) (d : DHCPv4) : List String :=
  [f.formatTimestamp d.Timestamp,
    f.formatInt32 d.Operation,
    f.formatInt32 d.HardwareType,
    f.formatInt32 d.HardwareLen,
    f.formatInt32 d.HardwareOpts,
    f.formatUint32 d.Xid,
    f.formatInt32 d.Secs,
    f.formatInt32 d.Flags,
    d.ClientIP,
    d.YourClientIP,
    d.NextServerIP,
    d.RelayAgentIP,
    d.ClientHWAddr,
    hexEncodeToString d.ServerName,
    hexEncodeToString d.File,
    joinStrings (d.Options.map (DHCPOption.toString f)) "",
    d.SrcIP,
    d.DstIP,
    f.formatInt32 d.SrcPort,
    f.formatInt32 d.DstPort]

/-- `DHCPv4.CSVHeader`. -/
def DHCPv4.CSVHeader (f : Formats) : List String :=
  f.filter fieldsDHCPv4

/-- `DHCPv4.CSVRecord`. -/
def DHCPv4.CSVRecord (f : Formats) (d : DHCPv4) : List String :=
  f.filter (DHCPv4.record f d)

/-- `DHCPv4.Time`. -/
def DHCPv4.Time (d : DHCPv4) : Int :=
  d.Timestamp

/-- `DHCPv4.JSON`: the record after the call, which converts in place, and what
`jsonMarshaler.MarshalToString` makes of it. Dividing an `int64` by 1000000
cannot overflow. -/
def DHCPv4.JSON (marshal : DHCPv4 → String × Option String) (d : DHCPv4) :
    DHCPv4 × (String × Option String) :=
  let d1 := { d with Timestamp := Int.tdiv d.Timestamp timeMillisecond }
  (d1, marshal d1)

/-- The text of the field of a name in the CSV record of a `DHCPv4`: the field,
formatted as its type is. -/
def DHCPv4.fieldText (f : Formats) (d : DHCPv4) (name : String) : String :=
  if name = "Timestamp" then f.formatTimestamp d.Timestamp
  else if name = "Operation" then f.formatInt32 d.Operation
  else if name = "HardwareType" then f.formatInt32 d.HardwareType
  else if name = "HardwareLen" then f.formatInt32 d.HardwareLen
  else if name = "HardwareOpts" then f.formatInt32 d.HardwareOpts
  else if name = "Xid" then f.formatUint32 d.Xid
  else if name = "Secs" then f.formatInt32 d.Secs
  else if name = "Flags" then f.formatInt32 d.Flags
  else if name = "ClientIP" then d.ClientIP
  else if name = "YourClientIP" then d.YourClientIP
  else if name = "NextServerIP" then d.NextServerIP
  else if name = "RelayAgentIP" then d.RelayAgentIP
  else if name = "ClientHWAddr" then d.ClientHWAddr
  else if name = "ServerName" then hexEncodeToString d.ServerName
  else if name = "File" then hexEncodeToString d.File
  else if name = "Options" then joinStrings (d.Options.map (DHCPOption.toString f)) ""
  else if name = "SrcIP" then d.SrcIP
  else if name = "DstIP" then d.DstIP
  else if name = "SrcPort" then f.formatInt32 d.SrcPort
  else if name = "DstPort" then f.formatInt32 d.DstPort
  else ""

/-- The audit record `types.ICMPv6Echo`, with the fields that `types/icmp6e.go` reads.
The record type is generated protobuf code outside the sources; `Timestamp`
is an `int64`, and the other fields have the types that the comments of
`fieldsICMPv6Echo` and the formatting calls of `CSVRecord` give them. -/
structure ICMPv6Echo where
  Timestamp : Int := 0
  Identifier : Int := 0
  SeqNumber : Int := 0
  SrcIP : String := ""
  DstIP : String := ""
deriving DecidableEq, Repr

/-- The field names `fieldsICMPv6Echo`. -/
def fieldsICMPv6Echo : List String :=
  ["Timestamp", "Identifier", "SeqNumber", "SrcIP", "DstIP"]

/-- The slice that `ICMPv6Echo.CSVRecord` hands to `filter`. -/
def ICMPv6Echo.record (f : Formats) (i : ICMPv6Echo) : List String :=
  [f.formatTimestamp i.Timestamp,
    f.formatInt32 i.Identifier,
    f.formatInt32 i.SeqNumber,
    i.SrcIP,
    i.DstIP]

/-- `ICMPv6Echo.CSVHeader`. -/
def ICMPv6Echo.CSVHeader (f : Formats) : List String :=
  f.filter fieldsICMPv6Echo

/-- `ICMPv6Echo.CSVRecord`. -/
def ICMPv6Echo.CSVRecord (f : Formats) (i : ICMPv6Echo) : List String :=
  f.filter (ICMPv6Echo.record f i)

/-- `ICMPv6Echo.Time`. -/
def ICMPv6Echo.Time (i : ICMPv6Echo) : Int :=
  i.Timestamp

/-- `ICMPv6Echo.JSON`: the record after the call, which converts in place, and what
`jsonMarshaler.MarshalToString` makes of it. Dividing an `int64` by 1000000
cannot overflow. -/
def ICMPv6Echo.JSON (marshal : ICMPv6Echo → String × Option String) (i : ICMPv6Echo) :
    ICMPv6Echo × (String × Option String) :=
  let i1 := { i with Timestamp := Int.tdiv i.Timestamp timeMillisecond }
  (i1, marshal i1)

/-- The text of the field of a name in the CSV record of a `ICMPv6Echo`: the field,
formatted as its type is. -/
def ICMPv6Echo.fieldText (f : Formats) (i : ICMPv6Echo) (name : String) : String :=
  if name = "Timestamp" then f.formatTimestamp i.Timestamp
  else if name = "Identifier" then f.formatInt32 i.Identifier
  else if name = "SeqNumber" then f.formatInt32 i.SeqNumber
  else if name = "SrcIP" then i.SrcIP
  else if name = "DstIP" then i.DstIP
  else ""

/-- The audit record `types.ICMPv6RouterSolicitation`, with the fields that `types/icmp6rs.go` reads.
The record type is generated protobuf code outside the sources; `Timestamp`
is an `int64`, and the other fields have the types that the comments of
`fieldsICMPv6RouterSolicitation` and the formatting calls of `CSVRecord` give them. The elements of
`Options` are records: a `nil` pointer among them is not a value of the
model. -/
structure ICMPv6RouterSolicitation where
  Timestamp : Int := 0
  Options : List ICMPv6Option := []
  SrcIP : String := ""
  DstIP : String := ""
deriving DecidableEq, Repr

/-- The field names `fieldsICMPv6RouterSolicitation`. -/
def fieldsICMPv6RouterSolicitation : List String :=
  ["Timestamp", "Options", "SrcIP", "DstIP"]

/-- The slice that `ICMPv6RouterSolicitation.CSVRecord` hands to `filter`. -/
def ICMPv6RouterSolicitation.record (f : Formats) (i : ICMPv6RouterSolicitation) : List String :=
  [f.formatTimestamp i.Timestamp,
    joinStrings (i.Options.map (ICMPv6Option.toString f)) "",
    i.SrcIP,
    i.DstIP]

/-- `ICMPv6RouterSolicitation.CSVHeader`. -/
def ICMPv6RouterSolicitation.CSVHeader (f : Formats) : List String :=
  f.filter fieldsICMPv6RouterSolicitation

/-- `ICMPv6RouterSolicitation.CSVRecord`. -/
def ICMPv6RouterSolicitation.CSVRecord (f : Formats) (i : ICMPv6RouterSolicitation) : List String :=
  f.filter (ICMPv6RouterSolicitation.record f i)

/-- `ICMPv6RouterSolicitation.Time`. -/
def ICMPv6RouterSolicitation.Time (i : ICMPv6RouterSolicitation) : Int :=
  i.Timestamp

/-- `ICMPv6RouterSolicitation.JSON`: the record after the call, which converts in place, and what
`jsonMarshaler.MarshalToString` makes of it. Dividing an `int64` by 1000000
cannot overflow. -/
def ICMPv6RouterSolicitation.JSON (marshal : ICMPv6RouterSolicitation → String × Option String) (i : ICMPv6RouterSolicitation) :
    ICMPv6RouterSolicitation × (String × Option String) :=
  let i1 := { i with Timestamp := Int.tdiv i.Timestamp timeMillisecond }
  (i1, marshal i1)

/-- The text of the field of a name in the CSV record of a `ICMPv6RouterSolicitation`: the field,
formatted as its type is. -/
def ICMPv6RouterSolicitation.fieldText (f : Formats) (i : ICMPv6RouterSolicitation) (name : String) : String :=
  if name = "Timestamp" then f.formatTimestamp i.Timestamp
  else if name = "Options" then joinStrings (i.Options.map (ICMPv6Option.toString f)) ""
  else if name = "SrcIP" then i.SrcIP
  else if name = "DstIP" then i.DstIP
  else ""

/-- The audit record `types.LCM`, with the fields that `types/lcm.go` reads.
The record type is generated protobuf code outside the sources; `Timestamp`
is an `int64`, and the other fields have the types that the comments of
`fieldsLCM` and the formatting calls of `CSVRecord` give them. -/
structure LCM where
  Timestamp : Int := 0
  Magic : Int := 0
  SequenceNumber : Int := 0
  PayloadSize : Int := 0
  FragmentOffset : Int := 0
  FragmentNumber : Int := 0
  TotalFragments : Int := 0
  ChannelName : String := ""
  Fragmented : Bool := false
  SrcIP : String := ""
  DstIP : String := ""
  SrcPort : Int := 0
  DstPort : Int := 0
deriving DecidableEq, Repr

/-- The field names `fieldsLCM`. -/
def fieldsLCM : List String :=
  ["Timestamp", "Magic", "SequenceNumber", "PayloadSize", "FragmentOffset", "FragmentNumber",
  "TotalFragments", "ChannelName", "Fragmented", "SrcIP", "DstIP", "SrcPort", "DstPort"]

/-- The slice that `LCM.CSVRecord` hands to `filter`. -/
def LCM.record (f : Formats) (l : LCM) : List String :=
  [f.formatTimestamp l.Timestamp,
    f.formatInt32 l.Magic,
    f.formatInt32 l.SequenceNumber,
    f.formatInt32 l.PayloadSize,
    f.formatInt32 l.FragmentOffset,
    f.formatInt32 l.FragmentNumber,
    f.formatInt32 l.TotalFragments,
    l.ChannelName,
    strconvFormatBool l.Fragmented,
    l.SrcIP,
    l.DstIP,
    f.formatInt32 l.SrcPort,
    f.formatInt32 l.DstPort]

/-- `LCM.CSVHeader`. -/
def LCM.CSVHeader (f : Formats) : List String :=
  f.filter fieldsLCM

/-- `LCM.CSVRecord`. -/
def LCM.CSVRecord (f : Formats) (l : LCM) : List String :=
  f.filter (LCM.record f l)

/-- `LCM.Time`. -/
def LCM.Time (l : LCM) : Int :=
  l.Timestamp

/-- `LCM.JSON`: the record after the call, which converts in place, and what
`jsonMarshaler.MarshalToString` makes of it. Dividing an `int64` by 1000000
cannot overflow. -/
def LCM.JSON (marshal : LCM → String × Option String) (l : LCM) :
    LCM × (String × Option String) :=
  let l1 := { l with Timestamp := Int.tdiv l.Timestamp timeMillisecond }
  (l1, marshal l1)

/-- The text of the field of a name in the CSV record of a `LCM`: the field,
formatted as its type is. -/
def LCM.fieldText (f : Formats) (l : LCM) (name : String) : String :=
  if name = "Timestamp" then f.formatTimestamp l.Timestamp
  else if name = "Magic" then f.formatInt32 l.Magic
  else if name = "SequenceNumber" then f.formatInt32 l.SequenceNumber
  else if name = "PayloadSize" then f.formatInt32 l.PayloadSize
  else if name = "FragmentOffset" then f.formatInt32 l.FragmentOffset
  else if name = "FragmentNumber" then f.formatInt32 l.FragmentNumber
  else if name = "TotalFragments" then f.formatInt32 l.TotalFragments
  else if name = "ChannelName" then l.ChannelName
  else if name = "Fragmented" then strconvFormatBool l.Fragmented
  else if name = "SrcIP" then l.SrcIP
  else if name = "DstIP" then l.DstIP
  else if name = "SrcPort" then f.formatInt32 l.SrcPort
  else if name = "DstPort" then f.formatInt32 l.DstPort
  else ""

/-- The audit record `types.Modbus`, with the fields that `types/modbus.go` reads.
The record type is generated protobuf code outside the sources; `Timestamp`
is an `int64`, and the other fields have the types that the comments of
`fieldsModbus` and the formatting calls of `CSVRecord` give them. -/
structure Modbus where
  Timestamp : Int := 0
  TransactionID : Int := 0
  ProtocolID : Int := 0
  Length : Int := 0
  UnitID : Int := 0
  Payload : List UInt8 := []
  Exception : Bool := false
  FunctionCode : Int := 0
  SrcIP : String := ""
  DstIP : String := ""
  SrcPort : Int := 0
  DstPort : Int := 0
deriving DecidableEq, Repr

/-- The field names `fieldsModbus`. -/
def fieldsModbus : List String :=
  ["Timestamp", "TransactionID", "ProtocolID", "Length", "UnitID", "Payload", "Exception",
  "FunctionCode", "SrcIP", "DstIP", "SrcPort", "DstPort"]

/-- The slice that `Modbus.CSVRecord` hands to `filter`. -/
def Modbus.record (f : Formats) (m : Modbus) : List String :=
  [f.formatTimestamp m.Timestamp,
    f.formatInt32 m.TransactionID,
    f.formatInt32 m.ProtocolID,
    f.formatInt32 m.Length,
    f.formatInt32 m.UnitID,
    hexEncodeToString m.Payload,
    strconvFormatBool m.Exception,
    f.formatInt32 m.FunctionCode,
    m.SrcIP,
    m.DstIP,
    f.formatInt32 m.SrcPort,
    f.formatInt32 m.DstPort]

/-- `Modbus.CSVHeader`. -/
def Modbus.CSVHeader (f : Formats) : List String :=
  f.filter fieldsModbus

/-- `Modbus.CSVRecord`. -/
def Modbus.CSVRecord (f : Formats) (m : Modbus) : List String :=
  f.filter (Modbus.record f m)

/-- `Modbus.Time`. -/
def Modbus.Time (m : Modbus) : Int :=
  m.Timestamp

/-- `Modbus.JSON`: the record after the call, which converts in place, and what
`jsonMarshaler.MarshalToString` makes of it. Dividing an `int64` by 1000000
cannot overflow. -/
def Modbus.JSON (marshal : Modbus → String × Option String) (m : Modbus) :
    Modbus × (String × Option String) :=
  let m1 := { m with Timestamp := Int.tdiv m.Timestamp timeMillisecond }
  (m1, marshal m1)

/-- The text of the field of a name in the CSV record of a `Modbus`: the field,
formatted as its type is. -/
def Modbus.fieldText (f : Formats) (m : Modbus) (name : String) : String :=
  if name = "Timestamp" then f.formatTimestamp m.Timestamp
  else if name = "TransactionID" then f.formatInt32 m.TransactionID
  else if name = "ProtocolID" then f.formatInt32 m.ProtocolID
  else if name = "Length" then f.formatInt32 m.Length
  else if name = "UnitID" then f.formatInt32 m.UnitID
  else if name = "Payload" then hexEncodeToString m.Payload
  else if name = "Exception" then strconvFormatBool m.Exception
  else if name = "FunctionCode" then f.formatInt32 m.FunctionCode
  else if name = "SrcIP" then m.SrcIP
  else if name = "DstIP" then m.DstIP
  else if name = "SrcPort" then f.formatInt32 m.SrcPort
  else if name = "DstPort" then f.formatInt32 m.DstPort
  else ""

/-- The audit record `types.NTP`, with the fields that `types/ntp.go` reads.
The record type is generated protobuf code outside the sources; `Timestamp`
is an `int64`, and the other fields have the types that the comments of
`fieldsNTP` and the formatting calls of `CSVRecord` give them. -/
structure NTP where
  Timestamp : Int := 0
  LeapIndicator : Int := 0
  Version : Int := 0
  Mode : Int := 0
  Stratum : Int := 0
  Poll : Int := 0
  Precision : Int := 0
  RootDelay : Nat := 0
  RootDispersion : Nat := 0
  ReferenceID : Nat := 0
  ReferenceTimestamp : Nat := 0
  OriginTimestamp : Nat := 0
  ReceiveTimestamp : Nat := 0
  TransmitTimestamp : Nat := 0
  ExtensionBytes : List UInt8 := []
  SrcIP : String := ""
  DstIP : String := ""
  SrcPort : Int := 0
  DstPort : Int := 0
deriving DecidableEq, Repr

/-- The field names `fieldsNTP`. -/
def fieldsNTP : List String :=
  ["Timestamp", "LeapIndicator", "Version", "Mode", "Stratum", "Poll", "Precision",
  "RootDelay", "RootDispersion", "ReferenceID", "ReferenceTimestamp", "OriginTimestamp",
  "ReceiveTimestamp", "TransmitTimestamp", "ExtensionBytes", "SrcIP", "DstIP", "SrcPort",
  "DstPort"]

/-- The slice that `NTP.CSVRecord` hands to `filter`. -/
def NTP.record (f : Formats) (n : NTP) : List String :=
  [f.formatTimestamp n.Timestamp,
    f.formatInt32 n.LeapIndicator,
    f.formatInt32 n.Version,
    f.formatInt32 n.Mode,
    f.formatInt32 n.Stratum,
    f.formatInt32 n.Poll,
    f.formatInt32 n.Precision,
    strconvFormatUint n.RootDelay,
    strconvFormatUint n.RootDispersion,
    strconvFormatUint n.ReferenceID,
    strconvFormatUint n.ReferenceTimestamp,
    strconvFormatUint n.OriginTimestamp,
    strconvFormatUint n.ReceiveTimestamp,
    strconvFormatUint n.TransmitTimestamp,
    hexEncodeToString n.ExtensionBytes,
    n.SrcIP,
    n.DstIP,
    f.formatInt32 n.SrcPort,
    f.formatInt32 n.DstPort]

/-- `NTP.CSVHeader`. -/
def NTP.CSVHeader (f : Formats) : List String :=
  f.filter fieldsNTP

/-- `NTP.CSVRecord`. -/
def NTP.CSVRecord (f : Formats) (n : NTP) : List String :=
  f.filter (NTP.record f n)

/-- `NTP.Time`. -/
def NTP.Time (n : NTP) : Int :=
  n.Timestamp

/-- `NTP.JSON`: the record after the call, which converts in place, and what
`jsonMarshaler.MarshalToString` makes of it. Dividing an `int64` by 1000000
cannot overflow. -/
def NTP.JSON (marshal : NTP → String × Option String) (n : NTP) :
    NTP × (String × Option String) :=
  let n1 := { n with Timestamp := Int.tdiv n.Timestamp timeMillisecond }
  let n2 := { n1 with ReferenceTimestamp := n1.ReferenceTimestamp / timeMillisecond }
  (n2, marshal n2)

/-- The text of the field of a name in the CSV record of a `NTP`: the field,
formatted as its type is. -/
def NTP.fieldText (f : Formats) (n : NTP) (name : String) : String :=
  if name = "Timestamp" then f.formatTimestamp n.Timestamp
  else if name = "LeapIndicator" then f.formatInt32 n.LeapIndicator
  else if name = "Version" then f.formatInt32 n.Version
  else if name = "Mode" then f.formatInt32 n.Mode
  else if name = "Stratum" then f.formatInt32 n.Stratum
  else if name = "Poll" then f.formatInt32 n.Poll
  else if name = "Precision" then f.formatInt32 n.Precision
  else if name = "RootDelay" then strconvFormatUint n.RootDelay
  else if name = "RootDispersion" then strconvFormatUint n.RootDispersion
  else if name = "ReferenceID" then strconvFormatUint n.ReferenceID
  else if name = "ReferenceTimestamp" then strconvFormatUint n.ReferenceTimestamp
  else if name = "OriginTimestamp" then strconvFormatUint n.OriginTimestamp
  else if name = "ReceiveTimestamp" then strconvFormatUint n.ReceiveTimestamp
  else if name = "TransmitTimestamp" then strconvFormatUint n.TransmitTimestamp
  else if name = "ExtensionBytes" then hexEncodeToString n.ExtensionBytes
  else if name = "SrcIP" then n.SrcIP
  else if name = "DstIP" then n.DstIP
  else if name = "SrcPort" then f.formatInt32 n.SrcPort
  else if name = "DstPort" then f.formatInt32 n.DstPort
  else ""

/-- The commands whose reply has several lines and ends with a `.`; every other
request is answered by a single line. -/
def multiLineCommand (cmd : GoString) : Bool :=
  decide (cmd = goStr "CAPA") || decide (cmd = goStr "LIST") || decide (cmd = goStr "UIDL") ||
    decide (cmd = goStr "RETR")

/-- A session in which the server refuses the user and accepts `AUTH`: the
lines of the client. The line after `AUTH PLAIN` carries the credentials. -/
def tokenClientLines : List GoString :=
  [goStr "USER alice", goStr "AUTH PLAIN", goStr "dGVzdA== extra", goStr "STAT", goStr "QUIT"]

/-- The lines of the server for `tokenClientLines`. -/
def tokenServerLines : List GoString :=
  [goStr "+OK POP server ready", goStr "-ERR", goStr "+OK", goStr "+OK", goStr "+OK 1 120",
    goStr "+OK"]

/-- A session in which the client asks for the capabilities before `AUTH`: the
lines of the client. -/
def capaAuthClientLines : List GoString :=
  [goStr "CAPA", goStr "AUTH PLAIN", goStr "dGVzdA==", goStr "QUIT"]

/-- The lines of the server for `capaAuthClientLines`: the capabilities, `+OK`
to `AUTH PLAIN`, `-ERR` to the line after it and `+OK` to `QUIT`. -/
def capaAuthServerLines : List GoString :=
  [goStr "+OK POP server ready", goStr "+OK", goStr "SASL PLAIN", goStr ".", goStr "+OK",
    goStr "-ERR", goStr "+OK"]

/-- The lines of the server in a session of the client lines of E3 in which
the answer to `PASS` has text after its status word. -/
def textStatusServerLines : List GoString :=
  [goStr "+OK POP server ready", goStr "+OK", goStr "+OK Subject: welcome", goStr "+OK",
    goStr "Envelope-To: a@b", goStr "hello", goStr "."]

/-! ## Arithmetic of the conversions -/

theorem wrapInt32_add_wrapInt32 (a b : Int) :
    wrapInt32 (a + wrapInt32 b) = wrapInt32 (a + b) := by
  unfold wrapInt32
  omega

theorem wrapInt32_wrapInt32_add (a b : Int) :
    wrapInt32 (wrapInt32 a + b) = wrapInt32 (a + b) := by
  unfold wrapInt32
  omega

theorem wrapInt32_eq_self (x : Int) (h1 : -2147483648 ≤ x) (h2 : x < 2147483648) :
    wrapInt32 x = x := by
  unfold wrapInt32
  omega

/-! ## The table -/

theorem get?_some_mem (m : ConnItems) (key : String) (c : Connection)
    (h : m.get? key = some c) : (key, c) ∈ m := by
  induction m with
  | nil => simp [ConnItems.get?] at h
  | cons e rest ih =>
    obtain ⟨k, c0⟩ := e
    by_cases hk : k = key
    · simp [ConnItems.get?, hk] at h
      simp [hk, h]
    · simp [ConnItems.get?, hk] at h
      exact List.mem_cons_of_mem _ (ih h)

theorem get?_eq_none_iff (m : ConnItems) (key : String) :
    m.get? key = none ↔ key ∉ m.keys := by
  induction m with
  | nil => simp [ConnItems.get?, ConnItems.keys]
  | cons e rest ih =>
    obtain ⟨k, c0⟩ := e
    by_cases hk : k = key
    · simp [ConnItems.get?, ConnItems.keys, hk]
    · have hk2 : ¬ key = k := fun h => hk h.symm
      simp only [ConnItems.keys] at ih
      simp [ConnItems.get?, ConnItems.keys, hk, hk2, ih]

theorem get?_set (m : ConnItems) (key : String) (c2 : Connection) (key2 : String) :
    (m.set key c2).get? key2 =
      if key = key2 then (m.get? key2).map (fun _ => c2) else m.get? key2 := by
  induction m with
  | nil => simp [ConnItems.set, ConnItems.get?]
  | cons e rest ih =>
    obtain ⟨k, c0⟩ := e
    by_cases hk : k = key
    · subst hk
      by_cases h2 : k = key2
      · simp [ConnItems.set, ConnItems.get?, h2]
      · simp [ConnItems.set, ConnItems.get?, h2]
    · by_cases h2 : k = key2
      · subst h2
        have hk2 : ¬ key = k := fun h => hk h.symm
        simp [ConnItems.set, ConnItems.get?, hk, hk2]
      · simp [ConnItems.set, ConnItems.get?, hk, h2, ih]

theorem get?_append_singleton (m : ConnItems) (key : String) (c : Connection) (key2 : String) :
    (m ++ [(key, c)]).get? key2 =
      match m.get? key2 with
      | some x => some x
      | none => if key = key2 then some c else none := by
  induction m with
  | nil => simp [ConnItems.get?]
  | cons e rest ih =>
    obtain ⟨k, c0⟩ := e
    by_cases h2 : k = key2
    · simp [ConnItems.get?, h2]
    · simp only [List.cons_append, ConnItems.get?, h2, if_false]
      exact ih

theorem keys_set (m : ConnItems) (key : String) (c2 : Connection) :
    (m.set key c2).keys = m.keys := by
  induction m with
  | nil => simp [ConnItems.set]
  | cons e rest ih =>
    obtain ⟨k, c0⟩ := e
    by_cases hk : k = key
    · simp [ConnItems.set, ConnItems.keys, hk]
    · simp only [ConnItems.keys] at ih
      simp [ConnItems.set, ConnItems.keys, hk, ih]

theorem mem_set (m : ConnItems) (key : String) (c2 : Connection) (e : String × Connection)
    (h : e ∈ m.set key c2) : e ∈ m ∨ e = (key, c2) := by
  induction m with
  | nil => simp [ConnItems.set] at h
  | cons e0 rest ih =>
    obtain ⟨k, c0⟩ := e0
    by_cases hk : k = key
    · simp only [ConnItems.set, hk, if_true, List.mem_cons] at h
      rcases h with h | h
      · exact Or.inr h
      · exact Or.inl (List.mem_cons_of_mem _ h)
    · simp only [ConnItems.set, hk, if_false, List.mem_cons] at h
      rcases h with h | h
      · exact Or.inl (by simp [h])
      · rcases ih h with h3 | h3
        · exact Or.inl (List.mem_cons_of_mem _ h3)
        · exact Or.inr h3

/-- What a call of `handlePacket` leaves under each key: the entry of the
packet's own key is created or updated, every other key keeps what it had. -/
theorem get?_handlePacket (m : ConnItems) (p : Packet) (key : String) :
    (handlePacket m p).1.get? key =
      if packetKey p = key then
        some (match m.get? key with
          | some c => updateConnection c p
          | none => newConnection p)
      else m.get? key := by
  by_cases hk : packetKey p = key
  · subst hk
    cases hg : m.get? (packetKey p) with
    | none => simp [handlePacket, get?_append_singleton, hg]
    | some c => simp [handlePacket, get?_set, hg]
  · cases hg : m.get? (packetKey p) with
    | none =>
      simp only [handlePacket, hg, get?_append_singleton, hk, if_false]
      cases m.get? key <;> rfl
    | some c => simp [handlePacket, hg, get?_set, hk]

theorem processFrom_append (m : ConnItems) (ps qs : List Packet) :
    processFrom m (ps ++ qs) = processFrom (processFrom m ps) qs := by
  simp [processFrom, List.foldl_append]

theorem processPackets_append_singleton (ps : List Packet) (p : Packet) :
    processPackets (ps ++ [p]) = (handlePacket (processPackets ps) p).1 := by
  simp [processPackets, processFrom, List.foldl_append]

theorem connectionOf_append_singleton (l : List Packet) (p : Packet) :
    connectionOf (l ++ [p]) =
      some (match connectionOf l with
        | some c => updateConnection c p
        | none => newConnection p) := by
  cases l with
  | nil => simp [connectionOf]
  | cons q rest => simp [connectionOf, List.foldl_append]

/-- The entry under a key after a capture is the one built from the packets of
that key alone. -/
theorem get?_processPackets (ps : List Packet) (key : String) :
    (processPackets ps).get? key = connectionOf (packetsOfKey key ps) := by
  induction ps using List.reverseRecOn with
  | nil => simp [processPackets, processFrom, packetsOfKey, connectionOf, ConnItems.get?]
  | append_singleton xs x ih =>
    rw [processPackets_append_singleton, get?_handlePacket]
    by_cases hk : packetKey x = key
    · have hf : packetsOfKey key (xs ++ [x]) = packetsOfKey key xs ++ [x] := by
        simp [packetsOfKey, List.filter_append, hk]
      rw [hf, connectionOf_append_singleton, ih]
      simp [hk]
    · have hf : packetsOfKey key (xs ++ [x]) = packetsOfKey key xs := by
        simp [packetsOfKey, List.filter_append, hk]
      rw [hf, ih]
      simp [hk]

theorem keys_handlePacket (m : ConnItems) (p : Packet) :
    (handlePacket m p).1.keys =
      if packetKey p ∈ m.keys then m.keys else m.keys ++ [packetKey p] := by
  cases hg : m.get? (packetKey p) with
  | none =>
    have hn : packetKey p ∉ m.keys := (get?_eq_none_iff m _).1 hg
    rw [if_neg hn]
    simp [handlePacket, hg, ConnItems.keys]
  | some c =>
    have hn : packetKey p ∈ m.keys := by
      by_contra hc
      rw [(get?_eq_none_iff m _).2 hc] at hg
      exact Option.noConfusion hg
    simp [handlePacket, hg, hn, keys_set]

theorem firstKeys_append_singleton (ks : List String) (k : String) :
    firstKeys (ks ++ [k]) =
      if k ∈ firstKeys ks then firstKeys ks else firstKeys ks ++ [k] := by
  simp [firstKeys, List.foldl_append]

/-- The keys of the table after a capture are the distinct keys of its
packets, in the order of their first occurrence. -/
theorem keys_processPackets (ps : List Packet) :
    (processPackets ps).keys = firstKeys (ps.map packetKey) := by
  induction ps using List.reverseRecOn with
  | nil => simp [processPackets, processFrom, firstKeys, ConnItems.keys]
  | append_singleton xs x ih =>
    rw [processPackets_append_singleton, keys_handlePacket, List.map_append, List.map_singleton,
      firstKeys_append_singleton, ih]

theorem nodup_firstKeys (ks : List String) : (firstKeys ks).Nodup := by
  induction ks using List.reverseRecOn with
  | nil => simp [firstKeys]
  | append_singleton xs x ih =>
    rw [firstKeys_append_singleton]
    by_cases h : x ∈ firstKeys xs
    · simp [h, ih]
    · simp only [h, if_false]
      exact List.Nodup.append ih (List.nodup_singleton x) (by simpa using h)

theorem mem_firstKeys (ks : List String) : ∀ k : String, k ∈ firstKeys ks ↔ k ∈ ks := by
  induction ks using List.reverseRecOn with
  | nil => simp [firstKeys]
  | append_singleton xs x ih =>
    intro k
    rw [firstKeys_append_singleton]
    by_cases h : x ∈ firstKeys xs
    · simp only [h, if_true, List.mem_append, List.mem_singleton, ih]
      constructor
      · intro h1
        exact Or.inl h1
      · rintro (h1 | h1)
        · exact h1
        · rw [h1]
          exact (ih x).1 h
    · simp [h, ih]

theorem nodup_keys_processPackets (ps : List Packet) : (processPackets ps).keys.Nodup := by
  rw [keys_processPackets]
  exact nodup_firstKeys _

theorem get?_of_mem_of_nodup (m : ConnItems) (h : m.keys.Nodup) (key : String) (c : Connection)
    (hm : (key, c) ∈ m) : m.get? key = some c := by
  induction m with
  | nil => simp at hm
  | cons e rest ih =>
    obtain ⟨k, c0⟩ := e
    simp only [ConnItems.keys, List.map_cons, List.nodup_cons] at h
    simp only [List.mem_cons, Prod.mk.injEq] at hm
    rcases hm with ⟨h1, h2⟩ | hm
    · simp [ConnItems.get?, h1, h2]
    · have hk : ¬ k = key := by
        intro hk
        apply h.1
        rw [hk]
        exact List.mem_map.2 ⟨(key, c), hm, rfl⟩
      simp only [ConnItems.get?, hk, if_false]
      exact ih h.2 hm

/-- An entry of the table after a capture is the entry built from the packets
of its key. -/
theorem connectionOf_of_mem (ps : List Packet) (key : String) (c : Connection)
    (h : (key, c) ∈ processPackets ps) : connectionOf (packetsOfKey key ps) = some c := by
  rw [← get?_processPackets]
  exact get?_of_mem_of_nodup _ (nodup_keys_processPackets ps) key c h

/-! ## The fields after an update -/

theorem updateConnection_TimestampFirst (c : Connection) (p : Packet) :
    (updateConnection c p).TimestampFirst =
      if p.Timestamp < c.TimestampFirst then p.Timestamp else c.TimestampFirst := by
  cases hl : p.LinkLayer <;> cases hn : p.NetworkLayer <;> cases ht : p.TransportLayer <;>
    cases ha : p.ApplicationLayer <;>
    simp only [updateConnection, hl, hn, ht, ha] <;> split_ifs <;> rfl

theorem updateConnection_TimestampLast (c : Connection) (p : Packet) :
    (updateConnection c p).TimestampLast =
      if c.TimestampLast < p.Timestamp then p.Timestamp else c.TimestampLast := by
  cases hl : p.LinkLayer <;> cases hn : p.NetworkLayer <;> cases ht : p.TransportLayer <;>
    cases ha : p.ApplicationLayer <;>
    simp only [updateConnection, hl, hn, ht, ha] <;> split_ifs <;> rfl

theorem updateConnection_NumPackets (c : Connection) (p : Packet) :
    (updateConnection c p).NumPackets = wrapInt32 (c.NumPackets + 1) := by
  cases hl : p.LinkLayer <;> cases hn : p.NetworkLayer <;> cases ht : p.TransportLayer <;>
    cases ha : p.ApplicationLayer <;>
    simp only [updateConnection, hl, hn, ht, ha] <;> split_ifs <;> rfl

theorem updateConnection_TotalSize (c : Connection) (p : Packet) :
    (updateConnection c p).TotalSize = wrapInt32 (c.TotalSize + wrapInt32 p.Length) := by
  cases hl : p.LinkLayer <;> cases hn : p.NetworkLayer <;> cases ht : p.TransportLayer <;>
    cases ha : p.ApplicationLayer <;>
    simp only [updateConnection, hl, hn, ht, ha] <;> split_ifs <;> rfl

theorem updateConnection_AppPayloadSize (c : Connection) (p : Packet) :
    (updateConnection c p).AppPayloadSize =
      if p.ApplicationLayer.isSome then wrapInt32 (c.AppPayloadSize + appPayloadLen p)
      else c.AppPayloadSize := by
  cases hl : p.LinkLayer <;> cases hn : p.NetworkLayer <;> cases ht : p.TransportLayer <;>
    cases ha : p.ApplicationLayer <;>
    simp only [updateConnection, appPayloadLen, hl, hn, ht, ha] <;> split_ifs <;> simp_all

theorem updateConnection_UID (c : Connection) (p : Packet) :
    (updateConnection c p).UID = c.UID := by
  cases hl : p.LinkLayer <;> cases hn : p.NetworkLayer <;> cases ht : p.TransportLayer <;>
    cases ha : p.ApplicationLayer <;>
    simp only [updateConnection, hl, hn, ht, ha] <;> split_ifs <;> rfl

theorem updateConnection_Duration (c : Connection) (p : Packet) :
    (updateConnection c p).Duration = c.Duration := by
  cases hl : p.LinkLayer <;> cases hn : p.NetworkLayer <;> cases ht : p.TransportLayer <;>
    cases ha : p.ApplicationLayer <;>
    simp only [updateConnection, hl, hn, ht, ha] <;> split_ifs <;> rfl

theorem updateConnection_protoNames (c : Connection) (p : Packet) :
    protoNames (updateConnection c p) = protoNames c := by
  cases hl : p.LinkLayer <;> cases hn : p.NetworkLayer <;> cases ht : p.TransportLayer <;>
    cases ha : p.ApplicationLayer <;>
    simp only [updateConnection, protoNames, hl, hn, ht, ha] <;> split_ifs <;> rfl

theorem updateConnection_endpoints_of_not_lt (c : Connection) (p : Packet)
    (h : ¬ p.Timestamp < c.TimestampFirst) :
    endpoints (updateConnection c p) = endpoints c := by
  cases hl : p.LinkLayer <;> cases hn : p.NetworkLayer <;> cases ht : p.TransportLayer <;>
    cases ha : p.ApplicationLayer <;>
    simp only [updateConnection, endpoints, hl, hn, ht, ha, h, if_false] <;> split_ifs <;> rfl

theorem newConnection_TimestampFirst (p : Packet) :
    (newConnection p).TimestampFirst = p.Timestamp := by
  cases hl : p.LinkLayer <;> cases hn : p.NetworkLayer <;> cases ht : p.TransportLayer <;>
    cases ha : p.ApplicationLayer <;> simp only [newConnection, hl, hn, ht, ha]

theorem newConnection_TimestampLast (p : Packet) :
    (newConnection p).TimestampLast = p.Timestamp := by
  cases hl : p.LinkLayer <;> cases hn : p.NetworkLayer <;> cases ht : p.TransportLayer <;>
    cases ha : p.ApplicationLayer <;> simp only [newConnection, hl, hn, ht, ha]

theorem newConnection_NumPackets (p : Packet) : (newConnection p).NumPackets = 1 := by
  cases hl : p.LinkLayer <;> cases hn : p.NetworkLayer <;> cases ht : p.TransportLayer <;>
    cases ha : p.ApplicationLayer <;> simp only [newConnection, hl, hn, ht, ha]

theorem newConnection_TotalSize (p : Packet) :
    (newConnection p).TotalSize = wrapInt32 p.Length := by
  cases hl : p.LinkLayer <;> cases hn : p.NetworkLayer <;> cases ht : p.TransportLayer <;>
    cases ha : p.ApplicationLayer <;> simp only [newConnection, hl, hn, ht, ha]

theorem newConnection_AppPayloadSize (p : Packet) :
    (newConnection p).AppPayloadSize = appPayloadLen p := by
  cases hl : p.LinkLayer <;> cases hn : p.NetworkLayer <;> cases ht : p.TransportLayer <;>
    cases ha : p.ApplicationLayer <;> simp only [newConnection, appPayloadLen, hl, hn, ht, ha]

theorem newConnection_UID (p : Packet) : (newConnection p).UID = calcMd5 (packetKey p) := by
  cases hl : p.LinkLayer <;> cases hn : p.NetworkLayer <;> cases ht : p.TransportLayer <;>
    cases ha : p.ApplicationLayer <;> simp only [newConnection, hl, hn, ht, ha]

theorem newConnection_Duration (p : Packet) : (newConnection p).Duration = 0 := by
  cases hl : p.LinkLayer <;> cases hn : p.NetworkLayer <;> cases ht : p.TransportLayer <;>
    cases ha : p.ApplicationLayer <;> simp only [newConnection, hl, hn, ht, ha]

/-! ## The order of the two timestamps -/

theorem updateConnection_ordered (c : Connection) (p : Packet)
    (h : c.TimestampFirst ≤ c.TimestampLast) :
    (updateConnection c p).TimestampFirst ≤ (updateConnection c p).TimestampLast := by
  rw [updateConnection_TimestampFirst, updateConnection_TimestampLast]
  split_ifs <;> omega

theorem handlePacket_ordered (m : ConnItems) (p : Packet)
    (h : ∀ e ∈ m, e.2.TimestampFirst ≤ e.2.TimestampLast) :
    ∀ e ∈ (handlePacket m p).1, e.2.TimestampFirst ≤ e.2.TimestampLast := by
  intro e he
  cases hg : m.get? (packetKey p) with
  | none =>
    simp only [handlePacket, hg, List.mem_append, List.mem_singleton] at he
    rcases he with he | he
    · exact h e he
    · rw [he]
      show (newConnection p).TimestampFirst ≤ (newConnection p).TimestampLast
      rw [newConnection_TimestampFirst, newConnection_TimestampLast]
  | some c =>
    simp only [handlePacket, hg] at he
    rcases mem_set _ _ _ _ he with he | he
    · exact h e he
    · rw [he]
      exact updateConnection_ordered c p (h _ (get?_some_mem m _ c hg))

theorem processFrom_ordered (ps : List Packet) :
    ∀ m : ConnItems, (∀ e ∈ m, e.2.TimestampFirst ≤ e.2.TimestampLast) →
      ∀ e ∈ processFrom m ps, e.2.TimestampFirst ≤ e.2.TimestampLast := by
  induction ps with
  | nil =>
    intro m h
    simpa [processFrom] using h
  | cons p rest ih =>
    intro m h
    have h2 := ih _ (handlePacket_ordered m p h)
    simpa [processFrom] using h2

/-- C1. From an empty connection table, after each call of `handlePacket`
(that is, after every initial part of every sequence of packets) every entry of
the table has `TimestampFirst ≤ TimestampLast`. -/
theorem timestampFirst_le_timestampLast (ps : List Packet) (n : Nat) (e : String × Connection)
    (h : e ∈ processPackets (ps.take n)) :
    e.2.TimestampFirst ≤ e.2.TimestampLast :=
  processFrom_ordered (ps.take n) [] (by simp) e h

theorem processPackets_sample : processPackets [synPacket, dataPacket] = [sampleEntry] := by
  rfl

theorem sampleEntry_mem : sampleEntry ∈ processPackets [synPacket, dataPacket] := by
  rw [processPackets_sample]
  exact List.mem_singleton.2 rfl

theorem timestampFirst_le_timestampLast_witness :
    sampleEntry ∈ processPackets ([synPacket, dataPacket].take 2) ∧
      sampleEntry.2.TimestampFirst ≤ sampleEntry.2.TimestampLast :=
  ⟨sampleEntry_mem, timestampFirst_le_timestampLast [synPacket, dataPacket] 2 sampleEntry
    sampleEntry_mem⟩

/-! ## The counters -/

theorem foldl_updateConnection_NumPackets (rest : List Packet) :
    ∀ (c : Connection) (x : Int), c.NumPackets = wrapInt32 x →
      (rest.foldl updateConnection c).NumPackets = wrapInt32 (x + rest.length) := by
  induction rest with
  | nil =>
    intro c x h
    simpa using h
  | cons p rest ih =>
    intro c x h
    have h1 : (updateConnection c p).NumPackets = wrapInt32 (x + 1) := by
      rw [updateConnection_NumPackets, h, wrapInt32_wrapInt32_add]
    have h2 := ih (updateConnection c p) (x + 1) h1
    simp only [List.foldl_cons, List.length_cons, Nat.cast_add, Nat.cast_one]
    rw [h2]
    congr 1
    omega

theorem foldl_updateConnection_TotalSize (rest : List Packet) :
    ∀ (c : Connection) (x : Int), c.TotalSize = wrapInt32 x →
      (rest.foldl updateConnection c).TotalSize =
        wrapInt32 (x + (rest.map Packet.Length).sum) := by
  induction rest with
  | nil =>
    intro c x h
    simpa using h
  | cons p rest ih =>
    intro c x h
    have h1 : (updateConnection c p).TotalSize = wrapInt32 (x + p.Length) := by
      rw [updateConnection_TotalSize, h, wrapInt32_wrapInt32_add, wrapInt32_add_wrapInt32]
    have h2 := ih (updateConnection c p) (x + p.Length) h1
    simp only [List.foldl_cons, List.map_cons, List.sum_cons]
    rw [h2]
    congr 1
    omega

theorem connectionOf_NumPackets (l : List Packet) (c : Connection)
    (h : connectionOf l = some c) : c.NumPackets = wrapInt32 l.length := by
  cases l with
  | nil => simp [connectionOf] at h
  | cons p rest =>
    simp only [connectionOf, Option.some.injEq] at h
    rw [← h, foldl_updateConnection_NumPackets rest (newConnection p) 1
      (by rw [newConnection_NumPackets]; rfl)]
    congr 1
    simp only [List.length_cons, Nat.cast_add, Nat.cast_one]
    omega

theorem connectionOf_TotalSize (l : List Packet) (c : Connection)
    (h : connectionOf l = some c) : c.TotalSize = wrapInt32 (l.map Packet.Length).sum := by
  cases l with
  | nil => simp [connectionOf] at h
  | cons p rest =>
    simp only [connectionOf, Option.some.injEq] at h
    rw [← h, foldl_updateConnection_TotalSize rest (newConnection p) p.Length
      (newConnection_TotalSize p)]
    simp

theorem packetsOfKey_replicate (n : Nat) (p : Packet) :
    packetsOfKey (packetKey p) (List.replicate n p) = List.replicate n p := by
  unfold packetsOfKey
  rw [List.filter_eq_self]
  intro q hq
  rw [List.eq_of_mem_replicate hq]
  simp

theorem get?_processPackets_replicate (n : Nat) (p : Packet) :
    (processPackets (List.replicate n p)).get? (packetKey p) =
      connectionOf (List.replicate n p) := by
  rw [get?_processPackets, packetsOfKey_replicate]

theorem connectionOf_replicate_succ (n : Nat) (p : Packet) :
    connectionOf (List.replicate (n + 1) p) =
      some ((List.replicate n p).foldl updateConnection (newConnection p)) := by
  simp [List.replicate_succ, connectionOf]

/-- C2, as the code has it. `NumPackets` is an `int32`: each entry's value is
the number of `handlePacket` calls made with a packet of the entry's key,
reduced to `int32`; it equals that number as long as the number is below
`2^31`. -/
theorem numPackets_eq_int32_count (ps : List Packet) (key : String) (c : Connection)
    (h : (key, c) ∈ processPackets ps) :
    c.NumPackets = wrapInt32 (packetsOfKey key ps).length ∧
      ((packetsOfKey key ps).length < 2147483648 →
        c.NumPackets = (packetsOfKey key ps).length) := by
  have h1 := connectionOf_NumPackets _ c (connectionOf_of_mem ps key c h)
  refine ⟨h1, fun hlt => ?_⟩
  rw [h1]
  apply wrapInt32_eq_self <;> omega

theorem numPackets_eq_int32_count_witness :
    sampleEntry ∈ processPackets [synPacket, dataPacket] ∧
      (sampleEntry.2.NumPackets =
          wrapInt32 (packetsOfKey sampleEntry.1 [synPacket, dataPacket]).length ∧
        ((packetsOfKey sampleEntry.1 [synPacket, dataPacket]).length < 2147483648 →
          sampleEntry.2.NumPackets =
            (packetsOfKey sampleEntry.1 [synPacket, dataPacket]).length)) :=
  ⟨sampleEntry_mem,
    numPackets_eq_int32_count [synPacket, dataPacket] sampleEntry.1 sampleEntry.2 sampleEntry_mem⟩

/-- C2 fails as stated: after `2^31` packets of one connection the entry's
`NumPackets` is `-2^31`, not the number of calls. -/
theorem numPackets_counterexample :
    ∃ c : Connection,
      (packetKey synPacket, c) ∈ processPackets (List.replicate 2147483648 synPacket) ∧
        (packetsOfKey (packetKey synPacket) (List.replicate 2147483648 synPacket)).length =
          2147483648 ∧
        c.NumPackets = -2147483648 := by
  have hg := get?_processPackets_replicate 2147483648 synPacket
  rw [show (2147483648 : Nat) = 2147483647 + 1 from rfl, connectionOf_replicate_succ] at hg
  refine ⟨_, get?_some_mem _ _ _ hg, ?_, ?_⟩
  · rw [packetsOfKey_replicate, List.length_replicate]
  · rw [foldl_updateConnection_NumPackets _ (newConnection synPacket) 1
      (by rw [newConnection_NumPackets]; rfl), List.length_replicate]
    decide

/-- C3, as the code has it. `TotalSize` is an `int32`: each entry's value is
the sum of the wire lengths (`Metadata.Length`) of the packets of the entry's
key, reduced to `int32`; it equals the sum whenever the sum is in the `int32`
range, so two packets of one flow give the sum of their two lengths. -/
theorem totalSize_eq_int32_sum (ps : List Packet) (key : String) (c : Connection)
    (h : (key, c) ∈ processPackets ps) :
    c.TotalSize = wrapInt32 ((packetsOfKey key ps).map Packet.Length).sum ∧
      (-2147483648 ≤ ((packetsOfKey key ps).map Packet.Length).sum →
        ((packetsOfKey key ps).map Packet.Length).sum < 2147483648 →
        c.TotalSize = ((packetsOfKey key ps).map Packet.Length).sum) := by
  have h1 := connectionOf_TotalSize _ c (connectionOf_of_mem ps key c h)
  refine ⟨h1, fun hlo hhi => ?_⟩
  rw [h1]
  exact wrapInt32_eq_self _ hlo hhi

theorem totalSize_eq_int32_sum_witness :
    sampleEntry ∈ processPackets [synPacket, dataPacket] ∧
      sampleEntry.2.TotalSize = 74 + 79 := by
  have h := totalSize_eq_int32_sum [synPacket, dataPacket] sampleEntry.1 sampleEntry.2
    sampleEntry_mem
  exact ⟨sampleEntry_mem, h.2 (by decide) (by decide)⟩

/-- C3 fails as stated: after 1431656 frames of 1500 bytes on one connection
the wire lengths add up to 2147484000, and the entry's `TotalSize` is
-2147483296. -/
theorem totalSize_counterexample :
    ∃ c : Connection,
      (packetKey bulkPacket, c) ∈ processPackets (List.replicate 1431656 bulkPacket) ∧
        ((packetsOfKey (packetKey bulkPacket) (List.replicate 1431656 bulkPacket)).map
          Packet.Length).sum = 2147484000 ∧
        c.TotalSize = -2147483296 := by
  have hg := get?_processPackets_replicate 1431656 bulkPacket
  have hs : ((List.replicate 1431656 bulkPacket).map Packet.Length).sum = 2147484000 := by
    rw [List.map_replicate, List.sum_replicate]
    decide
  cases hc : connectionOf (List.replicate 1431656 bulkPacket) with
  | none =>
    rw [show (1431656 : Nat) = 1431655 + 1 from rfl, connectionOf_replicate_succ] at hc
    exact Option.noConfusion hc
  | some c =>
    rw [hc] at hg
    refine ⟨c, get?_some_mem _ _ _ hg, ?_, ?_⟩
    · rw [packetsOfKey_replicate]
      exact hs
    · rw [connectionOf_TotalSize _ c hc, hs]
      decide

/-! ## The final handler -/

theorem recordOf_eq (d : Decoder) (c : Connection) : (writeConn d c).2 = recordOf c := by
  rfl

theorem writeConn_writer (d : Decoder) (c : Connection) :
    (writeConn d c).1.Writer = d.Writer ++ [recordOf c] := by
  rfl

theorem flushConns_writer (m : ConnItems) :
    ∀ d : Decoder, (flushConns d m).1.Writer = d.Writer ++ m.map (fun e => recordOf e.2) := by
  induction m with
  | nil =>
    intro d
    simp [flushConns]
  | cons e rest ih =>
    intro d
    obtain ⟨k, c⟩ := e
    simp only [flushConns, ih, writeConn_writer, List.map_cons, List.append_assoc,
      List.singleton_append]

/-- The records written at the end of a run are the entries of the table, each
with its duration filled in. -/
theorem emittedRecords_eq (ps : List Packet) :
    emittedRecords ps = (processPackets ps).map (fun e => recordOf e.2) := by
  simp [emittedRecords, flushConns_writer]

theorem recordOf_NumPackets (c : Connection) : (recordOf c).NumPackets = c.NumPackets := by
  rfl

theorem recordOf_TimestampFirst (c : Connection) :
    (recordOf c).TimestampFirst = c.TimestampFirst := by
  rfl

theorem recordOf_TimestampLast (c : Connection) :
    (recordOf c).TimestampLast = c.TimestampLast := by
  rfl

theorem recordOf_Duration (c : Connection) :
    (recordOf c).Duration = timeSubNanoseconds c.TimestampLast c.TimestampFirst := by
  rfl

theorem length_packetsOfKey_cons (key : String) (p : Packet) (ps : List Packet) :
    (packetsOfKey key (p :: ps)).length =
      (if packetKey p = key then 1 else 0) + (packetsOfKey key ps).length := by
  by_cases h : packetKey p = key
  · simp [packetsOfKey, h, Nat.add_comm]
  · simp [packetsOfKey, h]

theorem sum_indicator_eq_count (keys : List String) (k : String) :
    (keys.map (fun x => if k = x then 1 else 0)).sum = keys.count k := by
  induction keys with
  | nil => simp
  | cons x rest ih =>
    by_cases h : k = x
    · subst h
      simp [ih, Nat.add_comm]
    · have h2 : ¬ x = k := fun e => h e.symm
      simp [ih, h, List.count_cons, h2]

/-- Over a duplicate-free list of keys that has the key of every packet, the
numbers of packets per key add up to the number of packets. -/
theorem sum_length_packetsOfKey (keys : List String) (hn : keys.Nodup) :
    ∀ ps : List Packet, (∀ p ∈ ps, packetKey p ∈ keys) →
      (keys.map (fun k => (packetsOfKey k ps).length)).sum = ps.length := by
  intro ps
  induction ps with
  | nil =>
    intro _
    simp [packetsOfKey]
  | cons p rest ih =>
    intro h
    have h1 : (keys.map (fun k => (packetsOfKey k (p :: rest)).length)).sum =
        (keys.map (fun k => if packetKey p = k then 1 else 0)).sum +
          (keys.map (fun k => (packetsOfKey k rest).length)).sum := by
      rw [← List.sum_map_add]
      congr 1
      apply List.map_congr_left
      intro k _
      exact length_packetsOfKey_cons k p rest
    rw [h1, sum_indicator_eq_count, ih (fun q hq => h q (List.mem_cons_of_mem _ hq)),
      List.count_eq_one_of_mem hn (h p (List.mem_cons_self _ _))]
    simp [Nat.add_comm]

theorem mem_keys_processPackets (ps : List Packet) (k : String) :
    k ∈ (processPackets ps).keys ↔ k ∈ ps.map packetKey := by
  rw [keys_processPackets]
  exact mem_firstKeys _ k

theorem length_processPackets (ps : List Packet) :
    (processPackets ps).length = (ps.map packetKey).toFinset.card := by
  have h1 : (processPackets ps).length = (processPackets ps).keys.length := by
    simp [ConnItems.keys]
  rw [h1, ← List.toFinset_card_of_nodup (nodup_keys_processPackets ps)]
  congr 1
  ext k
  simp only [List.mem_toFinset]
  exact mem_keys_processPackets ps k

theorem map_numPackets_processPackets (ps : List Packet)
    (h : ∀ key : String, (packetsOfKey key ps).length < 2147483648) :
    (processPackets ps).map (fun e => e.2.NumPackets) =
      (processPackets ps).keys.map (fun k => ((packetsOfKey k ps).length : Int)) := by
  simp only [ConnItems.keys, List.map_map]
  apply List.map_congr_left
  intro e he
  have h1 := connectionOf_NumPackets _ e.2 (connectionOf_of_mem ps e.1 e.2 he)
  have h2 := h e.1
  simp only [Function.comp]
  rw [h1]
  apply wrapInt32_eq_self <;> omega

theorem sum_numPackets_processPackets (ps : List Packet)
    (h : ∀ key : String, (packetsOfKey key ps).length < 2147483648) :
    ((processPackets ps).map (fun e => e.2.NumPackets)).sum = ps.length := by
  rw [map_numPackets_processPackets ps h]
  have h1 := sum_length_packetsOfKey _ (nodup_keys_processPackets ps) ps
    (fun p hp => (mem_keys_processPackets ps _).2 (List.mem_map.2 ⟨p, hp, rfl⟩))
  rw [← h1]
  simp only [Nat.cast_list_sum, List.map_map]
  rfl

/-- C4, as the code has it. The table is keyed by `connectionID.String()`, so
a run over a capture writes exactly one Connection record per distinct key
string of its packets: as many records as there are distinct key strings,
namely, for each such key in the order of first occurrence, the record of the
entry built from the packets of that key; and when no connection has `2^31`
packets or more, the `NumPackets` of the records add up to the number of
packets. -/
theorem emittedRecords_one_per_key (ps : List Packet) :
    (emittedRecords ps).length = (ps.map packetKey).toFinset.card ∧
      (emittedRecords ps).map some =
        (firstKeys (ps.map packetKey)).map
          (fun k => (connectionOf (packetsOfKey k ps)).map recordOf) ∧
      ((∀ key : String, (packetsOfKey key ps).length < 2147483648) →
        ((emittedRecords ps).map Connection.NumPackets).sum = ps.length) := by
  refine ⟨?_, ?_, ?_⟩
  · rw [emittedRecords_eq, List.length_map, length_processPackets]
  · rw [emittedRecords_eq, ← keys_processPackets]
    simp only [ConnItems.keys, List.map_map]
    apply List.map_congr_left
    intro e he
    simp only [Function.comp]
    rw [connectionOf_of_mem ps e.1 e.2 he]
    rfl
  · intro h
    rw [emittedRecords_eq, List.map_map, ← sum_numPackets_processPackets ps h]
    rfl

theorem emittedRecords_one_per_key_witness :
    (∀ key : String, (packetsOfKey key [synPacket, dataPacket]).length < 2147483648) ∧
      (emittedRecords [synPacket, dataPacket]).length = 1 ∧
      ((emittedRecords [synPacket, dataPacket]).map Connection.NumPackets).sum = 2 := by
  have hlen : ∀ key : String,
      (packetsOfKey key [synPacket, dataPacket]).length < 2147483648 := by
    intro key
    have h := List.length_filter_le (fun p => decide (packetKey p = key)) [synPacket, dataPacket]
    simp only [List.length_cons, List.length_nil] at h
    unfold packetsOfKey
    omega
  have h := emittedRecords_one_per_key [synPacket, dataPacket]
  refine ⟨hlen, ?_, ?_⟩
  · rw [h.1]
    decide
  · rw [h.2.2 hlen]
    rfl

theorem processPackets_replicate (n : Nat) (p : Packet) (c : Connection)
    (h : connectionOf (List.replicate (n + 1) p) = some c) :
    processPackets (List.replicate (n + 1) p) = [(packetKey p, c)] := by
  have hlen : (processPackets (List.replicate (n + 1) p)).length = 1 := by
    rw [length_processPackets, List.map_replicate,
      List.toFinset_replicate_of_ne_zero (Nat.succ_ne_zero n)]
    rfl
  have hmem : (packetKey p, c) ∈ processPackets (List.replicate (n + 1) p) := by
    apply get?_some_mem
    rw [get?_processPackets_replicate, h]
  cases ht : processPackets (List.replicate (n + 1) p) with
  | nil => rw [ht] at hlen; simp at hlen
  | cons x rest =>
    rw [ht] at hlen hmem
    have hr : rest = [] := by
      simpa using hlen
    subst hr
    simp only [List.mem_singleton] at hmem
    rw [hmem]

theorem sum_numPackets_replicate (n : Nat) (p : Packet) :
    ((emittedRecords (List.replicate (n + 1) p)).map Connection.NumPackets).sum =
      wrapInt32 (1 + n) := by
  have hc := connectionOf_replicate_succ n p
  rw [emittedRecords_eq, processPackets_replicate n p _ hc]
  simp only [List.map_cons, List.map_nil, List.sum_cons, List.sum_nil, recordOf_NumPackets,
    add_zero]
  rw [foldl_updateConnection_NumPackets _ (newConnection p) 1
    (by rw [newConnection_NumPackets]; rfl), List.length_replicate]

/-- C4 fails as stated. `synPacket` and `otherFlowPacket` have two distinct
connection IDs, (1, 23, 4) and (12, 3, 4), with the same key string "1234":
the run writes one record for the two of them. And a capture of `2^31`
packets of one connection gives one record whose `NumPackets` is `-2^31`. -/
theorem emittedRecords_counterexample :
    (([synPacket, otherFlowPacket].map packetConnID).toFinset.card = 2 ∧
      packetKey synPacket = "1234" ∧ packetKey otherFlowPacket = "1234" ∧
      (emittedRecords [synPacket, otherFlowPacket]).length = 1) ∧
    ((List.replicate 2147483648 synPacket).length = 2147483648 ∧
      ((emittedRecords (List.replicate 2147483648 synPacket)).map
        Connection.NumPackets).sum = -2147483648) := by
  have h1 : (emittedRecords [synPacket, otherFlowPacket]).length = 1 := by
    rw [emittedRecords_eq, List.length_map, length_processPackets]
    decide
  have h2 : wrapInt32 (1 + ((2147483647 : Nat) : Int)) = -2147483648 := by
    decide
  exact ⟨⟨by decide, by decide, by decide, h1⟩, List.length_replicate _ _,
    (sum_numPackets_replicate 2147483647 synPacket).trans h2⟩

/-! ## First and last timestamp -/

theorem foldl_updateConnection_TimestampFirst (rest : List Packet) :
    ∀ c : Connection,
      ((rest.foldl updateConnection c).TimestampFirst = c.TimestampFirst ∨
          ∃ q ∈ rest, (rest.foldl updateConnection c).TimestampFirst = q.Timestamp) ∧
        (rest.foldl updateConnection c).TimestampFirst ≤ c.TimestampFirst ∧
        ∀ q ∈ rest, (rest.foldl updateConnection c).TimestampFirst ≤ q.Timestamp := by
  induction rest with
  | nil =>
    intro c
    simp
  | cons p rest ih =>
    intro c
    obtain ⟨h1, h2, h3⟩ := ih (updateConnection c p)
    have hu := updateConnection_TimestampFirst c p
    simp only [List.foldl_cons]
    refine ⟨?_, ?_, ?_⟩
    · rcases h1 with h1 | ⟨q, hq, h1⟩
      · by_cases hlt : p.Timestamp < c.TimestampFirst
        · right
          refine ⟨p, List.mem_cons_self _ _, ?_⟩
          rw [h1, hu, if_pos hlt]
        · left
          rw [h1, hu, if_neg hlt]
      · right
        exact ⟨q, List.mem_cons_of_mem _ hq, h1⟩
    · rw [hu] at h2
      split_ifs at h2 <;> omega
    · intro q hq
      rcases List.mem_cons.1 hq with hq | hq
      · rw [hu] at h2
        rw [hq]
        split_ifs at h2 <;> omega
      · exact h3 q hq

theorem foldl_updateConnection_TimestampLast (rest : List Packet) :
    ∀ c : Connection,
      ((rest.foldl updateConnection c).TimestampLast = c.TimestampLast ∨
          ∃ q ∈ rest, (rest.foldl updateConnection c).TimestampLast = q.Timestamp) ∧
        c.TimestampLast ≤ (rest.foldl updateConnection c).TimestampLast ∧
        ∀ q ∈ rest, q.Timestamp ≤ (rest.foldl updateConnection c).TimestampLast := by
  induction rest with
  | nil =>
    intro c
    simp
  | cons p rest ih =>
    intro c
    obtain ⟨h1, h2, h3⟩ := ih (updateConnection c p)
    have hu := updateConnection_TimestampLast c p
    simp only [List.foldl_cons]
    refine ⟨?_, ?_, ?_⟩
    · rcases h1 with h1 | ⟨q, hq, h1⟩
      · by_cases hlt : c.TimestampLast < p.Timestamp
        · right
          refine ⟨p, List.mem_cons_self _ _, ?_⟩
          rw [h1, hu, if_pos hlt]
        · left
          rw [h1, hu, if_neg hlt]
      · right
        exact ⟨q, List.mem_cons_of_mem _ hq, h1⟩
    · rw [hu] at h2
      split_ifs at h2 <;> omega
    · intro q hq
      rcases List.mem_cons.1 hq with hq | hq
      · rw [hu] at h2
        rw [hq]
        split_ifs at h2 <;> omega
      · exact h3 q hq

/-- The first timestamp of an entry is the smallest timestamp of its packets. -/
theorem connectionOf_TimestampFirst (l : List Packet) (c : Connection)
    (h : connectionOf l = some c) :
    (∃ q ∈ l, c.TimestampFirst = q.Timestamp) ∧ ∀ q ∈ l, c.TimestampFirst ≤ q.Timestamp := by
  cases l with
  | nil => simp [connectionOf] at h
  | cons p rest =>
    simp only [connectionOf, Option.some.injEq] at h
    obtain ⟨h1, h2, h3⟩ := foldl_updateConnection_TimestampFirst rest (newConnection p)
    rw [h, newConnection_TimestampFirst] at h1 h2
    rw [h] at h3
    refine ⟨?_, ?_⟩
    · rcases h1 with h1 | ⟨q, hq, h1⟩
      · exact ⟨p, List.mem_cons_self _ _, h1⟩
      · exact ⟨q, List.mem_cons_of_mem _ hq, h1⟩
    · intro q hq
      rcases List.mem_cons.1 hq with hq | hq
      · rw [hq]
        exact h2
      · exact h3 q hq

/-- The last timestamp of an entry is the largest timestamp of its packets. -/
theorem connectionOf_TimestampLast (l : List Packet) (c : Connection)
    (h : connectionOf l = some c) :
    (∃ q ∈ l, c.TimestampLast = q.Timestamp) ∧ ∀ q ∈ l, q.Timestamp ≤ c.TimestampLast := by
  cases l with
  | nil => simp [connectionOf] at h
  | cons p rest =>
    simp only [connectionOf, Option.some.injEq] at h
    obtain ⟨h1, h2, h3⟩ := foldl_updateConnection_TimestampLast rest (newConnection p)
    rw [h, newConnection_TimestampLast] at h1 h2
    rw [h] at h3
    refine ⟨?_, ?_⟩
    · rcases h1 with h1 | ⟨q, hq, h1⟩
      · exact ⟨p, List.mem_cons_self _ _, h1⟩
      · exact ⟨q, List.mem_cons_of_mem _ hq, h1⟩
    · intro q hq
      rcases List.mem_cons.1 hq with hq | hq
      · rw [hq]
        exact h2
      · exact h3 q hq

theorem mem_of_mem_packetsOfKey (key : String) (ps : List Packet) (q : Packet)
    (h : q ∈ packetsOfKey key ps) : q ∈ ps :=
  (List.mem_filter.1 h).1

/-! ## Duration -/

theorem timeSubNanoseconds_eq_sub (t u : Int) (h1 : u ≤ t) (h2 : t - u ≤ maxDuration) :
    timeSubNanoseconds t u = t - u := by
  unfold timeSubNanoseconds
  have h3 : minDuration ≤ t - u := by
    unfold minDuration
    omega
  rw [if_pos ⟨h3, h2⟩]

/-- C7, as the code has it. Every Connection record written by `writeConn` at
the final handler has `TimestampFirst ≤ TimestampLast` and `Duration` equal to
`TimestampLast - TimestampFirst` (nanoseconds) whenever a `time.Duration` can
hold that difference, that is when it is at most `2^63 - 1`; this is the case
for every record of a capture whose timestamps are not before the Unix epoch.
Otherwise `Time.Sub` gives the largest duration. -/
theorem writeConn_duration (ps : List Packet) (r : Connection) (h : r ∈ emittedRecords ps) :
    r.TimestampFirst ≤ r.TimestampLast ∧
      (r.TimestampLast - r.TimestampFirst ≤ maxDuration →
        r.Duration = r.TimestampLast - r.TimestampFirst) ∧
      ((∀ p ∈ ps, 0 ≤ p.Timestamp ∧ p.Timestamp ≤ maxDuration) →
        r.Duration = r.TimestampLast - r.TimestampFirst) ∧
      (maxDuration < r.TimestampLast - r.TimestampFirst → r.Duration = maxDuration) := by
  rw [emittedRecords_eq] at h
  obtain ⟨e, he, hr⟩ := List.mem_map.1 h
  have hord : e.2.TimestampFirst ≤ e.2.TimestampLast :=
    processFrom_ordered ps [] (by simp) e he
  have hc := connectionOf_of_mem ps e.1 e.2 he
  rw [← hr, recordOf_TimestampFirst, recordOf_TimestampLast, recordOf_Duration]
  refine ⟨hord, fun hfit => timeSubNanoseconds_eq_sub _ _ hord hfit, fun hrange => ?_,
    fun hbig => ?_⟩
  · obtain ⟨⟨q1, hq1, hf⟩, _⟩ := connectionOf_TimestampFirst _ _ hc
    obtain ⟨⟨q2, hq2, hl⟩, _⟩ := connectionOf_TimestampLast _ _ hc
    have b1 := hrange q1 (mem_of_mem_packetsOfKey _ _ _ hq1)
    have b2 := hrange q2 (mem_of_mem_packetsOfKey _ _ _ hq2)
    apply timeSubNanoseconds_eq_sub _ _ hord
    rw [hf, hl]
    omega
  · unfold timeSubNanoseconds
    rw [if_neg (by omega), if_neg (by omega)]

theorem writeConn_duration_witness :
    recordOf sampleEntry.2 ∈ emittedRecords [synPacket, dataPacket] ∧
      (∀ p ∈ [synPacket, dataPacket], 0 ≤ p.Timestamp ∧ p.Timestamp ≤ maxDuration) ∧
      (recordOf sampleEntry.2).Duration = 2000 - 1000 := by
  have hm : recordOf sampleEntry.2 ∈ emittedRecords [synPacket, dataPacket] := by
    rw [emittedRecords_eq, processPackets_sample]
    exact List.mem_singleton.2 rfl
  have hr : ∀ p ∈ [synPacket, dataPacket], 0 ≤ p.Timestamp ∧ p.Timestamp ≤ maxDuration := by
    decide
  exact ⟨hm, hr, (writeConn_duration [synPacket, dataPacket] _ hm).2.2.1 hr⟩

/-- C7 fails as stated: for two packets of one connection stamped
-5000000000000000000 and 5000000000000000000 (the years 1811 and 2128) the
record written has `Duration` 9223372036854775807, and the difference of its
two timestamps is 10000000000000000000. -/
theorem writeConn_duration_counterexample :
    (emittedRecords [earlyPacket, latePacket]).map
        (fun r => (r.TimestampFirst, r.TimestampLast, r.Duration)) =
      [(-5000000000000000000, 5000000000000000000, 9223372036854775807)] ∧
      (5000000000000000000 : Int) - (-5000000000000000000) ≠ 9223372036854775807 := by
  refine ⟨?_, by decide⟩
  decide

/-! ## The result of `handlePacket` -/

/-- C8. `handlePacket` never returns an audit record: for every table and
every packet its result is `nil`, so the only Connection records a run writes
are those of the final handler (`emittedRecords`, which is `writeConn` on the
entries of the final table). -/
theorem handlePacket_returns_nil (conns : ConnItems) (p : Packet) :
    (handlePacket conns p).2 = none := by
  cases hg : conns.get? (packetKey p) <;> simp [handlePacket, hg]

/-! ## A new entry -/

theorem newConnection_link (p : Packet) :
    (∀ ll : Layer, p.LinkLayer = some ll →
        (newConnection p).LinkProto = ll.LayerType ∧ (newConnection p).SrcMAC = ll.Src ∧
          (newConnection p).DstMAC = ll.Dst) ∧
      (p.LinkLayer = none →
        (newConnection p).LinkProto = "" ∧ (newConnection p).SrcMAC = "" ∧
          (newConnection p).DstMAC = "") := by
  cases hl : p.LinkLayer <;> cases hn : p.NetworkLayer <;> cases ht : p.TransportLayer <;>
    cases ha : p.ApplicationLayer <;> simp [newConnection, hl, hn, ht, ha]

theorem newConnection_network (p : Packet) :
    (∀ nl : Layer, p.NetworkLayer = some nl →
        (newConnection p).NetworkProto = nl.LayerType ∧ (newConnection p).SrcIP = nl.Src ∧
          (newConnection p).DstIP = nl.Dst) ∧
      (p.NetworkLayer = none →
        (newConnection p).NetworkProto = "" ∧ (newConnection p).SrcIP = "" ∧
          (newConnection p).DstIP = "") := by
  cases hl : p.LinkLayer <;> cases hn : p.NetworkLayer <;> cases ht : p.TransportLayer <;>
    cases ha : p.ApplicationLayer <;> simp [newConnection, hl, hn, ht, ha]

theorem newConnection_transport (p : Packet) :
    (∀ tl : Layer, p.TransportLayer = some tl →
        (newConnection p).TransportProto = tl.LayerType ∧ (newConnection p).SrcPort = tl.Src ∧
          (newConnection p).DstPort = tl.Dst) ∧
      (p.TransportLayer = none →
        (newConnection p).TransportProto = "" ∧ (newConnection p).SrcPort = "" ∧
          (newConnection p).DstPort = "") := by
  cases hl : p.LinkLayer <;> cases hn : p.NetworkLayer <;> cases ht : p.TransportLayer <;>
    cases ha : p.ApplicationLayer <;> simp [newConnection, hl, hn, ht, ha]

theorem newConnection_application (p : Packet) :
    (∀ al : AppLayer, p.ApplicationLayer = some al →
        (newConnection p).ApplicationProto = al.LayerType ∧
          (newConnection p).AppPayloadSize = wrapInt32 al.Payload.length) ∧
      (p.ApplicationLayer = none →
        (newConnection p).ApplicationProto = "" ∧ (newConnection p).AppPayloadSize = 0) := by
  cases hl : p.LinkLayer <;> cases hn : p.NetworkLayer <;> cases ht : p.TransportLayer <;>
    cases ha : p.ApplicationLayer <;> simp [newConnection, hl, hn, ht, ha]

/-- C9, as the code has it. When `handlePacket` receives a packet whose
connection key is not in the table, the call does not fail, returns `nil` and
adds exactly one entry under that key, leaving the others as they were. The
new entry has UID = MD5 of the key string, TimestampFirst = TimestampLast =
the packet's timestamp, NumPackets = 1 and TotalSize = the packet's wire length
converted to `int32` (the wire length itself when that is in the `int32`
range). For each of the link, network and transport layers its protocol name
and source and destination fields are those of the layer when the packet
carries it and empty when it does not; ApplicationProto and AppPayloadSize are
the layer type and the payload length (as `int32`) of the application layer
when the packet carries one, and empty and 0 when it carries none, whether or
not there is a transport layer. -/
theorem handlePacket_new_entry (conns : ConnItems) (p : Packet)
    (h : conns.get? (packetKey p) = none) :
    ∃ co : Connection,
      handlePacket conns p = (conns ++ [(packetKey p, co)], none) ∧
      co.UID = calcMd5 (packetKey p) ∧
      co.TimestampFirst = p.Timestamp ∧ co.TimestampLast = p.Timestamp ∧
      co.NumPackets = 1 ∧
      co.TotalSize = wrapInt32 p.Length ∧
      (-2147483648 ≤ p.Length → p.Length < 2147483648 → co.TotalSize = p.Length) ∧
      (∀ ll : Layer, p.LinkLayer = some ll →
        co.LinkProto = ll.LayerType ∧ co.SrcMAC = ll.Src ∧ co.DstMAC = ll.Dst) ∧
      (p.LinkLayer = none → co.LinkProto = "" ∧ co.SrcMAC = "" ∧ co.DstMAC = "") ∧
      (∀ nl : Layer, p.NetworkLayer = some nl →
        co.NetworkProto = nl.LayerType ∧ co.SrcIP = nl.Src ∧ co.DstIP = nl.Dst) ∧
      (p.NetworkLayer = none → co.NetworkProto = "" ∧ co.SrcIP = "" ∧ co.DstIP = "") ∧
      (∀ tl : Layer, p.TransportLayer = some tl →
        co.TransportProto = tl.LayerType ∧ co.SrcPort = tl.Src ∧ co.DstPort = tl.Dst) ∧
      (p.TransportLayer = none → co.TransportProto = "" ∧ co.SrcPort = "" ∧ co.DstPort = "") ∧
      (∀ al : AppLayer, p.ApplicationLayer = some al →
        co.ApplicationProto = al.LayerType ∧
          co.AppPayloadSize = wrapInt32 al.Payload.length) ∧
      (p.ApplicationLayer = none → co.ApplicationProto = "" ∧ co.AppPayloadSize = 0) := by
  refine ⟨newConnection p, ?_, newConnection_UID p, newConnection_TimestampFirst p,
    newConnection_TimestampLast p, newConnection_NumPackets p, newConnection_TotalSize p, ?_,
    (newConnection_link p).1, (newConnection_link p).2, (newConnection_network p).1,
    (newConnection_network p).2, (newConnection_transport p).1, (newConnection_transport p).2,
    (newConnection_application p).1, (newConnection_application p).2⟩
  · simp [handlePacket, h]
  · intro h1 h2
    rw [newConnection_TotalSize]
    exact wrapInt32_eq_self _ h1 h2

theorem handlePacket_new_entry_witness :
    ConnItems.get? [] (packetKey synPacket) = none ∧
      ∃ co : Connection,
        handlePacket [] synPacket = ([] ++ [(packetKey synPacket, co)], none) ∧
          co.NumPackets = 1 ∧ co.TotalSize = 74 ∧ co.ApplicationProto = "" := by
  obtain ⟨co, h1, _, _, _, h5, _, h7, _, _, _, _, _, _, _, h15⟩ :=
    handlePacket_new_entry [] synPacket rfl
  exact ⟨rfl, co, h1, h5, h7 (by decide) (by decide), (h15 rfl).1⟩

/-- C9 fails as stated. `icmpPacket` lacks a transport layer and has an
application layer: its new entry has ApplicationProto "Payload" and
AppPayloadSize 4, not empty application fields. `oversizedPacket` has the wire
length `2^31`: its new entry has TotalSize `-2^31`. -/
theorem handlePacket_new_entry_counterexample :
    (icmpPacket.TransportLayer = none ∧
      (handlePacket [] icmpPacket).1.map
          (fun e => (e.2.TransportProto, e.2.ApplicationProto, e.2.AppPayloadSize)) =
        [("", "Payload", 4)]) ∧
      (oversizedPacket.Length = 2147483648 ∧
        (handlePacket [] oversizedPacket).1.map (fun e => e.2.TotalSize) = [-2147483648]) := by
  decide

/-! ## POP3: what `readResponse` records -/

theorem stringsSplit_ne_nil (sep : UInt8) (s : GoString) : stringsSplit sep s ≠ [] := by
  cases s with
  | nil => simp [stringsSplit]
  | cons b rest =>
    by_cases h : b = sep
    · simp [stringsSplit, h]
    · cases hs : stringsSplit sep rest <;> simp [stringsSplit, h, hs]

theorem stringsSplit_head_ne_nil (sep b : UInt8) (rest : GoString) (h : b ≠ sep) :
    ∃ w ws, stringsSplit sep (b :: rest) = (b :: w) :: ws := by
  cases hs : stringsSplit sep rest with
  | nil => exact ⟨[], [], by simp [stringsSplit, h, hs]⟩
  | cons w ws => exact ⟨w, ws, by simp [stringsSplit, h, hs]⟩

theorem goStr_cutset : goStr "\r \n" = [13, 32, 10] := by
  decide

/-- A trimmed line does not begin with a byte of the cutset. -/
theorem stringsTrim_head (s cutset : GoString) (b : UInt8) (rest : GoString)
    (h : stringsTrim s cutset = b :: rest) : b ∉ cutset := by
  have hp : stringsTrim s cutset <+: s.dropWhile (fun x => decide (x ∈ cutset)) :=
    List.rdropWhile_prefix _ _
  rw [h] at hp
  obtain ⟨t, ht⟩ := hp
  have hne : s.dropWhile (fun x => decide (x ∈ cutset)) ≠ [] := by
    rw [← ht]
    simp
  have hh := List.head_dropWhile_not (fun x => decide (x ∈ cutset)) s hne
  have hb : (s.dropWhile (fun x => decide (x ∈ cutset))).head hne = b := by
    simp [← ht]
  rw [hb] at hh
  simpa using hh

/-- `getCommand` returns a command and its arguments for every line; the
command is empty only when there are no arguments either. -/
theorem getCommand_total (line : GoString) :
    ∃ cmd args, getCommand line = some (cmd, args) ∧ (cmd = [] → args = []) := by
  unfold getCommand
  cases ht : stringsTrim line (goStr "\r \n") with
  | nil => exact ⟨[], [], by simp [stringsSplit]⟩
  | cons b rest =>
    have hb : b ∉ goStr "\r \n" := stringsTrim_head line _ b rest ht
    have h32 : b ≠ 32 := by
      intro h
      apply hb
      rw [h, goStr_cutset]
      decide
    obtain ⟨w, ws, hw⟩ := stringsSplit_head_ne_nil 32 b rest h32
    exact ⟨b :: w, ws, by simp [hw]⟩

theorem validPop3ServerCommand_iff (cmd : GoString) :
    validPop3ServerCommand cmd = true ↔
      cmd ∈ [goStr ".", goStr "+", goStr "+OK", goStr "-ERR", goStr "TOP", goStr "USER",
        goStr "UIDL", goStr "STLS", goStr "SASL", goStr "IMPLEMENTATION"] := by
  unfold validPop3ServerCommand
  simp only [List.mem_cons, List.mem_singleton, List.not_mem_nil, or_false]
  split_ifs <;> simp_all

/-- C10. `readResponse` records a server line as a command response
(Command = the first space-separated token of the line, Message = the
remaining tokens joined by single spaces) if and only if that first token is
exactly one of ".", "+", "+OK", "-ERR", "TOP", "USER", "UIDL", "STLS", "SASL",
"IMPLEMENTATION"; every other non-empty line is recorded with an empty Command
and the unmodified line as Message. In both cases exactly one record is
appended. -/
theorem readResponse_records (pop3Responses : List POP3Response) (line : GoString) :
    ∃ (cmd : GoString) (args : List GoString) (r : POP3Response) (err : Option ReadError),
      getCommand line = some (cmd, args) ∧
      readResponse pop3Responses (.ok line) = some (pop3Responses ++ [r], err) ∧
      (r = { Command := cmd, Message := stringsJoin args (goStr " ") } ↔
        cmd ∈ [goStr ".", goStr "+", goStr "+OK", goStr "-ERR", goStr "TOP", goStr "USER",
          goStr "UIDL", goStr "STLS", goStr "SASL", goStr "IMPLEMENTATION"]) ∧
      (cmd ∉ [goStr ".", goStr "+", goStr "+OK", goStr "-ERR", goStr "TOP", goStr "USER",
          goStr "UIDL", goStr "STLS", goStr "SASL", goStr "IMPLEMENTATION"] →
        line ≠ [] → r = { Command := [], Message := line }) := by
  obtain ⟨cmd, args, hg, hempty⟩ := getCommand_total line
  by_cases hv : validPop3ServerCommand cmd = true
  · have hmem := (validPop3ServerCommand_iff cmd).1 hv
    refine ⟨cmd, args, { Command := cmd, Message := stringsJoin args (goStr " ") }, ?_, hg, ?_,
      ?_, ?_⟩
    · exact if line = goStr "-ERR authentication failed" ∨
          stringsContains line (goStr "signing off") = true then some ReadError.EOF else none
    · simp only [readResponse, hg, hv, if_true]
      split_ifs <;> rfl
    · exact ⟨fun _ => hmem, fun _ => rfl⟩
    · intro hn
      exact absurd hmem hn
  · have hmem : cmd ∉ [goStr ".", goStr "+", goStr "+OK", goStr "-ERR", goStr "TOP",
        goStr "USER", goStr "UIDL", goStr "STLS", goStr "SASL", goStr "IMPLEMENTATION"] :=
      fun hm => hv ((validPop3ServerCommand_iff cmd).2 hm)
    refine ⟨cmd, args, { Message := if line = [] then goStr "\n" else line }, ?_, hg, ?_, ?_, ?_⟩
    · exact if (if line = [] then goStr "\n" else line) = goStr "-ERR authentication failed" ∨
          stringsContains (if line = [] then goStr "\n" else line) (goStr "signing off") = true
        then some ReadError.EOF else none
    · have hv2 : validPop3ServerCommand cmd = false := by simpa using hv
      simp only [readResponse, hg, hv2, Bool.false_eq_true, if_false]
      split_ifs <;> rfl
    · constructor
      · intro heq
        exfalso
        have h1 : cmd = [] := by
          have := congrArg POP3Response.Command heq
          exact this.symm
        have h2 : (if line = [] then goStr "\n" else line) = stringsJoin args (goStr " ") :=
          congrArg POP3Response.Message heq
        rw [hempty h1] at h2
        by_cases hl : line = []
        · rw [if_pos hl] at h2
          revert h2
          decide
        · rw [if_neg hl] at h2
          apply hl
          rw [h2]
          rfl
      · intro hm
        exact absurd hm hmem
    · intro _ hl
      rw [if_neg hl]

/-! ## Source and destination of an entry -/

theorem endpoints_newConnection (p : Packet) :
    endpoints (newConnection p) = packetEndpoints p := by
  cases hl : p.LinkLayer <;> cases hn : p.NetworkLayer <;> cases ht : p.TransportLayer <;>
    cases ha : p.ApplicationLayer <;>
    simp [newConnection, endpoints, packetEndpoints, hl, hn, ht, ha]

/-- An update by a packet that is earlier than the first timestamp rewrites
the endpoints of the layers the packet carries; when the fields of the layers
it lacks are empty, the result shows the endpoints of the packet. -/
theorem updateConnection_endpoints_of_lt (c : Connection) (p : Packet)
    (hlt : p.Timestamp < c.TimestampFirst)
    (hL : p.LinkLayer = none → c.SrcMAC = "" ∧ c.DstMAC = "")
    (hN : p.NetworkLayer = none → c.SrcIP = "" ∧ c.DstIP = "")
    (hT : p.TransportLayer = none → c.SrcPort = "" ∧ c.DstPort = "") :
    endpoints (updateConnection c p) = packetEndpoints p := by
  cases hl : p.LinkLayer <;> cases hn : p.NetworkLayer <;> cases ht : p.TransportLayer <;>
    cases ha : p.ApplicationLayer <;>
    simp only [updateConnection, endpoints, packetEndpoints, hl, hn, ht, ha, hlt, if_true] <;>
    split_ifs <;> simp_all

theorem updateConnection_link_none (c : Connection) (p : Packet) (h : p.LinkLayer = none) :
    (updateConnection c p).SrcMAC = c.SrcMAC ∧ (updateConnection c p).DstMAC = c.DstMAC := by
  cases hn : p.NetworkLayer <;> cases ht : p.TransportLayer <;>
    cases ha : p.ApplicationLayer <;>
    simp only [updateConnection, h, hn, ht, ha] <;> split_ifs <;> exact ⟨rfl, rfl⟩

theorem updateConnection_network_none (c : Connection) (p : Packet) (h : p.NetworkLayer = none) :
    (updateConnection c p).SrcIP = c.SrcIP ∧ (updateConnection c p).DstIP = c.DstIP := by
  cases hl : p.LinkLayer <;> cases ht : p.TransportLayer <;>
    cases ha : p.ApplicationLayer <;>
    simp only [updateConnection, h, hl, ht, ha] <;> split_ifs <;> exact ⟨rfl, rfl⟩

theorem updateConnection_transport_none (c : Connection) (p : Packet)
    (h : p.TransportLayer = none) :
    (updateConnection c p).SrcPort = c.SrcPort ∧ (updateConnection c p).DstPort = c.DstPort := by
  cases hl : p.LinkLayer <;> cases hn : p.NetworkLayer <;>
    cases ha : p.ApplicationLayer <;>
    simp only [updateConnection, h, hl, hn, ha] <;> split_ifs <;> exact ⟨rfl, rfl⟩

theorem foldl_updateConnection_link_none (rest : List Packet) :
    ∀ c : Connection, (∀ q ∈ rest, q.LinkLayer = none) →
      (rest.foldl updateConnection c).SrcMAC = c.SrcMAC ∧
        (rest.foldl updateConnection c).DstMAC = c.DstMAC := by
  induction rest with
  | nil =>
    intro c _
    exact ⟨rfl, rfl⟩
  | cons p rest ih =>
    intro c h
    have h1 := ih (updateConnection c p) (fun q hq => h q (List.mem_cons_of_mem _ hq))
    have h2 := updateConnection_link_none c p (h p (List.mem_cons_self _ _))
    simp only [List.foldl_cons]
    exact ⟨h1.1.trans h2.1, h1.2.trans h2.2⟩

theorem foldl_updateConnection_network_none (rest : List Packet) :
    ∀ c : Connection, (∀ q ∈ rest, q.NetworkLayer = none) →
      (rest.foldl updateConnection c).SrcIP = c.SrcIP ∧
        (rest.foldl updateConnection c).DstIP = c.DstIP := by
  induction rest with
  | nil =>
    intro c _
    exact ⟨rfl, rfl⟩
  | cons p rest ih =>
    intro c h
    have h1 := ih (updateConnection c p) (fun q hq => h q (List.mem_cons_of_mem _ hq))
    have h2 := updateConnection_network_none c p (h p (List.mem_cons_self _ _))
    simp only [List.foldl_cons]
    exact ⟨h1.1.trans h2.1, h1.2.trans h2.2⟩

theorem foldl_updateConnection_transport_none (rest : List Packet) :
    ∀ c : Connection, (∀ q ∈ rest, q.TransportLayer = none) →
      (rest.foldl updateConnection c).SrcPort = c.SrcPort ∧
        (rest.foldl updateConnection c).DstPort = c.DstPort := by
  induction rest with
  | nil =>
    intro c _
    exact ⟨rfl, rfl⟩
  | cons p rest ih =>
    intro c h
    have h1 := ih (updateConnection c p) (fun q hq => h q (List.mem_cons_of_mem _ hq))
    have h2 := updateConnection_transport_none c p (h p (List.mem_cons_self _ _))
    simp only [List.foldl_cons]
    exact ⟨h1.1.trans h2.1, h1.2.trans h2.2⟩

/-- Packets that are not earlier than the first timestamp leave the endpoints
and the first timestamp as they are. -/
theorem foldl_updateConnection_endpoints_stable (rest : List Packet) :
    ∀ c : Connection, (∀ q ∈ rest, c.TimestampFirst ≤ q.Timestamp) →
      endpoints (rest.foldl updateConnection c) = endpoints c := by
  induction rest with
  | nil =>
    intro c _
    rfl
  | cons p rest ih =>
    intro c h
    have hp : ¬ p.Timestamp < c.TimestampFirst :=
      not_lt.2 (h p (List.mem_cons_self _ _))
    have htf : (updateConnection c p).TimestampFirst = c.TimestampFirst := by
      rw [updateConnection_TimestampFirst, if_neg hp]
    simp only [List.foldl_cons]
    rw [ih (updateConnection c p) (fun q hq => by
      rw [htf]
      exact h q (List.mem_cons_of_mem _ hq))]
    exact updateConnection_endpoints_of_not_lt c p hp

theorem carriesLayersOf_link (e q : Packet) (h : carriesLayersOf e q = true)
    (he : e.LinkLayer = none) : q.LinkLayer = none := by
  cases hq : q.LinkLayer with
  | none => rfl
  | some x => simp [carriesLayersOf, he, hq] at h

theorem carriesLayersOf_network (e q : Packet) (h : carriesLayersOf e q = true)
    (he : e.NetworkLayer = none) : q.NetworkLayer = none := by
  cases hq : q.NetworkLayer with
  | none => rfl
  | some x => simp [carriesLayersOf, he, hq] at h

theorem carriesLayersOf_transport (e q : Packet) (h : carriesLayersOf e q = true)
    (he : e.TransportLayer = none) : q.TransportLayer = none := by
  cases hq : q.TransportLayer with
  | none => rfl
  | some x => simp [carriesLayersOf, he, hq] at h

/-- The endpoints of an entry are those of the first processed packet among
the packets with the smallest timestamp, when that packet carries the layers
of the packets processed before it. -/
theorem connectionOf_endpoints (pre post : List Packet) (e : Packet) (c : Connection)
    (h : connectionOf (pre ++ e :: post) = some c)
    (hpre : ∀ q ∈ pre, e.Timestamp < q.Timestamp)
    (hpost : ∀ q ∈ post, e.Timestamp ≤ q.Timestamp)
    (hlayers : ∀ q ∈ pre, carriesLayersOf e q = true) :
    endpoints c = packetEndpoints e := by
  cases pre with
  | nil =>
    simp only [List.nil_append, connectionOf, Option.some.injEq] at h
    rw [← h, foldl_updateConnection_endpoints_stable post (newConnection e)
      (by rw [newConnection_TimestampFirst]; exact hpost)]
    exact endpoints_newConnection e
  | cons p pre2 =>
    simp only [List.cons_append, connectionOf, List.foldl_append, List.foldl_cons,
      Option.some.injEq] at h
    have hc0 : connectionOf (p :: pre2) = some (pre2.foldl updateConnection (newConnection p)) :=
      rfl
    obtain ⟨⟨q, hq, hqt⟩, _⟩ := connectionOf_TimestampFirst _ _ hc0
    have hlt : e.Timestamp < (pre2.foldl updateConnection (newConnection p)).TimestampFirst := by
      rw [hqt]
      exact hpre q hq
    have hL : e.LinkLayer = none →
        (pre2.foldl updateConnection (newConnection p)).SrcMAC = "" ∧
          (pre2.foldl updateConnection (newConnection p)).DstMAC = "" := by
      intro he
      have h1 := foldl_updateConnection_link_none pre2 (newConnection p) (fun x hx =>
        carriesLayersOf_link e x (hlayers x (List.mem_cons_of_mem _ hx)) he)
      have h2 := (newConnection_link p).2
        (carriesLayersOf_link e p (hlayers p (List.mem_cons_self _ _)) he)
      exact ⟨h1.1.trans h2.2.1, h1.2.trans h2.2.2⟩
    have hN : e.NetworkLayer = none →
        (pre2.foldl updateConnection (newConnection p)).SrcIP = "" ∧
          (pre2.foldl updateConnection (newConnection p)).DstIP = "" := by
      intro he
      have h1 := foldl_updateConnection_network_none pre2 (newConnection p) (fun x hx =>
        carriesLayersOf_network e x (hlayers x (List.mem_cons_of_mem _ hx)) he)
      have h2 := (newConnection_network p).2
        (carriesLayersOf_network e p (hlayers p (List.mem_cons_self _ _)) he)
      exact ⟨h1.1.trans h2.2.1, h1.2.trans h2.2.2⟩
    have hT : e.TransportLayer = none →
        (pre2.foldl updateConnection (newConnection p)).SrcPort = "" ∧
          (pre2.foldl updateConnection (newConnection p)).DstPort = "" := by
      intro he
      have h1 := foldl_updateConnection_transport_none pre2 (newConnection p) (fun x hx =>
        carriesLayersOf_transport e x (hlayers x (List.mem_cons_of_mem _ hx)) he)
      have h2 := (newConnection_transport p).2
        (carriesLayersOf_transport e p (hlayers p (List.mem_cons_self _ _)) he)
      exact ⟨h1.1.trans h2.2.1, h1.2.trans h2.2.2⟩
    have htf : (updateConnection (pre2.foldl updateConnection (newConnection p)) e).TimestampFirst =
        e.Timestamp := by
      rw [updateConnection_TimestampFirst, if_pos hlt]
    rw [← h, foldl_updateConnection_endpoints_stable post _ (by rw [htf]; exact hpost)]
    exact updateConnection_endpoints_of_lt _ e hlt hL hN hT

/-- C5, as the code has it. For the packets of one connection key processed by
`handlePacket`, the entry's SrcMAC/DstMAC, SrcIP/DstIP and SrcPort/DstPort
afterwards are those of the packet with the earliest capture timestamp,
whatever position it had in processing order; when several packets have that
timestamp, of the one processed first. This needs the earliest packet to
carry every link, network and transport layer carried by the packets processed
before it; the fields of a layer it does not carry are then empty. -/
theorem endpoints_of_earliest (ps : List Packet) (key : String) (c : Connection)
    (pre post : List Packet) (e : Packet)
    (h : (key, c) ∈ processPackets ps)
    (hl : packetsOfKey key ps = pre ++ e :: post)
    (hpre : ∀ q ∈ pre, e.Timestamp < q.Timestamp)
    (hpost : ∀ q ∈ post, e.Timestamp ≤ q.Timestamp)
    (hlayers : ∀ q ∈ pre, carriesLayersOf e q = true) :
    endpoints c = packetEndpoints e := by
  have hc := connectionOf_of_mem ps key c h
  rw [hl] at hc
  exact connectionOf_endpoints pre post e c hc hpre hpost hlayers

theorem reorderedEntry_mem : reorderedEntry ∈ processPackets [dataPacket, synPacket] := by
  rw [show processPackets [dataPacket, synPacket] = [reorderedEntry] from rfl]
  exact List.mem_singleton.2 rfl

theorem endpoints_of_earliest_witness :
    reorderedEntry ∈ processPackets [dataPacket, synPacket] ∧
      packetsOfKey reorderedEntry.1 [dataPacket, synPacket] = [dataPacket] ++ synPacket :: [] ∧
      endpoints reorderedEntry.2 = packetEndpoints synPacket :=
  ⟨reorderedEntry_mem, by decide,
    endpoints_of_earliest [dataPacket, synPacket] reorderedEntry.1 reorderedEntry.2
      [dataPacket] [] synPacket reorderedEntry_mem (by decide) (by decide) (by simp) (by decide)⟩

/-- C5 fails as stated. `synPacket` and `replyPacket` are two packets of one
connection with the same, earliest timestamp and opposite directions: the
entry shows the endpoints of whichever is processed first, so it does not show
those of `replyPacket` when `synPacket` comes first. And `noTransportPacket`
is strictly the earliest of its connection but processed after
`zeroHashPacket`: the entry keeps the ports of `zeroHashPacket`, and
`noTransportPacket` has none. -/
theorem endpoints_of_earliest_counterexample :
    (packetKey synPacket = packetKey replyPacket ∧
      synPacket.Timestamp = replyPacket.Timestamp ∧
      (processPackets [synPacket, replyPacket]).map (fun e => endpoints e.2) =
        [packetEndpoints synPacket] ∧
      (processPackets [replyPacket, synPacket]).map (fun e => endpoints e.2) =
        [packetEndpoints replyPacket] ∧
      packetEndpoints synPacket ≠ packetEndpoints replyPacket) ∧
    (packetConnID zeroHashPacket = packetConnID noTransportPacket ∧
      noTransportPacket.Timestamp < zeroHashPacket.Timestamp ∧
      (processPackets [zeroHashPacket, noTransportPacket]).map (fun e => endpoints e.2) =
        [("bb:bb:bb:bb:bb:bb", "aa:aa:aa:aa:aa:aa", "10.0.0.2", "10.0.0.1", "5353", "5354")] ∧
      packetEndpoints noTransportPacket =
        ("bb:bb:bb:bb:bb:bb", "aa:aa:aa:aa:aa:aa", "10.0.0.2", "10.0.0.1", "", "")) := by
  refine ⟨⟨by decide, by decide, by decide, by decide, by decide⟩, by decide, by decide,
    by decide, by decide⟩

/-! ## Independence of the processing order -/

theorem wrapInt32_idem (x : Int) : wrapInt32 (wrapInt32 x) = wrapInt32 x := by
  unfold wrapInt32
  omega

theorem appPayloadLen_wrap (p : Packet) : wrapInt32 (appPayloadLen p) = appPayloadLen p := by
  unfold appPayloadLen
  cases p.ApplicationLayer with
  | none => rfl
  | some al => exact wrapInt32_idem _

theorem appPayloadLen_of_none (p : Packet) (h : p.ApplicationLayer.isSome = false) :
    appPayloadLen p = 0 := by
  unfold appPayloadLen
  cases ha : p.ApplicationLayer with
  | none => rfl
  | some al => simp [ha] at h

theorem foldl_updateConnection_AppPayloadSize (rest : List Packet) :
    ∀ (c : Connection) (x : Int), c.AppPayloadSize = wrapInt32 x →
      (rest.foldl updateConnection c).AppPayloadSize =
        wrapInt32 (x + (rest.map appPayloadLen).sum) := by
  induction rest with
  | nil =>
    intro c x h
    simpa using h
  | cons p rest ih =>
    intro c x h
    have h1 : (updateConnection c p).AppPayloadSize = wrapInt32 (x + appPayloadLen p) := by
      rw [updateConnection_AppPayloadSize]
      by_cases hs : p.ApplicationLayer.isSome = true
      · rw [if_pos hs, h, wrapInt32_wrapInt32_add]
      · rw [if_neg hs, h, appPayloadLen_of_none p (by simpa using hs)]
        simp
    have h2 := ih (updateConnection c p) (x + appPayloadLen p) h1
    simp only [List.foldl_cons, List.map_cons, List.sum_cons]
    rw [h2]
    congr 1
    omega

theorem connectionOf_AppPayloadSize (l : List Packet) (c : Connection)
    (h : connectionOf l = some c) : c.AppPayloadSize = wrapInt32 (l.map appPayloadLen).sum := by
  cases l with
  | nil => simp [connectionOf] at h
  | cons p rest =>
    simp only [connectionOf, Option.some.injEq] at h
    rw [← h, foldl_updateConnection_AppPayloadSize rest (newConnection p) (appPayloadLen p)
      (by rw [newConnection_AppPayloadSize, appPayloadLen_wrap])]
    simp

theorem foldl_updateConnection_fixed (rest : List Packet) :
    ∀ c : Connection,
      (rest.foldl updateConnection c).UID = c.UID ∧
        (rest.foldl updateConnection c).Duration = c.Duration ∧
        protoNames (rest.foldl updateConnection c) = protoNames c := by
  induction rest with
  | nil =>
    intro c
    exact ⟨rfl, rfl, rfl⟩
  | cons p rest ih =>
    intro c
    obtain ⟨h1, h2, h3⟩ := ih (updateConnection c p)
    simp only [List.foldl_cons]
    exact ⟨h1.trans (updateConnection_UID c p), h2.trans (updateConnection_Duration c p),
      h3.trans (updateConnection_protoNames c p)⟩

theorem connectionOf_cons_fixed (p : Packet) (rest : List Packet) (c : Connection)
    (h : connectionOf (p :: rest) = some c) :
    c.UID = calcMd5 (packetKey p) ∧ c.Duration = 0 ∧
      protoNames c = protoNames (newConnection p) := by
  simp only [connectionOf, Option.some.injEq] at h
  obtain ⟨h1, h2, h3⟩ := foldl_updateConnection_fixed rest (newConnection p)
  rw [h] at h1 h2 h3
  exact ⟨h1.trans (newConnection_UID p), h2.trans (newConnection_Duration p), h3⟩

theorem connectionOf_isSome (l : List Packet) (h : l ≠ []) : ∃ c, connectionOf l = some c := by
  cases l with
  | nil => exact absurd rfl h
  | cons p rest => exact ⟨_, rfl⟩

/-- The UID, the timestamps, the counters and the duration of an entry do not
depend on the order in which its packets were processed. -/
theorem counters_eq_of_perm (l l2 : List Packet) (key : String) (hp : l.Perm l2)
    (hk : ∀ x ∈ l, packetKey x = key) (c c2 : Connection)
    (h : connectionOf l = some c) (h2 : connectionOf l2 = some c2) :
    counters c = counters c2 := by
  have hk2 : ∀ x ∈ l2, packetKey x = key := fun x hx => hk x (hp.mem_iff.2 hx)
  have huid : c.UID = c2.UID := by
    cases l with
    | nil => simp [connectionOf] at h
    | cons a rest =>
      cases l2 with
      | nil => simp [connectionOf] at h2
      | cons b rest2 =>
        rw [(connectionOf_cons_fixed a rest c h).1, (connectionOf_cons_fixed b rest2 c2 h2).1,
          hk a (List.mem_cons_self _ _), hk2 b (List.mem_cons_self _ _)]
  have hdur : c.Duration = c2.Duration := by
    cases l with
    | nil => simp [connectionOf] at h
    | cons a rest =>
      cases l2 with
      | nil => simp [connectionOf] at h2
      | cons b rest2 =>
        rw [(connectionOf_cons_fixed a rest c h).2.1, (connectionOf_cons_fixed b rest2 c2 h2).2.1]
  have htf : c.TimestampFirst = c2.TimestampFirst := by
    obtain ⟨⟨q, hq, e1⟩, m1⟩ := connectionOf_TimestampFirst l c h
    obtain ⟨⟨q2, hq2, e2⟩, m2⟩ := connectionOf_TimestampFirst l2 c2 h2
    have a1 := m2 q (hp.mem_iff.1 hq)
    have a2 := m1 q2 (hp.mem_iff.2 hq2)
    omega
  have htl : c.TimestampLast = c2.TimestampLast := by
    obtain ⟨⟨q, hq, e1⟩, m1⟩ := connectionOf_TimestampLast l c h
    obtain ⟨⟨q2, hq2, e2⟩, m2⟩ := connectionOf_TimestampLast l2 c2 h2
    have a1 := m2 q (hp.mem_iff.1 hq)
    have a2 := m1 q2 (hp.mem_iff.2 hq2)
    omega
  have hnp : c.NumPackets = c2.NumPackets := by
    rw [connectionOf_NumPackets l c h, connectionOf_NumPackets l2 c2 h2, hp.length_eq]
  have hts : c.TotalSize = c2.TotalSize := by
    rw [connectionOf_TotalSize l c h, connectionOf_TotalSize l2 c2 h2,
      (hp.map Packet.Length).sum_eq]
  have hap : c.AppPayloadSize = c2.AppPayloadSize := by
    rw [connectionOf_AppPayloadSize l c h, connectionOf_AppPayloadSize l2 c2 h2,
      (hp.map appPayloadLen).sum_eq]
  simp only [counters, huid, htf, htl, hnp, hts, hap, hdur]

theorem connection_eq_of_parts (c c2 : Connection) (h1 : counters c = counters c2)
    (h2 : protoNames c = protoNames c2) (h3 : endpoints c = endpoints c2) : c = c2 := by
  cases c
  cases c2
  simp only [counters, protoNames, endpoints, Prod.mk.injEq] at h1 h2 h3
  simp only [Connection.mk.injEq]
  tauto

/-- A non-empty list of packets has a first packet among those with the
smallest timestamp. -/
theorem exists_first_earliest (l : List Packet) (h : l ≠ []) :
    ∃ pre e post, l = pre ++ e :: post ∧ (∀ x ∈ pre, e.Timestamp < x.Timestamp) ∧
      (∀ x ∈ post, e.Timestamp ≤ x.Timestamp) := by
  induction l with
  | nil => exact absurd rfl h
  | cons x rest ih =>
    by_cases hr : rest = []
    · subst hr
      exact ⟨[], x, [], rfl, by simp, by simp⟩
    · obtain ⟨pre, e, post, hl, hpre, hpost⟩ := ih hr
      by_cases hx : x.Timestamp ≤ e.Timestamp
      · refine ⟨[], x, rest, rfl, by simp, ?_⟩
        intro y hy
        rw [hl] at hy
        rcases List.mem_append.1 hy with hy | hy
        · have := hpre y hy
          omega
        · rcases List.mem_cons.1 hy with hy | hy
          · rw [hy]
            exact hx
          · have := hpost y hy
            omega
      · refine ⟨x :: pre, e, post, by rw [hl]; rfl, ?_, hpost⟩
        intro y hy
        rcases List.mem_cons.1 hy with hy | hy
        · rw [hy]
          omega
        · exact hpre y hy

theorem carriesLayersOf_of_layersPresent (e q : Packet)
    (h : layersPresent q = layersPresent e) : carriesLayersOf e q = true := by
  simp only [layersPresent, Prod.mk.injEq] at h
  obtain ⟨h1, h2, h3⟩ := h
  simp only [carriesLayersOf, h1, h2, h3]
  cases e.LinkLayer.isSome <;> cases e.NetworkLayer.isSome <;> cases e.TransportLayer.isSome <;>
    rfl

/-- The endpoints of an entry whose packets all carry the same layers are
those of a packet with the smallest timestamp. -/
theorem connectionOf_endpoints_uniform (l : List Packet) (c : Connection)
    (h : connectionOf l = some c) (r : Packet)
    (hlayers : ∀ x ∈ l, layersPresent x = layersPresent r) :
    ∃ e ∈ l, (∀ z ∈ l, e.Timestamp ≤ z.Timestamp) ∧ endpoints c = packetEndpoints e := by
  have hne : l ≠ [] := by
    intro hn
    rw [hn] at h
    simp [connectionOf] at h
  obtain ⟨pre, e, post, hl, hpre, hpost⟩ := exists_first_earliest l hne
  have he : e ∈ l := by
    rw [hl]
    simp
  refine ⟨e, he, ?_, ?_⟩
  · intro z hz
    rw [hl] at hz
    rcases List.mem_append.1 hz with hz | hz
    · exact le_of_lt (hpre z hz)
    · rcases List.mem_cons.1 hz with hz | hz
      · rw [hz]
      · exact hpost z hz
  · rw [hl] at h
    apply connectionOf_endpoints pre post e c h hpre hpost
    intro x hx
    apply carriesLayersOf_of_layersPresent
    rw [hlayers x (by rw [hl]; exact List.mem_append_left _ hx), hlayers e he]

theorem swap_perm (a b c : List Packet) (p q : Packet) :
    (a ++ p :: (b ++ q :: c)).Perm (a ++ q :: (b ++ p :: c)) := by
  apply List.Perm.append_left
  have h1 : (p :: (b ++ q :: c)).Perm (p :: q :: (b ++ c)) :=
    List.Perm.cons p List.perm_middle
  have h2 : (q :: (b ++ p :: c)).Perm (q :: p :: (b ++ c)) :=
    List.Perm.cons q List.perm_middle
  exact h1.trans ((List.Perm.swap q p (b ++ c)).trans h2.symm)

theorem packetsOfKey_swap_same (xs ys zs : List Packet) (p q : Packet) (key : String)
    (hp : packetKey p = key) (hq : packetKey q = key) :
    packetsOfKey key (xs ++ p :: (ys ++ q :: zs)) =
        packetsOfKey key xs ++ p :: (packetsOfKey key ys ++ q :: packetsOfKey key zs) ∧
      packetsOfKey key (xs ++ q :: (ys ++ p :: zs)) =
        packetsOfKey key xs ++ q :: (packetsOfKey key ys ++ p :: packetsOfKey key zs) := by
  simp [packetsOfKey, List.filter_append, List.filter_cons, hp, hq]

theorem packetsOfKey_swap_other (xs ys zs : List Packet) (p q : Packet) (key : String)
    (hp : packetKey p ≠ key) (hq : packetKey q ≠ key) :
    packetsOfKey key (xs ++ p :: (ys ++ q :: zs)) =
      packetsOfKey key (xs ++ q :: (ys ++ p :: zs)) := by
  simp [packetsOfKey, List.filter_append, List.filter_cons, hp, hq]

/-- The table after a capture, entry by entry, seen through a function of the
records. -/
theorem map_processPackets {α : Type} (ps : List Packet) (f : Connection → α) :
    (processPackets ps).map (fun e => (e.1, some (f e.2))) =
      (firstKeys (ps.map packetKey)).map
        (fun k => (k, (connectionOf (packetsOfKey k ps)).map f)) := by
  rw [← keys_processPackets]
  simp only [ConnItems.keys, List.map_map]
  apply List.map_congr_left
  intro e he
  simp only [Function.comp]
  rw [connectionOf_of_mem ps e.1 e.2 he]
  rfl

theorem processPackets_map_congr {α : Type} (ps ps2 : List Packet) (f : Connection → α)
    (hkeys : ps.map packetKey = ps2.map packetKey)
    (hf : ∀ k : String, (connectionOf (packetsOfKey k ps)).map f =
      (connectionOf (packetsOfKey k ps2)).map f) :
    (processPackets ps).map (fun e => (e.1, f e.2)) =
      (processPackets ps2).map (fun e => (e.1, f e.2)) := by
  have h1 := map_processPackets ps f
  have h2 := map_processPackets ps2 f
  rw [hkeys] at h1
  have h3 : (fun k => (k, (connectionOf (packetsOfKey k ps)).map f)) =
      (fun k => (k, (connectionOf (packetsOfKey k ps2)).map f)) := by
    funext k
    rw [hf k]
  rw [h3, ← h2] at h1
  have hinj : Function.Injective (fun x : String × α => (x.1, some x.2)) := by
    intro x y hxy
    simp only [Prod.mk.injEq, Option.some.injEq] at hxy
    exact Prod.ext hxy.1 hxy.2
  apply List.map_injective_iff.2 hinj
  simpa [List.map_map, Function.comp] using h1

/-- C6, as the code has it. For every packet sequence and every two positions
in it whose packets have the same connection key, swapping the two packets and
processing the sequence with `handlePacket` from an empty table gives a table
with the same keys and, in every record, the same UID, TimestampFirst,
TimestampLast, NumPackets, TotalSize, AppPayloadSize and Duration as the
original order. The records are equal in all fields when in addition the two
swapped packets have the same layer-type names at the link, network, transport
and application layer, all packets of that connection carry the same link,
network and transport layers, and the packets of that connection with the
earliest timestamp agree on their source and destination endpoints (as when
one packet alone has the earliest timestamp). -/
theorem swap_same_key (xs ys zs : List Packet) (p q : Packet)
    (hk : packetKey p = packetKey q) :
    (processPackets (xs ++ p :: (ys ++ q :: zs))).map (fun e => (e.1, counters e.2)) =
        (processPackets (xs ++ q :: (ys ++ p :: zs))).map (fun e => (e.1, counters e.2)) ∧
      (protoNames (newConnection p) = protoNames (newConnection q) →
        (∀ x ∈ packetsOfKey (packetKey p) (xs ++ p :: (ys ++ q :: zs)),
          layersPresent x = layersPresent p) →
        (∀ x ∈ packetsOfKey (packetKey p) (xs ++ p :: (ys ++ q :: zs)),
          ∀ y ∈ packetsOfKey (packetKey p) (xs ++ p :: (ys ++ q :: zs)),
            (∀ z ∈ packetsOfKey (packetKey p) (xs ++ p :: (ys ++ q :: zs)),
              x.Timestamp ≤ z.Timestamp) →
            (∀ z ∈ packetsOfKey (packetKey p) (xs ++ p :: (ys ++ q :: zs)),
              y.Timestamp ≤ z.Timestamp) →
            packetEndpoints x = packetEndpoints y) →
        processPackets (xs ++ p :: (ys ++ q :: zs)) =
          processPackets (xs ++ q :: (ys ++ p :: zs))) := by
  have hkeys : (xs ++ p :: (ys ++ q :: zs)).map packetKey =
      (xs ++ q :: (ys ++ p :: zs)).map packetKey := by
    simp [hk]
  obtain ⟨hl, hl2⟩ := packetsOfKey_swap_same xs ys zs p q (packetKey p) rfl hk.symm
  have hperm := swap_perm (packetsOfKey (packetKey p) xs) (packetsOfKey (packetKey p) ys)
    (packetsOfKey (packetKey p) zs) p q
  rw [← hl, ← hl2] at hperm
  have hallk : ∀ x ∈ packetsOfKey (packetKey p) (xs ++ p :: (ys ++ q :: zs)),
      packetKey x = packetKey p := by
    intro x hx
    simpa using (List.mem_filter.1 hx).2
  have hne : packetsOfKey (packetKey p) (xs ++ p :: (ys ++ q :: zs)) ≠ [] := by
    rw [hl]
    simp
  have hne2 : packetsOfKey (packetKey p) (xs ++ q :: (ys ++ p :: zs)) ≠ [] := by
    rw [hl2]
    simp
  obtain ⟨c, hc⟩ := connectionOf_isSome _ hne
  obtain ⟨c2, hc2⟩ := connectionOf_isSome _ hne2
  have hcount : counters c = counters c2 :=
    counters_eq_of_perm _ _ (packetKey p) hperm hallk c c2 hc hc2
  refine ⟨?_, ?_⟩
  · apply processPackets_map_congr _ _ counters hkeys
    intro k
    by_cases hkp : packetKey p = k
    · subst hkp
      rw [hc, hc2, Option.map_some', Option.map_some', hcount]
    · rw [packetsOfKey_swap_other xs ys zs p q k hkp (by rw [← hk]; exact hkp)]
  · intro hnames hlayers hearliest
    have hfull : c = c2 := by
      apply connection_eq_of_parts c c2 hcount
      · cases hA : packetsOfKey (packetKey p) xs with
        | nil =>
          rw [hl, hA] at hc
          rw [hl2, hA] at hc2
          rw [(connectionOf_cons_fixed _ _ c hc).2.2, (connectionOf_cons_fixed _ _ c2 hc2).2.2,
            hnames]
        | cons a rest =>
          rw [hl, hA] at hc
          rw [hl2, hA] at hc2
          rw [(connectionOf_cons_fixed _ _ c hc).2.2, (connectionOf_cons_fixed _ _ c2 hc2).2.2]
      · obtain ⟨e, he, hmin, hend⟩ := connectionOf_endpoints_uniform _ c hc p hlayers
        obtain ⟨e2, he2, hmin2, hend2⟩ := connectionOf_endpoints_uniform _ c2 hc2 p
          (fun x hx => hlayers x (hperm.mem_iff.2 hx))
        rw [hend, hend2]
        exact hearliest e he e2 (hperm.mem_iff.2 he2) hmin
          (fun z hz => hmin2 z (hperm.mem_iff.1 hz))
    have hmap := processPackets_map_congr (xs ++ p :: (ys ++ q :: zs))
      (xs ++ q :: (ys ++ p :: zs)) id hkeys (by
        intro k
        by_cases hkp : packetKey p = k
        · subst hkp
          rw [hc, hc2, hfull]
        · rw [packetsOfKey_swap_other xs ys zs p q k hkp (by rw [← hk]; exact hkp)])
    simpa using hmap

theorem swap_same_key_witness :
    packetKey synPacket = packetKey bulkPacket ∧
      processPackets ([] ++ synPacket :: ([] ++ bulkPacket :: [dataPacket])) =
        processPackets ([] ++ bulkPacket :: ([] ++ synPacket :: [dataPacket])) :=
  ⟨by decide,
    (swap_same_key [] [] [dataPacket] synPacket bulkPacket (by decide)).2 (by decide)
      (by decide) (by decide)⟩

/-- C6 fails as stated. `synPacket` (no application layer) and `dataPacket`
(payload) have the same key: the record has ApplicationProto "" when
`synPacket` is processed first and "Payload" when `dataPacket` is. And
`synPacket` and `replyPacket` have the same key, the same layer types and the
same timestamp: the record has the source and destination of whichever is
processed first. -/
theorem swap_same_key_counterexample :
    (packetKey synPacket = packetKey dataPacket ∧
      (processPackets [synPacket, dataPacket]).map (fun e => e.2.ApplicationProto) = [""] ∧
      (processPackets [dataPacket, synPacket]).map (fun e => e.2.ApplicationProto) =
        ["Payload"]) ∧
    (packetKey synPacket = packetKey replyPacket ∧
      (processPackets [synPacket, replyPacket]).map (fun e => e.2.SrcIP) = ["10.0.0.1"] ∧
      (processPackets [replyPacket, synPacket]).map (fun e => e.2.SrcIP) = ["10.0.0.2"]) := by
  refine ⟨⟨by decide, by decide, by decide⟩, by decide, by decide, by decide⟩

/-! ## POP3: the mail parser -/

theorem stringsSplitSep_ne_nil (sep : GoString) (s : GoString) :
    ∀ k : Nat, stringsSplitSep sep s k ≠ [] := by
  induction s with
  | nil => intro k; simp [stringsSplitSep]
  | cons b rest ih =>
    intro k
    cases k with
    | succ k => simpa [stringsSplitSep] using ih k
    | zero =>
      unfold stringsSplitSep
      split_ifs
      · simp
      · cases h : stringsSplitSep sep rest 0 <;> simp

theorem headerName_nil : headerName [] = [] := by
  simp [headerName, stringsSplitSep]

theorem headerName_cons (b : UInt8) (rest : GoString) :
    (startsWithColonSpace (b :: rest) = true ∧ headerName (b :: rest) = []) ∨
      (startsWithColonSpace (b :: rest) = false ∧ ∃ w, headerName (b :: rest) = b :: w) := by
  unfold headerName startsWithColonSpace
  unfold stringsSplitSep
  by_cases hp : (goStr ": ").isPrefixOf (b :: rest) = true
  · left
    simp [hp]
  · right
    have hp2 : (goStr ": ").isPrefixOf (b :: rest) = false := Bool.eq_false_iff.2 hp
    rw [if_neg hp]
    refine ⟨hp2, ?_⟩
    cases h : stringsSplitSep (goStr ": ") rest 0 with
    | nil => exact ⟨[], rfl⟩
    | cons w ws => exact ⟨w, rfl⟩

theorem startsWithColonSpace_nil : startsWithColonSpace [] = false := by
  decide

theorem isEnvelopeTo_nil : isEnvelopeTo [] = false := by
  decide

theorem unicodeIsUpper_E : unicodeIsUpper 69 = true := by
  decide

theorem goStr_envelopeTo : goStr "Envelope-To" = 69 :: goStr "nvelope-To" := by
  decide

/-- A pass in header mode: it panics on a line that begins with `": "`, and
otherwise leaves the body alone and turns body mode on exactly at a line named
`Envelope-To`. -/
theorem splitStep_header (st : SplitState) (line : GoString) (hc : st.collectBody = false) :
    (startsWithColonSpace line = true ∧ splitStep st line = none) ∨
      (startsWithColonSpace line = false ∧
        ∃ st2, splitStep st line = some st2 ∧ st2.body = st.body ∧
          st2.collectBody = isEnvelopeTo line) := by
  cases line with
  | nil =>
    right
    refine ⟨startsWithColonSpace_nil, st, ?_, rfl, ?_⟩
    · simp [splitStep, hc]
    · rw [hc, isEnvelopeTo_nil]
  | cons b rest =>
    have hne : (b :: rest) ≠ [] := by simp
    rcases headerName_cons b rest with ⟨hs, hn⟩ | ⟨hs, w, hn⟩
    · left
      refine ⟨hs, ?_⟩
      unfold headerName at hn
      unfold splitStep
      rw [hc]
      simp only [Bool.false_eq_true, if_false, hne]
      cases hsp : stringsSplitSep (goStr ": ") (b :: rest) 0 with
      | nil => exact absurd hsp (stringsSplitSep_ne_nil _ _ _)
      | cons p ps =>
        rw [hsp] at hn
        simp only [List.headD_cons] at hn
        subst hn
        rfl
    · right
      refine ⟨hs, ?_⟩
      unfold isEnvelopeTo
      rw [hn]
      unfold headerName at hn
      unfold splitStep
      rw [hc]
      simp only [Bool.false_eq_true, if_false, hne]
      cases hsp : stringsSplitSep (goStr ": ") (b :: rest) 0 with
      | nil => exact absurd hsp (stringsSplitSep_ne_nil _ _ _)
      | cons p ps =>
        rw [hsp] at hn
        simp only [List.headD_cons] at hn
        subst hn
        simp only
        by_cases hu : unicodeIsUpper b = true
        · rw [if_pos hu]
          refine ⟨_, rfl, rfl, ?_⟩
          simp only
          by_cases he : b :: w = goStr "Envelope-To"
          · simp [he]
          · simp [he, hc]
        · rw [if_neg hu]
          refine ⟨_, rfl, rfl, ?_⟩
          simp only
          symm
          rw [decide_eq_false_iff_not]
          intro he
          rw [goStr_envelopeTo] at he
          have hb : b = 69 := (List.cons.inj he).1
          rw [hb] at hu
          exact hu unicodeIsUpper_E

/-- In body mode every line is appended to the body, followed by `"\n"`. -/
theorem splitLoop_body (lines : List GoString) :
    ∀ st : SplitState, st.collectBody = true →
      ∃ st2, splitLoop lines st = some st2 ∧ st2.header = st.header ∧
        st2.body = st.body ++ lines.flatMap (fun l => l ++ goStr "\n") := by
  induction lines with
  | nil =>
    intro st _
    exact ⟨st, rfl, rfl, by simp⟩
  | cons line rest ih =>
    intro st hc
    have hstep : splitStep st line = some { st with body := st.body ++ line ++ goStr "\n" } := by
      simp [splitStep, hc]
    obtain ⟨st2, h1, h2, h3⟩ := ih { st with body := st.body ++ line ++ goStr "\n" } hc
    refine ⟨st2, ?_, h2, ?_⟩
    · simp only [splitLoop, hstep]
      exact h1
    · rw [h3]
      simp [List.flatMap_cons, List.append_assoc]

/-- The loop in header mode: it returns when no line before the first line
named `Envelope-To` begins with `": "`, and the body then gains every line
after that one. -/
theorem splitLoop_header (lines : List GoString) :
    ∀ st : SplitState, st.collectBody = false →
      (∀ l ∈ headerLines lines, startsWithColonSpace l = false) →
      ∃ st2, splitLoop lines st = some st2 ∧
        st2.body = st.body ++ bodyAfterEnvelopeTo lines := by
  induction lines with
  | nil =>
    intro st _ _
    exact ⟨st, rfl, by simp [bodyAfterEnvelopeTo]⟩
  | cons line rest ih =>
    intro st hc hall
    by_cases he : isEnvelopeTo line = true
    · have hs : startsWithColonSpace line = false := by
        cases line with
        | nil => exact startsWithColonSpace_nil
        | cons b r =>
          rcases headerName_cons b r with ⟨_, hn⟩ | ⟨hs, _⟩
          · exfalso
            unfold isEnvelopeTo at he
            rw [hn] at he
            revert he
            decide
          · exact hs
      rcases splitStep_header st line hc with ⟨h1, _⟩ | ⟨_, st1, h1, h2, h3⟩
      · rw [hs] at h1
        exact absurd h1 (by simp)
      · rw [he] at h3
        obtain ⟨st2, g1, _, g3⟩ := splitLoop_body rest st1 h3
        refine ⟨st2, ?_, ?_⟩
        · simp only [splitLoop, h1]
          exact g1
        · rw [g3, h2]
          simp [bodyAfterEnvelopeTo, he]
    · have he2 : isEnvelopeTo line = false := by simpa using he
      have hmem : line ∈ headerLines (line :: rest) := by
        simp [headerLines, he2]
      have hs := hall line hmem
      rcases splitStep_header st line hc with ⟨h1, _⟩ | ⟨_, st1, h1, h2, h3⟩
      · rw [hs] at h1
        exact absurd h1 (by simp)
      · rw [he2] at h3
        have hall2 : ∀ l ∈ headerLines rest, startsWithColonSpace l = false := by
          intro l hl
          apply hall
          simp only [headerLines, List.takeWhile_cons, he2, Bool.not_false, if_true]
          exact List.mem_cons_of_mem _ hl
        obtain ⟨st2, g1, g2⟩ := ih st1 h3 hall2
        refine ⟨st2, ?_, ?_⟩
        · simp only [splitLoop, h1]
          exact g1
        · rw [g2, h2]
          simp [bodyAfterEnvelopeTo, he2]

/-- The loop in header mode panics when a line before the first line named
`Envelope-To` begins with `": "`. -/
theorem splitLoop_panics (lines : List GoString) :
    ∀ st : SplitState, st.collectBody = false →
      (∃ l ∈ headerLines lines, startsWithColonSpace l = true) →
      splitLoop lines st = none := by
  induction lines with
  | nil =>
    intro st _ h
    obtain ⟨l, hl, _⟩ := h
    simp [headerLines] at hl
  | cons line rest ih =>
    intro st hc h
    obtain ⟨l, hl, hs⟩ := h
    by_cases he : isEnvelopeTo line = true
    · simp [headerLines, he] at hl
    · have he2 : isEnvelopeTo line = false := by simpa using he
      simp only [headerLines, List.takeWhile_cons, he2, Bool.not_false, if_true,
        List.mem_cons] at hl
      rcases splitStep_header st line hc with ⟨_, h1⟩ | ⟨hs1, st1, h1, _, h3⟩
      · simp [splitLoop, h1]
      · rcases hl with hl | hl
        · rw [hl, hs1] at hs
          exact absurd hs (by simp)
        · rw [he2] at h3
          simp only [splitLoop, h1]
          exact ih st1 h3 ⟨l, hl, hs⟩

/-- `splitMailHeaderAndBody` panics on a buffer in which a line before the
first line named `Envelope-To` begins with `": "`. -/
theorem splitMailHeaderAndBody_panics (buf : GoString)
    (h : ∃ l ∈ headerLines (readLines buf), startsWithColonSpace l = true) :
    splitMailHeaderAndBody buf = none ∧ parseMail buf = none := by
  have h1 : splitLoop (readLines buf) {} = none := splitLoop_panics _ _ rfl h
  have h2 : splitMailHeaderAndBody buf = none := by
    simp [splitMailHeaderAndBody, h1]
  exact ⟨h2, by simp [parseMail, h2]⟩

theorem readLines_sampleMailText :
    readLines sampleMailText =
      [goStr "From: x@y", goStr "Envelope-To: a@b", goStr "hello", [], goStr "world"] := by
  decide

/-- C20, where the code returns. A line is named `Envelope-To` when its text
before the first `": "` (the whole line when it has none) is `Envelope-To`.
For every message buffer in which no line before the first line named
`Envelope-To` begins with `": "`, `splitMailHeaderAndBody` and `parseMail`
return, and the Body they return is the concatenation of every line that
follows the first line named `Envelope-To`, each followed by `"\n"` (empty
lines included); when the buffer has no line named `Envelope-To`, that Body is
empty. The lines are those that `ReadLine` returns. -/
theorem splitMailHeaderAndBody_body (buf : GoString)
    (h : ∀ l ∈ headerLines (readLines buf), startsWithColonSpace l = false) :
    (∃ header,
        splitMailHeaderAndBody buf = some (header, bodyAfterEnvelopeTo (readLines buf))) ∧
      (∃ m, parseMail buf = some m ∧ m.Body = bodyAfterEnvelopeTo (readLines buf)) ∧
      ((∀ l ∈ readLines buf, isEnvelopeTo l = false) →
        bodyAfterEnvelopeTo (readLines buf) = []) := by
  obtain ⟨st2, h1, h2⟩ := splitLoop_header (readLines buf) {} rfl h
  have hb : st2.body = bodyAfterEnvelopeTo (readLines buf) := by
    rw [h2]
    rfl
  have hs : splitMailHeaderAndBody buf = some (st2.header, bodyAfterEnvelopeTo (readLines buf)) := by
    simp [splitMailHeaderAndBody, h1, hb]
  refine ⟨⟨st2.header, hs⟩, ?_, ?_⟩
  · simp [parseMail, hs]
  · intro hno
    unfold bodyAfterEnvelopeTo
    have hd : (readLines buf).dropWhile (fun l => !isEnvelopeTo l) = [] := by
      rw [List.dropWhile_eq_nil_iff]
      intro l hl
      simp [hno l hl]
    rw [hd]
    rfl

theorem splitMailHeaderAndBody_body_witness :
    (∀ l ∈ headerLines (readLines sampleMailText), startsWithColonSpace l = false) ∧
      ∃ m, parseMail sampleMailText = some m ∧ m.Body = goStr "hello\n\nworld\n" := by
  have h : ∀ l ∈ headerLines (readLines sampleMailText), startsWithColonSpace l = false := by
    rw [readLines_sampleMailText]
    decide
  obtain ⟨m, h1, h2⟩ := (splitMailHeaderAndBody_body sampleMailText h).2.1
  refine ⟨h, m, h1, ?_⟩
  rw [h2, readLines_sampleMailText]
  decide

/-- C20 does not hold of the code: the buffer `": x\nEnvelope-To: a@b\nhello\n"` has a
line named `Envelope-To`, followed by the line `hello`, and neither
`splitMailHeaderAndBody` nor `parseMail` returns a Body for it: the first line
splits into an empty first part, and `parts[0][0]` is out of range. -/
theorem splitMailHeaderAndBody_body_counterexample :
    readLines colonMailText = [goStr ": x", goStr "Envelope-To: a@b", goStr "hello"] ∧
      bodyAfterEnvelopeTo (readLines colonMailText) = goStr "hello\n" ∧
      splitMailHeaderAndBody colonMailText = none ∧
      parseMail colonMailText = none := by
  refine ⟨by decide, by decide, by decide, by decide⟩

/-! ## POP3: the loop of `parseMails` -/

theorem hasDot_cons (reply : POP3Response) (rest : List POP3Response) :
    hasDot (reply :: rest) = (isDot reply || hasDot rest) := by
  simp [hasDot]

theorem isDot_iff (reply : POP3Response) : isDot reply = true ↔ reply.Command = goStr "." := by
  simp [isDot]

theorem repliesBeforeDot_cons_dot (reply : POP3Response) (rest : List POP3Response)
    (h : reply.Command = goStr ".") : repliesBeforeDot (reply :: rest) = [] := by
  have h2 : isDot reply = true := (isDot_iff reply).2 h
  simp [repliesBeforeDot, h2]

theorem repliesBeforeDot_cons (reply : POP3Response) (rest : List POP3Response)
    (h : reply.Command ≠ goStr ".") :
    repliesBeforeDot (reply :: rest) = reply :: repliesBeforeDot rest := by
  have h2 : isDot reply = false := by
    rw [← Bool.not_eq_true, isDot_iff]
    exact h
  simp [repliesBeforeDot, h2]

theorem gatheredText_cons_dot (reply : POP3Response) (rest : List POP3Response)
    (h : reply.Command = goStr ".") : gatheredText (reply :: rest) = [] := by
  simp [gatheredText, repliesBeforeDot_cons_dot _ _ h]

theorem gatheredText_cons (reply : POP3Response) (rest : List POP3Response)
    (h : reply.Command ≠ goStr ".") :
    gatheredText (reply :: rest) = reply.Message ++ goStr "\n" ++ gatheredText rest := by
  simp [gatheredText, repliesBeforeDot_cons _ _ h]

theorem hasDot_cons_dot (reply : POP3Response) (rest : List POP3Response)
    (h : reply.Command = goStr ".") : hasDot (reply :: rest) = true := by
  rw [hasDot_cons, (isDot_iff reply).2 h]
  rfl

theorem hasDot_cons_of_ne (reply : POP3Response) (rest : List POP3Response)
    (h : reply.Command ≠ goStr ".") : hasDot (reply :: rest) = hasDot rest := by
  have h2 : isDot reply = false := by
    rw [← Bool.not_eq_true, isDot_iff]
    exact h
  rw [hasDot_cons, h2]
  rfl

/-- The loop of `LIST`, `UIDL` and `CAPA`: it counts the replies before the
first `.`, and advances the index by one more when there is a `.`. -/
theorem skipReply_eq (replies : List POP3Response) :
    ∀ (s : ParseState) (n : Nat),
      skipReply replies s n =
        (if hasDot replies then
            { s with numMails := s.numMails + 1, resIndex := s.resIndex + 1 }
          else s,
          n + (repliesBeforeDot replies).length) := by
  induction replies with
  | nil =>
    intro s n
    simp [skipReply, hasDot, repliesBeforeDot]
  | cons reply rest ih =>
    intro s n
    by_cases h : reply.Command = goStr "."
    · rw [skipReply, if_pos h, hasDot_cons_dot _ _ h, repliesBeforeDot_cons_dot _ _ h]
      simp
    · rw [skipReply, if_neg h, ih, hasDot_cons_of_ne _ _ h, repliesBeforeDot_cons _ _ h]
      simp only [List.length_cons, Prod.mk.injEq, true_and]
      omega

theorem repliesBeforeDot_length_of_not_hasDot (replies : List POP3Response)
    (h : hasDot replies = false) : (repliesBeforeDot replies).length = replies.length := by
  induction replies with
  | nil => rfl
  | cons reply rest ih =>
    by_cases hd : reply.Command = goStr "."
    · rw [hasDot_cons_dot _ _ hd] at h
      exact absurd h (by simp)
    · rw [hasDot_cons_of_ne _ _ hd] at h
      rw [repliesBeforeDot_cons _ _ hd, List.length_cons, List.length_cons, ih h]

theorem repliesBeforeDot_length_lt (replies : List POP3Response) (h : hasDot replies = true) :
    (repliesBeforeDot replies).length < replies.length := by
  induction replies with
  | nil => simp [hasDot] at h
  | cons reply rest ih =>
    by_cases hd : reply.Command = goStr "."
    · rw [repliesBeforeDot_cons_dot _ _ hd]
      simp
    · rw [hasDot_cons_of_ne _ _ hd] at h
      rw [repliesBeforeDot_cons _ _ hd, List.length_cons, List.length_cons]
      exact Nat.succ_lt_succ (ih h)

/-- The loop of `RETR` when a `.` is among the replies: one mail is parsed from
the text gathered before the `.`. -/
theorem collectMail_dot (replies : List POP3Response) :
    ∀ (s : ParseState) (n : Nat), hasDot replies = true →
      collectMail replies s n =
        (parseMail (s.mailBuf ++ gatheredText replies)).map (fun m =>
          ({ s with
            mails := s.mails ++ [m]
            mailBuf := []
            numMails := s.numMails + 1
            resIndex := s.resIndex + 1 },
            n + (repliesBeforeDot replies).length)) := by
  induction replies with
  | nil =>
    intro s n h
    simp [hasDot] at h
  | cons reply rest ih =>
    intro s n h
    by_cases hd : reply.Command = goStr "."
    · rw [collectMail, if_pos hd, gatheredText_cons_dot _ _ hd,
        repliesBeforeDot_cons_dot _ _ hd]
      simp only [List.append_nil, List.length_nil, Nat.add_zero]
      cases parseMail s.mailBuf <;> rfl
    · rw [hasDot_cons_of_ne _ _ hd] at h
      rw [collectMail, if_neg hd, ih _ _ h, gatheredText_cons _ _ hd,
        repliesBeforeDot_cons _ _ hd]
      simp only [List.append_assoc, List.length_cons]
      cases parseMail (s.mailBuf ++ (reply.Message ++ (goStr "\n" ++ gatheredText rest))) with
      | none => rfl
      | some m =>
        simp only [Option.map_some', Option.some.injEq, Prod.mk.injEq, true_and]
        omega

/-- The loop of `RETR` when no `.` is among the replies: no mail is parsed and
the text of all replies stays in the buffer. -/
theorem collectMail_no_dot (replies : List POP3Response) :
    ∀ (s : ParseState) (n : Nat), hasDot replies = false →
      collectMail replies s n =
        some ({ s with mailBuf := s.mailBuf ++ gatheredText replies }, n + replies.length) := by
  induction replies with
  | nil =>
    intro s n _
    simp [collectMail, gatheredText, repliesBeforeDot]
  | cons reply rest ih =>
    intro s n h
    by_cases hd : reply.Command = goStr "."
    · rw [hasDot_cons_dot _ _ hd] at h
      exact absurd h (by simp)
    · rw [hasDot_cons_of_ne _ _ hd] at h
      rw [collectMail, if_neg hd, ih _ _ h, gatheredText_cons _ _ hd]
      simp only [List.append_assoc, List.length_cons, Option.some.injEq, Prod.mk.injEq,
        true_and]
      omega

/-- A `return` in the loop leaves the variables as they are. -/
theorem parseStep_returned (responses : List POP3Response) (r : POP3Request)
    (nxt : Option POP3Request) (s s2 : ParseState)
    (h : parseStep responses r nxt s = Outcome.returned s2) : s2 = s := by
  unfold parseStep at h
  split at h
  · split_ifs at h
    · split at h <;> simp at h
    · simp only [Outcome.returned.injEq] at h
      exact h.symm
  · split_ifs at h
    all_goals first
      | (simp only [Outcome.returned.injEq] at h; exact h.symm)
      | (split at h <;> first
          | (simp at h; done)
          | (split_ifs at h <;> first
              | (simp at h; done)
              | (split at h <;> simp at h)))
  · simp at h

theorem stepKeeps_resIndex (responses : List POP3Response) (s : ParseState) (k : Nat) :
    stepKeeps responses s { s with resIndex := s.resIndex + k } := by
  refine ⟨fun h => h, fun h => ⟨h, rfl, rfl, rfl⟩, List.prefix_refl _, Nat.le_add_right _ _, ?_⟩
  intro h
  rcases h with h | h
  · exact Or.inl h
  · exact Or.inr (Nat.le_trans h (Nat.le_add_right _ _))

theorem stepKeeps_skipReply (responses : List POP3Response) (replies : List POP3Response)
    (s : ParseState) :
    stepKeeps responses s
      { (skipReply replies s 0).1 with
        resIndex := (skipReply replies s 0).1.resIndex + (skipReply replies s 0).2 } := by
  rw [skipReply_eq]
  cases hasDot replies
  · simp only [Bool.false_eq_true, if_false]
    exact stepKeeps_resIndex responses s _
  · simp only [if_true]
    refine ⟨fun h => h, fun h => ⟨h, rfl, rfl, rfl⟩, List.prefix_refl _, ?_, ?_⟩
    · simp only
      omega
    · intro h
      rcases h with h | h
      · exact Or.inl h
      · right
        simp only
        omega

theorem stepKeeps_collectMail (responses : List POP3Response) (s : ParseState)
    (res : ParseState × Nat) (hle : s.resIndex ≤ responses.length)
    (h : collectMail (responses.drop s.resIndex) s 0 = some res) :
    stepKeeps responses s { res.1 with resIndex := res.1.resIndex + res.2 } := by
  cases hd : hasDot (responses.drop s.resIndex)
  · rw [collectMail_no_dot _ _ _ hd] at h
    simp only [Option.some.injEq] at h
    subst h
    refine ⟨fun h => h, fun h => ⟨h, rfl, rfl, rfl⟩, List.prefix_refl _, ?_, ?_⟩
    · simp only
      omega
    · intro _
      right
      simp only [List.length_drop]
      omega
  · rw [collectMail_dot _ _ _ hd] at h
    cases hp : parseMail (s.mailBuf ++ gatheredText (List.drop s.resIndex responses)) with
    | none => simp [hp] at h
    | some m =>
      simp only [hp, Option.map_some', Option.some.injEq] at h
      subst h
      refine ⟨fun h => h, fun h => ⟨h, rfl, rfl, rfl⟩, List.prefix_append _ _, ?_, ?_⟩
      · simp only
        omega
      · intro _
        exact Or.inl rfl

/-- What every pass through the loop that goes on keeps: the loop stays in one
of its two states, an authenticated loop stays authenticated with its user,
pass and token, mails are only added, and the response index only grows. -/
theorem parseStep_running (responses : List POP3Response) (r : POP3Request)
    (nxt : Option POP3Request) (s s2 : ParseState)
    (h : parseStep responses r nxt s = Outcome.running s2) : stepKeeps responses s s2 := by
  unfold parseStep at h
  split at h
  next hst =>
    split_ifs at h with h1 h2 h3 h4 h5 h6
    · simp only [Outcome.running.injEq] at h
      subst h
      exact stepKeeps_resIndex responses s 1
    · simp only [Outcome.running.injEq] at h
      subst h
      exact stepKeeps_skipReply responses _ s
    · split at h
      · simp at h
      next res hc =>
        simp only [Outcome.running.injEq] at h
        subst h
        exact stepKeeps_collectMail responses s res (by assumption) hc
    · simp only [Outcome.running.injEq] at h
      subst h
      exact stepKeeps_resIndex responses s 1
  next hst =>
    have hna : ¬ s.state = POP3State.StateAuthenticated := by
      rw [hst]
      decide
    have key : ∀ s3 : ParseState, s3.mails = s.mails → s3.mailBuf = s.mailBuf →
        s3.resIndex = s.resIndex + 1 → loopState s3 → stepKeeps responses s s3 := by
      intro s3 e1 e2 e3 e4
      refine ⟨fun _ => e4, fun h => absurd h hna, ?_, ?_, ?_⟩
      · rw [e1]
      · omega
      · intro hb
        unfold bufferInv at hb ⊢
        rw [e2, e3]
        rcases hb with hb | hb
        · exact Or.inl hb
        · exact Or.inr (by omega)
    have hl : loopState s := Or.inl hst
    split_ifs at h
    all_goals first
      | (simp only [Outcome.running.injEq] at h; subst h
         first
          | exact stepKeeps_skipReply responses _ s
          | exact key _ rfl rfl rfl (Or.inl hst))
      | skip
    all_goals (split at h <;> first | (simp at h; done) | skip)
    all_goals (split_ifs at h)
    all_goals first
      | (simp only [Outcome.running.injEq] at h; subst h
         first
          | exact key _ rfl rfl rfl (Or.inl hst)
          | exact key _ rfl rfl rfl (Or.inr rfl))
      | skip
    all_goals (split at h <;> first | (simp at h; done) | skip)
    all_goals first
      | (simp only [Outcome.running.injEq] at h; subst h
         first
          | exact key _ rfl rfl rfl (Or.inl hst)
          | exact key _ rfl rfl rfl (Or.inr rfl))
      | skip
  next hst1 hst2 =>
    simp only [Outcome.running.injEq] at h
    subst h
    exact stepKeeps_resIndex responses s 1

theorem stepKeeps_refl (responses : List POP3Response) (s : ParseState) :
    stepKeeps responses s s :=
  ⟨fun h => h, fun h => ⟨h, rfl, rfl, rfl⟩, List.prefix_refl _, Nat.le_refl _, fun h => h⟩

theorem stepKeeps_trans (responses : List POP3Response) (s1 s2 s3 : ParseState)
    (h12 : stepKeeps responses s1 s2) (h23 : stepKeeps responses s2 s3) :
    stepKeeps responses s1 s3 := by
  obtain ⟨a1, a2, a3, a4, a5⟩ := h12
  obtain ⟨b1, b2, b3, b4, b5⟩ := h23
  refine ⟨fun h => b1 (a1 h), fun h => ?_, List.IsPrefix.trans a3 b3, Nat.le_trans a4 b4,
    fun h => b5 (a5 h)⟩
  obtain ⟨c1, c2, c3, c4⟩ := a2 h
  obtain ⟨d1, d2, d3, d4⟩ := b2 c1
  exact ⟨d1, d2.trans c2, d3.trans c3, d4.trans c4⟩

/-- What the loop keeps up to its `return`. -/
theorem parseLoop_keeps (responses : List POP3Response) (requests : List POP3Request) :
    ∀ s s2 : ParseState, parseLoop responses requests s = some s2 →
      stepKeeps responses s s2 := by
  induction requests with
  | nil =>
    intro s s2 h
    simp only [parseLoop, Option.some.injEq] at h
    subst h
    exact stepKeeps_refl responses s
  | cons r rest ih =>
    intro s s2 h
    unfold parseLoop at h
    cases hp : parseStep responses r rest.head? s with
    | running s1 =>
      rw [hp] at h
      exact stepKeeps_trans _ _ _ _ (parseStep_running _ _ _ _ _ hp) (ih _ _ h)
    | returned s1 =>
      rw [hp] at h
      simp only [Option.some.injEq] at h
      subst h
      rw [parseStep_returned _ _ _ _ _ hp]
      exact stepKeeps_refl responses s
    | panicked =>
      rw [hp] at h
      simp at h

/-- What the loop keeps up to a later request. -/
theorem stateAfter_keeps (responses : List POP3Response) (pre following : List POP3Request) :
    ∀ s s2 : ParseState, stateAfter responses pre following s = some s2 →
      stepKeeps responses s s2 := by
  induction pre with
  | nil =>
    intro s s2 h
    simp only [stateAfter, Option.some.injEq] at h
    subst h
    exact stepKeeps_refl responses s
  | cons r rest ih =>
    intro s s2 h
    unfold stateAfter at h
    cases hp : parseStep responses r (rest ++ following).head? s with
    | running s1 =>
      rw [hp] at h
      exact stepKeeps_trans _ _ _ _ (parseStep_running _ _ _ _ _ hp) (ih _ _ h)
    | returned s1 =>
      rw [hp] at h
      simp at h
    | panicked =>
      rw [hp] at h
      simp at h

/-- From the state in which the loop takes a request, it goes on as if it had
started there. -/
theorem parseLoop_of_stateAfter (responses : List POP3Response)
    (pre following : List POP3Request) :
    ∀ s s2 : ParseState, stateAfter responses pre following s = some s2 →
      parseLoop responses (pre ++ following) s = parseLoop responses following s2 := by
  induction pre with
  | nil =>
    intro s s2 h
    simp only [stateAfter, Option.some.injEq] at h
    subst h
    rfl
  | cons r rest ih =>
    intro s s2 h
    unfold stateAfter at h
    cases hp : parseStep responses r (rest ++ following).head? s with
    | running s1 =>
      rw [hp] at h
      rw [List.cons_append, parseLoop, hp]
      exact ih _ _ h
    | returned s1 =>
      rw [hp] at h
      simp at h
    | panicked =>
      rw [hp] at h
      simp at h

/-- The state after one more request. -/
theorem stateAfter_snoc (responses : List POP3Response) (pre : List POP3Request)
    (r : POP3Request) (post : List POP3Request) :
    ∀ s s1 : ParseState, stateAfter responses pre (r :: post) s = some s1 →
      stateAfter responses (pre ++ [r]) post s =
        match parseStep responses r post.head? s1 with
        | Outcome.running s2 => some s2
        | _ => none := by
  induction pre with
  | nil =>
    intro s s1 h
    simp only [stateAfter, Option.some.injEq] at h
    subst h
    simp only [List.nil_append, stateAfter] <;>
      (cases parseStep responses r post.head? s <;> rfl)
  | cons p rest ih =>
    intro s s1 h
    unfold stateAfter at h
    simp only [List.cons_append]
    unfold stateAfter
    have hh : (rest ++ [r] ++ post).head? = (rest ++ r :: post).head? := by
      simp
    rw [hh]
    cases hp : parseStep responses p (rest ++ r :: post).head? s with
    | running s0 =>
      rw [hp] at h
      simp only
      exact ih _ _ h
    | returned s0 =>
      rw [hp] at h
      simp at h
    | panicked =>
      rw [hp] at h
      simp at h

/-- After the greeting has been accepted, `parseMails` is its loop. -/
theorem parseMails_eq (requests : List POP3Request) (responses : List POP3Response)
    (hhello : serverHelloOk responses = true) (hreq : requests ≠ []) :
    parseMails requests responses = (parseLoop responses requests {}).map resultOf := by
  cases responses with
  | nil => simp [serverHelloOk] at hhello
  | cons hello rest =>
    simp only [serverHelloOk, Bool.and_eq_true, decide_eq_true_eq] at hhello
    unfold parseMails
    simp only [hreq, if_false, hhello.1, hhello.2, ne_eq, not_true_eq_false, Bool.not_true,
      Bool.false_eq_true]
    cases parseLoop (hello :: rest) requests {} <;> rfl

/-- When the greeting is not accepted, `parseMails` returns empty results. -/
theorem parseMails_no_hello (requests : List POP3Request) (responses : List POP3Response)
    (hhello : serverHelloOk responses = false) : parseMails requests responses = some {} := by
  cases responses with
  | nil => rfl
  | cons hello rest =>
    unfold parseMails
    by_cases hreq : requests = []
    · simp [hreq]
    · simp only [hreq, if_false]
      by_cases hc : hello.Command = goStr "+OK"
      · simp only [serverHelloOk, hc, decide_True, Bool.true_and] at hhello
        simp [hc, hhello]
      · simp [hc]

/-- A `QUIT` ends the loop in either of its two states. -/
theorem parseStep_quit (responses : List POP3Response) (q : POP3Request)
    (nxt : Option POP3Request) (s : ParseState) (hq : q.Command = goStr "QUIT")
    (hs : loopState s) : parseStep responses q nxt s = Outcome.returned s := by
  have h1 : goStr "QUIT" ≠ goStr "STAT" := by decide
  have h2 : goStr "QUIT" ≠ goStr "LIST" := by decide
  have h3 : goStr "QUIT" ≠ goStr "UIDL" := by decide
  have h4 : goStr "QUIT" ≠ goStr "RETR" := by decide
  have h5 : goStr "QUIT" ≠ goStr "USER" := by decide
  have h6 : goStr "QUIT" ≠ goStr "CAPA" := by decide
  have h7 : goStr "QUIT" ≠ goStr "AUTH" := by decide
  have h8 : goStr "QUIT" ≠ goStr "PASS" := by decide
  have h9 : goStr "QUIT" ≠ goStr "APOP" := by decide
  rcases hs with hs | hs
  · simp [parseStep, hs, hq, h5, h6, h7, h8, h9]
  · simp [parseStep, hs, hq, h1, h2, h3, h4]

theorem parseLoop_quit (responses : List POP3Response) (q : POP3Request)
    (post : List POP3Request) (hq : q.Command = goStr "QUIT") (pre : List POP3Request) :
    ∀ s : ParseState, loopState s →
      parseLoop responses (pre ++ q :: post) s = parseLoop responses (pre ++ [q]) s := by
  induction pre with
  | nil =>
    intro s hs
    simp only [List.nil_append, parseLoop, parseStep_quit responses q _ s hq hs]
  | cons p rest ih =>
    intro s hs
    have hh : (rest ++ q :: post).head? = (rest ++ [q]).head? := by
      cases rest <;> rfl
    rw [List.cons_append, List.cons_append, parseLoop, parseLoop, hh]
    cases hp : parseStep responses p (rest ++ [q]).head? s with
    | running s1 => exact ih s1 ((parseStep_running _ _ _ _ _ hp).1 hs)
    | returned s1 => rfl
    | panicked => rfl

/-- C17. `parseMails` stops at the first `QUIT` request it takes, in either
state: for all request lists `pre` and `post`, every request `q` whose command
is `QUIT` and every response list, `parseMails` on `pre ++ [q] ++ post` has the
same outcome, and so returns the same mails, user, pass and token, as on
`pre ++ [q]`. -/
theorem parseMails_stops_at_quit (responses : List POP3Response)
    (pre post : List POP3Request) (q : POP3Request) (hq : q.Command = goStr "QUIT") :
    parseMails (pre ++ [q] ++ post) responses = parseMails (pre ++ [q]) responses := by
  cases hh : serverHelloOk responses
  · rw [parseMails_no_hello _ _ hh, parseMails_no_hello _ _ hh]
  · rw [parseMails_eq _ _ hh (by simp), parseMails_eq _ _ hh (by simp), List.append_assoc,
      List.singleton_append, parseLoop_quit responses q post hq pre {} (Or.inl rfl)]

theorem parseMails_stops_at_quit_witness :
    quitRequest.Command = goStr "QUIT" ∧
      parseMails ([userAlice] ++ [quitRequest] ++ [passSecret, retrOne]) [helloReply, okReply] =
        parseMails ([userAlice] ++ [quitRequest]) [helloReply, okReply] ∧
      parseMails ([userAlice] ++ [quitRequest]) [helloReply, okReply] =
        some { user := goStr "alice" } :=
  ⟨by decide, parseMails_stops_at_quit _ _ _ _ (by decide), by decide⟩

/-! ## POP3: transcripts that were cut off -/

theorem parseStep_no_reply (responses : List POP3Response) (r : POP3Request)
    (nxt : Option POP3Request) (s : ParseState)
    (hs : s.state = POP3State.StateNotAuthenticated) (hr : needsReply r.Command = true)
    (hlen : responses.length ≤ s.resIndex + 1) :
    parseStep responses r nxt s = Outcome.panicked := by
  have hg : responses[s.resIndex + 1]? = none := List.getElem?_eq_none hlen
  have h1 : goStr "PASS" ≠ goStr "USER" := by decide
  have h2 : goStr "PASS" ≠ goStr "CAPA" := by decide
  have h3 : goStr "PASS" ≠ goStr "AUTH" := by decide
  have h4 : goStr "APOP" ≠ goStr "USER" := by decide
  have h5 : goStr "APOP" ≠ goStr "CAPA" := by decide
  have h6 : goStr "APOP" ≠ goStr "AUTH" := by decide
  have h7 : goStr "APOP" ≠ goStr "PASS" := by decide
  have h8 : goStr "AUTH" ≠ goStr "USER" := by decide
  have h9 : goStr "AUTH" ≠ goStr "CAPA" := by decide
  simp only [needsReply, Bool.or_eq_true, decide_eq_true_eq] at hr
  rcases hr with ((hr | hr) | hr) | hr
  · simp [parseStep, hs, hr, hg]
  · simp [parseStep, hs, hr, hg, h1, h2, h3]
  · simp [parseStep, hs, hr, hg, h4, h5, h6, h7]
  · simp [parseStep, hs, hr, hg, h8, h9]

/-- C19 does not hold of the code. When the accepted greeting is the only
recorded response and the first request is `USER`, `PASS`, `APOP` or `AUTH`,
`parseMails` does not return: `h.parent.pop3Responses[h.resIndex+1]` is out of
range. -/
theorem parseMails_panics_without_reply (hello : POP3Response) (r : POP3Request)
    (rest : List POP3Request) (hh : serverHelloOk [hello] = true)
    (hr : needsReply r.Command = true) : parseMails (r :: rest) [hello] = none := by
  rw [parseMails_eq _ _ hh (by simp), parseLoop,
    parseStep_no_reply [hello] r rest.head? {} rfl hr (by simp)]
  rfl

theorem parseMails_panics_without_reply_witness :
    serverHelloOk [helloReply] = true ∧ needsReply userAlice.Command = true ∧
      parseMails [userAlice] [helloReply] = none :=
  ⟨by decide, by decide, parseMails_panics_without_reply _ _ _ (by decide) (by decide)⟩

/-- Transcripts cut off before a reply arrived on which `parseMails` panics
instead of returning: a `USER`, `PASS`, `APOP` or `AUTH` request without a
following response, an accepted `AUTH` as the final request, and more
requests than responses. -/
theorem parseMails_partial_data_panics :
    parseMails [userAlice] [helloReply] = none ∧
      parseMails [userAlice, passSecret] [helloReply, okReply] = none ∧
      parseMails [{ Command := goStr "APOP", Argument := goStr "mrose c4c9" }] [helloReply] =
        none ∧
      parseMails [bareRequest "AUTH"] [helloReply] = none ∧
      parseMails [bareRequest "AUTH"] [helloReply, okReply] = none ∧
      parseMails [userAlice, passSecret, bareRequest "STAT", bareRequest "STAT",
        bareRequest "LIST"] [helloReply, okReply, okReply] = none := by
  refine ⟨by decide, by decide, by decide, by decide, by decide, by decide⟩

/-! ## POP3: the documented sessions -/

/-- C12 does not hold of the code. On the session documented in the source
comment (greeting `+OK POP3 server ready <mailserver.mydomain.com>`,
`USER user1` answered `+OK`, ...) `parseMails` returns an empty user, because
the message of the greeting does not begin with `POP server ready`; with the
greeting `+OK POP server ready <mailserver.mydomain.com>` the same session
yields `user1`. On a session that begins with `CAPA`, whose reply ends with
`.`, the user `alice` that the server accepted is not returned either: the
reply that `parseMails` tests for `USER alice` is the one to the next
request. -/
theorem parseMails_documented_session_user :
    (parseMails (runClient documentedClientLines []) (runServer documentedServerLines [])).map
        (fun res => res.user) = some [] ∧
      (parseMails (runClient documentedClientLines []) (runServer acceptedServerLines [])).map
        (fun res => res.user) = some (goStr "user1") ∧
      (runServer capaServerLines []).get? 5 = some okReply ∧
      (parseMails (runClient capaClientLines []) (runServer capaServerLines [])).map
        (fun res => res.user) = some [] := by
  refine ⟨by decide, by decide, by decide, by decide⟩

/-- C13 does not hold of the code. Scenario E4 (`USER alice` answered `+OK`,
`PASS s3cret` answered `-ERR`, `QUIT`) gives user `alice`, an empty pass and no
mails. On a session that begins with `CAPA`, in which the server answers
`PASS wrong` with `-ERR invalid password`, `parseMails` returns the pass
`wrong`: the reply it tests is the `+OK` that answers the `QUIT`. -/
theorem parseMails_pass_after_capa :
    parseMails (runClient e4ClientLines []) (runServer e4ServerLines []) =
        some { user := goStr "alice" } ∧
      (runServer capaServerLines []).get? 6 =
        some { Command := goStr "-ERR", Message := goStr "invalid password" } ∧
      (parseMails (runClient capaClientLines []) (runServer capaServerLines [])).map
        (fun res => (res.pass, res.mails)) = some (goStr "wrong", []) := by
  refine ⟨by decide, by decide, by decide⟩

/-- C14 does not hold of the code. On the session documented in the source
comment (greeting `+OK POP3 server ready <1896.697170952@dbc.mtview.ca.us>`,
`APOP mrose c4c9334bac560ecc979e58001b3e22fb` answered `+OK`) `parseMails`
returns an empty user and an empty token, because the message of the greeting
does not begin with `POP server ready`; with the greeting
`+OK POP server ready <1896.697170952@dbc.mtview.ca.us>` it returns `mrose`
and the token. -/
theorem parseMails_documented_apop_session :
    parseMails (runClient apopClientLines []) (runServer apopServerLines []) = some {} ∧
      parseMails (runClient apopClientLines []) (runServer apopAcceptedServerLines []) =
        some { user := goStr "mrose", token := goStr "c4c9334bac560ecc979e58001b3e22fb" } := by
  refine ⟨by decide, by decide⟩

/-! ## POP3: the two `Cleanup` calls -/

/-- C18, as far as it holds of the code. Of the two `Cleanup` calls made for
one connection, starting with `parent.last = false`, the first writes no
record: it sets `parent.last`, signals the wait group and changes nothing
else. The second writes exactly one POP3 record, built from the results of
`parseMails`, when `parseMails` returns on the recorded transcript; when
`parseMails` panics, the second call does not return and no record is
written. -/
theorem cleanup_twice (st : StreamState) (h : st.last = false) :
    Cleanup st = some (afterFirstCleanup st) ∧
      (afterFirstCleanup st).written = st.written ∧
      (∀ res, parseMails st.pop3Requests st.pop3Responses = some res →
        Cleanup (afterFirstCleanup st) =
          some { afterFirstCleanup st with
            numRecords := wrapInt64 (st.numRecords + 1)
            written := st.written ++ [recordFor st res]
            done := st.done + 2 }) ∧
      (parseMails st.pop3Requests st.pop3Responses = none →
        Cleanup (afterFirstCleanup st) = none) := by
  refine ⟨?_, rfl, ?_, ?_⟩
  · simp [Cleanup, h, afterFirstCleanup]
  · intro res hres
    simp [Cleanup, afterFirstCleanup, hres, recordFor]
  · intro hres
    simp [Cleanup, afterFirstCleanup, hres]

theorem cleanup_twice_witness :
    e4Stream.last = false ∧
      ((Cleanup e4Stream).bind Cleanup).map (fun st => st.written) =
        some [{ Timestamp := "2020-01-01 00:00:00 +0000 UTC", Client := "10.0.0.1",
                Server := "10.0.0.2", User := goStr "alice" }] := by
  have hres : parseMails e4Stream.pop3Requests e4Stream.pop3Responses =
      some { user := goStr "alice" } := by
    decide
  obtain ⟨h1, _, h3, _⟩ := cleanup_twice e4Stream (by decide)
  refine ⟨by decide, ?_⟩
  rw [h1, Option.some_bind, h3 _ hres]
  rfl

/-- C18 does not hold of the code. For a connection cut off after the
greeting and the request `USER alice`, the first `Cleanup` call returns and
the second does not: `parseMails` panics, and no POP3 record is written. -/
theorem cleanup_cut_off_stream :
    cutOffStream.last = false ∧
      Cleanup cutOffStream = some (afterFirstCleanup cutOffStream) ∧
      (afterFirstCleanup cutOffStream).written = [] ∧
      Cleanup (afterFirstCleanup cutOffStream) = none := by
  refine ⟨by decide, by decide, by decide, by decide⟩

/-! ## POP3: `AUTH` and `RETR` -/

theorem parseStep_auth (responses : List POP3Response) (r nxt : POP3Request)
    (s : ParseState) (reply : POP3Response) (hr : r.Command = goStr "AUTH")
    (hs : s.state = POP3State.StateNotAuthenticated)
    (hreply : responses.get? (s.resIndex + 1) = some reply)
    (hok : reply.Command = goStr "+OK") :
    parseStep responses r (some nxt) s =
      Outcome.running { s with
        state := POP3State.StateAuthenticated
        token := nxt.Command
        resIndex := s.resIndex + 1 } := by
  have h8 : goStr "AUTH" ≠ goStr "USER" := by decide
  have h9 : goStr "AUTH" ≠ goStr "CAPA" := by decide
  rw [List.get?_eq_getElem?] at hreply
  simp [parseStep, hs, hr, hreply, hok, h8, h9]

/-- The pass of the loop for an accepted `AUTH`. Whenever the loop of
`parseMails` takes an `AUTH` request `r` while not authenticated, the response
it reads for it is a `+OK`, and a further request `nxt` was recorded, the loop
becomes authenticated and the token is the command of `nxt`; `parseMails`
returns that token whenever it returns. -/
theorem auth_step_sets_token (responses : List POP3Response) (pre : List POP3Request)
    (r nxt : POP3Request) (post : List POP3Request) (s : ParseState) (reply : POP3Response)
    (hhello : serverHelloOk responses = true) (hr : r.Command = goStr "AUTH")
    (hreach : stateAfter responses pre (r :: nxt :: post) {} = some s)
    (hs : s.state = POP3State.StateNotAuthenticated)
    (hreply : responses.get? (s.resIndex + 1) = some reply)
    (hok : reply.Command = goStr "+OK") :
    (∃ s2, stateAfter responses (pre ++ [r]) (nxt :: post) {} = some s2 ∧
        s2.state = POP3State.StateAuthenticated ∧ s2.token = nxt.Command) ∧
      ∀ res, parseMails (pre ++ r :: nxt :: post) responses = some res →
        res.token = nxt.Command := by
  have hstep := parseStep_auth responses r nxt s reply hr hs hreply hok
  refine ⟨⟨{ s with
      state := POP3State.StateAuthenticated
      token := nxt.Command
      resIndex := s.resIndex + 1 }, ?_, rfl, rfl⟩, ?_⟩
  · rw [stateAfter_snoc responses pre r (nxt :: post) {} s hreach, List.head?_cons, hstep]
  · intro res hres
    rw [parseMails_eq _ _ hhello (by simp),
      parseLoop_of_stateAfter responses pre (r :: nxt :: post) {} s hreach, parseLoop,
      List.head?_cons, hstep] at hres
    simp only at hres
    cases hl : parseLoop responses (nxt :: post)
        { s with
          state := POP3State.StateAuthenticated
          token := nxt.Command
          resIndex := s.resIndex + 1 } with
    | none =>
      rw [hl] at hres
      simp at hres
    | some s3 =>
      rw [hl] at hres
      simp only [Option.map_some', Option.some.injEq] at hres
      rw [← hres]
      exact ((parseLoop_keeps _ _ _ _ hl).2.1 rfl).2.2.2

/-- C15 fails as stated: in the session of the client lines
`AUTH PLAIN dGVzdA==`, `RETR 1`, `QUIT`, whose `AUTH` is answered `+OK`, the
token returned is `RETR`, the command of the next request, and not the
complete next client line `RETR 1`. When the accepted `AUTH` is the last
request, `parseMails` does not return a token at all: it panics. And in the
session of the client lines `CAPA`, `AUTH PLAIN`, `dGVzdA==`, `QUIT`, in which
the reply to `CAPA` has several lines and the `AUTH` is answered `+OK`,
`parseMails` returns no token. -/
theorem auth_token_counterexample :
    (runServer authServerLines []).get? 1 = some okReply ∧
      (parseMails (runClient authClientLines []) (runServer authServerLines [])).map
        (fun res => res.token) = some (goStr "RETR") ∧
      goStr "RETR" ≠ goStr "RETR 1" ∧
      parseMails [bareRequest "AUTH"] [helloReply, okReply] = none ∧
      (runClient capaAuthClientLines []).get? 1 =
        some { Command := goStr "AUTH", Argument := goStr "PLAIN" } ∧
      runServer capaAuthServerLines [] =
        [helloReply, okReply, { Command := goStr "SASL", Message := goStr "PLAIN" }, dotReply,
          okReply, errReply, okReply] ∧
      parseMails (runClient capaAuthClientLines []) (runServer capaAuthServerLines []) =
        some {} := by
  refine ⟨by decide, by decide, by decide, by decide, by decide, by decide, by decide⟩

theorem parseStep_retr (responses : List POP3Response) (r : POP3Request)
    (nxt : Option POP3Request) (s : ParseState) (hr : r.Command = goStr "RETR")
    (hs : s.state = POP3State.StateAuthenticated) :
    parseStep responses r nxt s =
      if s.resIndex ≤ responses.length then
        match collectMail (responses.drop s.resIndex) s 0 with
        | none => Outcome.panicked
        | some res => Outcome.running { res.1 with resIndex := res.1.resIndex + res.2 }
      else Outcome.panicked := by
  have h1 : goStr "RETR" ≠ goStr "STAT" := by decide
  have h2 : goStr "RETR" ≠ goStr "LIST" := by decide
  have h3 : goStr "RETR" ≠ goStr "UIDL" := by decide
  simp only [parseStep, hs, hr, h1, h2, h3, if_false, or_self, if_true] <;> rfl

theorem hasDot_drop_lt (responses : List POP3Response) (i : Nat)
    (h : hasDot (responses.drop i) = true) : i < responses.length := by
  by_contra hlt
  rw [List.drop_eq_nil_of_le (Nat.le_of_not_lt hlt)] at h
  simp [hasDot] at h

/-- The pass of the loop for a `RETR`. Whenever the loop of `parseMails` takes a
`RETR` request while authenticated, it visits the recorded responses from the
current response index on. When one of them is a `.`, the mail buffer was
empty, and exactly one Mail is appended to the result: `parseMail` applied to
the messages of the responses before the first `.`, each followed by `"\n"`
(the message of a response is what `readResponse` recorded for the server
line); when `parseMail` panics on that text, so does `parseMails`. When none
of them is a `.`, no Mail is appended. -/
theorem retr_step_appends_mail (responses : List POP3Response) (pre : List POP3Request)
    (r : POP3Request) (post : List POP3Request) (s : ParseState)
    (hhello : serverHelloOk responses = true) (hr : r.Command = goStr "RETR")
    (hreach : stateAfter responses pre (r :: post) {} = some s)
    (hs : s.state = POP3State.StateAuthenticated) :
    (hasDot (responses.drop s.resIndex) = true →
        s.mailBuf = [] ∧
          (∀ m, parseMail (gatheredText (responses.drop s.resIndex)) = some m →
            (∃ s2, stateAfter responses (pre ++ [r]) post {} = some s2 ∧
              s2.mails = s.mails ++ [m]) ∧
            ∀ res, parseMails (pre ++ r :: post) responses = some res →
              s.mails ++ [m] <+: res.mails) ∧
          (parseMail (gatheredText (responses.drop s.resIndex)) = none →
            parseMails (pre ++ r :: post) responses = none)) ∧
      (hasDot (responses.drop s.resIndex) = false →
        ∀ s2, stateAfter responses (pre ++ [r]) post {} = some s2 → s2.mails = s.mails) := by
  have hkeep := stateAfter_keeps responses pre (r :: post) {} s hreach
  have hstep := parseStep_retr responses r post.head? s hr hs
  refine ⟨fun hd => ?_, fun hd => ?_⟩
  · have hlt := hasDot_drop_lt responses s.resIndex hd
    have hbuf : s.mailBuf = [] := by
      rcases hkeep.2.2.2.2 (Or.inl rfl) with hb | hb
      · exact hb
      · omega
    rw [if_pos (Nat.le_of_lt hlt), collectMail_dot _ _ _ hd, hbuf, List.nil_append] at hstep
    refine ⟨hbuf, fun m hm => ?_, fun hm => ?_⟩
    · rw [hm] at hstep
      simp only [Option.map_some'] at hstep
      refine ⟨⟨{ s with
          mails := s.mails ++ [m]
          mailBuf := []
          numMails := s.numMails + 1
          resIndex := s.resIndex + 1 +
            (0 + (repliesBeforeDot (responses.drop s.resIndex)).length) }, ?_, rfl⟩,
        fun res hres => ?_⟩
      · rw [stateAfter_snoc responses pre r post {} s hreach, hstep]
      · rw [parseMails_eq _ _ hhello (by simp),
          parseLoop_of_stateAfter responses pre (r :: post) {} s hreach, parseLoop,
          hstep] at hres
        simp only at hres
        cases hl : parseLoop responses post
            { s with
              mails := s.mails ++ [m]
              mailBuf := []
              numMails := s.numMails + 1
              resIndex := s.resIndex + 1 + (0 + (repliesBeforeDot (responses.drop s.resIndex)).length) } with
        | none =>
          rw [hl] at hres
          simp at hres
        | some s3 =>
          rw [hl] at hres
          simp only [Option.map_some', Option.some.injEq] at hres
          rw [← hres]
          exact (parseLoop_keeps _ _ _ _ hl).2.2.1
    · rw [hm] at hstep
      simp only [Option.map_none'] at hstep
      rw [parseMails_eq _ _ hhello (by simp),
        parseLoop_of_stateAfter responses pre (r :: post) {} s hreach, parseLoop, hstep]
      rfl
  · intro s2 hs2
    rw [stateAfter_snoc responses pre r post {} s hreach, hstep] at hs2
    by_cases hle : s.resIndex ≤ responses.length
    · rw [if_pos hle, collectMail_no_dot _ _ _ hd] at hs2
      simp only [Option.some.injEq] at hs2
      rw [← hs2]
    · rw [if_neg hle] at hs2
      simp at hs2

/-- C16 fails as stated: in the session of the client lines `USER alice`,
`PASS s3cret`, `RETR 1`, `QUIT` whose reply to `RETR` is the status line `+OK`
and the lines `Envelope-To: a@b`, `hello`, an empty line and `world`, ended by
`.`, the Mail appended has the body `"hello\n\n\nworld\n"`, and `parseMail`
applied to the server lines of that reply, each followed by `"\n"`, has the
body `"hello\n\nworld\n"`, with or without the status line: `readResponse`
records an empty line as the message `"\n"`. And in the session in which the
answer to `PASS` is `+OK Subject: welcome`, the Mail appended has the subject
`welcome`, which no line of the reply to `RETR` gives it. -/
theorem retr_mail_counterexample :
    (parseMails (runClient e3ClientLines []) (runServer retrServerLines [])).map
        (fun res => res.mails.map (fun m => m.Body)) = some [goStr "hello\n\n\nworld\n"] ∧
      (parseMail (retrReplyLines.flatMap (fun l => l ++ goStr "\n"))).map (fun m => m.Body) =
        some (goStr "hello\n\nworld\n") ∧
      (parseMail ((retrReplyLines.drop 1).flatMap (fun l => l ++ goStr "\n"))).map
        (fun m => m.Body) = some (goStr "hello\n\nworld\n") ∧
      runServer textStatusServerLines [] =
        [helloReply, okReply, { Command := goStr "+OK", Message := goStr "Subject: welcome" },
          okReply, textReply "Envelope-To: a@b", textReply "hello", dotReply] ∧
      (parseMails (runClient e3ClientLines []) (runServer textStatusServerLines [])).map
        (fun res => res.mails.map (fun m => (m.Subject, m.Body))) =
        some [(goStr "welcome", goStr "hello\n")] ∧
      (parseMail ([okReply, textReply "Envelope-To: a@b", textReply "hello"].flatMap
        (fun x => x.Message ++ goStr "\n"))).map (fun m => (m.Subject, m.Body)) =
        some ([], goStr "hello\n") := by
  refine ⟨by decide, by decide, by decide, by decide, by decide, by decide⟩

/-! ## POP3: scenario E3 -/

theorem stringsSplit_line (l rest : GoString) (h : (10 : UInt8) ∉ l) :
    stringsSplit 10 (l ++ 10 :: rest) = l :: stringsSplit 10 rest := by
  induction l with
  | nil => simp [stringsSplit]
  | cons b l ih =>
    have hb : b ≠ 10 := fun e => h (e ▸ List.mem_cons_self _ _)
    have hl : (10 : UInt8) ∉ l := fun e => h (List.mem_cons_of_mem _ e)
    rw [List.cons_append, stringsSplit, if_neg hb, ih hl]

/-- A line that ends in `'\n'` is read as it is, without a `'\r'` at its end,
and the reading goes on after it. -/
theorem readLines_line (l rest : GoString) (h : (10 : UInt8) ∉ l) :
    readLines (l ++ 10 :: rest) = dropCR l :: readLines rest := by
  unfold readLines
  rw [stringsSplit_line l rest h]
  cases hs : stringsSplit 10 rest with
  | nil => exact absurd hs (stringsSplit_ne_nil _ _)
  | cons p ps => simp [List.getLastD]

theorem readLines_nil : readLines [] = [] := by
  decide

theorem dropCR_of_plain (l : GoString) (h : l.getLast? ≠ some 13) : dropCR l = l := by
  simp [dropCR, h]

theorem Header.get_set_self (hd : Header) (k v : GoString) : (hd.set k v).get k = v := by
  induction hd with
  | nil => simp [Header.set, Header.get]
  | cons e rest ih =>
    obtain ⟨k2, w⟩ := e
    by_cases hk : k2 = k
    · simp [Header.set, Header.get, hk]
    · simp [Header.set, Header.get, hk, ih]

/-- The pass for a line named `Envelope-To` in header mode: the header of
that name is set to the text after the first `": "` and body mode begins. -/
theorem splitStep_envelopeTo (st : SplitState) (line : GoString)
    (hc : st.collectBody = false) (he : isEnvelopeTo line = true) :
    ∃ st2, splitStep st line = some st2 ∧ st2.collectBody = true ∧ st2.body = st.body ∧
      st2.header.get (goStr "Envelope-To") =
        stringsJoin ((stringsSplitSep (goStr ": ") line 0).tail) (goStr ": ") := by
  have hn : headerName line = goStr "Envelope-To" := by
    simpa [isEnvelopeTo] using he
  have hne : line ≠ [] := by
    intro e
    rw [e, isEnvelopeTo_nil] at he
    exact absurd he (by simp)
  unfold headerName at hn
  unfold splitStep
  rw [hc]
  simp only [Bool.false_eq_true, if_false, hne]
  cases hsp : stringsSplitSep (goStr ": ") line 0 with
  | nil => exact absurd hsp (stringsSplitSep_ne_nil _ _ _)
  | cons p ps =>
    rw [hsp] at hn
    simp only [List.headD_cons] at hn
    subst hn
    rw [goStr_envelopeTo]
    simp only [unicodeIsUpper_E, if_true, List.tail_cons]
    refine ⟨_, rfl, rfl, rfl, ?_⟩
    exact Header.get_set_self _ _ _

/-- The loop on the lines of a mail that has a line named `Envelope-To`:
after lines that are not named so and do not begin with `": "`, that line
sets the header `Envelope-To`, and the lines after it are the body. -/
theorem splitLoop_envelopeTo (hs : List GoString) (et : GoString) (bs : List GoString)
    (he : isEnvelopeTo et = true) :
    ∀ st : SplitState, st.collectBody = false →
      (∀ l ∈ hs, isEnvelopeTo l = false ∧ startsWithColonSpace l = false) →
      ∃ st2, splitLoop (hs ++ et :: bs) st = some st2 ∧
        st2.body = st.body ++ bs.flatMap (fun l => l ++ goStr "\n") ∧
        st2.header.get (goStr "Envelope-To") =
          stringsJoin ((stringsSplitSep (goStr ": ") et 0).tail) (goStr ": ") := by
  induction hs with
  | nil =>
    intro st hc _
    obtain ⟨st1, h1, h2, h3, h4⟩ := splitStep_envelopeTo st et hc he
    obtain ⟨st2, g1, g2, g3⟩ := splitLoop_body bs st1 h2
    refine ⟨st2, ?_, ?_, ?_⟩
    · simp only [List.nil_append, splitLoop, h1]
      exact g1
    · rw [g3, h3]
    · rw [g2, h4]
  | cons l rest ih =>
    intro st hc hall
    obtain ⟨hl1, hl2⟩ := hall l (List.mem_cons_self _ _)
    rcases splitStep_header st l hc with ⟨h1, _⟩ | ⟨_, st1, h1, h2, h3⟩
    · rw [hl2] at h1
      exact absurd h1 (by simp)
    · rw [hl1] at h3
      obtain ⟨st2, g1, g2, g3⟩ := ih st1 h3 (fun x hx => hall x (List.mem_cons_of_mem _ hx))
      refine ⟨st2, ?_, ?_, g3⟩
      · simp only [List.cons_append, splitLoop, h1]
        exact g1
      · rw [g2, h2]

/-- The recorded responses do not depend on the ones recorded before. -/
theorem readResponse_append (acc : List POP3Response) (line : GoString) :
    readResponse acc (Except.ok line) =
      (readResponse [] (Except.ok line)).map (fun res => (acc ++ res.1, res.2)) := by
  unfold readResponse
  simp only
  cases getCommand line with
  | none => rfl
  | some ca =>
    obtain ⟨cmd, args⟩ := ca
    simp only
    split_ifs <;> simp

/-- What `readResponse` records for a plain line: the line, as a message. -/
theorem readResponse_plainLine (line : GoString) (h : plainLine line = true) :
    readResponse [] (Except.ok line) = some ([{ Message := line }], none) := by
  simp only [plainLine, Bool.and_eq_true, Bool.not_eq_true', decide_eq_true_eq] at h
  obtain ⟨⟨⟨⟨h1, _⟩, _⟩, h4⟩, h5⟩ := h
  have hne : line ≠ [] := by
    intro e
    rw [e] at h1
    simp at h1
  unfold readResponse
  simp only
  cases hg : getCommand line with
  | none =>
    rw [hg] at h4
    simp at h4
  | some ca =>
    obtain ⟨cmd, args⟩ := ca
    rw [hg] at h4
    simp only [Bool.not_eq_true'] at h4
    have hnot : line ≠ goStr "-ERR authentication failed" := by
      intro e
      rw [e] at hg
      have hc : getCommand (goStr "-ERR authentication failed") =
          some (goStr "-ERR", [goStr "authentication", goStr "failed"]) := by
        decide
      rw [hc] at hg
      simp only [Option.some.injEq, Prod.mk.injEq] at hg
      rw [← hg.1] at h4
      revert h4
      decide
    simp [h4, hne, hnot, h5]

/-- The loop of `Run` goes on after a line for which `readResponse` returns
no error. -/
theorem runServer_cons (line : GoString) (rest : List GoString) (acc : List POP3Response)
    (r : POP3Response) (h : readResponse [] (Except.ok line) = some ([r], none)) :
    runServer (line :: rest) acc = runServer rest (acc ++ [r]) := by
  rw [runServer, readResponse_append, h]
  rfl

theorem parseStep_user (responses : List POP3Response) (r : POP3Request)
    (nxt : Option POP3Request) (s : ParseState) (reply : POP3Response)
    (hr : r.Command = goStr "USER") (hs : s.state = POP3State.StateNotAuthenticated)
    (hreply : responses.get? (s.resIndex + 1) = some reply)
    (hok : reply.Command = goStr "+OK") :
    parseStep responses r nxt s =
      Outcome.running { s with user := r.Argument, resIndex := s.resIndex + 1 } := by
  rw [List.get?_eq_getElem?] at hreply
  simp [parseStep, hs, hr, hreply, hok]

theorem parseStep_pass (responses : List POP3Response) (r : POP3Request)
    (nxt : Option POP3Request) (s : ParseState) (reply : POP3Response)
    (hr : r.Command = goStr "PASS") (hs : s.state = POP3State.StateNotAuthenticated)
    (hreply : responses.get? (s.resIndex + 1) = some reply)
    (hok : reply.Command = goStr "+OK") :
    parseStep responses r nxt s =
      Outcome.running { s with
        state := POP3State.StateAuthenticated
        pass := r.Argument
        resIndex := s.resIndex + 1 } := by
  have h1 : goStr "PASS" ≠ goStr "USER" := by decide
  have h2 : goStr "PASS" ≠ goStr "CAPA" := by decide
  have h3 : goStr "PASS" ≠ goStr "AUTH" := by decide
  rw [List.get?_eq_getElem?] at hreply
  simp [parseStep, hs, hr, hreply, hok, h1, h2, h3]

theorem parseMail_of_splitLoop (buf : GoString) (st : SplitState)
    (h : splitLoop (readLines buf) {} = some st) :
    ∃ m, parseMail buf = some m ∧ m.EnvelopeTo = st.header.get (goStr "Envelope-To") ∧
      m.Body = st.body := by
  simp [parseMail, splitMailHeaderAndBody, h]

theorem plainLine_facts (l : GoString) (h : plainLine l = true) :
    (10 : UInt8) ∉ l ∧ dropCR l = l := by
  simp only [plainLine, Bool.and_eq_true, Bool.not_eq_true', decide_eq_true_eq] at h
  exact ⟨h.1.1.1.2, dropCR_of_plain l h.1.1.2⟩

theorem plainHeaderLine_facts (l : GoString) (h : plainHeaderLine l = true) :
    plainLine l = true ∧ isEnvelopeTo l = false ∧ startsWithColonSpace l = false := by
  simpa [plainHeaderLine, and_assoc] using h

/-- The responses recorded for the lines of the server in scenario E3. -/
theorem runServer_e3 (h1 h2 h3 b1 b2 : GoString) (p1 : plainLine h1 = true)
    (p2 : plainLine h2 = true) (p3 : plainLine h3 = true) (p4 : plainLine b1 = true)
    (p5 : plainLine b2 = true) :
    runServer (e3ServerLines h1 h2 h3 b1 b2) [] =
      [helloReply, okReply, okReply, okReply, { Message := h1 }, { Message := h2 },
        { Message := h3 }, { Message := goStr "Envelope-To: a@b" }, { Message := b1 },
        { Message := b2 }, dotReply] := by
  unfold e3ServerLines
  rw [runServer_cons _ _ _ helloReply (by decide), runServer_cons _ _ _ okReply (by decide),
    runServer_cons _ _ _ okReply (by decide), runServer_cons _ _ _ okReply (by decide),
    runServer_cons _ _ _ _ (readResponse_plainLine h1 p1),
    runServer_cons _ _ _ _ (readResponse_plainLine h2 p2),
    runServer_cons _ _ _ _ (readResponse_plainLine h3 p3),
    runServer_cons _ _ _ _ (readResponse_plainLine (goStr "Envelope-To: a@b") (by decide)),
    runServer_cons _ _ _ _ (readResponse_plainLine b1 p4),
    runServer_cons _ _ _ _ (readResponse_plainLine b2 p5),
    runServer_cons _ _ _ dotReply (by decide)]
  rfl

/-- The mail of scenario E3, as `parseMail` reads it from the text that the
loop of `RETR` gathers. -/
theorem parseMail_e3 (h1 h2 h3 b1 b2 : GoString) (hh1 : plainHeaderLine h1 = true)
    (hh2 : plainHeaderLine h2 = true) (hh3 : plainHeaderLine h3 = true)
    (hb1 : plainLine b1 = true) (hb2 : plainLine b2 = true) :
    ∃ m, parseMail ([] ++ 10 :: ([] ++ 10 :: (h1 ++ 10 :: (h2 ++ 10 :: (h3 ++ 10 ::
        (goStr "Envelope-To: a@b" ++ 10 :: (b1 ++ 10 :: (b2 ++ 10 :: [])))))))) = some m ∧
      m.EnvelopeTo = goStr "a@b" ∧ m.Body = b1 ++ goStr "\n" ++ b2 ++ goStr "\n" := by
  obtain ⟨p1, e1, c1⟩ := plainHeaderLine_facts h1 hh1
  obtain ⟨p2, e2, c2⟩ := plainHeaderLine_facts h2 hh2
  obtain ⟨p3, e3, c3⟩ := plainHeaderLine_facts h3 hh3
  obtain ⟨n1, d1⟩ := plainLine_facts h1 p1
  obtain ⟨n2, d2⟩ := plainLine_facts h2 p2
  obtain ⟨n3, d3⟩ := plainLine_facts h3 p3
  obtain ⟨n4, d4⟩ := plainLine_facts b1 hb1
  obtain ⟨n5, d5⟩ := plainLine_facts b2 hb2
  obtain ⟨n6, d6⟩ := plainLine_facts (goStr "Envelope-To: a@b") (by decide)
  have hlines : readLines ([] ++ 10 :: ([] ++ 10 :: (h1 ++ 10 :: (h2 ++ 10 :: (h3 ++ 10 ::
      (goStr "Envelope-To: a@b" ++ 10 :: (b1 ++ 10 :: (b2 ++ 10 :: [])))))))) =
      [[], [], h1, h2, h3] ++ goStr "Envelope-To: a@b" :: [b1, b2] := by
    rw [readLines_line _ _ (by simp), readLines_line _ _ (by simp), readLines_line _ _ n1,
      readLines_line _ _ n2, readLines_line _ _ n3, readLines_line _ _ n6,
      readLines_line _ _ n4, readLines_line _ _ n5, readLines_nil, d1, d2, d3, d4, d5, d6]
    rfl
  have hall : ∀ l ∈ [[], [], h1, h2, h3],
      isEnvelopeTo l = false ∧ startsWithColonSpace l = false := by
    intro l hl
    simp only [List.mem_cons, List.mem_singleton, List.not_mem_nil, or_false] at hl
    rcases hl with hl | hl | hl | hl | hl
    · rw [hl]
      exact ⟨isEnvelopeTo_nil, startsWithColonSpace_nil⟩
    · rw [hl]
      exact ⟨isEnvelopeTo_nil, startsWithColonSpace_nil⟩
    · rw [hl]
      exact ⟨e1, c1⟩
    · rw [hl]
      exact ⟨e2, c2⟩
    · rw [hl]
      exact ⟨e3, c3⟩
  obtain ⟨st2, g1, g2, g3⟩ := splitLoop_envelopeTo [[], [], h1, h2, h3]
    (goStr "Envelope-To: a@b") [b1, b2] (by decide) {} rfl hall
  rw [← hlines] at g1
  obtain ⟨m, k1, k2, k3⟩ := parseMail_of_splitLoop _ st2 g1
  refine ⟨m, k1, ?_, ?_⟩
  · rw [k2, g3]
    decide
  · rw [k3, g2]
    simp

/-- The loop of `parseMails` on the requests of scenario E3, when the replies
to `USER` and `PASS` are `+OK` and a `.` ends the replies. -/
theorem parseLoop_e3 (responses : List POP3Response)
    (h1 : responses.get? 1 = some okReply) (h2 : responses.get? 2 = some okReply)
    (hlen : 2 ≤ responses.length) (hdot : hasDot (responses.drop 2) = true) (m : Mail)
    (hm : parseMail (gatheredText (responses.drop 2)) = some m) :
    (parseLoop responses [userAlice, passSecret, retrOne, quitRequest] {}).map resultOf =
      some { mails := [m], user := goStr "alice", pass := goStr "s3cret" } := by
  rw [parseLoop, parseStep_user responses userAlice _ {} okReply rfl rfl h1 rfl]
  simp only
  rw [parseLoop, parseStep_pass responses passSecret _ _ okReply rfl rfl h2 rfl]
  simp only
  rw [parseLoop, parseStep_retr responses retrOne _ _ rfl rfl, if_pos hlen,
    collectMail_dot _ _ _ hdot]
  simp only [List.nil_append]
  rw [hm]
  simp only [Option.map_some']
  rw [parseLoop, parseStep_quit responses quitRequest _ _ rfl (Or.inr rfl)]
  rfl

/-- C11, as the code has it. For the transcript of scenario E3 (responses
`+OK POP server ready`, `+OK`, `+OK`, `+OK`, three header lines,
`Envelope-To: a@b`, two body lines, `.`; requests `USER alice`,
`PASS s3cret`, `RETR 1`, `QUIT`), whatever the
three header lines and the two body lines are, as long as they are plain lines
of text and no header line is itself named `Envelope-To` or begins with
`": "`, `parseMails` returns user `alice`, pass `s3cret`, an empty token and
exactly one mail, whose `EnvelopeTo` is `a@b` and whose `Body` is the two body
lines, each followed by `"\n"`. -/
theorem parseMails_e3 (h1 h2 h3 b1 b2 : GoString) (hh1 : plainHeaderLine h1 = true)
    (hh2 : plainHeaderLine h2 = true) (hh3 : plainHeaderLine h3 = true)
    (hb1 : plainLine b1 = true) (hb2 : plainLine b2 = true) :
    ∃ m, parseMails (runClient e3ClientLines []) (runServer (e3ServerLines h1 h2 h3 b1 b2) []) =
        some { mails := [m], user := goStr "alice", pass := goStr "s3cret" } ∧
      m.EnvelopeTo = goStr "a@b" ∧ m.Body = b1 ++ goStr "\n" ++ b2 ++ goStr "\n" := by
  obtain ⟨m, hm, hto, hbody⟩ := parseMail_e3 h1 h2 h3 b1 b2 hh1 hh2 hh3 hb1 hb2
  refine ⟨m, ?_, hto, hbody⟩
  have hreq : runClient e3ClientLines [] = [userAlice, passSecret, retrOne, quitRequest] := by
    decide
  rw [hreq, runServer_e3 h1 h2 h3 b1 b2 (plainHeaderLine_facts h1 hh1).1
    (plainHeaderLine_facts h2 hh2).1 (plainHeaderLine_facts h3 hh3).1 hb1 hb2]
  have nd1 : goStr "+OK" ≠ goStr "." := by decide
  have nd2 : ([] : GoString) ≠ goStr "." := by decide
  have hdot : hasDot [okReply, okReply, { Message := h1 }, { Message := h2 },
      { Message := h3 }, { Message := goStr "Envelope-To: a@b" }, { Message := b1 },
      { Message := b2 }, dotReply] = true := by
    rfl
  have htext : gatheredText [okReply, okReply, { Message := h1 }, { Message := h2 },
      { Message := h3 }, { Message := goStr "Envelope-To: a@b" }, { Message := b1 },
      { Message := b2 }, dotReply] =
      [] ++ 10 :: ([] ++ 10 :: (h1 ++ 10 :: (h2 ++ 10 :: (h3 ++ 10 ::
        (goStr "Envelope-To: a@b" ++ 10 :: (b1 ++ 10 :: (b2 ++ 10 :: []))))))) := by
    have hn : goStr "\n" = [10] := by decide
    rw [gatheredText_cons _ _ nd1, gatheredText_cons _ _ nd1, gatheredText_cons _ _ nd2,
      gatheredText_cons _ _ nd2, gatheredText_cons _ _ nd2, gatheredText_cons _ _ nd2,
      gatheredText_cons _ _ nd2, gatheredText_cons _ _ nd2, gatheredText_cons_dot _ _ rfl, hn]
    simp [okReply]
  refine (parseMails_eq _ _ ?_ ?_).trans (parseLoop_e3 _ ?_ ?_ ?_ ?_ m ?_)
  · rfl
  · simp
  · rfl
  · rfl
  · simp
  · exact hdot
  · simp only [List.drop_succ_cons, List.drop_zero]
    rw [htext]
    exact hm

theorem parseMails_e3_witness :
    plainHeaderLine (goStr "From: x@y") = true ∧ plainHeaderLine (goStr "To: a@b") = true ∧
      plainHeaderLine (goStr "Subject: hi") = true ∧ plainLine (goStr "hello") = true ∧
      plainLine (goStr "world") = true ∧
      ∃ m, parseMails (runClient e3ClientLines [])
          (runServer (e3ServerLines (goStr "From: x@y") (goStr "To: a@b") (goStr "Subject: hi")
            (goStr "hello") (goStr "world")) []) =
          some { mails := [m], user := goStr "alice", pass := goStr "s3cret" } ∧
        m.EnvelopeTo = goStr "a@b" ∧ m.Body = goStr "hello" ++ goStr "\n" ++ goStr "world" ++ goStr "\n" :=
  ⟨by decide, by decide, by decide, by decide, by decide,
    parseMails_e3 _ _ _ _ _ (by decide) (by decide) (by decide) (by decide) (by decide)⟩

/-! ## The mail parser: header values -/

theorem Header.get_set_of_ne (hd : Header) (k k2 v : GoString) (h : k2 ≠ k) :
    (hd.set k v).get k2 = hd.get k2 := by
  induction hd with
  | nil =>
    have h2 : ¬ k = k2 := fun e => h e.symm
    simp [Header.set, Header.get, h2]
  | cons e rest ih =>
    obtain ⟨k3, w⟩ := e
    by_cases hk : k3 = k
    · subst hk
      have h2 : ¬ k3 = k2 := fun e => h e.symm
      simp [Header.set, Header.get, h2]
    · by_cases hk2 : k3 = k2
      · subst hk2
        simp [Header.set, Header.get, hk]
      · simp [Header.set, Header.get, hk, hk2, ih]

theorem Header.mem_of_mem_set (hd : Header) (k v : GoString) (e : GoString × GoString)
    (h : e ∈ hd.set k v) : e.1 = k ∨ ∃ e2 ∈ hd, e2.1 = e.1 := by
  induction hd with
  | nil =>
    simp only [Header.set, List.mem_singleton] at h
    left
    rw [h]
  | cons a rest ih =>
    obtain ⟨k3, w⟩ := a
    unfold Header.set at h
    split_ifs at h with hk
    · rcases List.mem_cons.1 h with h | h
      · left
        rw [h]
        exact hk
      · right
        exact ⟨e, List.mem_cons_of_mem _ h, rfl⟩
    · rcases List.mem_cons.1 h with h | h
      · right
        exact ⟨(k3, w), List.mem_cons_self _ _, by rw [h]⟩
      · rcases ih h with h2 | ⟨e2, h2, h3⟩
        · exact Or.inl h2
        · exact Or.inr ⟨e2, List.mem_cons_of_mem _ h2, h3⟩

theorem Header.get_of_not_key (hd : Header) (k : GoString) (h : ∀ e ∈ hd, e.1 ≠ k) :
    hd.get k = [] := by
  induction hd with
  | nil => rfl
  | cons a rest ih =>
    obtain ⟨k3, w⟩ := a
    have h1 : k3 ≠ k := h (k3, w) (List.mem_cons_self _ _)
    simp only [Header.get, h1, if_false]
    exact ih (fun e he => h e (List.mem_cons_of_mem _ he))

theorem keysOk_set (st : SplitState) (v : GoString) (h : keysOk st) :
    ∀ e ∈ st.header.set st.lastHeader v, headerKey e.1 = true := by
  intro e he
  rcases Header.mem_of_mem_set _ _ _ _ he with h1 | ⟨e2, h2, h3⟩
  · rw [h1]
    exact h.2
  · rw [← h3]
    exact h.1 e2 h2

theorem splitStep_keysOk (st st2 : SplitState) (line : GoString) (h : keysOk st)
    (hs : splitStep st line = some st2) : keysOk st2 := by
  unfold splitStep at hs
  split_ifs at hs with h1 h2
  · simp only [Option.some.injEq] at hs
    subst hs
    exact h
  · simp only [Option.some.injEq] at hs
    subst hs
    exact h
  · split at hs
    · simp only [Option.some.injEq] at hs
      subst hs
      exact ⟨keysOk_set st _ h, h.2⟩
    · simp at hs
    next c name values heq =>
      by_cases hu : unicodeIsUpper c = true
      · rw [if_pos hu] at hs
        simp only [Option.some.injEq] at hs
        subst hs
        refine ⟨?_, hu⟩
        intro e he
        rcases Header.mem_of_mem_set _ _ _ _ he with h1 | ⟨e2, h2, h3⟩
        · rw [h1]
          exact hu
        · rw [← h3]
          exact h.1 e2 h2
      · rw [if_neg hu] at hs
        simp only [Option.some.injEq] at hs
        subst hs
        exact ⟨keysOk_set st _ h, h.2⟩

theorem splitLoop_keysOk (lines : List GoString) :
    ∀ st st2 : SplitState, keysOk st → splitLoop lines st = some st2 → keysOk st2 := by
  induction lines with
  | nil =>
    intro st st2 h hs
    simp only [splitLoop, Option.some.injEq] at hs
    subst hs
    exact h
  | cons line rest ih =>
    intro st st2 h hs
    unfold splitLoop at hs
    cases hstep : splitStep st line with
    | none =>
      rw [hstep] at hs
      simp at hs
    | some st1 =>
      rw [hstep] at hs
      exact ih st1 st2 (splitStep_keysOk st st1 line h hstep) hs

theorem parseMail_eq (buf : GoString) (m : Mail) (h : parseMail buf = some m) :
    ∃ st, splitLoop (readLines buf) {} = some st ∧ m.Body = st.body ∧
      m.XOriginatingIP = st.header.get (goStr "x-originating-ip") ∧
      ∀ name ∈ mailFieldNames, m.field name = st.header.get name := by
  unfold parseMail splitMailHeaderAndBody at h
  cases hl : splitLoop (readLines buf) {} with
  | none =>
    rw [hl] at h
    simp at h
  | some st =>
    rw [hl] at h
    simp only [Option.some.injEq] at h
    subst h
    refine ⟨st, rfl, rfl, rfl, ?_⟩
    intro name hn
    simp only [mailFieldNames, List.mem_cons, List.mem_singleton, List.not_mem_nil,
      or_false] at hn
    rcases hn with h | h | h | h | h | h | h | h | h | h | h | h | h <;> subst h <;> rfl

theorem goStr_colonSpace : goStr ": " = [58, 32] := by
  decide

theorem stringsSplitSep_skip_one (sep : GoString) (b : UInt8) (rest : GoString) :
    stringsSplitSep sep (b :: rest) 1 = stringsSplitSep sep rest 0 := by
  rw [stringsSplitSep]

/-- A line that consists of a name without colon, `": "` and a value splits
into the name and the parts of the value. -/
theorem stringsSplitSep_name_value (N V : GoString) (h : (58 : UInt8) ∉ N) :
    stringsSplitSep (goStr ": ") (N ++ goStr ": " ++ V) 0 =
      N :: stringsSplitSep (goStr ": ") V 0 := by
  rw [goStr_colonSpace]
  induction N with
  | nil =>
    simp only [List.nil_append, List.cons_append]
    rw [stringsSplitSep, if_pos (by simp), List.length_cons, List.length_singleton]
    exact congrArg _ (stringsSplitSep_skip_one _ _ _)
  | cons b N ih =>
    have hb : b ≠ 58 := fun e => h (e ▸ List.mem_cons_self _ _)
    have hN : (58 : UInt8) ∉ N := fun e => h (List.mem_cons_of_mem _ e)
    have hb2 : ¬ (58 : UInt8) = b := fun e => hb e.symm
    simp only [List.cons_append, List.append_assoc, List.nil_append] at ih ⊢
    rw [stringsSplitSep, if_neg (by simp [hb2]), ih hN]

theorem stringsJoin_cons_cons (b : UInt8) (w : GoString) (ws : List GoString)
    (sep : GoString) : stringsJoin ((b :: w) :: ws) sep = b :: stringsJoin (w :: ws) sep := by
  cases ws <;> simp [stringsJoin, List.intercalate, List.intersperse]

theorem stringsJoin_nil_cons (x : GoString) (xs : List GoString) (sep : GoString) :
    stringsJoin ([] :: x :: xs) sep = sep ++ stringsJoin (x :: xs) sep := by
  simp [stringsJoin, List.intercalate, List.intersperse]

/-- Joining the parts of a split with the separator gives the text back. -/
theorem stringsJoin_stringsSplitSep (n : Nat) :
    ∀ V : GoString, V.length ≤ n →
      stringsJoin (stringsSplitSep (goStr ": ") V 0) (goStr ": ") = V := by
  rw [goStr_colonSpace]
  induction n with
  | zero =>
    intro V hV
    have : V = [] := List.length_eq_zero.1 (Nat.le_zero.1 hV)
    subst this
    rfl
  | succ n ih =>
    intro V hV
    cases V with
    | nil => rfl
    | cons b rest =>
      simp only [List.length_cons, Nat.add_le_add_iff_right] at hV
      by_cases hp : ([58, 32] : GoString).isPrefixOf (b :: rest) = true
      · rw [stringsSplitSep, if_pos hp]
        cases rest with
        | nil => simp at hp
        | cons c rest2 =>
          simp only [List.isPrefixOf, Bool.and_eq_true, beq_iff_eq, Bool.and_true] at hp
          obtain ⟨hb, hc⟩ := hp
          subst hb
          subst hc
          simp only [List.length_cons, List.length_singleton, List.length_nil]
          rw [stringsSplitSep_skip_one]
          have hlen : rest2.length ≤ n := by
            simp only [List.length_cons] at hV
            omega
          have hrec := ih rest2 hlen
          cases hs : stringsSplitSep [58, 32] rest2 0 with
          | nil => exact absurd hs (stringsSplitSep_ne_nil _ _ _)
          | cons x xs =>
            rw [hs] at hrec
            rw [stringsJoin_nil_cons, hrec]
            rfl
      · rw [stringsSplitSep, if_neg hp]
        have hrec := ih rest hV
        cases hs : stringsSplitSep [58, 32] rest 0 with
        | nil => exact absurd hs (stringsSplitSep_ne_nil _ _ _)
        | cons x xs =>
          rw [hs] at hrec
          simp only
          rw [stringsJoin_cons_cons, hrec]

/-- The three ways a pass in header mode can go for a line that does not
begin with `": "`: an empty line changes nothing, a line that begins with an
upper case letter sets the header of its name, and any other line is appended
to the header set last. -/
theorem splitStep_cases (st : SplitState) (l : GoString) (hc : st.collectBody = false)
    (hs : startsWithColonSpace l = false) :
    ∃ st1, splitStep st l = some st1 ∧ st1.body = st.body ∧
      st1.collectBody = isEnvelopeTo l ∧
      ((l = [] ∧ st1 = st) ∨
        (beginsUpper l = true ∧ st1.lastHeader = headerName l ∧
          st1.header = st.header.set (headerName l)
            (stringsJoin (stringsSplitSep (goStr ": ") l 0).tail (goStr ": "))) ∨
        (l ≠ [] ∧ beginsUpper l = false ∧ st1.lastHeader = st.lastHeader ∧
          st1.header = st.header.set st.lastHeader
            (st.header.get st.lastHeader ++ goStr "\n" ++ l))) := by
  cases l with
  | nil =>
    refine ⟨st, ?_, rfl, ?_, Or.inl ⟨rfl, rfl⟩⟩
    · simp [splitStep, hc]
    · rw [hc, isEnvelopeTo_nil]
  | cons b rest =>
    have hne : (b :: rest) ≠ [] := by simp
    rcases headerName_cons b rest with ⟨hs2, _⟩ | ⟨_, w, hn⟩
    · rw [hs] at hs2
      exact absurd hs2 (by simp)
    · unfold isEnvelopeTo
      rw [hn]
      have hn2 := hn
      unfold headerName at hn2
      unfold splitStep
      rw [hc]
      simp only [Bool.false_eq_true, if_false, hne]
      cases hsp : stringsSplitSep (goStr ": ") (b :: rest) 0 with
      | nil => exact absurd hsp (stringsSplitSep_ne_nil _ _ _)
      | cons p ps =>
        rw [hsp] at hn2
        simp only [List.headD_cons] at hn2
        subst hn2
        simp only [List.tail_cons]
        by_cases hu : unicodeIsUpper b = true
        · rw [if_pos hu]
          refine ⟨_, rfl, rfl, ?_, Or.inr (Or.inl ⟨hu, rfl, rfl⟩)⟩
          simp only
          by_cases he : b :: w = goStr "Envelope-To"
          · simp [he]
          · simp [he, hc]
        · rw [if_neg hu]
          have hu2 : unicodeIsUpper b = false := by simpa using hu
          refine ⟨_, rfl, rfl, ?_, Or.inr (Or.inr ⟨hne, hu2, rfl, rfl⟩)⟩
          simp only
          symm
          rw [decide_eq_false_iff_not]
          intro he
          rw [goStr_envelopeTo] at he
          have hb : b = 69 := (List.cons.inj he).1
          rw [hb] at hu
          exact hu unicodeIsUpper_E

/-- The loop passes the lines before the first line named `Envelope-To` in
header mode, when none of them begins with `": "`. -/
theorem splitLoop_append_header (pre : List GoString) :
    ∀ st : SplitState, st.collectBody = false →
      (∀ l ∈ pre, isEnvelopeTo l = false ∧ startsWithColonSpace l = false) →
      ∃ st1, st1.collectBody = false ∧ st1.body = st.body ∧
        ∀ rest, splitLoop (pre ++ rest) st = splitLoop rest st1 := by
  induction pre with
  | nil =>
    intro st hc _
    exact ⟨st, hc, rfl, fun _ => rfl⟩
  | cons l pre ih =>
    intro st hc hall
    obtain ⟨h1, h2⟩ := hall l (List.mem_cons_self _ _)
    obtain ⟨st1, g1, g2, g3, _⟩ := splitStep_cases st l hc h2
    rw [h1] at g3
    obtain ⟨st2, k1, k2, k3⟩ := ih st1 g3 (fun x hx => hall x (List.mem_cons_of_mem _ hx))
    refine ⟨st2, k1, k2.trans g2, fun rest => ?_⟩
    rw [List.cons_append, splitLoop, g1]
    exact k3 rest

/-- Once body mode is on, or the header set last has another name, the value
of a header stays as it is, as long as no later line has its name. -/
theorem splitLoop_keeps_value (N V : GoString) (hE : N ≠ goStr "Envelope-To")
    (lines : List GoString) :
    ∀ st : SplitState, st.header.get N = V →
      (st.collectBody = true ∨ st.lastHeader ≠ N) →
      (st.collectBody = false →
        ∀ l ∈ headerLines lines, startsWithColonSpace l = false ∧ headerName l ≠ N) →
      ∃ st2, splitLoop lines st = some st2 ∧ st2.header.get N = V := by
  induction lines with
  | nil =>
    intro st hv _ _
    exact ⟨st, rfl, hv⟩
  | cons l rest ih =>
    intro st hv hlast hall
    by_cases hc : st.collectBody = true
    · obtain ⟨st2, g1, g2, _⟩ := splitLoop_body (l :: rest) st hc
      exact ⟨st2, g1, by rw [g2, hv]⟩
    · have hc2 : st.collectBody = false := by simpa using hc
      have hl : st.lastHeader ≠ N := by
        rcases hlast with h | h
        · exact absurd h hc
        · exact h
      by_cases he : isEnvelopeTo l = true
      · have hs : startsWithColonSpace l = false := by
          cases l with
          | nil => exact startsWithColonSpace_nil
          | cons b r =>
            rcases headerName_cons b r with ⟨_, hn⟩ | ⟨hs, _⟩
            · exfalso
              unfold isEnvelopeTo at he
              rw [hn] at he
              revert he
              decide
            · exact hs
        have hname : headerName l = goStr "Envelope-To" := by
          simpa [isEnvelopeTo] using he
        obtain ⟨st1, g1, _, g3, g4⟩ := splitStep_cases st l hc2 hs
        rw [he] at g3
        have hv1 : st1.header.get N = V := by
          rcases g4 with ⟨_, g⟩ | ⟨_, _, g⟩ | ⟨_, _, _, g⟩
          · rw [g, hv]
          · rw [g, hname, Header.get_set_of_ne _ _ _ _ hE, hv]
          · rw [g, Header.get_set_of_ne _ _ _ _ (Ne.symm hl), hv]
        obtain ⟨st2, k1, k2, _⟩ := splitLoop_body rest st1 g3
        refine ⟨st2, ?_, by rw [k2, hv1]⟩
        rw [splitLoop, g1]
        exact k1
      · have he2 : isEnvelopeTo l = false := by simpa using he
        have hmem : l ∈ headerLines (l :: rest) := by
          simp [headerLines, he2]
        obtain ⟨hs, hname⟩ := hall hc2 l hmem
        obtain ⟨st1, g1, _, g3, g4⟩ := splitStep_cases st l hc2 hs
        rw [he2] at g3
        have hrest : ∀ x ∈ headerLines rest,
            startsWithColonSpace x = false ∧ headerName x ≠ N := by
          intro x hx
          apply hall hc2
          simp only [headerLines, List.takeWhile_cons, he2, Bool.not_false, if_true]
          exact List.mem_cons_of_mem _ hx
        have hboth : st1.header.get N = V ∧ st1.lastHeader ≠ N := by
          rcases g4 with ⟨_, g⟩ | ⟨_, g0, g⟩ | ⟨_, _, g0, g⟩
          · rw [g]
            exact ⟨hv, hl⟩
          · rw [g, g0, Header.get_set_of_ne _ _ _ _ (Ne.symm hname)]
            exact ⟨hv, hname⟩
          · rw [g, g0, Header.get_set_of_ne _ _ _ _ (Ne.symm hl)]
            exact ⟨hv, hl⟩
        obtain ⟨st2, k1, k2⟩ := ih st1 hboth.1 (Or.inr hboth.2) (fun _ => hrest)
        refine ⟨st2, ?_, k2⟩
        rw [splitLoop, g1]
        exact k1

theorem isEnvelopeTo_facts (l : GoString) (h : isEnvelopeTo l = true) :
    beginsUpper l = true ∧ startsWithColonSpace l = false ∧
      headerName l = goStr "Envelope-To" := by
  have hname : headerName l = goStr "Envelope-To" := by
    simpa [isEnvelopeTo] using h
  cases l with
  | nil =>
    rw [isEnvelopeTo_nil] at h
    exact absurd h (by simp)
  | cons b r =>
    rcases headerName_cons b r with ⟨_, hn⟩ | ⟨hs, w, hn⟩
    · rw [hn] at hname
      have hne : ([] : GoString) ≠ goStr "Envelope-To" := by decide
      exact absurd hname hne
    · refine ⟨?_, hs, hname⟩
      rw [hn, goStr_envelopeTo] at hname
      have hb : b = 69 := (List.cons.inj hname).1
      rw [hb]
      exact unicodeIsUpper_E

/-- Right after a header has been set, its value stays as it is when the next
line that is not empty begins with an upper case letter and no later line has
its name. -/
theorem splitLoop_fresh_value (N V : GoString) (hE : N ≠ goStr "Envelope-To")
    (lines : List GoString) :
    ∀ st : SplitState, st.header.get N = V → st.lastHeader = N → st.collectBody = false →
      (∀ l ∈ headerLines lines, startsWithColonSpace l = false ∧ headerName l ≠ N) →
      (∀ l, firstHeaderLine lines = some l → beginsUpper l = true) →
      ∃ st2, splitLoop lines st = some st2 ∧ st2.header.get N = V := by
  induction lines with
  | nil =>
    intro st hv _ _ _ _
    exact ⟨st, rfl, hv⟩
  | cons l rest ih =>
    intro st hv hlast hc hall hfirst
    by_cases he : isEnvelopeTo l = true
    · obtain ⟨hu, hs, hname⟩ := isEnvelopeTo_facts l he
      obtain ⟨st1, g1, _, g3, g4⟩ := splitStep_cases st l hc hs
      rw [he] at g3
      have hv1 : st1.header.get N = V := by
        rcases g4 with ⟨_, g⟩ | ⟨_, _, g⟩ | ⟨_, g0, _, _⟩
        · rw [g, hv]
        · rw [g, hname, Header.get_set_of_ne _ _ _ _ hE, hv]
        · rw [hu] at g0
          exact absurd g0 (by simp)
      obtain ⟨st2, k1, k2, _⟩ := splitLoop_body rest st1 g3
      refine ⟨st2, ?_, by rw [k2, hv1]⟩
      rw [splitLoop, g1]
      exact k1
    · have he2 : isEnvelopeTo l = false := by simpa using he
      have hhl : headerLines (l :: rest) = l :: headerLines rest := by
        simp [headerLines, he2]
      obtain ⟨hs, hname⟩ := hall l (by rw [hhl]; exact List.mem_cons_self _ _)
      have hrest : ∀ x ∈ headerLines rest,
          startsWithColonSpace x = false ∧ headerName x ≠ N := by
        intro x hx
        apply hall
        rw [hhl]
        exact List.mem_cons_of_mem _ hx
      obtain ⟨st1, g1, _, g3, g4⟩ := splitStep_cases st l hc hs
      rw [he2] at g3
      by_cases hl : l = []
      · have hst : st1 = st := by
          rcases g4 with ⟨_, g⟩ | ⟨g0, _, _⟩ | ⟨g0, _, _, _⟩
          · exact g
          · rw [hl] at g0
            exact absurd g0 (by decide)
          · exact absurd hl g0
        have hfirst2 : ∀ x, firstHeaderLine rest = some x → beginsUpper x = true := by
          intro x hx
          apply hfirst
          unfold firstHeaderLine at hx ⊢
          rw [hhl, hl]
          simpa using hx
        obtain ⟨st2, k1, k2⟩ := ih st hv hlast hc hrest hfirst2
        refine ⟨st2, ?_, k2⟩
        rw [splitLoop, g1, hst]
        exact k1
      · have hup : beginsUpper l = true := by
          apply hfirst
          unfold firstHeaderLine
          rw [hhl]
          have : (!l.isEmpty) = true := by
            cases l with
            | nil => exact absurd rfl hl
            | cons _ _ => rfl
          simp [List.filter_cons, this]
        have hboth : st1.header.get N = V ∧ st1.lastHeader ≠ N := by
          rcases g4 with ⟨g0, _⟩ | ⟨_, g0, g⟩ | ⟨_, g0, _, _⟩
          · exact absurd g0 hl
          · rw [g, g0, Header.get_set_of_ne _ _ _ _ (Ne.symm hname)]
            exact ⟨hv, hname⟩
          · rw [hup] at g0
            exact absurd g0 (by simp)
        obtain ⟨st2, k1, k2⟩ :=
          splitLoop_keeps_value N V hE rest st1 hboth.1 (Or.inr hboth.2) (fun _ => hrest)
        refine ⟨st2, ?_, k2⟩
        rw [splitLoop, g1]
        exact k1

theorem mailFieldNames_facts :
    ∀ N ∈ mailFieldNames, (58 : UInt8) ∉ N ∧ beginsUpper N = true := by
  decide

theorem headerLine_facts (N V : GoString) (h58 : (58 : UInt8) ∉ N)
    (hu : beginsUpper N = true) :
    startsWithColonSpace (N ++ goStr ": " ++ V) = false ∧
      beginsUpper (N ++ goStr ": " ++ V) = true ∧
      headerName (N ++ goStr ": " ++ V) = N ∧
      stringsJoin (stringsSplitSep (goStr ": ") (N ++ goStr ": " ++ V) 0).tail (goStr ": ") =
        V := by
  have hsplit := stringsSplitSep_name_value N V h58
  cases N with
  | nil => simp [beginsUpper] at hu
  | cons c N =>
    have hc : c ≠ 58 := fun e => h58 (e ▸ List.mem_cons_self _ _)
    have hc2 : ¬ (58 : UInt8) = c := fun e => hc e.symm
    refine ⟨?_, hu, ?_, ?_⟩
    · rw [startsWithColonSpace, goStr_colonSpace]
      simp [List.isPrefixOf, hc2]
    · rw [headerName, hsplit]
      rfl
    · rw [hsplit, List.tail_cons]
      exact stringsJoin_stringsSplitSep V.length V (Nat.le_refl _)

theorem parseMail_of_splitLoop_fields (buf : GoString) (st : SplitState)
    (h : splitLoop (readLines buf) {} = some st) :
    ∃ m, parseMail buf = some m ∧ ∀ name ∈ mailFieldNames, m.field name = st.header.get name := by
  unfold parseMail splitMailHeaderAndBody
  rw [h]
  refine ⟨_, rfl, ?_⟩
  intro name hn
  simp only [mailFieldNames, List.mem_cons, List.mem_singleton, List.not_mem_nil,
    or_false] at hn
  rcases hn with h | h | h | h | h | h | h | h | h | h | h | h | h <;> subst h <;> rfl

/-! ## The mail parser: the fields of a Mail -/

/-- C21 does not hold of the code. `parseMail` looks the field
`XOriginatingIP` up under the key `x-originating-ip`, and the loop of
`splitMailHeaderAndBody` puts a header into the map only under a name that
begins with an upper case letter: whatever the message, the field
`XOriginatingIP` of the Mail that `parseMail` returns is empty. -/
theorem parseMail_XOriginatingIP_empty (buf : GoString) (m : Mail)
    (h : parseMail buf = some m) : m.XOriginatingIP = [] := by
  obtain ⟨st, h1, _, h3, _⟩ := parseMail_eq buf m h
  have hk : keysOk st := splitLoop_keysOk (readLines buf) {} st
    ⟨fun e he => by simp at he, rfl⟩ h1
  rw [h3]
  apply Header.get_of_not_key
  intro e he hkey
  have h4 := hk.1 e he
  rw [hkey] at h4
  revert h4
  decide

theorem parseMail_XOriginatingIP_empty_witness :
    readLines originatingIPText =
        [goStr "From: x@y", goStr "X-Originating-IP: 192.0.2.1", goStr "Envelope-To: a@b",
          goStr "hello"] ∧
      parseMail originatingIPText =
        some { From := goStr "x@y", EnvelopeTo := goStr "a@b", Body := goStr "hello\n" } ∧
      ({ From := goStr "x@y", EnvelopeTo := goStr "a@b", Body := goStr "hello\n" } :
        Mail).XOriginatingIP = [] := by
  have h : parseMail originatingIPText =
      some { From := goStr "x@y", EnvelopeTo := goStr "a@b", Body := goStr "hello\n" } := by
    decide
  exact ⟨by decide, h, parseMail_XOriginatingIP_empty _ _ h⟩

/-- C22, as the code has it. For each of the thirteen field names `N` and
every value `V`, a message in which the line `N: V` stands before the body
yields a Mail whose field of that name is `V` exactly, also when `V` has
`": "` in it, provided that no line before the first line named `Envelope-To`
begins with `": "`, that no later line before the body is named `N`, and that
the first line after it that is not empty, when it stands before the body,
begins with an upper case letter. For `N = Envelope-To` the line is the first
of that name and nothing is asked of the lines after it. -/
theorem parseMail_field_value (buf : GoString) (pre post : List GoString) (N V : GoString)
    (hN : N ∈ mailFieldNames)
    (hlines : readLines buf = pre ++ (N ++ goStr ": " ++ V) :: post)
    (hpre : ∀ l ∈ pre, isEnvelopeTo l = false ∧ startsWithColonSpace l = false)
    (hpost : N ≠ goStr "Envelope-To" →
      (∀ l ∈ headerLines post, startsWithColonSpace l = false ∧ headerName l ≠ N) ∧
        ∀ l, firstHeaderLine post = some l → beginsUpper l = true) :
    ∃ m, parseMail buf = some m ∧ m.field N = V := by
  obtain ⟨h58, hu⟩ := mailFieldNames_facts N hN
  obtain ⟨f1, f2, f3, f4⟩ := headerLine_facts N V h58 hu
  obtain ⟨st0, a1, _, a3⟩ := splitLoop_append_header pre {} rfl hpre
  obtain ⟨st1, g1, _, g3, g4⟩ := splitStep_cases st0 (N ++ goStr ": " ++ V) a1 f1
  have hne : N ++ goStr ": " ++ V ≠ [] := by
    cases N with
    | nil => simp [beginsUpper] at hu
    | cons c N => simp
  have hst1 : st1.header.get N = V ∧ st1.lastHeader = N := by
    rcases g4 with ⟨g0, _⟩ | ⟨_, g0, g⟩ | ⟨_, g0, _, _⟩
    · exact absurd g0 hne
    · rw [g, g0, f3, f4]
      exact ⟨Header.get_set_self _ _ _, rfl⟩
    · rw [f2] at g0
      exact absurd g0 (by simp)
  have hfinal : ∃ st2, splitLoop post st1 = some st2 ∧ st2.header.get N = V := by
    by_cases hE : N = goStr "Envelope-To"
    · have hb : st1.collectBody = true := by
        rw [g3, isEnvelopeTo, f3, hE]
        simp
      obtain ⟨st2, k1, k2, _⟩ := splitLoop_body post st1 hb
      exact ⟨st2, k1, by rw [k2, hst1.1]⟩
    · have hb : st1.collectBody = false := by
        rw [g3, isEnvelopeTo, f3]
        simp [hE]
      obtain ⟨p1, p2⟩ := hpost hE
      exact splitLoop_fresh_value N V hE post st1 hst1.1 hst1.2 hb p1 p2
  obtain ⟨st2, k1, k2⟩ := hfinal
  have hloop : splitLoop (readLines buf) {} = some st2 := by
    rw [hlines, a3, splitLoop, g1]
    exact k1
  obtain ⟨m, m1, m2⟩ := parseMail_of_splitLoop_fields buf st2 hloop
  exact ⟨m, m1, by rw [m2 N hN, k2]⟩

theorem parseMail_field_value_witness :
    goStr "Subject" ∈ mailFieldNames ∧
      readLines subjectText =
        [] ++ (goStr "Subject" ++ goStr ": " ++ goStr "Re: Fwd: hi") ::
          [goStr "To: a@b", goStr " continued"] ∧
      ∃ m, parseMail subjectText = some m ∧ m.field (goStr "Subject") = goStr "Re: Fwd: hi" := by
  have hl : readLines subjectText =
      [] ++ (goStr "Subject" ++ goStr ": " ++ goStr "Re: Fwd: hi") ::
        [goStr "To: a@b", goStr " continued"] := by
    decide
  refine ⟨by decide, hl, ?_⟩
  refine parseMail_field_value subjectText [] [goStr "To: a@b", goStr " continued"]
    (goStr "Subject") (goStr "Re: Fwd: hi") (by decide) hl (by simp) ?_
  intro _
  constructor
  · decide
  · decide

/-- C22 fails as stated. In the message of the lines `From: x@y`,
`x-mailer: abc`, `Subject: hi`, no later line is named `From` and no line
begins with whitespace, and the field `From` of the Mail is
`"x@y\nx-mailer: abc"`: a line that begins with a lower case letter is
appended to the header before it. And for the message of the lines `: x`,
`From: x@y`, no Mail is returned. -/
theorem parseMail_field_value_counterexample :
    readLines lowerCaseHeaderText =
        [goStr "From: x@y", goStr "x-mailer: abc", goStr "Subject: hi"] ∧
      (parseMail lowerCaseHeaderText).map (fun m => m.From) =
        some (goStr "x@y\nx-mailer: abc") ∧
      readLines colonFirstText = [goStr ": x", goStr "From: x@y"] ∧
      parseMail colonFirstText = none := by
  refine ⟨by decide, by decide, by decide, by decide⟩

/-- C23. In `splitMailHeaderAndBody`, when a line that begins with a blank or
a tab follows a header line `N: V` in header mode, where the name `N` begins
with an upper case letter, has no colon in it and is not `Envelope-To`, the
line is appended to the value of that header as `"\n"` followed by the line:
the value is `V` after the header line and `V ++ "\n" ++ line` after the
line that follows. -/
theorem continuation_line_appended (st : SplitState) (N V line : GoString)
    (hc : st.collectBody = false) (hu : beginsUpper N = true) (h58 : (58 : UInt8) ∉ N)
    (hE : N ≠ goStr "Envelope-To") (hw : beginsWithWhitespace line = true) :
    ∃ st1 st2, splitStep st (N ++ goStr ": " ++ V) = some st1 ∧ st1.header.get N = V ∧
      st1.collectBody = false ∧ splitStep st1 line = some st2 ∧
      st2.header.get N = V ++ goStr "\n" ++ line ∧ st2.collectBody = false ∧
      splitLoop [N ++ goStr ": " ++ V, line] st = some st2 := by
  obtain ⟨f1, f2, f3, f4⟩ := headerLine_facts N V h58 hu
  obtain ⟨st1, g1, _, g3, g4⟩ := splitStep_cases st (N ++ goStr ": " ++ V) hc f1
  have hne : N ++ goStr ": " ++ V ≠ [] := by
    cases N with
    | nil => simp [beginsUpper] at hu
    | cons c N => simp
  have hst1 : st1.header.get N = V ∧ st1.lastHeader = N := by
    rcases g4 with ⟨g0, _⟩ | ⟨_, g0, g⟩ | ⟨_, g0, _, _⟩
    · exact absurd g0 hne
    · rw [g, g0, f3, f4]
      exact ⟨Header.get_set_self _ _ _, rfl⟩
    · rw [f2] at g0
      exact absurd g0 (by simp)
  have hb : st1.collectBody = false := by
    rw [g3, isEnvelopeTo, f3]
    simp [hE]
  have hline : line ≠ [] ∧ beginsUpper line = false ∧ startsWithColonSpace line = false := by
    cases line with
    | nil => simp [beginsWithWhitespace] at hw
    | cons c rest =>
      simp only [beginsWithWhitespace, Bool.or_eq_true, decide_eq_true_eq] at hw
      refine ⟨by simp, ?_, ?_⟩
      · rcases hw with h | h <;> subst h <;> rfl
      · rw [startsWithColonSpace, goStr_colonSpace]
        rcases hw with h | h <;> subst h <;> rfl
  obtain ⟨st2, k1, _, k3, k4⟩ := splitStep_cases st1 line hb hline.2.2
  have hst2 : st2.header.get N = V ++ goStr "\n" ++ line := by
    rcases k4 with ⟨k0, _⟩ | ⟨k0, _, _⟩ | ⟨_, _, _, k⟩
    · exact absurd k0 hline.1
    · rw [hline.2.1] at k0
      exact absurd k0 (by simp)
    · rw [k, hst1.2, Header.get_set_self, hst1.1]
  have hb2 : st2.collectBody = false := by
    rw [k3]
    by_contra hcon
    have := (isEnvelopeTo_facts line (by simpa using hcon)).1
    rw [hline.2.1] at this
    exact absurd this (by simp)
  refine ⟨st1, st2, g1, hst1.1, hb, k1, hst2, hb2, ?_⟩
  rw [splitLoop, g1]
  simp only
  rw [splitLoop, k1]
  rfl

theorem continuation_line_appended_witness :
    beginsUpper (goStr "To") = true ∧ beginsWithWhitespace (goStr " continued") = true ∧
      (∃ st2, splitLoop [goStr "To" ++ goStr ": " ++ goStr "a@b", goStr " continued"] {} =
          some st2 ∧
        st2.header.get (goStr "To") = goStr "a@b" ++ goStr "\n" ++ goStr " continued") ∧
      (parseMail subjectText).map (fun m => m.To) = some (goStr "a@b\n continued") := by
  obtain ⟨_, st2, _, _, _, _, h5, _, h7⟩ :=
    continuation_line_appended {} (goStr "To") (goStr "a@b") (goStr " continued") rfl
      (by decide) (by decide) (by decide) (by decide)
  exact ⟨by decide, by decide, ⟨st2, h7, h5⟩, by decide⟩

/-- C24 does not hold of the code. `parseMail` returns a Mail exactly for
the buffers in which no line before the first line named `Envelope-To`
begins with `": "`; on every other buffer `parts[0]` is empty for such a line
and `parts[0][0]` is out of range. -/
theorem parseMail_returns_iff (buf : GoString) :
    (parseMail buf).isSome = true ↔
      ∀ l ∈ headerLines (readLines buf), startsWithColonSpace l = false := by
  constructor
  · intro h l hl
    by_contra hcon
    have hs : startsWithColonSpace l = true := by simpa using hcon
    have hp := (splitMailHeaderAndBody_panics buf ⟨l, hl, hs⟩).2
    rw [hp] at h
    simp at h
  · intro h
    obtain ⟨st2, h1, _⟩ := splitLoop_header (readLines buf) {} rfl h
    simp [parseMail, splitMailHeaderAndBody, h1]

/-- C24 does not hold of the code: for the message of the lines
`Subject: hi` and `: x`, `parseMail` returns no Mail. -/
theorem parseMail_panics_on_colon_line :
    readLines colonSecondText = [goStr "Subject: hi", goStr ": x"] ∧
      parseMail colonSecondText = none ∧ parseMail (goStr ": ") = none := by
  refine ⟨by decide, by decide, by decide⟩

/-! ## The connection table: timestamps, collisions, growth -/

theorem packetsOfKey_eq_self (key : String) (ps : List Packet)
    (hk : ∀ p ∈ ps, packetKey p = key) : packetsOfKey key ps = ps := by
  unfold packetsOfKey
  rw [List.filter_eq_self]
  intro p hp
  simp [hk p hp]

/-- C28. For every non-empty sequence of packets with the same connection key
that `handlePacket` processes, the entry of that key has as `TimestampFirst`
the smallest and as `TimestampLast` the largest of the capture timestamps of
the packets, and both are the same for every order in which the packets are
processed. -/
theorem timestamps_are_min_and_max (ps : List Packet) (key : String) (hne : ps ≠ [])
    (hk : ∀ p ∈ ps, packetKey p = key) :
    ∃ c, (processPackets ps).get? key = some c ∧
      (∃ q ∈ ps, c.TimestampFirst = q.Timestamp) ∧
      (∀ q ∈ ps, c.TimestampFirst ≤ q.Timestamp) ∧
      (∃ q ∈ ps, c.TimestampLast = q.Timestamp) ∧
      (∀ q ∈ ps, q.Timestamp ≤ c.TimestampLast) ∧
      ∀ ps2 : List Packet, ps2.Perm ps →
        ∃ c2, (processPackets ps2).get? key = some c2 ∧
          c2.TimestampFirst = c.TimestampFirst ∧ c2.TimestampLast = c.TimestampLast := by
  obtain ⟨c, hc⟩ := connectionOf_isSome ps hne
  obtain ⟨⟨q1, hq1, e1⟩, l1⟩ := connectionOf_TimestampFirst ps c hc
  obtain ⟨⟨q2, hq2, e2⟩, l2⟩ := connectionOf_TimestampLast ps c hc
  refine ⟨c, ?_, ⟨q1, hq1, e1⟩, l1, ⟨q2, hq2, e2⟩, l2, ?_⟩
  · rw [get?_processPackets, packetsOfKey_eq_self key ps hk]
    exact hc
  · intro ps2 hperm
    have hne2 : ps2 ≠ [] := by
      intro e
      rw [e] at hperm
      exact hne (List.Perm.nil_eq hperm).symm
    have hk2 : ∀ p ∈ ps2, packetKey p = key := fun p hp => hk p (hperm.mem_iff.1 hp)
    obtain ⟨c2, hc2⟩ := connectionOf_isSome ps2 hne2
    obtain ⟨⟨r1, hr1, f1⟩, m1⟩ := connectionOf_TimestampFirst ps2 c2 hc2
    obtain ⟨⟨r2, hr2, f2⟩, m2⟩ := connectionOf_TimestampLast ps2 c2 hc2
    refine ⟨c2, ?_, ?_, ?_⟩
    · rw [get?_processPackets, packetsOfKey_eq_self key ps2 hk2]
      exact hc2
    · have a1 := l1 r1 (hperm.mem_iff.1 hr1)
      have a2 := m1 q1 (hperm.mem_iff.2 hq1)
      omega
    · have a1 := l2 r2 (hperm.mem_iff.1 hr2)
      have a2 := m2 q2 (hperm.mem_iff.2 hq2)
      omega

theorem timestamps_are_min_and_max_witness :
    [dataPacket, synPacket] ≠ [] ∧ (∀ p ∈ [dataPacket, synPacket], packetKey p = "1234") ∧
      ∃ c, (processPackets [dataPacket, synPacket]).get? "1234" = some c ∧
        c.TimestampFirst = 1000 ∧ c.TimestampLast = 2000 := by
  have hk : ∀ p ∈ [dataPacket, synPacket], packetKey p = "1234" := by decide
  obtain ⟨c, h1, ⟨q1, hq1, e1⟩, l1, ⟨q2, hq2, e2⟩, l2, _⟩ :=
    timestamps_are_min_and_max [dataPacket, synPacket] "1234" (by simp) hk
  refine ⟨by simp, hk, c, h1, ?_, ?_⟩
  · have a := l1 synPacket (by simp)
    have b : q1.Timestamp = 2000 ∨ q1.Timestamp = 1000 := by
      simp only [List.mem_cons, List.mem_singleton, List.not_mem_nil, or_false] at hq1
      rcases hq1 with h | h
      · left
        rw [h]
        rfl
      · right
        rw [h]
        rfl
    have hs : synPacket.Timestamp = 1000 := rfl
    omega
  · have a := l2 dataPacket (by simp)
    have b : q2.Timestamp = 2000 ∨ q2.Timestamp = 1000 := by
      simp only [List.mem_cons, List.mem_singleton, List.not_mem_nil, or_false] at hq2
      rcases hq2 with h | h
      · left
        rw [h]
        rfl
      · right
        rw [h]
        rfl
    have hs : dataPacket.Timestamp = 2000 := rfl
    omega

/-- C29. The canonical connection key is not collision-free: there are two
connectionID values that differ in `LinkFlowID` and in `NetworkFlowID` and
have the same `String()`, and `handlePacket` merges a packet of the one and a
packet of the other into a single entry, which counts two packets. -/
theorem connectionID_string_collision :
    ∃ a b : connectionID, a ≠ b ∧ a.LinkFlowID ≠ b.LinkFlowID ∧
      a.NetworkFlowID ≠ b.NetworkFlowID ∧ a.String = b.String ∧
      ∃ p q : Packet, packetConnID p = a ∧ packetConnID q = b ∧
        (processPackets [p, q]).length = 1 ∧
        ((processPackets [p, q]).get? a.String).map (fun c => c.NumPackets) = some 2 := by
  refine ⟨{ LinkFlowID := 1, NetworkFlowID := 23, TransportFlowID := 4 },
    { LinkFlowID := 12, NetworkFlowID := 3, TransportFlowID := 4 }, by decide, by decide,
    by decide, by decide, synPacket, otherFlowPacket, by decide, by decide, ?_, ?_⟩
  · rw [length_processPackets]
    decide
  · decide

/-- C30. `handlePacket` never removes a connection: for every table and every
packet, every key present before the call is present after it, and the number
of entries grows by one when the key of the packet was absent and stays as it
was otherwise. -/
theorem handlePacket_keeps_every_key (conns : ConnItems) (p : Packet) :
    (∀ k ∈ conns.keys, k ∈ (handlePacket conns p).1.keys) ∧
      ((handlePacket conns p).1.length = conns.length ∨
        (handlePacket conns p).1.length = conns.length + 1) ∧
      ((handlePacket conns p).1.length = conns.length + 1 ↔ packetKey p ∉ conns.keys) := by
  have hlen : ∀ m : ConnItems, m.length = m.keys.length := by
    intro m
    simp [ConnItems.keys]
  have hkeys := keys_handlePacket conns p
  rw [hlen, hlen conns, hkeys]
  by_cases hmem : packetKey p ∈ conns.keys
  · simp [hmem]
  · simp [hmem]
    intro k hk
    exact Or.inl hk

/-! ## Saving a file -/

theorem isCompressed_cases (encoding : List GoString) :
    isCompressed encoding = true ∨ isCompressed encoding = false := by
  cases isCompressed encoding
  · exact Or.inr rfl
  · exact Or.inl rfl

/-- C25, as the code has it. For every non-empty body and every encoding list
for which `saveFile` returns, it either failed to create the target file and
emitted no record, or it emitted one File record, whose `Length` is the
number of bytes of the body as it was passed and whose `Hash` is the MD5 hex
digest of those bytes. When the first encoding is neither `gzip` nor
`deflate`, the body is what is written to the target file, so that `Length`
and `Hash` are those of the written bytes. When it is `gzip` or `deflate`,
what is written is the output of `gzip.NewReader` on the body, nothing at all
when the reader is refused, while `Length` and `Hash` still are those of the
body. -/
theorem saveFile_record_describes_body (env : FileEnv) (h : ReaderInfo) (fuel : Nat)
    (source name : GoString) (err : Option String) (body : GoString)
    (encoding : List GoString) (res : SaveResult) (hbody : body ≠ [])
    (hres : saveFile env h fuel source name err body encoding = some res) :
    (res.failed = true ∧ res.record = none ∧ res.created = none) ∨
      ∃ rec target, res.record = some rec ∧ res.created = some target ∧
        rec.Location = target ∧ rec.Length = body.length ∧ rec.Hash = md5Hex body ∧
        (isCompressed encoding = false →
          res.written = body ∧ rec.Length = res.written.length ∧
            rec.Hash = md5Hex res.written) ∧
        (isCompressed encoding = true →
          res.written =
            match gzipNewReader env body with
            | none => []
            | some out => out.1) := by
  have hlen : ¬ body.length = 0 := fun e => hbody (List.length_eq_zero.1 e)
  unfold saveFile at hres
  rw [if_neg hlen] at hres
  simp only at hres
  cases hf : freeTarget env (numberedTarget env h name err body) fuel
      (limitedBase env (joinedBase env h name err body)) 0 with
  | none =>
    rw [hf] at hres
    simp at hres
  | some target =>
    rw [hf] at hres
    simp only at hres
    by_cases hc : env.createFails target = true
    · rw [if_pos hc] at hres
      simp only [Option.some.injEq] at hres
      subst hres
      exact Or.inl ⟨rfl, rfl, rfl⟩
    · rw [if_neg hc] at hres
      simp only [Option.some.injEq] at hres
      subst hres
      right
      refine ⟨_, target, rfl, rfl, rfl, rfl, rfl, ?_, ?_⟩
      · intro hz
        simp [hz]
      · intro hz
        simp only [hz, if_true] <;> (cases gzipNewReader env body <;> rfl)

theorem saveFile_record_describes_body_witness :
    goStr "hello" ≠ [] ∧
      saveFile sampleEnv sampleReader 1 (goStr "POP3") (goStr "mail") none (goStr "hello") [] =
        some sampleSaved ∧
      sampleSaved.written = goStr "hello" ∧
      ((sampleSaved.failed = true ∧ sampleSaved.record = none ∧ sampleSaved.created = none) ∨
        ∃ rec target, sampleSaved.record = some rec ∧ sampleSaved.created = some target ∧
          rec.Location = target ∧ rec.Length = (goStr "hello").length ∧
          rec.Hash = md5Hex (goStr "hello") ∧
          (isCompressed [] = false →
            sampleSaved.written = goStr "hello" ∧ rec.Length = sampleSaved.written.length ∧
              rec.Hash = md5Hex sampleSaved.written) ∧
          (isCompressed [] = true →
            sampleSaved.written =
              match gzipNewReader sampleEnv (goStr "hello") with
              | none => []
              | some out => out.1)) := by
  have hne : goStr "hello" ≠ [] := by decide
  have hs : saveFile sampleEnv sampleReader 1 (goStr "POP3") (goStr "mail") none
      (goStr "hello") [] = some sampleSaved := by
    rfl
  exact ⟨hne, hs, rfl,
    saveFile_record_describes_body sampleEnv sampleReader 1 (goStr "POP3") (goStr "mail") none
      (goStr "hello") [] sampleSaved hne hs⟩

set_option maxRecDepth 1000000 in
theorem md5Hex_hello : md5Hex (goStr "hello") = "5d41402abc4b2a76b9719d911017c592" := by
  rfl

set_option maxRecDepth 1000000 in
theorem md5Hex_helloGzip : md5Hex helloGzip = "72d44bf130f666bedb0dda4ab494757b" := by
  rfl

set_option maxRecDepth 1000000 in
/-- C25 fails as stated. For the body `helloGzip`, the gzip stream of `hello`,
and the encoding `gzip`, the five bytes `hello` are written to the target file,
and the File record has the `Length` 25 and the `Hash`
`72d44bf130f666bedb0dda4ab494757b`, which are those of the compressed body; the
MD5 of the written bytes is `5d41402abc4b2a76b9719d911017c592`. For the body
`hello` and the encoding `deflate`, `gzip.NewReader` refuses the body, nothing
is written, and the record has the `Length` 5. -/
theorem saveFile_record_counterexample :
    (saveFile sampleEnv sampleReader 1 (goStr "POP3") (goStr "mail") none helloGzip
        [goStr "gzip"]).map
        (fun res => (res.written, res.record.map (fun f => (f.Length, f.Hash)))) =
      some (goStr "hello", some (25, "72d44bf130f666bedb0dda4ab494757b")) ∧
      md5Hex (goStr "hello") = "5d41402abc4b2a76b9719d911017c592" ∧
      (saveFile sampleEnv sampleReader 1 (goStr "POP3") (goStr "mail") none (goStr "hello")
        [goStr "deflate"]).map
        (fun res => (res.written, res.record.map (fun f => f.Length))) = some ([], some 5) := by
  refine ⟨by decide, md5Hex_hello, by decide⟩

theorem limitedBase_length (env : FileEnv) (base : GoString) :
    (limitedBase env base).length ≤ 253 ∨
      limitedBase env base = env.pathJoin env.FileStorage (goStr "noname") := by
  have h3 : (goStr "...").length = 3 := by decide
  unfold limitedBase
  simp only
  split_ifs with h1 h2 h2
  · exact Or.inr rfl
  · left
    rw [List.length_append, List.length_take, h3]
    omega
  · exact Or.inr rfl
  · left
    omega

theorem limitedBase_of_long (env : FileEnv) (base : GoString) (hlen : base.length > 250)
    (hne : base.take 250 ++ goStr "..." ≠ env.FileStorage) :
    limitedBase env base = base.take 250 ++ goStr "..." ∧
      (limitedBase env base).length = 253 := by
  have h3 : (goStr "...").length = 3 := by decide
  have h : limitedBase env base = base.take 250 ++ goStr "..." := by
    unfold limitedBase
    simp only [hlen, if_true, hne, if_false]
  refine ⟨h, ?_⟩
  rw [h, List.length_append, List.length_take, h3]
  omega

/-- C26, as the code has it. For every name, stream ident and body, when no
file exists at the first path that `saveFile` tries, that path is the target:
the joined path as it is when it has at most 250 bytes, and otherwise its
first 250 bytes followed by `...`, which makes 253 bytes; only when that
equals `FileStorage` is the target `path.Join(FileStorage, "noname")`
instead. -/
theorem saveFile_target_length (env : FileEnv) (h : ReaderInfo) (k : Nat)
    (source name : GoString) (err : Option String) (body : GoString)
    (encoding : List GoString) (hbody : body ≠ [])
    (hfree : env.fileExists (limitedBase env (joinedBase env h name err body)) = false)
    (hcreate : env.createFails (limitedBase env (joinedBase env h name err body)) = false) :
    ∃ res, saveFile env h (k + 1) source name err body encoding = some res ∧
      res.created = some (limitedBase env (joinedBase env h name err body)) ∧
      ((limitedBase env (joinedBase env h name err body)).length ≤ 253 ∨
        limitedBase env (joinedBase env h name err body) =
          env.pathJoin env.FileStorage (goStr "noname")) ∧
      ((joinedBase env h name err body).length > 250 →
        (joinedBase env h name err body).take 250 ++ goStr "..." ≠ env.FileStorage →
        (limitedBase env (joinedBase env h name err body)).length = 253) := by
  have hlen : ¬ body.length = 0 := fun e => hbody (List.length_eq_zero.1 e)
  have hft : freeTarget env (numberedTarget env h name err body) (k + 1)
      (limitedBase env (joinedBase env h name err body)) 0 =
      some (limitedBase env (joinedBase env h name err body)) := by
    rw [freeTarget, hfree]
    rfl
  unfold saveFile
  rw [if_neg hlen]
  simp only [hft, hcreate, Bool.false_eq_true, if_false]
  exact ⟨_, rfl, rfl, limitedBase_length env _,
    fun h1 h2 => (limitedBase_of_long env _ h1 h2).2⟩

theorem saveFile_target_length_witness :
    goStr "hello" ≠ [] ∧
      limitedBase sampleEnv (joinedBase sampleEnv sampleReader (goStr "mail") none
        (goStr "hello")) = goStr "files/text/plain; charset=utf-8/mail-10.0.0.1-10.0.0.2.txt" ∧
      ∃ res, saveFile sampleEnv sampleReader (0 + 1) (goStr "POP3") (goStr "mail") none
          (goStr "hello") [] = some res ∧
        res.created = some (limitedBase sampleEnv (joinedBase sampleEnv sampleReader
          (goStr "mail") none (goStr "hello"))) := by
  have hne : goStr "hello" ≠ [] := by decide
  obtain ⟨res, h1, h2, _⟩ := saveFile_target_length sampleEnv sampleReader 0 (goStr "POP3")
    (goStr "mail") none (goStr "hello") [] hne rfl rfl
  exact ⟨hne, by decide, res, h1, h2⟩

set_option maxRecDepth 1000000 in
/-- C26 fails as stated: for a name of 300 bytes the first path that
`saveFile` tries is cut to 250 bytes and gets `...` appended; the target path
has 253 bytes. -/
theorem saveFile_target_length_counterexample :
    longName.length = 300 ∧
      sampleEnv.fileExists (limitedBase sampleEnv (joinedBase sampleEnv sampleReader longName
        none (goStr "hello"))) = false ∧
      (saveFile sampleEnv sampleReader 1 (goStr "POP3") longName none (goStr "hello") []).map
        (fun res => res.created.map (fun t => t.length)) = some (some 253) := by
  refine ⟨by simp [longName], rfl, by decide⟩

theorem firstLine_cons_of_ne (b : UInt8) (t : GoString) (hb : b ≠ 10) :
    firstLine (b :: t) = b :: firstLine t := by
  simp [firstLine, List.takeWhile_cons, hb]

theorem firstLine_length_ge (n : Nat) (data : GoString)
    (h : (10 : UInt8) ∉ data.take n) : min n data.length ≤ (firstLine data).length := by
  induction data generalizing n with
  | nil => simp
  | cons b t ih =>
    cases n with
    | zero => simp
    | succ n =>
      rw [List.take_succ_cons, List.mem_cons, not_or] at h
      have hb : b ≠ 10 := fun e => h.1 e.symm
      have h2 := ih n h.2
      rw [firstLine_cons_of_ne b t hb]
      simp only [List.length_cons]
      omega

theorem readLineRest_nil : readLineRest [] = none := by
  rfl

theorem readLineRest_isSome (rest : GoString) (hne : rest ≠ []) :
    ∃ r, readLineRest rest = some r := by
  unfold readLineRest
  rw [if_neg hne]
  split_ifs
  · exact ⟨_, rfl⟩
  · exact ⟨_, rfl⟩
  · exact ⟨_, rfl⟩
  · exact ⟨_, rfl⟩

theorem readLineRest_short (data : GoString) (hne : data ≠ [])
    (h : (firstLine data).length < bufioSize) :
    readLineRest data = some (data.drop ((firstLine data).length + 1)) := by
  unfold readLineRest
  rw [if_neg hne]
  by_cases h10 : (10 : UInt8) ∈ data.take bufioSize
  · rw [if_pos h10]
    rfl
  · rw [if_neg h10]
    have hge := firstLine_length_ge bufioSize data h10
    have hlen : data.length < bufioSize := by omega
    rw [if_pos hlen]
    have hd : data.drop ((firstLine data).length + 1) = [] :=
      List.drop_eq_nil_of_le (by omega)
    rw [hd]

theorem lineCount_pos (data : GoString) (hne : data ≠ []) : 1 ≤ lineCount data := by
  unfold lineCount
  by_cases hl : data.getLast? = some 10
  · have hmem : (10 : UInt8) ∈ data := List.mem_of_getLast?_eq_some hl
    have := List.count_pos_iff.2 hmem
    omega
  · have : ¬ (data = [] ∨ data.getLast? = some 10) := by
      rintro (h | h)
      · exact hne h
      · exact hl h
    rw [if_neg this]
    omega

theorem lineCount_cons_of_ne (b : UInt8) (t : GoString) (hb : b ≠ 10) (ht : t ≠ []) :
    lineCount (b :: t) = lineCount t := by
  unfold lineCount
  have hlast : (b :: t).getLast? = t.getLast? := by
    cases t with
    | nil => exact absurd rfl ht
    | cons c u => simp [List.getLast?_cons_cons]
  rw [hlast, List.count_cons_of_ne hb.symm]
  simp [ht]

theorem lineCount_lf_cons (t : GoString) (ht : t ≠ []) :
    lineCount (10 :: t) = 1 + lineCount t := by
  unfold lineCount
  have hlast : ((10 : UInt8) :: t).getLast? = t.getLast? := by
    cases t with
    | nil => exact absurd rfl ht
    | cons c u => simp [List.getLast?_cons_cons]
  rw [hlast, List.count_cons_self]
  simp [ht]
  omega

theorem lineCount_lt_two_iff (data : GoString) :
    lineCount data < 2 ↔ data.drop ((firstLine data).length + 1) = [] := by
  induction data with
  | nil => simp [lineCount, firstLine]
  | cons b t ih =>
    by_cases hb : b = 10
    · subst hb
      have hf : firstLine ((10 : UInt8) :: t) = [] := by
        simp [firstLine]
      rw [hf]
      simp only [List.length_nil, Nat.zero_add, List.drop_succ_cons, List.drop_zero]
      by_cases ht : t = []
      · subst ht
        simp [lineCount]
      · rw [lineCount_lf_cons t ht]
        have := lineCount_pos t ht
        constructor
        · intro h
          omega
        · intro h
          exact absurd h ht
    · rw [firstLine_cons_of_ne b t hb]
      simp only [List.length_cons, List.drop_succ_cons]
      by_cases ht : t = []
      · subst ht
        have : lineCount [b] = 1 := by
          simp [lineCount, hb, List.count_cons, Ne.symm hb]
        rw [this]
        simp
      · rw [lineCount_cons_of_ne b t hb ht]
        exact ih

theorem countLines_short (data : GoString) (h : (firstLine data).length < bufioSize) :
    ∃ count, countLines true 2 data 0 = some count ∧ (count < 2 ↔ lineCount data < 2) := by
  by_cases hne : data = []
  · subst hne
    exact ⟨0, rfl, by simp [lineCount]⟩
  · have h1 := readLineRest_short data hne h
    by_cases hr : data.drop ((firstLine data).length + 1) = []
    · refine ⟨1, ?_, ?_⟩
      · rw [countLines, h1]
        simp only [hr]
        rfl
      · rw [lineCount_lt_two_iff]
        simp [hr]
    · obtain ⟨r, h2⟩ := readLineRest_isSome _ hr
      refine ⟨2, ?_, ?_⟩
      · rw [countLines, h1]
        simp only
        rw [if_neg (by omega), countLines, h2]
        rfl
      · rw [lineCount_lt_two_iff]
        simp [hr]

theorem Disk.size_of_read (disk : Disk) (name content : GoString)
    (h : disk.read name = some content) : disk.size name = content.length := by
  unfold Disk.size
  rw [h]

/-- C27, for lines that fit the buffer of the reader. For a file that is on
the disk, and for which, when its name ends in `.csv`, `.csv.gz`, `.json` or
`.json.gz`, the reader opens and ends with `io.EOF` or `io.ErrUnexpectedEOF`
and the first line it delivers is shorter than the 4096 bytes of the buffer of
`bufio.NewReader`: `removeAuditRecordFileIfEmpty` removes the file and returns
0 when the file holds no audit records, which is when the text has fewer than
two lines for these names and when `numRecords` is 0 for another name; in
every other case it leaves the disk as it is and returns the size of the
file. -/
theorem removeAuditRecordFileIfEmpty_short_lines
    (gunzip : GoString → Option (GoString × Bool)) (disk : Disk) (name content : GoString)
    (numRecords : Int) (hfile : disk.read name = some content)
    (hdata : (isCSV name || isJSON name) = true →
      ∃ data, lineReader gunzip name content = some (data, true) ∧
        (firstLine data).length < bufioSize) :
    removeAuditRecordFileIfEmpty gunzip disk name numRecords =
      some (if holdsNoRecords gunzip name content numRecords = true then (0, disk.remove name)
        else ((content.length : Int), disk)) := by
  have hsize := Disk.size_of_read disk name content hfile
  unfold removeAuditRecordFileIfEmpty holdsNoRecords
  by_cases hn : (isCSV name || isJSON name) = true
  · obtain ⟨data, hr, hl⟩ := hdata hn
    obtain ⟨count, hc, hiff⟩ := countLines_short data hl
    rw [if_pos hn, if_pos hn]
    unfold removeEmptyNewlineDelimitedFile
    rw [hfile]
    simp only [hr, hc, hsize]
    by_cases h2 : count < 2
    · rw [if_pos h2, if_pos (by simpa using hiff.1 h2)]
    · rw [if_neg h2, if_neg (by simpa using fun h => h2 (hiff.2 h))]
  · rw [if_neg hn, if_neg hn]
    by_cases h0 : numRecords = 0
    · rw [if_pos h0, if_pos (by simpa using h0)]
    · rw [if_neg h0, if_neg (by simpa using h0), hsize]

theorem removeAuditRecordFileIfEmpty_short_lines_witness :
    removeAuditRecordFileIfEmpty sampleGunzip sampleDisk (goStr "UDP.csv") 5 =
        some (0, sampleDisk.remove (goStr "UDP.csv")) ∧
      removeAuditRecordFileIfEmpty sampleGunzip sampleDisk (goStr "TCP.csv") 0 =
        some (23, sampleDisk) ∧
      removeAuditRecordFileIfEmpty sampleGunzip sampleDisk (goStr "POP3.json.gz") 5 =
        some (0, sampleDisk.remove (goStr "POP3.json.gz")) ∧
      removeAuditRecordFileIfEmpty sampleGunzip sampleDisk (goStr "Flow.ncap") 3 =
        some (6, sampleDisk) := by
  refine ⟨?_, ?_, ?_, ?_⟩
  · exact removeAuditRecordFileIfEmpty_short_lines sampleGunzip sampleDisk (goStr "UDP.csv")
      (goStr "Timestamp,SrcPort\n") 5 rfl (fun _ => ⟨_, rfl, by decide⟩)
  · exact removeAuditRecordFileIfEmpty_short_lines sampleGunzip sampleDisk (goStr "TCP.csv")
      (goStr "Timestamp,SrcPort\n1,80\n") 0 rfl (fun _ => ⟨_, rfl, by decide⟩)
  · exact removeAuditRecordFileIfEmpty_short_lines sampleGunzip sampleDisk
      (goStr "POP3.json.gz") helloGzip 5 rfl (fun _ => ⟨goStr "hello", rfl, by decide⟩)
  · exact removeAuditRecordFileIfEmpty_short_lines sampleGunzip sampleDisk (goStr "Flow.ncap")
      (goStr "header") 3 rfl (fun h => absurd h (by decide))

theorem readLineRest_long (n : Nat) (h : bufioSize ≤ n) (tail : GoString) :
    readLineRest (List.replicate n 97 ++ tail) =
      some (List.replicate (n - bufioSize) 97 ++ tail) := by
  have hsize : bufioSize = 4096 := rfl
  have hlen : bufioSize ≤ (List.replicate n (97 : UInt8)).length := by
    rw [List.length_replicate]
    exact h
  have htake : (List.replicate n (97 : UInt8) ++ tail).take bufioSize =
      List.replicate bufioSize 97 := by
    rw [List.take_append_of_le_length hlen, List.take_replicate, Nat.min_eq_left h]
  have hdrop : (List.replicate n (97 : UInt8) ++ tail).drop bufioSize =
      List.replicate (n - bufioSize) 97 ++ tail := by
    rw [List.drop_append_of_le_length hlen, List.drop_replicate]
  have hne : List.replicate n (97 : UInt8) ++ tail ≠ [] := by
    intro e
    have := congrArg List.length e
    rw [List.length_append, List.length_replicate] at this
    simp only [List.length_nil] at this
    omega
  have h10 : (10 : UInt8) ∉ (List.replicate n (97 : UInt8) ++ tail).take bufioSize := by
    rw [htake]
    intro hm
    exact absurd (List.eq_of_mem_replicate hm) (by decide)
  have hlt : ¬ (List.replicate n (97 : UInt8) ++ tail).length < bufioSize := by
    rw [List.length_append, List.length_replicate]
    omega
  have hget : (List.replicate n (97 : UInt8) ++ tail).get? (bufioSize - 1) = some 97 := by
    rw [List.get?_eq_getElem?, List.getElem?_append_left (by rw [List.length_replicate]; omega),
      List.getElem?_replicate]
    rw [if_pos (by omega)]
  have h13 : ¬ (List.replicate n (97 : UInt8) ++ tail).get? (bufioSize - 1) = some 13 := by
    rw [hget]
    decide
  unfold readLineRest
  rw [if_neg hne, if_neg h10, if_neg hlt, if_neg h13, hdrop]

theorem lineCount_single_line (n : Nat) :
    lineCount (List.replicate n 97 ++ [10]) = 1 := by
  have hc : List.count (10 : UInt8) (List.replicate n 97) = 0 := by
    rw [List.count_replicate]
    rfl
  have hl : (List.replicate n (97 : UInt8) ++ [10]).getLast? = some 10 := by
    simp
  unfold lineCount
  rw [List.count_append, hc, hl]
  simp

theorem countLines_long (n : Nat) (h : bufioSize ≤ n) :
    countLines true 2 (List.replicate n 97 ++ [10]) 0 = some 2 := by
  obtain ⟨r, hr⟩ := readLineRest_isSome (List.replicate (n - bufioSize) 97 ++ [10]) (by simp)
  rw [countLines, readLineRest_long n h]
  simp only
  rw [if_neg (by omega), countLines, hr]
  rfl

theorem removeAuditRecordFileIfEmpty_long (gunzip : GoString → Option (GoString × Bool))
    (n : Nat) (h : bufioSize ≤ n) (name : GoString)
    (hcsv : (isCSV name || isJSON name) = true)
    (hgz : stringsHasSuffix name (goStr ".gz") = false) :
    holdsNoRecords gunzip name (List.replicate n 97 ++ [10]) 0 = true ∧
      removeAuditRecordFileIfEmpty gunzip ⟨[(name, List.replicate n 97 ++ [10])]⟩ name 0 =
        some (((n + 1 : Nat) : Int), ⟨[(name, List.replicate n 97 ++ [10])]⟩) := by
  have hread : Disk.read ⟨[(name, List.replicate n 97 ++ [10])]⟩ name =
      some (List.replicate n 97 ++ [10]) := by
    simp [Disk.read]
  have hreader : lineReader gunzip name (List.replicate n 97 ++ [10]) =
      some (List.replicate n 97 ++ [10], true) := by
    unfold lineReader
    rw [hgz]
    rfl
  constructor
  · unfold holdsNoRecords
    rw [if_pos hcsv, hreader]
    simp only [lineCount_single_line]
    rfl
  · unfold removeAuditRecordFileIfEmpty
    rw [if_pos hcsv]
    unfold removeEmptyNewlineDelimitedFile
    rw [hread]
    simp only [hreader, countLines_long n h]
    rw [if_neg (by omega), Disk.size_of_read _ _ _ hread, List.length_append,
      List.length_replicate]
    rfl

/-- C27 on a file whose only line does not fit the buffer: the file
`Wide.csv` holds one line of 4096 bytes and its line feed, which is fewer
than two lines, and `removeAuditRecordFileIfEmpty` keeps the file and returns
its size of 4097 bytes. -/
theorem removeAuditRecordFileIfEmpty_keeps_long_header :
    lineCount longHeader = 1 ∧
      holdsNoRecords sampleGunzip (goStr "Wide.csv") longHeader 0 = true ∧
      removeAuditRecordFileIfEmpty sampleGunzip longHeaderDisk (goStr "Wide.csv") 0 =
        some (4097, longHeaderDisk) :=
  ⟨lineCount_single_line 4096,
    (removeAuditRecordFileIfEmpty_long sampleGunzip 4096 (Nat.le_refl _) (goStr "Wide.csv")
      (by decide) (by decide)).1,
    (removeAuditRecordFileIfEmpty_long sampleGunzip 4096 (Nat.le_refl _) (goStr "Wide.csv")
      (by decide) (by decide)).2⟩

/-! ## The connection table: what an update leaves alone -/

theorem mem_set_of_ne (m : ConnItems) (key : String) (c2 : Connection) (e : String × Connection)
    (hk : e.1 ≠ key) (h : e ∈ m) : e ∈ m.set key c2 := by
  induction m with
  | nil => simp at h
  | cons e0 rest ih =>
    obtain ⟨k, c0⟩ := e0
    rw [List.mem_cons] at h
    by_cases hk0 : k = key
    · simp only [ConnItems.set, hk0, if_true, List.mem_cons]
      rcases h with h | h
      · exact absurd (by rw [h, hk0]) hk
      · exact Or.inr h
    · simp only [ConnItems.set, hk0, if_false, List.mem_cons]
      rcases h with h | h
      · exact Or.inl h
      · exact Or.inr (ih h)

theorem updateConnection_protos (c : Connection) (p : Packet) :
    (updateConnection c p).LinkProto = c.LinkProto ∧
      (updateConnection c p).NetworkProto = c.NetworkProto ∧
      (updateConnection c p).TransportProto = c.TransportProto ∧
      (updateConnection c p).ApplicationProto = c.ApplicationProto := by
  have h := updateConnection_protoNames c p
  simp only [protoNames, Prod.mk.injEq] at h
  exact h

/-- C34. When `handlePacket` finds an entry under the key of the packet, the
entry after the call is the update of that entry, and its `UID`, `LinkProto`,
`NetworkProto`, `TransportProto` and `ApplicationProto` are what they were
before the call, whatever the timestamp and the layers of the packet. So after
a packet `e` has created an entry and any packets `rest` of the same key have
been processed, these five fields are the ones that the new entry got from
`e`. -/
theorem handlePacket_update_keeps_identity (conns : ConnItems) (p : Packet) (c : Connection)
    (e : Packet) (rest : List Packet)
    (h : conns.get? (packetKey p) = some c)
    (hk : ∀ q ∈ rest, packetKey q = packetKey e) :
    (∃ c2, (handlePacket conns p).1.get? (packetKey p) = some c2 ∧
      c2 = updateConnection c p ∧
      c2.UID = c.UID ∧ c2.LinkProto = c.LinkProto ∧ c2.NetworkProto = c.NetworkProto ∧
      c2.TransportProto = c.TransportProto ∧ c2.ApplicationProto = c.ApplicationProto) ∧
    ∃ c3, (processPackets (e :: rest)).get? (packetKey e) = some c3 ∧
      c3.UID = (newConnection e).UID ∧ c3.LinkProto = (newConnection e).LinkProto ∧
      c3.NetworkProto = (newConnection e).NetworkProto ∧
      c3.TransportProto = (newConnection e).TransportProto ∧
      c3.ApplicationProto = (newConnection e).ApplicationProto := by
  constructor
  · obtain ⟨h1, h2, h3, h4⟩ := updateConnection_protos c p
    refine ⟨updateConnection c p, ?_, rfl, updateConnection_UID c p, h1, h2, h3, h4⟩
    rw [get?_handlePacket, if_pos rfl, h]
  · have hall : ∀ q ∈ e :: rest, packetKey q = packetKey e := by
      intro q hq
      rcases List.mem_cons.1 hq with hq | hq
      · rw [hq]
      · exact hk q hq
    have hf : packetsOfKey (packetKey e) (e :: rest) = e :: rest :=
      packetsOfKey_eq_self (packetKey e) (e :: rest) hall
    obtain ⟨g1, _, g3⟩ := foldl_updateConnection_fixed rest (newConnection e)
    simp only [protoNames, Prod.mk.injEq] at g3
    refine ⟨rest.foldl updateConnection (newConnection e), ?_, g1, g3.1, g3.2.1, g3.2.2.1,
      g3.2.2.2⟩
    rw [get?_processPackets, hf]
    rfl

theorem handlePacket_update_keeps_identity_witness :
    (processPackets [dataPacket]).get? (packetKey synPacket) =
        some (newConnection dataPacket) ∧
      (∀ q ∈ [bulkPacket], packetKey q = packetKey dataPacket) ∧
      synPacket.Timestamp < (newConnection dataPacket).TimestampFirst ∧
      (∃ c2, (handlePacket (processPackets [dataPacket]) synPacket).1.get?
          (packetKey synPacket) = some c2 ∧
        c2.SrcIP = "10.0.0.1" ∧ (newConnection dataPacket).SrcIP = "10.0.0.2" ∧
        c2.UID = (newConnection dataPacket).UID ∧ c2.ApplicationProto = "Payload") ∧
      ∃ c3, (processPackets [dataPacket, bulkPacket]).get? (packetKey dataPacket) = some c3 ∧
        c3.TransportProto = "TCP" := by
  have hk : ∀ q ∈ [bulkPacket], packetKey q = packetKey dataPacket := by decide
  have hg : (processPackets [dataPacket]).get? (packetKey synPacket) =
      some (newConnection dataPacket) := by
    rfl
  obtain ⟨⟨c2, h1, h2, h3, _, _, _, h7⟩, c3, g1, _, _, _, g5, _⟩ :=
    handlePacket_update_keeps_identity (processPackets [dataPacket]) synPacket
      (newConnection dataPacket) dataPacket [bulkPacket] hg hk
  refine ⟨hg, hk, by decide, ⟨c2, h1, ?_, by decide, h3, ?_⟩, c3, g1, ?_⟩
  · rw [h2]
    rfl
  · rw [h7]
    rfl
  · rw [g5]
    rfl

/-- C35. `handlePacket` affects only the entry of the key of the packet: for
every table and packet, what the table holds under any other key is the same
before and after the call, and so is every pair of another key and an entry
in the table. -/
theorem handlePacket_other_keys (conns : ConnItems) (p : Packet) (key : String)
    (hk : key ≠ packetKey p) :
    (handlePacket conns p).1.get? key = conns.get? key ∧
      ∀ c : Connection, (key, c) ∈ (handlePacket conns p).1 ↔ (key, c) ∈ conns := by
  constructor
  · rw [get?_handlePacket, if_neg (fun e => hk e.symm)]
  · intro c
    cases hg : conns.get? (packetKey p) with
    | none =>
      have hh : (handlePacket conns p).1 = conns ++ [(packetKey p, newConnection p)] := by
        simp [handlePacket, hg]
      rw [hh]
      simp only [List.mem_append, List.mem_singleton, Prod.mk.injEq]
      constructor
      · rintro (h | h)
        · exact h
        · exact absurd h.1 hk
      · intro h
        exact Or.inl h
    | some c0 =>
      have hh : (handlePacket conns p).1 = conns.set (packetKey p) (updateConnection c0 p) := by
        simp [handlePacket, hg]
      rw [hh]
      constructor
      · intro h
        rcases mem_set conns _ _ _ h with h | h
        · exact h
        · exact absurd (congrArg Prod.fst h) hk
      · intro h
        exact mem_set_of_ne conns _ _ _ hk h

theorem handlePacket_other_keys_witness :
    "1230" ≠ packetKey synPacket ∧
      (handlePacket (processPackets [zeroHashPacket, dataPacket]) synPacket).1.get? "1230" =
        (processPackets [zeroHashPacket, dataPacket]).get? "1230" ∧
      (processPackets [zeroHashPacket, dataPacket]).get? "1230" =
        some (newConnection zeroHashPacket) ∧
      (handlePacket (processPackets [zeroHashPacket, dataPacket]) synPacket).1.get? "1234" ≠
        (processPackets [zeroHashPacket, dataPacket]).get? "1234" := by
  have hne : "1230" ≠ packetKey synPacket := by decide
  refine ⟨hne,
    (handlePacket_other_keys (processPackets [zeroHashPacket, dataPacket]) synPacket "1230"
      hne).1, by rfl, ?_⟩
  rw [get?_handlePacket, if_pos (by decide), get?_processPackets]
  intro h
  have h2 := congrArg (fun o => o.map (fun c => c.NumPackets)) h
  revert h2
  decide

/-! ## POP3: before the authentication -/

theorem get?_succ_mem_tail (responses : List POP3Response) (i : Nat) (reply : POP3Response)
    (h : responses.get? (i + 1) = some reply) : reply ∈ responses.tail := by
  cases responses with
  | nil => simp at h
  | cons a rest =>
    rw [List.get?_cons_succ] at h
    exact List.get?_mem h

theorem parseStep_nothingGathered (responses : List POP3Response) (r : POP3Request)
    (nxt : Option POP3Request) (s : ParseState)
    (hno : ∀ reply ∈ responses.tail, reply.Command ≠ goStr "+OK")
    (hs : nothingGathered s) :
    (∃ s2, parseStep responses r nxt s = Outcome.running s2 ∧ nothingGathered s2 ∧
        (r.Command ≠ goStr "CAPA" → s2.resIndex = s.resIndex + 1)) ∨
      parseStep responses r nxt s = Outcome.returned s ∨
      (parseStep responses r nxt s = Outcome.panicked ∧
        (r.Command = goStr "CAPA" ∨ responses.length ≤ s.resIndex + 1)) := by
  obtain ⟨hst, hm, hu, hp, ht⟩ := hs
  have key : ∀ (a b : Outcome),
      (match responses.get? (s.resIndex + 1) with
        | none => Outcome.panicked
        | some reply => if reply.Command = goStr "+OK" then a
          else Outcome.running { s with resIndex := s.resIndex + 1 }) = b →
      (b = Outcome.running { s with resIndex := s.resIndex + 1 }) ∨
        (b = Outcome.panicked ∧ responses.length ≤ s.resIndex + 1) := by
    intro a b hb
    cases hg : responses.get? (s.resIndex + 1) with
    | none =>
      rw [hg] at hb
      refine Or.inr ⟨hb.symm, ?_⟩
      rw [List.get?_eq_getElem?, List.getElem?_eq_none_iff] at hg
      exact hg
    | some reply =>
      rw [hg] at hb
      simp only [hno reply (get?_succ_mem_tail _ _ _ hg), if_false] at hb
      exact Or.inl hb.symm
  have hplus : nothingGathered { s with resIndex := s.resIndex + 1 } := ⟨hst, hm, hu, hp, ht⟩
  unfold parseStep
  split
  next h =>
    rw [hst] at h
    cases h
  next h =>
    split_ifs with h1 h2 h3 h4 h5 h6 h7
    · rcases key _ _ rfl with h | h
      · exact Or.inl ⟨_, h, hplus, fun _ => rfl⟩
      · exact Or.inr (Or.inr ⟨h.1, Or.inr h.2⟩)
    · refine Or.inl ⟨_, rfl, ?_, fun h => absurd h2 h⟩
      rw [skipReply_eq]
      split_ifs
      · exact ⟨hst, hm, hu, hp, ht⟩
      · exact ⟨hst, hm, hu, hp, ht⟩
    · exact Or.inr (Or.inr ⟨rfl, Or.inl h2⟩)
    · rcases key _ _ rfl with h | h
      · exact Or.inl ⟨_, h, hplus, fun _ => rfl⟩
      · exact Or.inr (Or.inr ⟨h.1, Or.inr h.2⟩)
    · rcases key _ _ rfl with h | h
      · exact Or.inl ⟨_, h, hplus, fun _ => rfl⟩
      · exact Or.inr (Or.inr ⟨h.1, Or.inr h.2⟩)
    · rcases key _ _ rfl with h | h
      · exact Or.inl ⟨_, h, hplus, fun _ => rfl⟩
      · exact Or.inr (Or.inr ⟨h.1, Or.inr h.2⟩)
    · exact Or.inr (Or.inl rfl)
    · exact Or.inl ⟨_, rfl, hplus, fun _ => rfl⟩
  next h1 h2 => exact absurd hst h2

theorem resultOf_nothingGathered (s : ParseState) (hs : nothingGathered s) :
    resultOf s = {} := by
  obtain ⟨_, hm, hu, hp, ht⟩ := hs
  simp only [resultOf, hm, hu, hp, ht]

theorem parseLoop_nothingGathered (responses : List POP3Response)
    (hno : ∀ reply ∈ responses.tail, reply.Command ≠ goStr "+OK")
    (requests : List POP3Request) :
    ∀ s : ParseState, nothingGathered s →
      (parseLoop responses requests s = none ∨
          ∃ s2, parseLoop responses requests s = some s2 ∧ nothingGathered s2) ∧
        ((∀ r ∈ requests, r.Command ≠ goStr "CAPA") →
          s.resIndex + requests.length < responses.length →
          ∃ s2, parseLoop responses requests s = some s2 ∧ nothingGathered s2) := by
  induction requests with
  | nil =>
    intro s hs
    exact ⟨Or.inr ⟨s, rfl, hs⟩, fun _ _ => ⟨s, rfl, hs⟩⟩
  | cons r rest ih =>
    intro s hs
    rcases parseStep_nothingGathered responses r rest.head? s hno hs with
      ⟨s2, h1, h2, h3⟩ | h | ⟨h1, h2⟩
    · have e : parseLoop responses (r :: rest) s = parseLoop responses rest s2 := by
        rw [parseLoop, h1]
      rw [e]
      refine ⟨(ih s2 h2).1, fun hc hl => (ih s2 h2).2 (fun q hq => hc q (List.mem_cons_of_mem _ hq))
        ?_⟩
      rw [h3 (hc r (List.mem_cons_self _ _))]
      simp only [List.length_cons] at hl
      omega
    · have e : parseLoop responses (r :: rest) s = some s := by
        rw [parseLoop, h]
      rw [e]
      exact ⟨Or.inr ⟨s, rfl, hs⟩, fun _ _ => ⟨s, rfl, hs⟩⟩
    · have e : parseLoop responses (r :: rest) s = none := by
        rw [parseLoop, h1]
      rw [e]
      refine ⟨Or.inl rfl, fun hc hl => ?_⟩
      rcases h2 with h2 | h2
      · exact absurd h2 (hc r (List.mem_cons_self _ _))
      · simp only [List.length_cons] at hl
        omega

theorem parseMails_empty_requests (responses : List POP3Response) :
    parseMails [] responses = some {} := by
  cases responses with
  | nil => rfl
  | cons hello rest => simp [parseMails]

/-- C31, as far as the code returns. For every transcript in which no response
after the first has the command `+OK`, `parseMails` either panics or returns an
empty mail list and empty user, pass and token, whatever the requests are; and
it returns these empty results when no request is a `CAPA` and there are more
responses than requests. -/
theorem parseMails_without_ok (requests : List POP3Request) (responses : List POP3Response)
    (hno : ∀ reply ∈ responses.tail, reply.Command ≠ goStr "+OK") :
    (parseMails requests responses = none ∨ parseMails requests responses = some {}) ∧
      ((∀ r ∈ requests, r.Command ≠ goStr "CAPA") → requests.length < responses.length →
        parseMails requests responses = some {}) := by
  have hinit : nothingGathered {} := ⟨rfl, rfl, rfl, rfl, rfl⟩
  by_cases hreq : requests = []
  · subst hreq
    exact ⟨Or.inr (parseMails_empty_requests responses),
      fun _ _ => parseMails_empty_requests responses⟩
  · cases hhello : serverHelloOk responses with
    | false =>
      exact ⟨Or.inr (parseMails_no_hello requests responses hhello),
        fun _ _ => parseMails_no_hello requests responses hhello⟩
    | true =>
      rw [parseMails_eq requests responses hhello hreq]
      obtain ⟨h1, h2⟩ := parseLoop_nothingGathered responses hno requests {} hinit
      constructor
      · rcases h1 with h1 | ⟨s2, h1, h3⟩
        · rw [h1]
          exact Or.inl rfl
        · rw [h1]
          exact Or.inr (congrArg some (resultOf_nothingGathered s2 h3))
      · intro hc hl
        obtain ⟨s2, h3, h4⟩ := h2 hc (by simpa using hl)
        rw [h3]
        exact congrArg some (resultOf_nothingGathered s2 h4)

theorem parseMails_without_ok_witness :
    (∀ reply ∈ [helloReply, errReply, errReply, textReply "From: x@y", dotReply].tail,
        reply.Command ≠ goStr "+OK") ∧
      parseMails [userAlice, passSecret, retrOne, retrOne]
        [helloReply, errReply, errReply, textReply "From: x@y", dotReply] = some {} := by
  have hno : ∀ reply ∈ [helloReply, errReply, errReply, textReply "From: x@y", dotReply].tail,
      reply.Command ≠ goStr "+OK" := by decide
  exact ⟨hno, (parseMails_without_ok [userAlice, passSecret, retrOne, retrOne]
    [helloReply, errReply, errReply, textReply "From: x@y", dotReply] hno).2 (by decide)
    (by decide)⟩

/-- C31 does not hold of the code. The client sends `CAPA` and `USER alice`,
the server answers the greeting `+OK POP server ready` and then `-ERR` to both:
no response after the greeting is a `+OK`, every request has its answer, and
`parseMails` panics instead of returning empty results. -/
theorem parseMails_refused_session_panics :
    runClient refusedClientLines [] =
        [{ Command := goStr "CAPA" }, { Command := goStr "USER", Argument := goStr "alice" }] ∧
      runServer refusedServerLines [] =
        [{ Command := goStr "+OK", Message := goStr "POP server ready" },
          { Command := goStr "-ERR", Message := goStr "unknown command" },
          { Command := goStr "-ERR", Message := goStr "no such user" }] ∧
      (∀ reply ∈ (runServer refusedServerLines []).tail, reply.Command ≠ goStr "+OK") ∧
      parseMails (runClient refusedClientLines []) (runServer refusedServerLines []) = none := by
  refine ⟨by decide, by decide, by decide, by decide⟩

/-- C36. `parseMails` returns no mails and empty user, pass and token whenever
the request list is empty, the response list is empty, or the first response
is not a `+OK` whose message begins with `POP server ready`; with such a
first response the result is the same whatever the requests and the
responses after the first are. -/
theorem parseMails_checks_greeting (requests : List POP3Request)
    (responses : List POP3Response)
    (h : requests = [] ∨ responses = [] ∨ serverHelloOk responses = false) :
    parseMails requests responses = some {} ∧
      ∀ (requests2 : List POP3Request) (later : List POP3Response),
        responses ≠ [] → serverHelloOk responses = false →
          parseMails requests2 (responses.take 1 ++ later) = some {} := by
  constructor
  · rcases h with h | h | h
    · rw [h]
      exact parseMails_empty_requests responses
    · rw [h]
      rfl
    · exact parseMails_no_hello requests responses h
  · intro requests2 later hne hh
    apply parseMails_no_hello
    cases responses with
    | nil => exact absurd rfl hne
    | cons hello rest => exact hh

theorem parseMails_checks_greeting_witness :
    serverHelloOk [{ Command := goStr "+OK", Message := goStr "POP3 server ready" }, okReply,
        okReply] = false ∧
      parseMails [userAlice, passSecret]
        [{ Command := goStr "+OK", Message := goStr "POP3 server ready" }, okReply, okReply] =
        some {} ∧
      parseMails [userAlice, passSecret] [helloReply, okReply, okReply] =
        some { user := goStr "alice", pass := goStr "s3cret" } := by
  refine ⟨by decide, (parseMails_checks_greeting [userAlice, passSecret]
    [{ Command := goStr "+OK", Message := goStr "POP3 server ready" }, okReply, okReply]
    (Or.inr (Or.inr (by decide)))).1, by decide⟩

/-! ## POP3: `getCommand` loses nothing -/

theorem stringsJoin_stringsSplit (sep : UInt8) (s : GoString) :
    stringsJoin (stringsSplit sep s) [sep] = s := by
  induction s with
  | nil => rfl
  | cons b rest ih =>
    cases hs : stringsSplit sep rest with
    | nil => exact absurd hs (stringsSplit_ne_nil sep rest)
    | cons w ws =>
      rw [hs] at ih
      by_cases hb : b = sep
      · rw [stringsSplit, if_pos hb, hs, stringsJoin_nil_cons, ih, hb]
        rfl
      · rw [stringsSplit, if_neg hb, hs]
        simp only
        rw [stringsJoin_cons_cons, ih]

theorem stringsSplit_not_mem (sep : UInt8) (s : GoString) :
    ∀ w ∈ stringsSplit sep s, sep ∉ w := by
  induction s with
  | nil =>
    intro w hw
    simp only [stringsSplit, List.mem_singleton] at hw
    rw [hw]
    exact List.not_mem_nil _
  | cons b rest ih =>
    intro w hw
    cases hs : stringsSplit sep rest with
    | nil => exact absurd hs (stringsSplit_ne_nil sep rest)
    | cons v vs =>
      rw [hs] at ih
      by_cases hb : b = sep
      · rw [stringsSplit, if_pos hb, hs, List.mem_cons] at hw
        rcases hw with hw | hw
        · rw [hw]
          exact List.not_mem_nil _
        · exact ih w hw
      · rw [stringsSplit, if_neg hb, hs] at hw
        simp only [List.mem_cons] at hw
        rcases hw with hw | hw
        · rw [hw]
          intro hm
          rcases List.mem_cons.1 hm with hm | hm
          · exact hb hm.symm
          · exact ih v (List.mem_cons_self _ _) hm
        · exact ih w (List.mem_cons_of_mem _ hw)

theorem stringsTrim_parts (s cutset : GoString) :
    ∃ pre suf, s = pre ++ stringsTrim s cutset ++ suf ∧ (∀ b ∈ pre, b ∈ cutset) ∧
      (∀ b ∈ suf, b ∈ cutset) ∧
      ∀ b, (stringsTrim s cutset).getLast? = some b → b ∉ cutset := by
  have h1 := List.takeWhile_append_dropWhile (fun b => decide (b ∈ cutset)) s
  have h2 := List.takeWhile_append_dropWhile (fun b => decide (b ∈ cutset))
    (s.dropWhile (fun b => decide (b ∈ cutset))).reverse
  refine ⟨s.takeWhile (fun b => decide (b ∈ cutset)),
    (((s.dropWhile (fun b => decide (b ∈ cutset))).reverse).takeWhile
      (fun b => decide (b ∈ cutset))).reverse, ?_, ?_, ?_, ?_⟩
  · have h3 := congrArg List.reverse h2
    rw [List.reverse_append, List.reverse_reverse] at h3
    unfold stringsTrim
    rw [List.append_assoc, h3, h1]
  · intro b hb
    simpa using List.mem_takeWhile_imp hb
  · intro b hb
    rw [List.mem_reverse] at hb
    simpa using List.mem_takeWhile_imp hb
  · intro b hb
    unfold stringsTrim at hb
    rw [List.getLast?_reverse] at hb
    have hne : ((s.dropWhile (fun b => decide (b ∈ cutset))).reverse).dropWhile
        (fun b => decide (b ∈ cutset)) ≠ [] := by
      intro e
      rw [e] at hb
      simp at hb
    have hh := List.head_dropWhile_not (fun x => decide (x ∈ cutset)) _ hne
    rw [List.head?_eq_head hne, Option.some.injEq] at hb
    rw [hb] at hh
    simpa using hh

/-- C37. `getCommand` returns a command and arguments for every line; the
command has no blank in it; the command and the arguments joined with single
blanks are the trimmed line; and the trimmed line is the line without a
leading and a trailing piece made of the bytes `'\r'`, `' '` and `'\n'`, and
neither begins nor ends with one of these bytes. -/
theorem getCommand_lossless (line : GoString) :
    ∃ cmd args, getCommand line = some (cmd, args) ∧ (32 : UInt8) ∉ cmd ∧
      stringsJoin (cmd :: args) (goStr " ") = stringsTrim line (goStr "\r \n") ∧
      ∃ pre suf, line = pre ++ stringsTrim line (goStr "\r \n") ++ suf ∧
        (∀ b ∈ pre, b ∈ goStr "\r \n") ∧ (∀ b ∈ suf, b ∈ goStr "\r \n") ∧
        (∀ b, (stringsTrim line (goStr "\r \n")).head? = some b → b ∉ goStr "\r \n") ∧
        ∀ b, (stringsTrim line (goStr "\r \n")).getLast? = some b → b ∉ goStr "\r \n" := by
  obtain ⟨pre, suf, h1, h2, h3, h4⟩ := stringsTrim_parts line (goStr "\r \n")
  have hhead : ∀ b, (stringsTrim line (goStr "\r \n")).head? = some b → b ∉ goStr "\r \n" := by
    intro b hb
    cases ht : stringsTrim line (goStr "\r \n") with
    | nil =>
      rw [ht] at hb
      simp at hb
    | cons c rest =>
      rw [ht] at hb
      simp only [List.head?_cons, Option.some.injEq] at hb
      rw [← hb]
      exact stringsTrim_head line _ c rest ht
  have hsp : goStr " " = [32] := by decide
  cases hs : stringsSplit 32 (stringsTrim line (goStr "\r \n")) with
  | nil => exact absurd hs (stringsSplit_ne_nil _ _)
  | cons cmd args =>
    refine ⟨cmd, args, ?_, ?_, ?_, pre, suf, h1, h2, h3, hhead, h4⟩
    · unfold getCommand
      simp only [hs]
    · exact stringsSplit_not_mem 32 _ cmd (by rw [hs]; exact List.mem_cons_self _ _)
    · rw [hsp, ← hs]
      exact stringsJoin_stringsSplit 32 _

/-! ## Reading from the byte channel -/

theorem receiveLoop_spec (chunks : List GoString) :
    ∀ data : GoString,
      (receiveLoop data chunks).1 ++ (receiveLoop data chunks).2.1.flatten =
          data ++ chunks.flatten ∧
        (receiveLoop data chunks).1 = buffered { data := data, bytes := chunks } ∧
        ((receiveLoop data chunks).2.2 = true ↔ (receiveLoop data chunks).1 ≠ []) ∧
        ((receiveLoop data chunks).2.2 = false → (receiveLoop data chunks).2.1 = []) := by
  induction chunks with
  | nil =>
    intro data
    cases data with
    | nil => simp [receiveLoop, buffered]
    | cons b t => simp [receiveLoop, buffered]
  | cons chunk rest ih =>
    intro data
    cases data with
    | nil =>
      obtain ⟨h1, h2, h3, h4⟩ := ih chunk
      have e : receiveLoop [] (chunk :: rest) = receiveLoop chunk rest := by
        simp [receiveLoop]
      rw [e]
      refine ⟨?_, ?_, h3, h4⟩
      · rw [h1]
        simp
      · rw [h2]
        cases chunk with
        | nil => simp [buffered]
        | cons b t => simp [buffered]
    | cons b t => simp [receiveLoop, buffered]

theorem Read_spec (h : ByteReader) (p : Nat) (hp : 0 < p) :
    ((Read h p).eof = false →
        (Read h p).copied.length = min p (buffered h).length ∧
          (Read h p).copied ++ (Read h p).reader.data = buffered h ∧
          0 < (Read h p).copied.length ∧
          (Read h p).copied ++ pending (Read h p).reader = pending h) ∧
      ((Read h p).eof = true ↔ pending h = []) ∧
      ((Read h p).eof = true →
        (Read h p).copied = [] ∧ (Read h p).reader.data = [] ∧ (Read h p).reader.bytes = []) := by
  obtain ⟨h1, h2, h3, h4⟩ := receiveLoop_spec h.bytes h.data
  have hb : buffered { data := h.data, bytes := h.bytes } = buffered h := rfl
  rw [hb] at h2
  cases hok : (receiveLoop h.data h.bytes).2.2 with
  | false =>
    have hnil : (receiveLoop h.data h.bytes).1 = [] := by
      by_contra hne
      have := h3.2 hne
      rw [hok] at this
      exact Bool.noConfusion this
    have hrest := h4 hok
    have hpend : pending h = [] := by
      unfold pending
      rw [← h1, hnil, hrest]
      rfl
    have hr : Read h p = { reader := { data := [], bytes := [] }, copied := [], eof := true } := by
      simp [Read, hok, hnil, hrest]
    rw [hr]
    exact ⟨fun e => Bool.noConfusion e, ⟨fun _ => hpend, fun _ => rfl⟩, fun _ => ⟨rfl, rfl, rfl⟩⟩
  | true =>
    have hne : (receiveLoop h.data h.bytes).1 ≠ [] := h3.1 hok
    have hlen : 0 < (receiveLoop h.data h.bytes).1.length := List.length_pos.2 hne
    have hlen0 : ¬ (receiveLoop h.data h.bytes).1.length = 0 := by omega
    have hr : Read h p =
        ⟨⟨List.drop (min p (receiveLoop h.data h.bytes).1.length) (receiveLoop h.data h.bytes).1,
            (receiveLoop h.data h.bytes).2.1⟩,
          List.take (min p (receiveLoop h.data h.bytes).1.length) (receiveLoop h.data h.bytes).1,
          false⟩ := by
      simp [Read, hok, hlen0]
    have hpne : pending h ≠ [] := by
      unfold pending
      rw [← h1]
      intro e
      exact hne (List.append_eq_nil.1 e).1
    rw [hr]
    refine ⟨fun _ => ⟨?_, ?_, ?_, ?_⟩, ⟨fun e => Bool.noConfusion e, fun e => absurd e hpne⟩,
      fun e => Bool.noConfusion e⟩
    · simp only [List.length_take]
      rw [← h2]
      omega
    · simp only [List.take_append_drop]
      exact h2
    · simp only [List.length_take]
      omega
    · unfold pending
      simp only
      rw [← List.append_assoc, List.take_append_drop, h1]

theorem readCalls_spec (ps : List Nat) (hps : ∀ q ∈ ps, 0 < q) :
    ∀ h : ByteReader,
      (readCalls h ps).1 <+: pending h ∧
        ((readCalls h ps).2 = true → (readCalls h ps).1 = pending h) ∧
        ((pending h).length < ps.length → (readCalls h ps).2 = true) := by
  induction ps with
  | nil =>
    intro h
    exact ⟨List.nil_prefix, fun e => Bool.noConfusion e, fun e => absurd e (Nat.not_lt_zero _)⟩
  | cons p ps ih =>
    intro h
    obtain ⟨g1, g2, g3⟩ := Read_spec h p (hps p (List.mem_cons_self _ _))
    obtain ⟨i1, i2, i3⟩ := ih (fun q hq => hps q (List.mem_cons_of_mem _ hq)) (Read h p).reader
    cases he : (Read h p).eof with
    | true =>
      have e : readCalls h (p :: ps) = ([], true) := by
        simp [readCalls, he]
      rw [e]
      exact ⟨List.nil_prefix, fun _ => (g2.1 he).symm, fun _ => rfl⟩
    | false =>
      obtain ⟨k1, k2, k3, k4⟩ := g1 he
      have e : readCalls h (p :: ps) =
          ((Read h p).copied ++ (readCalls (Read h p).reader ps).1,
            (readCalls (Read h p).reader ps).2) := by
        simp [readCalls, he]
      rw [e]
      refine ⟨?_, ?_, ?_⟩
      · rw [← k4]
        exact (List.prefix_append_right_inj _).2 i1
      · intro hh
        simp only at hh ⊢
        rw [i2 hh, k4]
      · intro hl
        apply i3
        have := congrArg List.length k4
        rw [List.length_append] at this
        simp only [List.length_cons] at hl
        omega

/-- C32. With the byte channel a finite list of chunks followed by its close
and no timeout, a call of `Read` with a buffer of `p > 0` bytes that does not
return `io.EOF` returns the first `min(p, len)` bytes of the buffered data,
which is at least one byte, keeps the rest, and loses nothing of what the
reader has still to deliver; the call returns `io.EOF` exactly when nothing is
left to deliver, and then the channel is closed and the data empty. Repeated
calls with buffers of positive lengths return a beginning of the bytes of the
reader in order; when a call returns `io.EOF`, the bytes returned before are
all the bytes of the data and the chunks; and that happens when there are more
calls than bytes. -/
theorem read_delivers_in_order (h : ByteReader) (p : Nat) (ps : List Nat) (hp : 0 < p)
    (hps : ∀ q ∈ ps, 0 < q) :
    ((Read h p).eof = false →
        (Read h p).copied.length = min p (buffered h).length ∧
          (Read h p).copied ++ (Read h p).reader.data = buffered h ∧
          0 < (Read h p).copied.length ∧
          (Read h p).copied ++ pending (Read h p).reader = pending h) ∧
      ((Read h p).eof = true ↔ pending h = []) ∧
      ((Read h p).eof = true →
        (Read h p).copied = [] ∧ (Read h p).reader.data = [] ∧ (Read h p).reader.bytes = []) ∧
      (readCalls h ps).1 <+: pending h ∧
      ((readCalls h ps).2 = true → (readCalls h ps).1 = pending h) ∧
      ((pending h).length < ps.length → (readCalls h ps).2 = true) := by
  obtain ⟨g1, g2, g3⟩ := Read_spec h p hp
  obtain ⟨i1, i2, i3⟩ := readCalls_spec ps hps h
  exact ⟨g1, g2, g3, i1, i2, i3⟩

theorem read_delivers_in_order_witness :
    (∀ q ∈ [3, 100, 3, 3, 3], 0 < q) ∧
      (Read sampleByteReader 3).copied = goStr "+OK" ∧
      (Read sampleByteReader 3).reader = { data := goStr " ", bytes := [[], goStr "ready"] } ∧
      pending sampleByteReader = goStr "+OK ready" ∧
      readCalls sampleByteReader [3, 100, 3, 3, 3] = (goStr "+OK ready", true) ∧
      ((readCalls sampleByteReader [3, 100, 3, 3, 3]).2 = true →
        (readCalls sampleByteReader [3, 100, 3, 3, 3]).1 = pending sampleByteReader) := by
  have hps : ∀ q ∈ [3, 100, 3, 3, 3], 0 < q := by decide
  exact ⟨hps, by decide, by decide, by decide, by decide,
    (read_delivers_in_order sampleByteReader 3 [3, 100, 3, 3, 3] (by decide) hps).2.2.2.2.1⟩

/-! ## The arguments of `capture` -/

theorem precededByFlag_cons (a : GoString) (t : List GoString) (m : Nat) :
    precededByFlag (a :: t) (m + 1) = precededFrom (stringsHasPrefix a (goStr "-")) t m := by
  cases m with
  | zero => rfl
  | succ k => rfl

theorem stray_cons (a : GoString) (t : List GoString) (e : Bool) :
    (∃ j b, (a :: t).get? j = some b ∧ stringsHasPrefix b (goStr "-") = false ∧
        precededFrom e (a :: t) j = false) ↔
      (stringsHasPrefix a (goStr "-") = false ∧ e = false) ∨
        ∃ j b, t.get? j = some b ∧ stringsHasPrefix b (goStr "-") = false ∧
          precededFrom (stringsHasPrefix a (goStr "-")) t j = false := by
  constructor
  · rintro ⟨j, b, h1, h2, h3⟩
    cases j with
    | zero =>
      simp only [List.get?_cons_zero, Option.some.injEq] at h1
      rw [← h1] at h2
      exact Or.inl ⟨h2, h3⟩
    | succ m =>
      rw [List.get?_cons_succ] at h1
      refine Or.inr ⟨m, b, h1, h2, ?_⟩
      rw [← precededByFlag_cons]
      exact h3
  · rintro (⟨h1, h2⟩ | ⟨m, b, h1, h2, h3⟩)
    · exact ⟨0, a, rfl, h1, h2⟩
    · refine ⟨m + 1, b, ?_, h2, ?_⟩
      · rw [List.get?_cons_succ]
        exact h1
      · show precededByFlag (a :: t) (m + 1) = false
        rw [precededByFlag_cons]
        exact h3

theorem checkArgsLoop_isSome (args : List GoString) (rest : List GoString) :
    ∀ (i : Nat) (e : Bool),
      (checkArgsLoop args rest i e).isSome = true ↔
        ∃ j b, rest.get? j = some b ∧ stringsHasPrefix b (goStr "-") = false ∧
          precededFrom e rest j = false := by
  induction rest with
  | nil =>
    intro i e
    simp [checkArgsLoop]
  | cons a t ih =>
    intro i e
    rw [stray_cons]
    cases hf : stringsHasPrefix a (goStr "-") with
    | true =>
      rw [checkArgsLoop, if_pos hf, ih (i + 1) true]
      simp
    | false =>
      cases e with
      | true =>
        rw [checkArgsLoop, if_neg (by simp [hf]), if_pos rfl, ih (i + 1) false]
        simp
      | false =>
        rw [checkArgsLoop, if_neg (by simp [hf]), if_neg (by simp)]
        simp

theorem precededFrom_false (args : List GoString) (j : Nat) :
    precededFrom false args j = precededByFlag args j := by
  cases j with
  | zero => rfl
  | succ k => rfl

/-- C33. `checkArgs` ends the program with `log.Fatal` if and only if the
argument list has an argument that does not start with `-` and is not directly
preceded by an argument that starts with `-`, the first argument being
preceded by none; for every other argument list it returns. -/
theorem checkArgs_aborts_iff (args : List GoString) :
    ((checkArgs args).isSome = true ↔ hasStrayArgument args) ∧
      (checkArgs args = none ↔ ¬ hasStrayArgument args) := by
  have h : (checkArgs args).isSome = true ↔ hasStrayArgument args := by
    unfold checkArgs hasStrayArgument
    rw [checkArgsLoop_isSome]
    simp only [precededFrom_false]
  refine ⟨h, ?_⟩
  rw [← h]
  cases checkArgs args <;> simp

/-! ## Audit records: the columns of the CSV record -/

/-- C38. For each of the record types CIP, DHCPv4, ICMPv6Echo,
ICMPv6RouterSolicitation, LCM, Modbus and NTP and for every record, the slice
that `CSVRecord` hands to `filter` has as many entries as the list of field
names that `CSVHeader` hands to `filter`, which are 12, 20, 5, 4, 13, 12 and
19, and its entry at the index of a name is the text of the field of that
name; no name occurs twice. -/
theorem csvRecord_matches_field_names (f : Formats) (c : CIP) (d : DHCPv4) (e : ICMPv6Echo)
    (s : ICMPv6RouterSolicitation) (l : LCM) (m : Modbus) (n : NTP) :
    (CIP.record f c = fieldsCIP.map (CIP.fieldText f c) ∧
        (CIP.record f c).length = 12 ∧ fieldsCIP.length = 12 ∧ fieldsCIP.Nodup ∧
        CIP.CSVRecord f c = f.filter (CIP.record f c) ∧
        CIP.CSVHeader f = f.filter fieldsCIP) ∧
      (DHCPv4.record f d = fieldsDHCPv4.map (DHCPv4.fieldText f d) ∧
        (DHCPv4.record f d).length = 20 ∧ fieldsDHCPv4.length = 20 ∧ fieldsDHCPv4.Nodup ∧
        DHCPv4.CSVRecord f d = f.filter (DHCPv4.record f d) ∧
        DHCPv4.CSVHeader f = f.filter fieldsDHCPv4) ∧
      (ICMPv6Echo.record f e = fieldsICMPv6Echo.map (ICMPv6Echo.fieldText f e) ∧
        (ICMPv6Echo.record f e).length = 5 ∧ fieldsICMPv6Echo.length = 5 ∧ fieldsICMPv6Echo.Nodup ∧
        ICMPv6Echo.CSVRecord f e = f.filter (ICMPv6Echo.record f e) ∧
        ICMPv6Echo.CSVHeader f = f.filter fieldsICMPv6Echo) ∧
      (ICMPv6RouterSolicitation.record f s = fieldsICMPv6RouterSolicitation.map (ICMPv6RouterSolicitation.fieldText f s) ∧
        (ICMPv6RouterSolicitation.record f s).length = 4 ∧ fieldsICMPv6RouterSolicitation.length = 4 ∧ fieldsICMPv6RouterSolicitation.Nodup ∧
        ICMPv6RouterSolicitation.CSVRecord f s = f.filter (ICMPv6RouterSolicitation.record f s) ∧
        ICMPv6RouterSolicitation.CSVHeader f = f.filter fieldsICMPv6RouterSolicitation) ∧
      (LCM.record f l = fieldsLCM.map (LCM.fieldText f l) ∧
        (LCM.record f l).length = 13 ∧ fieldsLCM.length = 13 ∧ fieldsLCM.Nodup ∧
        LCM.CSVRecord f l = f.filter (LCM.record f l) ∧
        LCM.CSVHeader f = f.filter fieldsLCM) ∧
      (Modbus.record f m = fieldsModbus.map (Modbus.fieldText f m) ∧
        (Modbus.record f m).length = 12 ∧ fieldsModbus.length = 12 ∧ fieldsModbus.Nodup ∧
        Modbus.CSVRecord f m = f.filter (Modbus.record f m) ∧
        Modbus.CSVHeader f = f.filter fieldsModbus) ∧
      (NTP.record f n = fieldsNTP.map (NTP.fieldText f n) ∧
        (NTP.record f n).length = 19 ∧ fieldsNTP.length = 19 ∧ fieldsNTP.Nodup ∧
        NTP.CSVRecord f n = f.filter (NTP.record f n) ∧
        NTP.CSVHeader f = f.filter fieldsNTP) := by
  refine ⟨⟨rfl, rfl, rfl, by decide, rfl, rfl⟩, ⟨rfl, rfl, rfl, by decide, rfl, rfl⟩,
    ⟨rfl, rfl, rfl, by decide, rfl, rfl⟩, ⟨rfl, rfl, rfl, by decide, rfl, rfl⟩,
    ⟨rfl, rfl, rfl, by decide, rfl, rfl⟩, ⟨rfl, rfl, rfl, by decide, rfl, rfl⟩,
    ⟨rfl, rfl, rfl, by decide, rfl, rfl⟩⟩

/-! ## Audit records: `JSON` converts in place -/

theorem tdiv_eq_truncDiv (t : Int) : Int.tdiv t timeMillisecond = truncDiv t := by
  have hm : (timeMillisecond : Int) = 1000000 := rfl
  rw [hm]
  unfold truncDiv
  by_cases h : 0 ≤ t
  · rw [if_pos h, Int.tdiv_eq_ediv h (by decide)]
  · rw [if_neg h]
    have h2 : 0 ≤ -t := by omega
    have h3 : Int.tdiv t 1000000 = -Int.tdiv (-t) 1000000 := by
      rw [Int.neg_tdiv, neg_neg]
    rw [h3, Int.tdiv_eq_ediv h2 (by decide)]

theorem CIP_JSON_iterate (marshal : CIP → String × Option String) (c : CIP) (k : Nat) :
    (fun x => (CIP.JSON marshal x).1)^[k] c =
      { c with Timestamp := truncDiv^[k] c.Timestamp } := by
  induction k with
  | zero => rfl
  | succ k ih =>
    rw [Function.iterate_succ_apply', Function.iterate_succ_apply', ih]
    simp only [CIP.JSON, tdiv_eq_truncDiv]

theorem DHCPv4_JSON_iterate (marshal : DHCPv4 → String × Option String) (d : DHCPv4) (k : Nat) :
    (fun x => (DHCPv4.JSON marshal x).1)^[k] d =
      { d with Timestamp := truncDiv^[k] d.Timestamp } := by
  induction k with
  | zero => rfl
  | succ k ih =>
    rw [Function.iterate_succ_apply', Function.iterate_succ_apply', ih]
    simp only [DHCPv4.JSON, tdiv_eq_truncDiv]

theorem ICMPv6Echo_JSON_iterate (marshal : ICMPv6Echo → String × Option String) (e : ICMPv6Echo) (k : Nat) :
    (fun x => (ICMPv6Echo.JSON marshal x).1)^[k] e =
      { e with Timestamp := truncDiv^[k] e.Timestamp } := by
  induction k with
  | zero => rfl
  | succ k ih =>
    rw [Function.iterate_succ_apply', Function.iterate_succ_apply', ih]
    simp only [ICMPv6Echo.JSON, tdiv_eq_truncDiv]

theorem ICMPv6RouterSolicitation_JSON_iterate (marshal : ICMPv6RouterSolicitation → String × Option String) (s : ICMPv6RouterSolicitation) (k : Nat) :
    (fun x => (ICMPv6RouterSolicitation.JSON marshal x).1)^[k] s =
      { s with Timestamp := truncDiv^[k] s.Timestamp } := by
  induction k with
  | zero => rfl
  | succ k ih =>
    rw [Function.iterate_succ_apply', Function.iterate_succ_apply', ih]
    simp only [ICMPv6RouterSolicitation.JSON, tdiv_eq_truncDiv]

theorem LCM_JSON_iterate (marshal : LCM → String × Option String) (l : LCM) (k : Nat) :
    (fun x => (LCM.JSON marshal x).1)^[k] l =
      { l with Timestamp := truncDiv^[k] l.Timestamp } := by
  induction k with
  | zero => rfl
  | succ k ih =>
    rw [Function.iterate_succ_apply', Function.iterate_succ_apply', ih]
    simp only [LCM.JSON, tdiv_eq_truncDiv]

theorem Modbus_JSON_iterate (marshal : Modbus → String × Option String) (m : Modbus) (k : Nat) :
    (fun x => (Modbus.JSON marshal x).1)^[k] m =
      { m with Timestamp := truncDiv^[k] m.Timestamp } := by
  induction k with
  | zero => rfl
  | succ k ih =>
    rw [Function.iterate_succ_apply', Function.iterate_succ_apply', ih]
    simp only [Modbus.JSON, tdiv_eq_truncDiv]

theorem NTP_JSON_iterate (marshal : NTP → String × Option String) (n : NTP) (k : Nat) :
    (fun x => (NTP.JSON marshal x).1)^[k] n =
      { n with
        Timestamp := truncDiv^[k] n.Timestamp
        ReferenceTimestamp := (fun u => u / 1000000)^[k] n.ReferenceTimestamp } := by
  induction k with
  | zero => rfl
  | succ k ih =>
    rw [Function.iterate_succ_apply', Function.iterate_succ_apply',
      Function.iterate_succ_apply', ih]
    simp only [NTP.JSON, tdiv_eq_truncDiv]
    rfl

/-- C39. For each of the record types CIP, DHCPv4, ICMPv6Echo,
ICMPv6RouterSolicitation, LCM, Modbus and NTP, `JSON` converts in place: the
record after a call is the record before it with `Timestamp` divided by
1,000,000, the division truncating, and for NTP with `ReferenceTimestamp`
divided by 1,000,000 as well; every other field is as it was. `Time` then
returns the divided timestamp, the text returned is the marshalled converted
record, and after `k` calls the timestamp has been divided `k` times. -/
theorem json_converts_in_place (mc : CIP → String × Option String)
    (md : DHCPv4 → String × Option String) (me : ICMPv6Echo → String × Option String)
    (ms : ICMPv6RouterSolicitation → String × Option String)
    (ml : LCM → String × Option String) (mm : Modbus → String × Option String)
    (mn : NTP → String × Option String) (c : CIP) (d : DHCPv4) (e : ICMPv6Echo)
    (s : ICMPv6RouterSolicitation) (l : LCM) (m : Modbus) (n : NTP) (k : Nat) :
    ((CIP.JSON mc c).1 = { c with Timestamp := truncDiv c.Timestamp } ∧
        CIP.Time (CIP.JSON mc c).1 = truncDiv c.Timestamp ∧
        (CIP.JSON mc c).2 = mc (CIP.JSON mc c).1 ∧
        (fun x => (CIP.JSON mc x).1)^[k] c =
          { c with Timestamp := truncDiv^[k] c.Timestamp }) ∧
      ((DHCPv4.JSON md d).1 = { d with Timestamp := truncDiv d.Timestamp } ∧
        DHCPv4.Time (DHCPv4.JSON md d).1 = truncDiv d.Timestamp ∧
        (DHCPv4.JSON md d).2 = md (DHCPv4.JSON md d).1 ∧
        (fun x => (DHCPv4.JSON md x).1)^[k] d =
          { d with Timestamp := truncDiv^[k] d.Timestamp }) ∧
      ((ICMPv6Echo.JSON me e).1 = { e with Timestamp := truncDiv e.Timestamp } ∧
        ICMPv6Echo.Time (ICMPv6Echo.JSON me e).1 = truncDiv e.Timestamp ∧
        (ICMPv6Echo.JSON me e).2 = me (ICMPv6Echo.JSON me e).1 ∧
        (fun x => (ICMPv6Echo.JSON me x).1)^[k] e =
          { e with Timestamp := truncDiv^[k] e.Timestamp }) ∧
      ((ICMPv6RouterSolicitation.JSON ms s).1 = { s with Timestamp := truncDiv s.Timestamp } ∧
        ICMPv6RouterSolicitation.Time (ICMPv6RouterSolicitation.JSON ms s).1 = truncDiv s.Timestamp ∧
        (ICMPv6RouterSolicitation.JSON ms s).2 = ms (ICMPv6RouterSolicitation.JSON ms s).1 ∧
        (fun x => (ICMPv6RouterSolicitation.JSON ms x).1)^[k] s =
          { s with Timestamp := truncDiv^[k] s.Timestamp }) ∧
      ((LCM.JSON ml l).1 = { l with Timestamp := truncDiv l.Timestamp } ∧
        LCM.Time (LCM.JSON ml l).1 = truncDiv l.Timestamp ∧
        (LCM.JSON ml l).2 = ml (LCM.JSON ml l).1 ∧
        (fun x => (LCM.JSON ml x).1)^[k] l =
          { l with Timestamp := truncDiv^[k] l.Timestamp }) ∧
      ((Modbus.JSON mm m).1 = { m with Timestamp := truncDiv m.Timestamp } ∧
        Modbus.Time (Modbus.JSON mm m).1 = truncDiv m.Timestamp ∧
        (Modbus.JSON mm m).2 = mm (Modbus.JSON mm m).1 ∧
        (fun x => (Modbus.JSON mm x).1)^[k] m =
          { m with Timestamp := truncDiv^[k] m.Timestamp }) ∧
      ((NTP.JSON mn n).1 = { n with
          Timestamp := truncDiv n.Timestamp
          ReferenceTimestamp := n.ReferenceTimestamp / 1000000 } ∧
        NTP.Time (NTP.JSON mn n).1 = truncDiv n.Timestamp ∧
        (NTP.JSON mn n).2 = mn (NTP.JSON mn n).1 ∧
        (fun x => (NTP.JSON mn x).1)^[k] n =
          { n with
          Timestamp := truncDiv^[k] n.Timestamp
          ReferenceTimestamp := (fun u => u / 1000000)^[k] n.ReferenceTimestamp }) := by
  refine ⟨⟨?_, ?_, rfl, CIP_JSON_iterate mc c k⟩, ⟨?_, ?_, rfl, DHCPv4_JSON_iterate md d k⟩,
    ⟨?_, ?_, rfl, ICMPv6Echo_JSON_iterate me e k⟩,
    ⟨?_, ?_, rfl, ICMPv6RouterSolicitation_JSON_iterate ms s k⟩,
    ⟨?_, ?_, rfl, LCM_JSON_iterate ml l k⟩, ⟨?_, ?_, rfl, Modbus_JSON_iterate mm m k⟩,
    ⟨?_, ?_, rfl, NTP_JSON_iterate mn n k⟩⟩ <;>
    simp only [CIP.JSON, DHCPv4.JSON, ICMPv6Echo.JSON, ICMPv6RouterSolicitation.JSON, LCM.JSON,
      Modbus.JSON, NTP.JSON, CIP.Time, DHCPv4.Time, ICMPv6Echo.Time,
      ICMPv6RouterSolicitation.Time, LCM.Time, Modbus.Time, NTP.Time, tdiv_eq_truncDiv] <;> rfl

/-- C39 on a sample: a CIP record stamped 1.5 ms before the epoch has the
timestamp -1 after one call of `JSON` and 0 after two, and an NTP record has
its reference timestamp divided as well. -/
theorem json_converts_in_place_sample :
    (CIP.JSON (fun _ => ("", none)) { Timestamp := -1500000, SrcIP := "10.0.0.1" }).1 =
        { Timestamp := -1, SrcIP := "10.0.0.1" } ∧
      ((fun x => (CIP.JSON (fun _ => ("", none)) x).1)^[2]
        { Timestamp := -1500000, SrcIP := "10.0.0.1" }).Timestamp = 0 ∧
      (NTP.JSON (fun _ => ("", none))
        { Timestamp := 1600000000123456789, ReferenceTimestamp := 3800000000 }).1 =
        { Timestamp := 1600000000123, ReferenceTimestamp := 3800 } := by
  refine ⟨by decide, by decide, by decide⟩

/-! ## POP3: `AUTH` and `RETR` in a session of single-line replies -/

theorem parseStep_single_line (responses : List POP3Response) (r : POP3Request)
    (nxt : Option POP3Request) (s s2 : ParseState)
    (h : parseStep responses r nxt s = Outcome.running s2)
    (hm : multiLineCommand r.Command = false) : s2.resIndex = s.resIndex + 1 := by
  simp only [multiLineCommand, Bool.or_eq_false_iff, decide_eq_false_iff_not] at hm
  obtain ⟨⟨⟨m1, m2⟩, m3⟩, m4⟩ := hm
  unfold parseStep at h
  simp only [m1, m2, m3, m4, or_self, if_false] at h
  split at h
  · split_ifs at h <;> cases h <;> rfl
  · split_ifs at h <;> (try split at h) <;> (try split_ifs at h) <;> (try split at h) <;>
      cases h <;> rfl
  · cases h
    rfl

theorem stateAfter_resIndex (responses : List POP3Response) (pre following : List POP3Request) :
    ∀ s0 s : ParseState, stateAfter responses pre following s0 = some s →
      (∀ q ∈ pre, multiLineCommand q.Command = false) →
      s.resIndex = s0.resIndex + pre.length := by
  induction pre with
  | nil =>
    intro s0 s h _
    simp only [stateAfter, Option.some.injEq] at h
    rw [← h]
    rfl
  | cons r rest ih =>
    intro s0 s h hq
    unfold stateAfter at h
    cases hp : parseStep responses r (rest ++ following).head? s0 with
    | running s1 =>
      rw [hp] at h
      have h1 := parseStep_single_line responses r _ s0 s1 hp (hq r (List.mem_cons_self _ _))
      have h2 := ih s1 s h (fun q hm => hq q (List.mem_cons_of_mem _ hm))
      rw [h2, h1, List.length_cons]
      omega
    | returned s1 =>
      rw [hp] at h
      exact Option.noConfusion h
    | panicked =>
      rw [hp] at h
      exact Option.noConfusion h

theorem parseStep_authenticated_single (responses : List POP3Response) (r : POP3Request)
    (nxt : Option POP3Request) (s : ParseState) (hs : s.state = POP3State.StateAuthenticated)
    (hm : multiLineCommand r.Command = false) :
    parseStep responses r nxt s = Outcome.running { s with resIndex := s.resIndex + 1 } ∨
      parseStep responses r nxt s = Outcome.returned s := by
  simp only [multiLineCommand, Bool.or_eq_false_iff, decide_eq_false_iff_not] at hm
  obtain ⟨⟨⟨_, m2⟩, m3⟩, m4⟩ := hm
  unfold parseStep
  simp only [hs, m2, m3, m4, or_self, if_false]
  split_ifs
  · exact Or.inl rfl
  · exact Or.inr rfl
  · exact Or.inl rfl

theorem parseLoop_authenticated_returns (responses : List POP3Response)
    (requests : List POP3Request) :
    ∀ s : ParseState, s.state = POP3State.StateAuthenticated →
      (∀ q ∈ requests, multiLineCommand q.Command = false) →
      ∃ s2, parseLoop responses requests s = some s2 := by
  induction requests with
  | nil =>
    intro s _ _
    exact ⟨s, rfl⟩
  | cons r rest ih =>
    intro s hs hq
    rcases parseStep_authenticated_single responses r rest.head? s hs
      (hq r (List.mem_cons_self _ _)) with h | h
    · obtain ⟨s2, h2⟩ := ih { s with resIndex := s.resIndex + 1 } hs
        (fun q hm => hq q (List.mem_cons_of_mem _ hm))
      exact ⟨s2, by rw [parseLoop, h]; exact h2⟩
    · exact ⟨s, by rw [parseLoop, h]⟩

/-- C15, as the code has it. In a session in which every request before an
`AUTH` request is one that is answered by a single line, so that the response
after the greeting and these answers is the answer to the `AUTH`: when
`parseMails` takes the `AUTH` while not authenticated, its answer is a `+OK`,
and a further client line `nxt` was recorded, `parseMails` enters the
Authenticated state and the token is the command of `nxt`, the first word of
the next client line, as `readRequest` recorded it. Every result that
`parseMails` returns has that token, and `parseMails` returns when the later
requests are answered by a single line each. -/
theorem auth_token_is_first_word (responses : List POP3Response) (pre : List POP3Request)
    (r nxt : POP3Request) (post : List POP3Request) (s : ParseState) (reply : POP3Response)
    (hhello : serverHelloOk responses = true) (hr : r.Command = goStr "AUTH")
    (hreach : stateAfter responses pre (r :: nxt :: post) {} = some s)
    (hs : s.state = POP3State.StateNotAuthenticated)
    (hsingle : ∀ q ∈ pre, multiLineCommand q.Command = false)
    (hreply : responses.get? (pre.length + 1) = some reply)
    (hok : reply.Command = goStr "+OK") :
    (∃ s2, stateAfter responses (pre ++ [r]) (nxt :: post) {} = some s2 ∧
        s2.state = POP3State.StateAuthenticated ∧ s2.token = nxt.Command) ∧
      (∀ res, parseMails (pre ++ r :: nxt :: post) responses = some res →
        res.token = nxt.Command) ∧
      ((∀ q ∈ nxt :: post, multiLineCommand q.Command = false) →
        ∃ res, parseMails (pre ++ r :: nxt :: post) responses = some res ∧
          res.token = nxt.Command) := by
  have hidx : s.resIndex = pre.length := by
    have := stateAfter_resIndex responses pre (r :: nxt :: post) {} s hreach hsingle
    rw [this]
    exact Nat.zero_add _
  have hreply2 : responses.get? (s.resIndex + 1) = some reply := by
    rw [hidx]
    exact hreply
  obtain ⟨h1, h2⟩ := auth_step_sets_token responses pre r nxt post s reply hhello hr hreach hs
    hreply2 hok
  refine ⟨h1, h2, fun hq => ?_⟩
  have hstep := parseStep_auth responses r nxt s reply hr hs hreply2 hok
  obtain ⟨s3, h3⟩ := parseLoop_authenticated_returns responses (nxt :: post)
    { s with
      state := POP3State.StateAuthenticated
      token := nxt.Command
      resIndex := s.resIndex + 1 } rfl hq
  have hres : parseMails (pre ++ r :: nxt :: post) responses = some (resultOf s3) := by
    rw [parseMails_eq _ _ hhello (by simp),
      parseLoop_of_stateAfter responses pre (r :: nxt :: post) {} s hreach, parseLoop,
      List.head?_cons, hstep]
    simp only
    rw [h3]
    rfl
  exact ⟨resultOf s3, hres, h2 _ hres⟩

theorem auth_token_is_first_word_witness :
    runClient tokenClientLines [] =
        [userAlice] ++ { Command := goStr "AUTH", Argument := goStr "PLAIN" } ::
          { Command := goStr "dGVzdA==", Argument := goStr "extra" } ::
          [bareRequest "STAT", quitRequest] ∧
      (runServer tokenServerLines []).get? ([userAlice].length + 1) = some okReply ∧
      (∀ q ∈ [userAlice], multiLineCommand q.Command = false) ∧
      ∃ res, parseMails ([userAlice] ++ { Command := goStr "AUTH", Argument := goStr "PLAIN" } ::
          { Command := goStr "dGVzdA==", Argument := goStr "extra" } ::
          [bareRequest "STAT", quitRequest]) (runServer tokenServerLines []) = some res ∧
        res.token = goStr "dGVzdA==" := by
  have hsingle : ∀ q ∈ [userAlice], multiLineCommand q.Command = false := by decide
  refine ⟨by decide, by decide, hsingle, ?_⟩
  exact (auth_token_is_first_word (runServer tokenServerLines []) [userAlice]
    { Command := goStr "AUTH", Argument := goStr "PLAIN" }
    { Command := goStr "dGVzdA==", Argument := goStr "extra" }
    [bareRequest "STAT", quitRequest] { resIndex := 1 } okReply (by decide) (by decide)
    (by decide) rfl hsingle (by decide) (by decide)).2.2 (by decide)

theorem hasDot_of_no_dot (l : List POP3Response) (h : ∀ x ∈ l, x.Command ≠ goStr ".") :
    hasDot l = false := by
  induction l with
  | nil => rfl
  | cons x rest ih =>
    rw [hasDot_cons_of_ne _ _ (h x (List.mem_cons_self _ _))]
    exact ih (fun y hy => h y (List.mem_cons_of_mem _ hy))

theorem gatheredText_append_dot (reply : List POP3Response) (dot : POP3Response)
    (after : List POP3Response) (hreply : ∀ x ∈ reply, x.Command ≠ goStr ".")
    (hdot : dot.Command = goStr ".") :
    gatheredText (reply ++ dot :: after) = reply.flatMap (fun x => x.Message ++ goStr "\n") ∧
      hasDot (reply ++ dot :: after) = true := by
  induction reply with
  | nil =>
    exact ⟨gatheredText_cons_dot _ _ hdot, hasDot_cons_dot _ _ hdot⟩
  | cons x rest ih =>
    obtain ⟨h1, h2⟩ := ih (fun y hy => hreply y (List.mem_cons_of_mem _ hy))
    have hx := hreply x (List.mem_cons_self _ _)
    constructor
    · rw [List.cons_append, gatheredText_cons _ _ hx, h1, List.flatMap_cons]
    · rw [List.cons_append, hasDot_cons_of_ne _ _ hx]
      exact h2

theorem parseMail_leading_newline (buf : GoString) :
    parseMail (goStr "\n" ++ buf) = parseMail buf := by
  have hn : goStr "\n" ++ buf = [] ++ 10 :: buf := by
    have : goStr "\n" = [10] := by decide
    rw [this]
    rfl
  have hl : readLines (goStr "\n" ++ buf) = [] :: readLines buf := by
    rw [hn, readLines_line [] buf (List.not_mem_nil _)]
    rfl
  have hs : splitLoop ([] :: readLines buf) {} = splitLoop (readLines buf) {} := by
    rw [splitLoop]
    rfl
  unfold parseMail splitMailHeaderAndBody
  rw [hl, hs]

/-- C16, as the code has it. In a session in which every request before a
`RETR` is one that is answered by a single line, and the answer `prev` to the
request before the `RETR` is a status word without text, so that the responses
`rest` after it begin with the reply to the `RETR`: when `parseMails` takes the
`RETR` while authenticated and the reply is ended by a `.`, exactly one Mail is
appended to the result, and it is `parseMail` applied to the messages that
`readResponse` recorded for the lines of the reply before the `.`, each
followed by `"\n"`, whenever `parseMail` returns a Mail for that text; when no
response from the reply on is a `.`, no Mail is appended. -/
theorem retr_appends_parsed_messages (responses : List POP3Response)
    (pre : List POP3Request) (r : POP3Request) (post : List POP3Request) (s : ParseState)
    (earlier : List POP3Response) (prev : POP3Response) (rest : List POP3Response)
    (hhello : serverHelloOk responses = true) (hr : r.Command = goStr "RETR")
    (hreach : stateAfter responses pre (r :: post) {} = some s)
    (hs : s.state = POP3State.StateAuthenticated)
    (hsingle : ∀ q ∈ pre, multiLineCommand q.Command = false)
    (hresp : responses = earlier ++ prev :: rest) (hearlier : earlier.length = pre.length)
    (hprev : prev.Message = [] ∧ prev.Command ≠ goStr ".") :
    (∀ (reply after : List POP3Response) (dot : POP3Response) (m : Mail),
        rest = reply ++ dot :: after → (∀ x ∈ reply, x.Command ≠ goStr ".") →
        dot.Command = goStr "." →
        parseMail (reply.flatMap (fun x => x.Message ++ goStr "\n")) = some m →
        (∃ s2, stateAfter responses (pre ++ [r]) post {} = some s2 ∧
            s2.mails = s.mails ++ [m]) ∧
          ∀ res, parseMails (pre ++ r :: post) responses = some res →
            s.mails ++ [m] <+: res.mails) ∧
      ((∀ x ∈ rest, x.Command ≠ goStr ".") →
        ∃ s2, stateAfter responses (pre ++ [r]) post {} = some s2 ∧ s2.mails = s.mails) := by
  have hidx : s.resIndex = earlier.length := by
    have := stateAfter_resIndex responses pre (r :: post) {} s hreach hsingle
    rw [this, hearlier]
    exact Nat.zero_add _
  have hdrop : responses.drop s.resIndex = prev :: rest := by
    rw [hidx, hresp]
    exact List.drop_left' rfl
  obtain ⟨g1, g2⟩ := retr_step_appends_mail responses pre r post s hhello hr hreach hs
  rw [hdrop] at g1 g2
  constructor
  · intro reply after dot m hrest hreply hdot hm
    obtain ⟨t1, t2⟩ := gatheredText_append_dot reply dot after hreply hdot
    have hd : hasDot (prev :: rest) = true := by
      rw [hasDot_cons_of_ne _ _ hprev.2, hrest]
      exact t2
    have ht : gatheredText (prev :: rest) =
        goStr "\n" ++ reply.flatMap (fun x => x.Message ++ goStr "\n") := by
      rw [gatheredText_cons _ _ hprev.2, hprev.1, hrest, t1]
      rfl
    have hm2 : parseMail (gatheredText (prev :: rest)) = some m := by
      rw [ht, parseMail_leading_newline]
      exact hm
    exact (g1 hd).2.1 m hm2
  · intro hno
    have hd : hasDot (prev :: rest) = false := by
      rw [hasDot_cons_of_ne _ _ hprev.2]
      exact hasDot_of_no_dot rest hno
    have hle : s.resIndex ≤ responses.length := by
      rw [hidx, hresp, List.length_append]
      omega
    have hstep := parseStep_retr responses r post.head? s hr hs
    rw [if_pos hle, hdrop, collectMail_no_dot _ _ _ hd] at hstep
    simp only at hstep
    refine ⟨{ s with
      mailBuf := s.mailBuf ++ gatheredText (prev :: rest)
      resIndex := s.resIndex + (0 + (prev :: rest).length) }, ?_, rfl⟩
    rw [stateAfter_snoc responses pre r post {} s hreach, hstep]

theorem retr_appends_parsed_messages_witness :
    runServer retrServerLines [] =
        [helloReply, okReply] ++ okReply ::
          ([okReply, textReply "Envelope-To: a@b", textReply "hello", textReply "\n",
            textReply "world"] ++ dotReply :: []) ∧
      stateAfter (runServer retrServerLines []) [userAlice, passSecret]
          [retrOne, quitRequest] {} =
        some { resIndex := 2, state := POP3State.StateAuthenticated, user := goStr "alice",
               pass := goStr "s3cret" } ∧
      (∀ q ∈ [userAlice, passSecret], multiLineCommand q.Command = false) ∧
      parseMail ([okReply, textReply "Envelope-To: a@b", textReply "hello", textReply "\n",
          textReply "world"].flatMap (fun x => x.Message ++ goStr "\n")) =
        some { EnvelopeTo := goStr "a@b", Body := goStr "hello\n\n\nworld\n" } ∧
      ∃ s2, stateAfter (runServer retrServerLines []) ([userAlice, passSecret] ++ [retrOne])
          [quitRequest] {} = some s2 ∧
        s2.mails = [] ++ [{ EnvelopeTo := goStr "a@b", Body := goStr "hello\n\n\nworld\n" }] := by
  have hresp : runServer retrServerLines [] =
      [helloReply, okReply] ++ okReply ::
        ([okReply, textReply "Envelope-To: a@b", textReply "hello", textReply "\n",
          textReply "world"] ++ dotReply :: []) := by
    decide
  have hreach : stateAfter (runServer retrServerLines []) [userAlice, passSecret]
      [retrOne, quitRequest] {} =
        some { resIndex := 2, state := POP3State.StateAuthenticated, user := goStr "alice",
               pass := goStr "s3cret" } := by
    decide
  have hsingle : ∀ q ∈ [userAlice, passSecret], multiLineCommand q.Command = false := by
    decide
  have hm : parseMail ([okReply, textReply "Envelope-To: a@b", textReply "hello",
      textReply "\n", textReply "world"].flatMap (fun x => x.Message ++ goStr "\n")) =
        some { EnvelopeTo := goStr "a@b", Body := goStr "hello\n\n\nworld\n" } := by
    decide
  refine ⟨hresp, hreach, hsingle, hm, ?_⟩
  exact ((retr_appends_parsed_messages (runServer retrServerLines []) [userAlice, passSecret]
    retrOne [quitRequest] _ [helloReply, okReply] okReply _ (by decide) (by decide) hreach rfl
    hsingle hresp rfl (by decide)).1 _ [] dotReply _ rfl (by decide) (by decide) hm).1

/-! ## POP3: the body of the mail of E3 -/

/-- C11 fails as stated: in the transcript of E3 with the header lines
`From: x@y`, `To: a@b`, `Subject: hi` and the body lines `hello` and `world`,
the Body of the mail is `"hello\nworld\n"`, each body line followed by `"\n"`,
and not `"hello\nworld"`, the two body lines concatenated with `"\n"`. -/
theorem parseMails_e3_counterexample :
    (parseMails (runClient e3ClientLines [])
        (runServer (e3ServerLines (goStr "From: x@y") (goStr "To: a@b") (goStr "Subject: hi")
          (goStr "hello") (goStr "world")) [])).map
        (fun res => res.mails.map (fun m => m.Body)) = some [goStr "hello\nworld\n"] ∧
      goStr "hello\nworld\n" ≠ goStr "hello" ++ goStr "\n" ++ goStr "world" ∧
      goStr "hello" ++ goStr "\n" ++ goStr "world" = goStr "hello\nworld" := by
  refine ⟨by decide, by decide, by decide⟩

end Netcap
